import Mathlib

/-!
# Explicit free-list allocators: `Allocator/sample.c` and `Allocator/mm.c`

Shallow embedding of the two allocators of the repository.

* Memory is an array of 8-byte words indexed by byte address: `mem a = some v`
  when the word at `a` is mapped and holds `v`, `none` when it is not mapped.
  A load or store at an unmapped word is a fault (`Err.segv`).
* `size_t` and pointer arithmetic wrap around modulo `2^64` (`add64`, `sub64`,
  `mul64`).
* `mem_map` / `mem_unmap` / `mem_pagesize` belong to `memlib`, which is not part
  of the sources; they are modelled as the page-mapping primitive of the
  specification (see their doc comments).
* Loops take a fuel argument; running out of fuel is `Err.fuel`, which is
  distinct from a fault.
-/

set_option linter.unusedTactic false
set_option linter.unreachableTactic false
set_option linter.unusedVariables false

namespace Alloc

/-- Number of values of a `size_t` / pointer: `2^64`. -/
def W : Nat := 18446744073709551616

/-- Unsigned 64-bit addition. -/
def add64 (a b : Nat) : Nat := (a + b) % W

/-- Unsigned 64-bit subtraction. -/
def sub64 (a b : Nat) : Nat := (a % W + (W - b % W)) % W

/-- Unsigned 64-bit multiplication. -/
def mul64 (a b : Nat) : Nat := (a * b) % W

/-- Ways in which a run can stop without a result. -/
inductive Err where
  | segv : Err
  | fuel : Err
deriving DecidableEq, Repr

instance decEqExcept {ε α : Type} [DecidableEq ε] [DecidableEq α] :
    DecidableEq (Except ε α)
  | .ok a, .ok b =>
    if h : a = b then isTrue (by rw [h]) else isFalse (fun h2 => h (by cases h2; rfl))
  | .error a, .error b =>
    if h : a = b then isTrue (by rw [h]) else isFalse (fun h2 => h (by cases h2; rfl))
  | .ok _, .error _ => isFalse (fun h => by cases h)
  | .error _, .ok _ => isFalse (fun h => by cases h)

/-- Word-addressed memory: `none` is an unmapped word. -/
abbrev Mem := Nat → Option Nat

/-- Load of the word at `p`. -/
def load (m : Mem) (p : Nat) : Except Err Nat :=
  match m p with
  | some v => .ok v
  | none => .error .segv

/-- Memory after storing `v` at `p`. -/
def store (m : Mem) (p v : Nat) : Mem := fun a => if a = p then some v else m a

/-- Modelled from the spec: `mem_pagesize` of the absent `memlib`; the page-mapping
primitive is page-size-granular, with 4096-byte pages. -/
def mem_pagesize : Nat := 4096

/-- Memory after mapping `[base, base+len)`: every aligned word of the region is
mapped and zero-filled. -/
def mapRegion (m : Mem) (base len : Nat) : Mem :=
  fun a => if base ≤ a ∧ a < base + len ∧ a % 8 = 0 then some 0 else m a

/-- Memory after unmapping `[addr, addr+len)`. -/
def unmapRegion (m : Mem) (addr len : Nat) : Mem :=
  fun a => if addr ≤ a ∧ a < addr + len then none else m a

/-- `ALIGN(size)`: `(size + 15) & ~15` on 64 bits. -/
def ALIGN (size : Nat) : Nat := add64 size 15 / 16 * 16

/-- `PAGE_ALIGN(size)`: `(size + (pagesize-1)) & ~(pagesize-1)` on 64 bits. -/
def PAGE_ALIGN (size : Nat) : Nat :=
  add64 size (mem_pagesize - 1) / mem_pagesize * mem_pagesize

/-- `PACK(size, alloc)`: bitwise or. -/
def PACK (size alloc : Nat) : Nat := size ||| alloc

/-- Size field of a header/footer word `v`: `v & ~0xF`. -/
def sizeBits (v : Nat) : Nat := v / 16 * 16

/-- Allocated flag of a header/footer word `v`: `v & 0x1`. -/
def allocBit (v : Nat) : Nat := v % 2

/-- A page-mapping primitive that always succeeds and hands out page-aligned
regions one mebibyte apart, used to run the code on concrete inputs. -/
def demoOracle (i : Nat) : Nat := 1048576 * (i + 1)

/-- A page-mapping primitive whose first call succeeds and whose later calls all
fail (return `NULL`). -/
def onceOracle (i : Nat) : Nat := if i = 0 then 1048576 else 0

end Alloc

/-! ## sample.c -/

namespace Sample
open Alloc

/-- Globals of `sample.c` together with the memory and the page-mapping
primitive. `oracle i` is the address the `i`-th call of `mem_map` returns
(`0` for failure); `regions` are the regions currently mapped and `unmaps` the
arguments of the calls of `mem_unmap`, oldest first. -/
structure State where
  mem : Mem
  new_chunk_size : Nat
  chunk_list_head : Nat
  free_list_head : Nat
  oracle : Nat → Nat
  nmaps : Nat
  regions : List (Nat × Nat)
  unmaps : List (Nat × Nat)

def GET (s : State) (p : Nat) : Except Err Nat := load s.mem p

def PUT (s : State) (p v : Nat) : Except Err State :=
  match s.mem p with
  | some _ => .ok { s with mem := store s.mem p v }
  | none => .error .segv

def GET_ALLOC (s : State) (p : Nat) : Except Err Nat := do
  let v ← GET s p
  pure (allocBit v)

def GET_SIZE (s : State) (p : Nat) : Except Err Nat := do
  let v ← GET s p
  pure (sizeBits v)

def HEADER (p : Nat) : Nat := sub64 p 8

def FOOTER (s : State) (p : Nat) : Except Err Nat := do
  let sz ← GET_SIZE s (HEADER p)
  pure (sub64 (add64 p sz) 16)

def PREV_BLK_PTR (s : State) (p : Nat) : Except Err Nat := do
  let sz ← GET_SIZE s (sub64 p 16)
  pure (sub64 p sz)

def NXT_BLK_PTR (s : State) (p : Nat) : Except Err Nat := do
  let sz ← GET_SIZE s (HEADER p)
  pure (add64 p sz)

/-- Modelled from the spec: `mem_map` of the absent `memlib` ("reserve N bytes").
The region returned is the next answer of the oracle; answer `0` is failure. -/
def mem_map (s : State) (len : Nat) : Nat × State :=
  let base := s.oracle s.nmaps
  if base = 0 then (0, { s with nmaps := s.nmaps + 1 })
  else (base, { s with nmaps := s.nmaps + 1
                       mem := mapRegion s.mem base len
                       regions := (base, len) :: s.regions })

/-- Modelled from the spec: `mem_unmap` of the absent `memlib` ("release a
previously reserved range"). The call is logged in `unmaps`. -/
def mem_unmap (s : State) (addr len : Nat) : State :=
  { s with mem := unmapRegion s.mem addr len
           regions := s.regions.erase (addr, len)
           unmaps := s.unmaps ++ [(addr, len)] }

/-- `add_to_free_list`: `next` is at offset 0 and `prev` at offset 8. -/
def add_to_free_list (ptr : Nat) (s : State) : Except Err State := do
  let s ← PUT s ptr s.free_list_head
  let s ← if s.free_list_head ≠ 0 then PUT s (add64 s.free_list_head 8) ptr else pure s
  let s := { s with free_list_head := ptr }
  PUT s (add64 s.free_list_head 8) 0

def remove_from_free_list (ptr : Nat) (s : State) : Except Err State :=
  if ptr = s.free_list_head then do
    let nxt ← GET s ptr
    let s := { s with free_list_head := nxt }
    if s.free_list_head ≠ 0 then PUT s (add64 s.free_list_head 8) 0 else pure s
  else do
    let prv ← GET s (add64 ptr 8)
    let nxt ← GET s ptr
    let s ← PUT s prv nxt
    let nxt ← GET s ptr
    if nxt ≠ 0 then do
      let prv ← GET s (add64 ptr 8)
      PUT s (add64 nxt 8) prv
    else pure s

def init_chunk (payload_size : Nat) (s : State) : Except Err (Nat × State) :=
  let chunk_size :=
    mul64 s.new_chunk_size (PAGE_ALIGN (add64 (add64 payload_size 48) 32))
  let s := { s with new_chunk_size := s.new_chunk_size + 1 }
  let r := mem_map s chunk_size
  let s := r.2
  let chunk_ptr := add64 r.1 8
  if chunk_ptr = 0 then pure (0, s)
  else do
    let s ← PUT s chunk_ptr s.chunk_list_head
    let s ← if s.chunk_list_head ≠ 0 then PUT s (add64 s.chunk_list_head 8) chunk_ptr
            else pure s
    let s := { s with chunk_list_head := chunk_ptr }
    let s ← PUT s (add64 s.chunk_list_head 8) 0
    let chunk_ptr := add64 chunk_ptr 16
    let s ← PUT s chunk_ptr 17
    let s ← PUT s (add64 chunk_ptr 8) 16
    let chunk_ptr := add64 chunk_ptr 16
    let s ← PUT s chunk_ptr (sub64 chunk_size 48)
    let s ← PUT s (sub64 (sub64 (add64 chunk_ptr chunk_size) 48) 8) (sub64 chunk_size 48)
    let s ← PUT s (sub64 (add64 chunk_ptr chunk_size) 48) 1
    let chunk_ptr := add64 chunk_ptr 8
    let s ← add_to_free_list chunk_ptr s
    pure (chunk_ptr, s)

def get_chunk_header : Nat → Nat → State → Except Err Nat
  | 0, _, _ => .error .fuel
  | fuel + 1, curr, s =>
    if curr = 0 then pure 0
    else do
      let curr_size ← GET_SIZE s (sub64 curr 16)
      if curr_size = 16 then pure (sub64 curr 40)
      else do
        let prev ← PREV_BLK_PTR s curr
        get_chunk_header fuel prev s

/-- First loop of `is_in_free_chunk` (walk towards the prologue). The result
`none` is the early `return 0`, `some c` the accumulated `chunk_size` at
`break`. -/
def is_in_free_chunk_back : Nat → Nat → Nat → State → Except Err (Option Nat)
  | 0, _, _, _ => .error .fuel
  | fuel + 1, curr, chunk_size, s =>
    if curr = 0 then pure (some chunk_size)
    else do
      let curr_size ← GET_SIZE s (sub64 curr 16)
      if curr_size = 16 then pure (some chunk_size)
      else do
        let curr ← PREV_BLK_PTR s curr
        let curr_alloc ← GET_ALLOC s (HEADER curr)
        if curr_alloc ≠ 0 then pure none
        else is_in_free_chunk_back fuel curr (add64 chunk_size curr_size) s

/-- Second loop of `is_in_free_chunk` (walk towards the terminator). -/
def is_in_free_chunk_fwd : Nat → Nat → Nat → State → Except Err Nat
  | 0, _, _, _ => .error .fuel
  | fuel + 1, curr, chunk_size, s =>
    if curr = 0 then pure chunk_size
    else do
      let curr_size ← GET_SIZE s (HEADER curr)
      let curr_alloc ← GET_ALLOC s (HEADER curr)
      if curr_size = 0 ∧ curr_alloc ≠ 0 then pure chunk_size
      else if curr_alloc ≠ 0 then pure 0
      else do
        let nxt ← NXT_BLK_PTR s curr
        is_in_free_chunk_fwd fuel nxt (add64 chunk_size curr_size) s

def is_in_free_chunk (fuel : Nat) (ptr : Nat) (s : State) : Except Err Nat := do
  let sz ← GET_SIZE s (HEADER ptr)
  let chunk_size := add64 sz 48
  let r ← is_in_free_chunk_back fuel ptr chunk_size s
  match r with
  | none => pure 0
  | some chunk_size => do
    let curr ← NXT_BLK_PTR s ptr
    is_in_free_chunk_fwd fuel curr chunk_size s

def remove_chunk (ptr : Nat) (chunk_size : Nat) (s : State) : Except Err State := do
  let s ←
    if ptr = s.chunk_list_head then do
      let nxt ← GET s ptr
      let s := { s with chunk_list_head := nxt }
      if s.chunk_list_head ≠ 0 then PUT s (add64 s.chunk_list_head 8) 0 else pure s
    else do
      let prv ← GET s (add64 ptr 8)
      let nxt ← GET s ptr
      let s ← PUT s prv nxt
      let nxt ← GET s ptr
      if nxt ≠ 0 then do
        let prv ← GET s (add64 ptr 8)
        PUT s (add64 nxt 8) prv
      else pure s
  pure (mem_unmap s (sub64 ptr 8) chunk_size)

def alloc_block (ptr : Nat) (size : Nat) (s : State) : Except Err State := do
  let block_size ← GET_SIZE s (HEADER ptr)
  if size = block_size then do
    let s ← PUT s (HEADER ptr) (PACK block_size 1)
    remove_from_free_list ptr s
  else do
    let s ← PUT s (HEADER ptr) (PACK size 1)
    let f ← FOOTER s ptr
    let s ← PUT s f size
    let sz ← GET_SIZE s (HEADER ptr)
    let remaining_block := add64 ptr sz
    let s ← PUT s (HEADER remaining_block) (sub64 block_size size)
    let f ← FOOTER s remaining_block
    let s ← PUT s f (sub64 block_size size)
    let s ← remove_from_free_list ptr s
    add_to_free_list remaining_block s

def find_free_block_ff : Nat → Nat → Nat → State → Except Err Nat
  | 0, _, _, _ => .error .fuel
  | fuel + 1, temp, target_size, s =>
    if temp = 0 then pure 0
    else do
      let temp_size ← GET_SIZE s (HEADER temp)
      if temp_size = target_size ∨ temp_size ≥ add64 target_size 32 then pure temp
      else do
        let nxt ← GET s temp
        find_free_block_ff fuel nxt target_size s

def extend (ptr : Nat) (new_size : Nat) (s : State) : Except Err State := do
  let s ← PUT s (HEADER ptr) new_size
  let f ← FOOTER s ptr
  PUT s f new_size

def coalesce (ptr : Nat) (s : State) : Except Err (Nat × State) := do
  let pb ← PREV_BLK_PTR s ptr
  let prevh := HEADER pb
  let nb ← NXT_BLK_PTR s ptr
  let nexth := HEADER nb
  let prev_alloc ← GET_ALLOC s prevh
  let next_alloc ← GET_ALLOC s nexth
  let curr_size ← GET_SIZE s (HEADER ptr)
  let prev_size ← GET_SIZE s prevh
  let next_size ← GET_SIZE s nexth
  if prev_alloc = 0 ∧ next_alloc = 0 then do
    let result := add64 prevh 8
    let s ← remove_from_free_list ptr s
    let s ← remove_from_free_list (add64 nexth 8) s
    let s ← extend result (add64 (add64 curr_size prev_size) next_size) s
    pure (result, s)
  else if prev_alloc = 0 then do
    let result := add64 prevh 8
    let s ← remove_from_free_list ptr s
    let s ← extend result (add64 curr_size prev_size) s
    pure (result, s)
  else if next_alloc = 0 then do
    let s ← remove_from_free_list (add64 nexth 8) s
    let s ← extend ptr (add64 curr_size next_size) s
    pure (ptr, s)
  else pure (ptr, s)

def mm_init (fuel : Nat) (s : State) : Except Err (Nat × State) := do
  let s := { s with new_chunk_size := 1, free_list_head := 0, chunk_list_head := 0 }
  let r ← init_chunk 1 s
  let h ← get_chunk_header fuel r.1 r.2
  pure (0, { r.2 with chunk_list_head := h })

def mm_malloc (fuel : Nat) (size : Nat) (s : State) : Except Err (Nat × State) := do
  let new_size := ALIGN (add64 size 16)
  let p ← find_free_block_ff fuel s.free_list_head new_size s
  if p = 0 then do
    let r ← init_chunk new_size s
    let s ← alloc_block r.1 new_size r.2
    pure (r.1, s)
  else do
    let s ← alloc_block p new_size s
    pure (p, s)

def mm_free (fuel : Nat) (ptr : Nat) (s : State) : Except Err State := do
  let header := HEADER ptr
  let a ← GET_ALLOC s header
  if a = 0 then pure s
  else do
    let sz ← GET_SIZE s header
    let s ← PUT s header sz
    let s ← add_to_free_list ptr s
    let r ← coalesce ptr s
    let free_p := r.1
    let s := r.2
    let chunk_size ← is_in_free_chunk fuel free_p s
    if chunk_size ≠ 0 then do
      let s ← remove_from_free_list free_p s
      let h ← get_chunk_header fuel free_p s
      remove_chunk h chunk_size s
    else pure s

/-- State of the process before `mm_init`: nothing mapped, globals as
initialised by the C declarations. -/
def boot (oracle : Nat → Nat) : State :=
  { mem := fun _ => none, new_chunk_size := 1, chunk_list_head := 0, free_list_head := 0,
    oracle := oracle, nmaps := 0, regions := [], unmaps := [] }

end Sample

/-! ## mm.c -/

namespace Mm
open Alloc

/-- Globals of `mm.c` together with the memory and the page-mapping primitive
(same conventions as `Sample.State`). -/
structure State where
  mem : Mem
  mapped : Nat
  free_head : Nat
  page_head : Nat
  oracle : Nat → Nat
  nmaps : Nat
  regions : List (Nat × Nat)
  unmaps : List (Nat × Nat)

def GET (s : State) (p : Nat) : Except Err Nat := load s.mem p

def PUT (s : State) (p v : Nat) : Except Err State :=
  match s.mem p with
  | some _ => .ok { s with mem := store s.mem p v }
  | none => .error .segv

def GET_ALLOC (s : State) (p : Nat) : Except Err Nat := do
  let v ← GET s p
  pure (allocBit v)

def GET_SIZE (s : State) (p : Nat) : Except Err Nat := do
  let v ← GET s p
  pure (sizeBits v)

def HDRP (bp : Nat) : Nat := sub64 bp 8

def FTRP (s : State) (bp : Nat) : Except Err Nat := do
  let sz ← GET_SIZE s (HDRP bp)
  pure (sub64 (add64 bp sz) 16)

def NEXT_BLKP (s : State) (bp : Nat) : Except Err Nat := do
  let sz ← GET_SIZE s (HDRP bp)
  pure (add64 bp sz)

def PREV_BLKP (s : State) (bp : Nat) : Except Err Nat := do
  let sz ← GET_SIZE s (sub64 bp 16)
  pure (sub64 bp sz)

/-- Modelled from the spec: `mem_map` of the absent `memlib` ("reserve N bytes").
The region returned is the next answer of the oracle; answer `0` is failure. -/
def mem_map (s : State) (len : Nat) : Nat × State :=
  let base := s.oracle s.nmaps
  if base = 0 then (0, { s with nmaps := s.nmaps + 1 })
  else (base, { s with nmaps := s.nmaps + 1
                       mem := mapRegion s.mem base len
                       regions := (base, len) :: s.regions })

/-- Modelled from the spec: `mem_unmap` of the absent `memlib` ("release a
previously reserved range"). The call is logged in `unmaps`. -/
def mem_unmap (s : State) (addr len : Nat) : State :=
  { s with mem := unmapRegion s.mem addr len
           regions := s.regions.erase (addr, len)
           unmaps := s.unmaps ++ [(addr, len)] }

/-- `set_allocated(b, size)`: `b` is a header address; the footer is located
through the header just written. -/
def set_allocated (b : Nat) (size : Nat) (s : State) : Except Err State := do
  let s ← PUT s b size
  let b := add64 b 8
  let f ← FTRP s b
  PUT s f size

/-- `add(ptr, page)`: `prev` is at offset 0 and `next` at offset 8. -/
def add (ptr : Nat) (page : Nat) (s : State) : Except Err State := do
  let s ← PUT s (add64 ptr 8) 0
  let s ← PUT s ptr 0
  if page = 0 ∧ s.free_head = 0 then pure { s with free_head := ptr }
  else if page ≠ 0 ∧ s.page_head = 0 then pure { s with page_head := ptr }
  else do
    let head := if page ≠ 0 then s.page_head else s.free_head
    let s ← PUT s (add64 ptr 8) head
    let s ← PUT s head ptr
    if page = 0 then pure { s with free_head := ptr }
    else pure { s with page_head := ptr }

def remove_from_list (ptr : Nat) (page : Nat) (s : State) : Except Err State := do
  let nxt ← GET s (add64 ptr 8)
  let s ←
    if nxt = 0 then do
      let prv ← GET s ptr
      if prv = 0 then
        (if page = 0 then pure { s with free_head := 0 }
         else pure { s with page_head := 0 } : Except Err State)
      else PUT s (add64 prv 8) 0
    else do
      let prv ← GET s ptr
      if prv = 0 then do
        let s ← PUT s nxt 0
        let nxt ← GET s (add64 ptr 8)
        if page = 0 then pure { s with free_head := nxt }
        else pure { s with page_head := nxt }
      else do
        let s ← PUT s (add64 prv 8) nxt
        let nxt ← GET s (add64 ptr 8)
        let prv ← GET s ptr
        PUT s nxt prv
  let s ← PUT s ptr 0
  PUT s (add64 ptr 8) 0

def get_first : Nat → Nat → Nat → State → Except Err Nat
  | 0, _, _, _ => .error .fuel
  | fuel + 1, current, size, s =>
    if current = 0 then pure 0
    else do
      let sz ← GET_SIZE s (HDRP current)
      if sz < size then do
        let nxt ← GET s (add64 current 8)
        get_first fuel nxt size s
      else pure current

/-- The loop `while (page_size < s)` of `extend`; the result is the final
`page_size` and `mapped`. -/
def extend_loop : Nat → Nat → Nat → Nat → Except Err (Nat × Nat)
  | 0, _, _, _ => .error .fuel
  | fuel + 1, page_size, mapped, s =>
    if page_size < s then extend_loop fuel (mul64 mapped mem_pagesize) (mapped + 6) s
    else pure (page_size, mapped)

/-- `extend(s)`; `page_size0` is the value the uninitialised local `page_size`
happens to hold on entry. -/
def extend (fuel : Nat) (page_size0 : Nat) (sz : Nat) (s : State) : Except Err State := do
  let sz := PAGE_ALIGN (add64 (add64 sz 16) 32)
  let r ← extend_loop fuel page_size0 s.mapped sz
  let page_size := r.1
  let s := { s with mapped := r.2 }
  let m := mem_map s page_size
  let ptr := m.1
  let s := m.2
  let page_header_size := 32
  let page_footer_size := 16
  let empty_size := sub64 (sub64 (sub64 page_size page_header_size) page_footer_size) 16
  let s ← PUT s ptr empty_size
  let ptr := add64 ptr 8
  let s ← set_allocated ptr (PACK page_header_size 1) s
  let list := add64 ptr 8
  let s ← add list 1 s
  let empty_start := add64 ptr page_header_size
  let s ← set_allocated empty_start (PACK empty_size 0) s
  let s ← add (add64 empty_start 8) 0 s
  set_allocated (sub64 (sub64 (add64 ptr page_size) 16) 16) (PACK 16 1) s

def unmap_page : Nat → Nat → State → Except Err State
  | 0, _, _ => .error .fuel
  | fuel + 1, current, s =>
    if current = 0 then pure s
    else do
      let page_header := sub64 current 16
      let empty_size ← GET s page_header
      let block ← NEXT_BLKP s current
      let b1 ← NEXT_BLKP s current
      let b2 ← NEXT_BLKP s b1
      let sz ← GET_SIZE s (HDRP b2)
      if sz = 16 then do
        let next ← GET s (add64 current 8)
        let s ← remove_from_list current 1 s
        let s ← remove_from_list block 0 s
        let s := mem_unmap s page_header (add64 (add64 (add64 empty_size 32) 16) 16)
        unmap_page fuel next s
      else do
        let next ← GET s (add64 current 8)
        unmap_page fuel next s

def mm_init (s : State) : Nat × State :=
  (0, { s with free_head := 0, page_head := 0, mapped := 0 })

/-- The loop `while ((ptr = get_first(size)) == NULL) extend(size)`. -/
def mm_malloc_loop : Nat → Nat → Nat → Nat → State → Except Err (Nat × State)
  | 0, _, _, _, _ => .error .fuel
  | fuel + 1, lfuel, page_size0, size, s => do
    let ptr ← get_first lfuel s.free_head size s
    if ptr = 0 then do
      let s ← extend lfuel page_size0 size s
      mm_malloc_loop fuel lfuel page_size0 size s
    else pure (ptr, s)

def mm_malloc (fuel : Nat) (page_size0 : Nat) (size : Nat) (s : State) :
    Except Err (Nat × State) := do
  let size := ALIGN (add64 size 16)
  let r ← mm_malloc_loop fuel fuel page_size0 size s
  let ptr := r.1
  let s := r.2
  let bsz ← GET_SIZE s (HDRP ptr)
  let size := if sub64 bsz size ≤ 16 + 16 then bsz else size
  let bsz ← GET_SIZE s (HDRP ptr)
  let size_remain := sub64 bsz size
  let s ← remove_from_list ptr 0 s
  let s ← set_allocated (HDRP ptr) (PACK size 1) s
  if size_remain > 0 then do
    let nb ← NEXT_BLKP s ptr
    let s ← set_allocated (HDRP nb) (PACK size_remain 0) s
    let nb ← NEXT_BLKP s ptr
    let s ← add nb 0 s
    pure (ptr, s)
  else pure (ptr, s)

def mm_free (fuel : Nat) (ptr : Nat) (s : State) : Except Err State := do
  let s ← unmap_page fuel s.page_head s
  let prev_block ← PREV_BLKP s ptr
  let next_block ← NEXT_BLKP s ptr
  let sz ← GET_SIZE s (HDRP ptr)
  let s ← set_allocated (HDRP ptr) (PACK sz 0) s
  let pa ← GET_ALLOC s (HDRP prev_block)
  let r ←
    if pa = 0 then do
      let s ← remove_from_list prev_block 0 s
      let psz ← GET_SIZE s (HDRP prev_block)
      let sz ← GET_SIZE s (HDRP ptr)
      let s ← set_allocated (HDRP prev_block) (PACK (add64 psz sz) 0) s
      pure (prev_block, s)
    else (pure (ptr, s) : Except Err (Nat × State))
  let ptr := r.1
  let s := r.2
  let na ← GET_ALLOC s (HDRP next_block)
  let s ←
    if na = 0 then do
      let s ← remove_from_list next_block 0 s
      let sz ← GET_SIZE s (HDRP ptr)
      let nsz ← GET_SIZE s (HDRP next_block)
      set_allocated (HDRP ptr) (PACK (add64 sz nsz) 0) s
    else pure s
  add ptr 0 s

/-- State of the process before `mm_init`: nothing mapped, globals as
initialised by the C declarations. -/
def boot (oracle : Nat → Nat) : State :=
  { mem := fun _ => none, mapped := 0, free_head := 0, page_head := 0,
    oracle := oracle, nmaps := 0, regions := [], unmaps := [] }

end Mm

/-! ## Concrete runs -/

namespace Sample
open Alloc

/-- `mm_init(); a = mm_malloc(2^64-32); b = mm_malloc(17)`: the two pointers. -/
def run_huge_then_small : Except Err (Nat × Nat) := do
  let r ← mm_init 8 (boot demoOracle)
  let a ← mm_malloc 8 (W - 32) r.2
  let b ← mm_malloc 8 17 a.2
  pure (a.1, b.1)

/-- `mm_init(); a = mm_malloc(2^64-32)`: the pointer and its header word. -/
def run_huge : Except Err (Nat × Option Nat) := do
  let r ← mm_init 8 (boot demoOracle)
  let a ← mm_malloc 8 (W - 32) r.2
  pure (a.1, a.2.mem (a.1 - 8))

/-- `mm_init(); mm_malloc(0)`. -/
def run_malloc_zero : Except Err Nat := do
  let r ← mm_init 8 (boot demoOracle)
  let a ← mm_malloc 8 0 r.2
  pure a.1

/-- `mm_init(); a = mm_malloc(1); mm_free(a)`: the pointer and the state. -/
def run_alloc_free : Except Err (Nat × State) := do
  let r ← mm_init 8 (boot demoOracle)
  let a ← mm_malloc 8 1 r.2
  let s ← mm_free 8 a.1 a.2
  pure (a.1, s)

/-- `mm_init(); a = mm_malloc(1); mm_free(a); mm_free(a)`. -/
def run_double_free : Except Err (List (Nat × Nat)) := do
  let r ← run_alloc_free
  let s ← mm_free 8 r.1 r.2
  pure s.unmaps

/-- The header word, footer word and the 14 payload words of the 128-byte
block whose payload starts at `p`. -/
def block_words (s : State) (p : Nat) : List (Option Nat) :=
  s.mem (p - 8) :: s.mem (p + 128 - 16) :: (List.range 14).map (fun i => s.mem (p + 8 * i))

/-- `mm_init(); a = mm_malloc(100); b = mm_malloc(100); mm_free(a);
c = mm_malloc(50)`: the three pointers, and the words of `b` right after its
allocation and at the end. -/
def run_reuse : Except Err (Nat × Nat × Nat × List (Option Nat) × List (Option Nat)) := do
  let r ← mm_init 8 (boot demoOracle)
  let a ← mm_malloc 8 100 r.2
  let b ← mm_malloc 8 100 a.2
  let s ← mm_free 8 a.1 b.2
  let c ← mm_malloc 8 50 s
  pure (a.1, b.1, c.1, block_words b.2 b.1, block_words c.2 b.1)

/-- `mm_init(); a = mm_malloc(4032); mm_free(a); c = mm_malloc(4032)`: the two
pointers, the words around `a` while it is live (header, preceding footer,
following header) and the calls of `mem_unmap` made by `mm_free(a)`. -/
def run_whole_chunk :
    Except Err (Nat × Nat × List (Option Nat) × List (Nat × Nat)) := do
  let r ← mm_init 8 (boot demoOracle)
  let a ← mm_malloc 8 4032 r.2
  let s ← mm_free 8 a.1 a.2
  let c ← mm_malloc 8 4032 s
  pure (a.1, c.1, [a.2.mem (a.1 - 8), a.2.mem (a.1 - 16), a.2.mem (a.1 + 4048 - 8)], s.unmaps)

/-- Three allocations of `n` bytes after `mm_init`, released in the order
first, third, second: the three pointers and the final state. -/
def run_three (n : Nat) : Except Err (Nat × Nat × Nat × State) := do
  let r ← mm_init 8 (boot demoOracle)
  let a ← mm_malloc 8 n r.2
  let b ← mm_malloc 8 n a.2
  let c ← mm_malloc 8 n b.2
  let s ← mm_free 8 a.1 c.2
  let s ← mm_free 8 c.1 s
  let s ← mm_free 8 b.1 s
  pure (a.1, b.1, c.1, s)

/-- Pointers, calls of `mem_unmap` and list heads at the end of `run_three`. -/
def run_three_summary (n : Nat) : Except Err (List Nat × List (Nat × Nat) × List Nat) := do
  let r ← run_three n
  pure ([r.1, r.2.1, r.2.2.1], r.2.2.2.unmaps,
    [r.2.2.2.free_list_head, r.2.2.2.chunk_list_head])

/-- `mm_init()` with a mapping primitive that fails from its second call on,
then `mm_malloc(5000)`, for which no free block fits. -/
def run_map_fails : Except Err Nat := do
  let r ← mm_init 8 (boot onceOracle)
  let a ← mm_malloc 8 5000 r.2
  pure a.1

/-- `mm_init(); mm_malloc(3984)` leaves one free block of 48 bytes; the result
is that block, its header word and the answer of `find_free_block_ff(32)`. -/
def run_first_fit : Except Err (Nat × Option Nat × Nat) := do
  let r ← mm_init 8 (boot demoOracle)
  let a ← mm_malloc 8 3984 r.2
  let p ← find_free_block_ff 8 a.2.free_list_head 32 a.2
  pure (a.2.free_list_head, a.2.mem (a.2.free_list_head - 8), p)

/-- `mm_init(); init_chunk(5024)`: the returned pointer, the mapped regions, and
the `prev` words of the old chunk-list head (at 1048576+16) and of the old
free-list head (at 1048576+56) before and after `init_chunk`. -/
def run_init_chunk :
    Except Err (Nat × List (Nat × Nat) × List (Option Nat) × List (Option Nat)) := do
  let r ← mm_init 8 (boot demoOracle)
  let c ← init_chunk 5024 r.2
  pure (c.1, c.2.regions, [r.2.mem 1048592, r.2.mem 1048632], [c.2.mem 1048592, c.2.mem 1048632])

end Sample

namespace Mm
open Alloc

/-- `mm_init(); q = mm_malloc(24496); p = mm_malloc(1); mm_free(p)`: the two
pointers, the header and footer word of `q` before `mm_free(p)`, the header word
of `q` after it, and the calls of `mem_unmap` made so far. -/
def run_live_unmapped :
    Except Err (Nat × Nat × Option Nat × Option Nat × Option Nat × List (Nat × Nat)) := do
  let s := (mm_init (boot demoOracle)).2
  let q ← mm_malloc 8 0 24496 s
  let p ← mm_malloc 8 0 1 q.2
  let s ← mm_free 8 p.1 p.2
  pure (q.1, p.1, p.2.mem (q.1 - 8), p.2.mem (q.1 + 24512 - 16), s.mem (q.1 - 8), s.unmaps)

/-- The free-list head and the header, `prev` and `next` word of the block at `p`. -/
def list_words (s : State) (p : Nat) : Nat × List (Option Nat) :=
  (s.free_head, [s.mem (p - 8), s.mem p, s.mem (p + 8)])

/-- `mm_init(); a = mm_malloc(100); b = mm_malloc(100); mm_free(a); mm_free(a)`:
the pointer `a` and the words of its block after the first and after the second
`mm_free(a)`. -/
def run_double_free : Except Err (Nat × (Nat × List (Option Nat)) × (Nat × List (Option Nat))) := do
  let s := (mm_init (boot demoOracle)).2
  let a ← mm_malloc 8 0 100 s
  let b ← mm_malloc 8 0 100 a.2
  let s1 ← mm_free 8 a.1 b.2
  let s2 ← mm_free 8 a.1 s1
  pure (a.1, list_words s1 a.1, list_words s2 a.1)

/-- `mm_init(); a = mm_malloc(1); mm_free(a)`: the pointer, the header word of
its block, and the page list head, mapped regions and calls of `mem_unmap` when
`mm_free` returns. -/
def run_alloc_free :
    Except Err (List Nat × Option Nat × List (Nat × Nat) × List (Nat × Nat)) := do
  let s := (mm_init (boot demoOracle)).2
  let a ← mm_malloc 8 0 1 s
  let s ← mm_free 8 a.1 a.2
  pure ([a.1, s.page_head], s.mem (a.1 - 8), s.regions, s.unmaps)

/-- `mm_init(); a = mm_malloc(n)`: the pointer, its header word, the free-list
head and the needed size `ALIGN(n + OVERHEAD)`. -/
def run_malloc (n : Nat) : Except Err (Nat × Option Nat × Nat × Nat) := do
  let s := (mm_init (boot demoOracle)).2
  let a ← mm_malloc 8 0 n s
  pure (a.1, a.2.mem (a.1 - 8), a.2.free_head, ALIGN (add64 n 16))

/-- `mm_init(); extend(24528); get_first(24528)`: the answer of `get_first` and
the header word of the block `extend` formatted. -/
def run_extend : Except Err (Nat × Option Nat) := do
  let s := (mm_init (boot demoOracle)).2
  let s ← extend 8 0 24528 s
  let p ← get_first 8 s.free_head 24528 s
  pure (p, s.mem (s.free_head - 8))

end Mm

/-! ## Specification predicates -/

namespace Alloc

/-- The word at `a` is mapped. -/
def Mapped (m : Mem) (a : Nat) : Prop := (m a).isSome = true

instance decMapped (m : Mem) (a : Nat) : Decidable (Mapped m a) := by
  unfold Mapped; infer_instance

end Alloc

namespace Sample
open Alloc

/-- Memory after `init_chunk` has mapped `[base, base+C)` while the chunk list
and the free list had the heads `clh` and `flh`: the stores of `init_chunk`, in
program order. -/
def initMem (m : Mem) (base C clh flh : Nat) : Mem :=
  let m := store (mapRegion m base C) (base + 8) clh
  let m := if clh ≠ 0 then store m (clh + 8) (base + 8) else m
  let m := store m (base + 16) 0
  let m := store m (base + 24) 17
  let m := store m (base + 32) 16
  let m := store m (base + 40) (C - 48)
  let m := store m (base + C - 16) (C - 48)
  let m := store m (base + C - 8) 1
  let m := store m (base + 48) flh
  let m := if flh ≠ 0 then store m (flh + 8) (base + 48) else m
  store m (base + 56) 0

end Sample

namespace Sample
open Alloc

/-- State right after `mm_init()` in a fresh process whose mapping primitive is
`demoOracle`. -/
def initState : State :=
  match mm_init 8 (boot demoOracle) with
  | .ok r => r.2
  | .error _ => boot demoOracle

end Sample

namespace Mm
open Alloc

/-- Head of the list selected by `page` (free list when `page = 0`). -/
def listHead (page : Nat) (s : State) : Nat := if page = 0 then s.free_head else s.page_head

/-- State with the head of the list selected by `page` set to `ptr`. -/
def setHead (page ptr : Nat) (s : State) : State :=
  if page = 0 then { s with free_head := ptr } else { s with page_head := ptr }

/-- Memory after `add(ptr, page)` when the selected list had the head `head`: the
stores of `add`, in program order. -/
def addMem (m : Mem) (ptr head : Nat) : Mem :=
  if head = 0 then store (store m (ptr + 8) 0) ptr 0
  else store (store (store (store m (ptr + 8) 0) ptr 0) (ptr + 8) head) head ptr

/-- Memory after `extend` has mapped `[base, base+P)` while the page list and the
free list had the heads `ph` and `fh`: the stores of `extend`, in program order. -/
def extendMem (m : Mem) (base P ph fh : Nat) : Mem :=
  let m := store (mapRegion m base P) base (P - 64)
  let m := store (store m (base + 8) 33) (base + 32) 33
  let m := addMem m (base + 16) ph
  let m := store (store m (base + 40) (P - 64)) (base + P - 32) (P - 64)
  let m := addMem m (base + 48) fh
  store (store m (base + P - 24) 17) (base + P - 16) 17


/-- State right after `mm_init()` in a fresh process whose mapping primitive is
`demoOracle`. -/
def initState : State := (mm_init (boot demoOracle)).2

end Mm

namespace Alloc
open Alloc
/-- `Chain m no po prv hd L`: starting from the pointer `hd`, whose predecessor is
`prv`, the nodes of the doubly linked list are exactly `L`, in order: every node is
non-null, its `next` word (offset `no`) holds the following node (`NULL` at the end)
and its `prev` word (offset `po`) the preceding one. -/
def Chain (m : Mem) (no po : Nat) : Nat → Nat → List Nat → Prop
  | _, hd, [] => hd = 0
  | prv, hd, x :: xs =>
    hd = x ∧ x ≠ 0 ∧ m (x + po) = some prv ∧ m (x + no) = some (xs.headD 0) ∧
      Chain m no po x (xs.headD 0) xs

/-- Size field of the header of the block whose payload starts at `x`
(0 when the header is not mapped). -/
def sizeAt (m : Mem) (x : Nat) : Nat :=
  match m (x - 8) with
  | some v => sizeBits v
  | none => 0

/-- The nodes of `L` are payload pointers whose header and link words can be
addressed without wrap-around, and whose header is mapped. -/
def NodesOk (m : Mem) (L : List Nat) : Prop :=
  ∀ x ∈ L, 8 ≤ x ∧ x + 8 < 18446744073709551616 ∧ Mapped m (x - 8)

instance decChain (m : Mem) (no po : Nat) :
    ∀ (L : List Nat) (prv hd : Nat), Decidable (Chain m no po prv hd L)
  | [], _, hd => by unfold Chain; infer_instance
  | x :: xs, prv, hd => by
    unfold Chain
    have := decChain m no po xs x (xs.headD 0)
    infer_instance

instance decNodesOk (m : Mem) (L : List Nat) : Decidable (NodesOk m L) := by
  unfold NodesOk; infer_instance

end Alloc

namespace Sample
open Alloc

/-- The fit test of `find_free_block_ff`: the block size `z` is exactly the target
`t`, or leaves room for a minimum free block. -/
def Fits (t z : Nat) : Prop := z = t ∨ t + 32 ≤ z

instance decFits (t z : Nat) : Decidable (Fits t z) := by
  unfold Fits; infer_instance

/-- State after `mm_init(); a = mm_malloc(100); b = mm_malloc(100); mm_free(a)` with
`demoOracle`: the free list is `[1048624, 1048880]` (sizes 128 and 3792). -/
def twoFreeState : State :=
  match (do
    let r ← mm_init 8 (boot demoOracle)
    let a ← mm_malloc 8 100 r.2
    let b ← mm_malloc 8 100 a.2
    mm_free 8 a.1 b.2) with
  | .ok s => s
  | .error _ => boot demoOracle

end Sample

namespace Mm
open Alloc

/-- State after `mm_init(); a = mm_malloc(100); b = mm_malloc(100); mm_free(a)` with
`demoOracle`: the free list is `[1048624, 1048880]` (sizes 128 and 24256). -/
def twoFreeState : State :=
  match (do
    let a ← mm_malloc 8 0 100 initState
    let b ← mm_malloc 8 0 100 a.2
    mm_free 8 a.1 b.2) with
  | .ok s => s
  | .error _ => boot demoOracle

end Mm

namespace Mm
open Alloc

/-- The two states agree on everything but the memory and the free-list head. -/
def SameEnv (s s' : State) : Prop :=
  s'.unmaps = s.unmaps ∧ s'.regions = s.regions ∧ s'.page_head = s.page_head ∧
    s'.mapped = s.mapped ∧ s'.oracle = s.oracle ∧ s'.nmaps = s.nmaps

/-- State after `mm_init(); a = mm_malloc(1)` with `demoOracle` (`a = 1048624`). -/
def oneLiveState : State :=
  match mm_malloc 8 0 1 initState with
  | .ok r => r.2
  | .error _ => boot demoOracle

/-- State after `mm_free(1048624)` in `oneLiveState`. -/
def freedState : State :=
  match mm_free 8 1048624 oneLiveState with
  | .ok s => s
  | .error _ => boot demoOracle

end Mm

namespace Alloc
open Alloc

/-- Last element of `L`, or `d` when `L` is empty. -/
def lastD : List Nat → Nat → Nat
  | [], d => d
  | x :: xs, _ => lastD xs x

/-- `Seg m no po prv L nxt`: the nodes `L` are doubly linked in order, the first
having `prv` as its `prev` and the last having `nxt` as its `next`. -/
def Seg (m : Mem) (no po : Nat) : Nat → List Nat → Nat → Prop
  | _, [], _ => True
  | prv, x :: xs, nxt =>
    x ≠ 0 ∧ m (x + po) = some prv ∧ m (x + no) = some (xs.headD nxt) ∧ Seg m no po x xs nxt

end Alloc

namespace Mm
open Alloc

/-- Memory after the unlinking stores of `remove_from_list`: the `next` word of the
predecessor and the `prev` word of the successor. -/
def unlinkMem (m : Mem) (prv nxt : Nat) : Mem :=
  let m := if prv ≠ 0 then store m (prv + 8) nxt else m
  if nxt ≠ 0 then store m nxt prv else m

end Mm

namespace Alloc
open Alloc

/-- The nodes of a list are 16-byte aligned and their link words do not wrap. -/
def Aligned (L : List Nat) : Prop := ∀ y ∈ L, y % 16 = 0 ∧ y + 16 ≤ 18446744073709551616

end Alloc

namespace Alloc
open Alloc

instance decAligned (L : List Nat) : Decidable (Aligned L) := by
  unfold Aligned; infer_instance

end Alloc

namespace Sample
open Alloc

/-- `mm_init()` in a fresh process: the return value, the two list heads and the
growth multiplier afterwards. -/
def run_init : Except Err (List Nat) := do
  let r ← mm_init 8 (boot demoOracle)
  pure [r.1, r.2.free_list_head, r.2.chunk_list_head, r.2.new_chunk_size]

end Sample

namespace Sample
open Alloc

/-- Memory after the unlinking stores of `remove_from_free_list` and `remove_chunk`
(`next` at offset 0, `prev` at offset 8): the `next` word of the predecessor and the
`prev` word of the successor. -/
def unlinkS (m : Mem) (prv nxt : Nat) : Mem :=
  let m := if prv ≠ 0 then store m prv nxt else m
  if nxt ≠ 0 then store m (nxt + 8) prv else m

/-- Removing the head `1048624` of the free list `[1048624, 1048880]` of
`twoFreeState`: the `next` and `prev` words of the removed block afterwards. -/
def run_remove : Except Err (List (Option Nat)) := do
  let s ← remove_from_free_list 1048624 twoFreeState
  pure [s.mem 1048624, s.mem (1048624 + 8)]

end Sample

namespace Alloc
open Alloc

/-- Every word of the block with payload `ptr` and size `B` (header included) is
mapped. -/
def BlockMapped (m : Mem) (ptr B : Nat) : Prop := ∀ k, k < B / 8 → Mapped m (ptr - 8 + 8 * k)

instance decBlockMapped (m : Mem) (ptr B : Nat) : Decidable (BlockMapped m ptr B) := by
  unfold BlockMapped; infer_instance

end Alloc

namespace Alloc
open Alloc

/-- No word of the region `[b, b+Q)` is mapped. -/
def Unmapped (m : Mem) (b Q : Nat) : Prop := ∀ a, b ≤ a → a < b + Q → m a = none

end Alloc

namespace Mm
open Alloc

/-- The chunk whose page-list node is `c` is not eligible for unmapping: the block
that follows its first block is not the terminator (its size is not 16). The words
`unmap_page` reads for the chunk are mapped and the addresses do not wrap. -/
def NotEligible (m : Mem) (c : Nat) : Prop :=
  16 ≤ c ∧ c + 16 ≤ 18446744073709551616 ∧
    c + sizeAt m c + sizeAt m (c + sizeAt m c) < 18446744073709551616 ∧
    Mapped m (c - 16) ∧ Mapped m (c - 8) ∧ Mapped m (c + sizeAt m c - 8) ∧
    Mapped m (c + sizeAt m c + sizeAt m (c + sizeAt m c) - 8) ∧
    sizeAt m (c + sizeAt m c + sizeAt m (c + sizeAt m c)) ≠ 16

instance decNotEligible (m : Mem) (c : Nat) : Decidable (NotEligible m c) := by
  unfold NotEligible; infer_instance

end Mm

namespace Mm
open Alloc

end Mm

namespace Sample
open Alloc

/-- A block of a chunk: payload address, size, allocated flag. -/
abbrev Blk := Nat × Nat × Bool

/-- Header word of a block: its size with the allocated flag in bit 0. -/
def hdrWord (b : Blk) : Nat := b.2.1 + (if b.2.2 then 1 else 0)

/-- Sum of the sizes of the blocks. -/
def sumSizes : List Blk → Nat
  | [] => 0
  | b :: bs => b.2.1 + sumSizes bs

/-- `Tiles m p bs e`: the blocks `bs` tile the payload range from `p` to `e`: each
block starts where the previous one ends, has a size that is a multiple of 16 and at
least 32, a header word (8 bytes before the payload) holding the size and the
allocated flag, and a footer word (last 8 bytes of the block) holding the size. -/
def Tiles (m : Mem) : Nat → List Blk → Nat → Prop
  | p, [], e => p = e
  | p, b :: bs, e =>
    b.1 = p ∧ 32 ≤ b.2.1 ∧ b.2.1 % 16 = 0 ∧ m (p - 8) = some (hdrWord b) ∧
      m (p + b.2.1 - 16) = some b.2.1 ∧ Tiles m (p + b.2.1) bs e

instance decTiles (m : Mem) : ∀ (bs : List Blk) (p e : Nat), Decidable (Tiles m p bs e)
  | [], p, e => by unfold Tiles; infer_instance
  | b :: bs, p, e => by
    unfold Tiles
    have := decTiles m bs (p + b.2.1) e
    infer_instance

/-- A chunk mapped at `base` with `C` bytes, formatted as by `init_chunk` and tiled by
the blocks `bs`: prologue header 17 and footer 16, the blocks from `base+48` to
`base+C`, and the terminator word 1 in the last 8 bytes. -/
def ChunkOk (m : Mem) (base C : Nat) (bs : List Blk) : Prop :=
  base % 16 = 0 ∧ 16 ≤ base ∧ base + C < 18446744073709551616 ∧
    m (base + 24) = some 17 ∧ m (base + 32) = some 16 ∧
    Tiles m (base + 48) bs (base + C) ∧ m (base + C - 8) = some 1

instance decChunkOk (m : Mem) (base C : Nat) (bs : List Blk) :
    Decidable (ChunkOk m base C bs) := by
  unfold ChunkOk; infer_instance

end Sample

namespace Sample
open Alloc

/-- Every word of the chunk `[base, base+C)` is mapped. -/
def ChunkMapped (m : Mem) (base C : Nat) : Prop := ∀ k, k < C / 8 → Mapped m (base + 8 * k)

instance decChunkMapped (m : Mem) (base C : Nat) : Decidable (ChunkMapped m base C) := by
  unfold ChunkMapped; infer_instance

/-- Structure of the heap of `sample.c`: `cs` are the mapped chunks (base, size) in
chunk-list order and `B base` the blocks of the chunk at `base`:
* the chunk list links the nodes `base+8` of the chunks of `cs`;
* every chunk is well formed and entirely mapped;
* the chunks are pairwise disjoint;
* the regions mapped are exactly the chunks. -/
def Struct (s : State) (cs : List (Nat × Nat)) (B : Nat → List Blk) : Prop :=
  Chain s.mem 0 8 0 s.chunk_list_head (cs.map (fun c => c.1 + 8)) ∧
  (∀ c ∈ cs, ChunkOk s.mem c.1 c.2 (B c.1) ∧ ChunkMapped s.mem c.1 c.2) ∧
  cs.Pairwise (fun c d => c.1 + c.2 ≤ d.1 ∨ d.1 + d.2 ≤ c.1) ∧
  s.regions = cs

instance decStruct (s : State) (cs : List (Nat × Nat)) (B : Nat → List Blk) :
    Decidable (Struct s cs B) := by
  unfold Struct; infer_instance

/-- The heap structure together with a free list `fl` (in list order) that is a
well-formed doubly linked list without duplicates whose nodes are payload addresses
of blocks of the heap. -/
def Rep1 (s : State) (cs : List (Nat × Nat)) (B : Nat → List Blk) (fl : List Nat) : Prop :=
  Struct s cs B ∧ Chain s.mem 0 8 0 s.free_list_head fl ∧ fl.Nodup ∧
  (∀ p ∈ fl, ∃ c ∈ cs, ∃ b ∈ B c.1, b.1 = p)

instance decRep1 (s : State) (cs : List (Nat × Nat)) (B : Nat → List Blk) (fl : List Nat) :
    Decidable (Rep1 s cs B fl) := by
  unfold Rep1; infer_instance

/-- Representation invariant of the heap of `sample.c` (without the coalescing
property): the heap structure, the free list, and the members of the free list are
exactly the payload addresses of the blocks marked free. -/
def Rep0 (s : State) (cs : List (Nat × Nat)) (B : Nat → List Blk) (fl : List Nat) : Prop :=
  Rep1 s cs B fl ∧
  (∀ p ∈ fl, ∃ c ∈ cs, ∃ b ∈ B c.1, b.1 = p ∧ b.2.2 = false) ∧
  (∀ c ∈ cs, ∀ b ∈ B c.1, b.2.2 = false → b.1 ∈ fl)

instance decRep0 (s : State) (cs : List (Nat × Nat)) (B : Nat → List Blk) (fl : List Nat) :
    Decidable (Rep0 s cs B fl) := by
  unfold Rep0; infer_instance

/-- No two adjacent blocks are both free. -/
def NoAdjFree : List Blk → Prop
  | [] => True
  | [_] => True
  | b :: b' :: bs => ¬ (b.2.2 = false ∧ b'.2.2 = false) ∧ NoAdjFree (b' :: bs)

instance decNoAdjFree : ∀ (bs : List Blk), Decidable (NoAdjFree bs)
  | [] => by unfold NoAdjFree; infer_instance
  | [_] => by unfold NoAdjFree; infer_instance
  | b :: b' :: bs => by
    unfold NoAdjFree
    have := decNoAdjFree (b' :: bs)
    infer_instance

end Sample

namespace Sample
open Alloc

/-- The pointer `n` is `NULL` or the payload address of a block of size `zn` of the
heap. -/
def Nb (cs : List (Nat × Nat)) (B : Nat → List Blk) (n zn : Nat) : Prop :=
  n = 0 ∨ ∃ c ∈ cs, ∃ a, (n, zn, a) ∈ B c.1

end Sample

namespace Sample
open Alloc

/-- Memory after the stores of `add_to_free_list(x)` when the list had the head `h`. -/
def addS (m : Mem) (x h : Nat) : Mem :=
  store (if h ≠ 0 then store (store m x h) (h + 8) x else store m x 0) (x + 8) 0

end Sample

namespace Sample
open Alloc

/-- The two states agree on the globals other than the free-list head, and on the
page-mapping primitive. -/
def SameG (s s' : State) : Prop :=
  s'.chunk_list_head = s.chunk_list_head ∧ s'.regions = s.regions ∧
    s'.new_chunk_size = s.new_chunk_size ∧ s'.oracle = s.oracle ∧ s'.nmaps = s.nmaps ∧
    s'.unmaps = s.unmaps

end Sample

namespace Sample
open Alloc

/-- The first block of the list is marked free. -/
def headFree (l : List Blk) : Prop := ∃ b, l.head? = some b ∧ b.2.2 = false

/-- The last block of the list is marked free. -/
def lastFree (l : List Blk) : Prop := ∃ b, l.getLast? = some b ∧ b.2.2 = false

/-- Representation invariant of the heap of `sample.c`: the heap structure, the free
list holding exactly the blocks marked free, no two adjacent free blocks in a chunk,
and a chunk-size multiplier of at least one. -/
def Rep (s : State) (cs : List (Nat × Nat)) (B : Nat → List Blk) (fl : List Nat) : Prop :=
  Rep0 s cs B fl ∧ (∀ c ∈ cs, NoAdjFree (B c.1)) ∧ 1 ≤ s.new_chunk_size

instance decRep (s : State) (cs : List (Nat × Nat)) (B : Nat → List Blk) (fl : List Nat) :
    Decidable (Rep s cs B fl) := by
  unfold Rep; infer_instance

end Sample

namespace Sample
open Alloc

/-- The block with payload address `q` and size `z` is an allocated block of the
heap. -/
def Live (cs : List (Nat × Nat)) (B : Nat → List Blk) (q z : Nat) : Prop :=
  ∃ c ∈ cs, (q, z, true) ∈ B c.1

instance decLive (cs : List (Nat × Nat)) (B : Nat → List Blk) (q z : Nat) :
    Decidable (Live cs B q z) := by
  unfold Live; infer_instance

/-- Assumption on the page-mapping primitive for a request of `N` block bytes in the
state `s`: the next region it returns is not `NULL`, is page aligned, lies in the
address space (the chunk size does not overflow) and is disjoint from every region
currently mapped. -/
def FreshOk (s : State) (N : Nat) : Prop :=
  s.oracle s.nmaps ≠ 0 ∧ s.oracle s.nmaps % 4096 = 0 ∧
  s.oracle s.nmaps + s.new_chunk_size * PAGE_ALIGN (add64 (add64 N 48) 32)
    < 18446744073709551616 ∧
  ∀ d ∈ s.regions, d.1 + d.2 ≤ s.oracle s.nmaps ∨
    s.oracle s.nmaps + s.new_chunk_size * PAGE_ALIGN (add64 (add64 N 48) 32) ≤ d.1

instance decFreshOk (s : State) (N : Nat) : Decidable (FreshOk s N) := by
  unfold FreshOk; infer_instance

end Sample

namespace Sample
open Alloc

/-- States reachable from `mm_init` in a fresh process by `mm_malloc` and by `mm_free`
of live pointers, together with the live allocations (pointer, requested size), newest
first. The page-mapping primitive is assumed to answer requests with fresh,
page-aligned regions inside the address space (`FreshOk`), and the requested sizes are
at least 1 and at most `2^64 - 8192`. -/
inductive Reach (oracle : Nat → Nat) : State → List (Nat × Nat) → Prop
  | init (fuel : Nat) (s : State) (henv : FreshOk (boot oracle) 1)
      (h : mm_init fuel (boot oracle) = .ok (0, s)) : Reach oracle s []
  | malloc (s : State) (lv : List (Nat × Nat)) (fuel n p : Nat) (s' : State)
      (hr : Reach oracle s lv) (hn1 : 1 ≤ n) (hn2 : n + 8192 ≤ 18446744073709551616)
      (henv : find_free_block_ff fuel s.free_list_head (ALIGN (add64 n 16)) s = .ok 0 →
        FreshOk s (ALIGN (add64 n 16)))
      (h : mm_malloc fuel n s = .ok (p, s')) : Reach oracle s' ((p, n) :: lv)
  | free (s : State) (lv : List (Nat × Nat)) (fuel p n : Nat) (s' : State)
      (hr : Reach oracle s lv) (hp : (p, n) ∈ lv)
      (h : mm_free fuel p s = .ok s') :
      Reach oracle s' (lv.filter (fun e => decide (e.1 ≠ p)))

/-- Invariant of the reachable states: the representation invariant holds and the live
allocations are exactly the allocated blocks of the heap. -/
def Inv (s : State) (lv : List (Nat × Nat)) : Prop :=
  ∃ cs B fl, Rep s cs B fl ∧ (lv.map Prod.fst).Nodup ∧
    (∀ e ∈ lv, Live cs B e.1 (ALIGN (add64 e.2 16)) ∧ 1 ≤ e.2 ∧
      e.2 + 8192 ≤ 18446744073709551616) ∧
    (∀ q z, Live cs B q z → ∃ e ∈ lv, e.1 = q)

end Sample

namespace Sample
open Alloc

/-- State after `mm_init(); a = mm_malloc(100)` with `demoOracle` (`a = 1048624`). -/
def liveOne : State :=
  match mm_malloc 8 100 initState with
  | .ok r => r.2
  | .error _ => initState

/-- State after `mm_init(); a = mm_malloc(100); b = mm_malloc(100)` with `demoOracle`
(`a = 1048624`, `b = 1048752`). -/
def liveTwo : State :=
  match mm_malloc 8 100 liveOne with
  | .ok r => r.2
  | .error _ => liveOne

/-- `mm_init(); a = mm_malloc(2^64-32)`: the pointer `a`, its header word, the head of
the free list, and the words at `base+24` and `base+32` (header and footer of the
prologue of the chunk mapped at `base = 1048576`). -/
def run_huge_list :
    Except Err (Nat × Option Nat × Nat × Option Nat × Option Nat × Option Nat) := do
  let r ← mm_init 8 (boot demoOracle)
  let a ← mm_malloc 8 (W - 32) r.2
  pure (a.1, a.2.mem (a.1 - 8), a.2.free_list_head, a.2.mem a.2.free_list_head,
    a.2.mem (1048576 + 24), a.2.mem (1048576 + 32))

end Sample

namespace Sample
open Alloc

/-- A page-mapping primitive that places each new region 4096 bytes behind the
previous one, so that the second chunk starts right where the first chunk ends. -/
def packedOracle (i : Nat) : Nat := 1048576 + 4096 * i

/-- `mm_init(); a = mm_malloc(100); q = mm_malloc(2^64-64); mm_free(a)` with the second
chunk mapped right behind the first: the two pointers, the regions mapped before the
`mm_free`, the header word of `q` before the `mm_free`, and the calls of `mem_unmap`. -/
def run_unmap_length :
    Except Err (Nat × Nat × List (Nat × Nat) × Option Nat × List (Nat × Nat)) := do
  let r ← mm_init 8 (boot packedOracle)
  let a ← mm_malloc 8 100 r.2
  let q ← mm_malloc 8 (W - 64) a.2
  let s ← mm_free 8 a.1 q.2
  pure (a.1, q.1, q.2.regions, q.2.mem (q.1 - 8), s.unmaps)

end Sample

namespace Sample
open Alloc

/-- State after `mm_init(); a = mm_malloc(2^64-32)` with `demoOracle`
(`a = 1048624`). -/
def hugeState : State :=
  match mm_malloc 8 (W - 32) initState with
  | .ok r => r.2
  | .error _ => initState

/-- State after `mm_free(1048624)` in `liveOne`: the only chunk has been released. -/
def emptiedState : State :=
  match mm_free 8 1048624 liveOne with
  | .ok s => s
  | .error _ => liveOne

end Sample

/-! ## Theorems -/

namespace Sample
open Alloc

/-- C1, counterexample: after `mm_init`, `a = mm_malloc(2^64-32)` and
`b = mm_malloc(17)` both succeed, and the byte at address `a` lies in the payload
range of `a` and in the payload range `[b, b+17)` of `b`. -/
theorem C1_counterexample :
    run_huge_then_small = .ok (1048624, 1048608) ∧
      1048608 ≤ 1048624 ∧ 1048624 < 1048608 + 17 := by
  decide

/-- C2, counterexample: in the well-formed heap left by `mm_init`,
`mm_malloc(2^64-32)` returns a pointer whose header word is `0`: it is not marked
allocated and its size is below `ALIGN(n+16) = 2^64-16`. -/
theorem C2_counterexample :
    run_huge = .ok (1048624, some 0) ∧ ALIGN (add64 (W - 32) 16) = W - 16 := by
  decide

/-- C6: `mm_malloc(0)` needs `ALIGN(0+16) = 16 < 32` bytes; carving a 16-byte block
puts its footer and the header of the remainder on the two list pointers of the
block, and the call faults in `remove_from_free_list`. -/
theorem C6_malloc_zero_faults :
    ALIGN (add64 0 16) = 16 ∧ run_malloc_zero = .error .segv := by
  decide

/-- C7, counterexample: `mm_free(a)` releases the chunk of `a` to `mem_unmap`; a
second `mm_free(a)` then reads the unmapped header and faults. -/
theorem C7_counterexample :
    run_alloc_free.map (fun r => (r.1, r.2.unmaps)) = .ok (1048624, [(1048576, 4096)]) ∧
      run_double_free = .error .segv := by
  decide

/-- C9, counterexample of the general part: after `a = mm_malloc(4032)` the block
of `a` lies between the prologue (footer 16) and the terminator (header 1), so
`mm_free(a)` merges with no neighbour; it releases the chunk, and the next
`mm_malloc(4032)`, whose needed size 4048 equals the size of `a`, returns a
pointer different from `a`. -/
theorem C9_counterexample :
    run_whole_chunk =
      .ok (1048624, 2097200, [some 4049, some 16, some 1], [(1048576, 4096)]) ∧
      ALIGN (add64 4032 16) = 4048 := by
  decide

/-- C10, counterexample: for `n = 1320` three blocks of `ALIGN(n+16) = 1344` bytes
fit in the 4048 bytes of the first chunk, yet the third allocation is served from
a second chunk (mapped at 2097152), so the last `mm_free` cannot merge all three
blocks. -/
theorem C10_counterexample :
    3 * ALIGN (add64 1320 16) ≤ 4096 - 48 ∧
      run_three_summary 1320 =
        .ok ([1048624, 1049968, 2097200], [(2097152, 8192), (1048576, 4096)], [0, 0]) := by
  decide

/-- C13: when no free block fits and `mem_map` returns `NULL`, `mm_malloc` does not
return `NULL`: `init_chunk` tests `mem_map(..) + 8` against `NULL` and goes on to
store through the pointer `8`, which faults. -/
theorem C13_map_failure_faults : run_map_fails = .error .segv := by
  decide

/-- C16, counterexample: the free list holds one block of 48 bytes, which is at
least the target 32, and `find_free_block_ff(32)` returns `NULL`. -/
theorem C16_counterexample : run_first_fit = .ok (1052624, some 48, 0) := by
  decide

/-- C20, counterexample: `init_chunk(5024)` called with a non-empty chunk list and
free list maps `[2097152, 2097152+16384)` and also stores outside that region: the
`prev` word of the old chunk-list head and of the old free-list head change from
`NULL` to the new nodes. -/
theorem C20_counterexample :
    run_init_chunk =
      .ok (2097200, [(2097152, 16384), (1048576, 4096)], [some 0, some 0],
        [some 2097160, some 2097200]) := by
  decide

end Sample

namespace Mm
open Alloc

/-- C4: `q = mm_malloc(24496)` takes the whole free block of its chunk; the later
`mm_free(p)` of another live pointer unmaps the chunk of `q`, so the header word
of the live allocation `q` changes from `24513` to unmapped. -/
theorem C4_live_block_lost :
    run_live_unmapped.map (fun r => (r.1, r.2.1, r.2.2.1, r.2.2.2.1, r.2.2.2.2.1)) =
      .ok (1048624, 2097200, some 24513, some 24513, none) := by
  decide

/-- C5: in the same run, `unmap_page` (called by `mm_free(p)`) passes the chunk
mapped at 1048576 to `mem_unmap` while the block of `q` inside it is marked
allocated (header word `24513`). -/
theorem C5_unmaps_live_chunk :
    run_live_unmapped.map (fun r => (r.1, r.2.2.1, r.2.2.2.2.2)) =
      .ok (1048624, some 24513, [(1048576, 24576)]) ∧ allocBit 24513 = 1 := by
  decide

/-- C17, counterexample: for `n = 24464` the chosen block has `B = 24512` and
`needed = 24480`, so `B - needed = 32` is the minimum free-block size, yet the whole
block is allocated (header word `24513`) and nothing is put in the free list. -/
theorem C17_counterexample : run_malloc 24464 = .ok (1048624, some 24513, 0, 24480) := by
  decide

/-- C19, counterexample: in the state left by `mm_init`, `extend(24528)` formats a
free block of 24512 bytes, smaller than 24528, and the retried `get_first(24528)`
returns `NULL`. -/
theorem C19_counterexample : run_extend = .ok (0, some 24512) := by
  decide

end Mm

/-! ### Arithmetic and memory lemmas -/

namespace Alloc

theorem add64_eq {a b : Nat} (h : a + b < 18446744073709551616) : add64 a b = a + b := by
  unfold add64 W; exact Nat.mod_eq_of_lt h

theorem sub64_eq {a b : Nat} (h : b ≤ a) (ha : a < 18446744073709551616) :
    sub64 a b = a - b := by
  unfold sub64 W; omega

theorem mul64_eq {a b : Nat} (h : a * b < 18446744073709551616) : mul64 a b = a * b := by
  unfold mul64 W; exact Nat.mod_eq_of_lt h

theorem ALIGN_eq (x : Nat) (h : x + 15 < 18446744073709551616) :
    ALIGN x = (x + 15) / 16 * 16 := by
  unfold ALIGN
  rw [add64_eq h]

theorem PAGE_ALIGN_eq (x : Nat) (h : x + 4095 < 18446744073709551616) :
    PAGE_ALIGN x = (x + 4095) / 4096 * 4096 := by
  unfold PAGE_ALIGN mem_pagesize
  rw [add64_eq (by omega)]

@[simp] theorem store_same (m : Mem) (p v : Nat) : store m p v p = some v := by
  simp [store]

theorem store_other (m : Mem) (p v a : Nat) (h : a ≠ p) : store m p v a = m a := by
  simp [store, h]

theorem mapRegion_in (m : Mem) (base len a : Nat) (h1 : base ≤ a) (h2 : a < base + len)
    (h3 : a % 8 = 0) : mapRegion m base len a = some 0 := by
  simp [mapRegion, h1, h2, h3]

theorem mapRegion_out (m : Mem) (base len a : Nat) (h : a < base ∨ base + len ≤ a) :
    mapRegion m base len a = m a := by
  unfold mapRegion
  rw [if_neg]
  omega

theorem Mapped_of_eq {m : Mem} {a v : Nat} (h : m a = some v) : Mapped m a := by
  unfold Mapped; rw [h]; rfl

theorem Mapped_store (m : Mem) (p v a : Nat) (h : Mapped m a) : Mapped (store m p v) a := by
  unfold Mapped store at *; split <;> simp [h]

theorem Mapped_store_same (m : Mem) (p v : Nat) : Mapped (store m p v) p := by
  unfold Mapped store; simp

theorem Mapped_mapRegion (m : Mem) (base len a : Nat) (h1 : base ≤ a) (h2 : a < base + len)
    (h3 : a % 8 = 0) : Mapped (mapRegion m base len) a := by
  unfold Mapped; rw [mapRegion_in _ _ _ _ h1 h2 h3]; rfl

theorem Mapped_mapRegion_old (m : Mem) (base len a : Nat) (h : Mapped m a) :
    Mapped (mapRegion m base len) a := by
  unfold Mapped mapRegion at *; split <;> simp [h]

@[simp] theorem ok_bind {ε α β : Type} (a : α) (f : α → Except ε β) :
    (Except.ok a >>= f) = f a := rfl

@[simp] theorem error_bind {ε α β : Type} (e : ε) (f : α → Except ε β) :
    (Except.error e >>= f) = Except.error e := rfl

@[simp] theorem pure_eq_ok {ε α : Type} (a : α) : (pure a : Except ε α) = Except.ok a := rfl

end Alloc

namespace Sample
open Alloc

theorem PUT_eq (s : State) (p v : Nat) (h : Mapped s.mem p) :
    PUT s p v = .ok { s with mem := store s.mem p v } := by
  unfold Mapped at h
  unfold PUT
  cases hm : s.mem p with
  | none => rw [hm] at h; cases h
  | some w => rfl

theorem GET_eq (s : State) (p v : Nat) (h : s.mem p = some v) : GET s p = .ok v := by
  simp [GET, load, h]

theorem add_to_free_list_nil (s : State) (ptr : Nat)
    (h1 : Mapped s.mem ptr) (h2 : Mapped s.mem (ptr + 8))
    (h0 : s.free_list_head = 0)
    (hw1 : ptr + 8 < 18446744073709551616) :
    add_to_free_list ptr s = .ok { s with
      free_list_head := ptr
      mem := store (store s.mem ptr 0) (ptr + 8) 0 } := by
  unfold add_to_free_list
  simp (disch := first | assumption | omega |
      (repeat (first | assumption | exact Mapped_store_same _ _ _ | apply Mapped_store)))
    only [PUT_eq, h0, ne_eq, not_true_eq_false, if_false, pure_eq_ok, ok_bind, add64_eq]

theorem add_to_free_list_cons (s : State) (ptr : Nat)
    (h1 : Mapped s.mem ptr) (h2 : Mapped s.mem (ptr + 8))
    (h0 : s.free_list_head ≠ 0) (h3 : Mapped s.mem (s.free_list_head + 8))
    (hw1 : ptr + 8 < 18446744073709551616)
    (hw2 : s.free_list_head + 8 < 18446744073709551616) :
    add_to_free_list ptr s = .ok { s with
      free_list_head := ptr
      mem := store (store (store s.mem ptr s.free_list_head) (s.free_list_head + 8) ptr)
        (ptr + 8) 0 } := by
  unfold add_to_free_list
  simp (disch := first | assumption | omega |
      (repeat (first | assumption | exact Mapped_store_same _ _ _ | apply Mapped_store)))
    only [PUT_eq, h0, ne_eq, not_false_eq_true, if_true, pure_eq_ok, ok_bind, add64_eq]

end Sample

namespace Sample
open Alloc

/-- Result of `init_chunk` when `mem_map` answers `base` for the `C` bytes
requested. -/
theorem init_chunk_eq (s : State) (sz : Nat) (C base : Nat)
    (hC : mul64 s.new_chunk_size (PAGE_ALIGN (add64 (add64 sz 48) 32)) = C)
    (hC1 : 64 ≤ C) (hC8 : C % 8 = 0)
    (hb : s.oracle s.nmaps = base) (hb0 : base ≠ 0) (hb8 : base % 8 = 0)
    (hbW : base + C ≤ 18446744073709551616)
    (hcl : s.chunk_list_head ≠ 0 → Mapped s.mem (s.chunk_list_head + 8))
    (hclW : s.chunk_list_head + 8 < 18446744073709551616)
    (hfl : s.free_list_head ≠ 0 → Mapped s.mem (s.free_list_head + 8))
    (hflW : s.free_list_head + 8 < 18446744073709551616) :
    init_chunk sz s = .ok (base + 48, { s with
      new_chunk_size := s.new_chunk_size + 1
      nmaps := s.nmaps + 1
      regions := (base, C) :: s.regions
      chunk_list_head := base + 8
      free_list_head := base + 48
      mem := initMem s.mem base C s.chunk_list_head s.free_list_head }) := by
  have M : ∀ a, (base ≤ a ∧ a < base + C ∧ a % 8 = 0) → Mapped (mapRegion s.mem base C) a :=
    fun a h => Mapped_mapRegion _ _ _ _ h.1 h.2.1 h.2.2
  have e1 : sub64 (base + C - 8) 8 = base + C - 16 := by
    unfold sub64 W; omega
  have e2 : sub64 (add64 (base + 40) C) 48 = base + C - 8 := by
    unfold sub64 add64 W; omega
  have e3 : sub64 C 48 = C - 48 := sub64_eq (by omega) (by omega)
  have a1 : add64 base 8 = base + 8 := add64_eq (by omega)
  have a2 : add64 (base + 8) 8 = base + 16 := add64_eq (by omega)
  have a3 : add64 (base + 8) 16 = base + 24 := add64_eq (by omega)
  have a4 : add64 (base + 24) 8 = base + 32 := add64_eq (by omega)
  have a5 : add64 (base + 24) 16 = base + 40 := add64_eq (by omega)
  have a6 : add64 (base + 40) 8 = base + 48 := add64_eq (by omega)
  have a7 : add64 s.chunk_list_head 8 = s.chunk_list_head + 8 := add64_eq (by omega)
  unfold init_chunk initMem
  simp only [mem_map, hC, hb, hb0, if_false, a1, a2, a3, a4, a5, a6, a7, e1, e2, e3]
  rw [if_neg (by omega)]
  by_cases h1 : s.chunk_list_head = 0 <;> by_cases h2 : s.free_list_head = 0
  · simp only [h1, h2, ne_eq, not_true_eq_false, if_false, pure_eq_ok, ok_bind]
    repeat
      rw [PUT_eq _ _ _ (by with_reducible ((try dsimp only); (iterate 16 (try apply Mapped_store)); first | assumption | (apply M; omega) | (apply Mapped_mapRegion_old; assumption)))]
      simp only [ok_bind, h1, not_true_eq_false, if_false]
    rw [add_to_free_list_nil _ (base + 48)]
    · simp only [ok_bind, Nat.add_assoc, Nat.reduceAdd]
    all_goals first | rfl | (with_reducible ((try dsimp only); (iterate 16 (try apply Mapped_store)); first | assumption | (apply M; omega) | (apply Mapped_mapRegion_old; assumption))) | exact h2 | omega | (dsimp only; omega)
  · have h2m := hfl h2
    simp only [h1, h2, ne_eq, not_true_eq_false, not_false_eq_true, if_true, if_false,
      pure_eq_ok, ok_bind]
    repeat
      rw [PUT_eq _ _ _ (by with_reducible ((try dsimp only); (iterate 16 (try apply Mapped_store)); first | assumption | (apply M; omega) | (apply Mapped_mapRegion_old; assumption)))]
      simp only [ok_bind, h1, not_true_eq_false, if_false]
    rw [add_to_free_list_cons _ (base + 48)]
    · simp only [ok_bind, Nat.add_assoc, Nat.reduceAdd]
    all_goals first | rfl | (with_reducible ((try dsimp only); (iterate 16 (try apply Mapped_store)); first | assumption | (apply M; omega) | (apply Mapped_mapRegion_old; assumption))) | exact h2 | omega | (dsimp only; omega)
  · have h1m := hcl h1
    simp only [h1, h2, ne_eq, not_true_eq_false, not_false_eq_true, if_true, if_false,
      pure_eq_ok, ok_bind]
    repeat
      rw [PUT_eq _ _ _ (by with_reducible ((try dsimp only); (iterate 16 (try apply Mapped_store)); first | assumption | (apply M; omega) | (apply Mapped_mapRegion_old; assumption)))]
      simp only [ok_bind, h1, not_false_eq_true, if_true, a7]
    rw [add_to_free_list_nil _ (base + 48)]
    · simp only [ok_bind, Nat.add_assoc, Nat.reduceAdd]
    all_goals first | rfl | (with_reducible ((try dsimp only); (iterate 16 (try apply Mapped_store)); first | assumption | (apply M; omega) | (apply Mapped_mapRegion_old; assumption))) | exact h2 | omega | (dsimp only; omega)
  · have h1m := hcl h1
    have h2m := hfl h2
    simp only [h1, h2, ne_eq, not_true_eq_false, not_false_eq_true, if_true, if_false,
      pure_eq_ok, ok_bind]
    repeat
      rw [PUT_eq _ _ _ (by with_reducible ((try dsimp only); (iterate 16 (try apply Mapped_store)); first | assumption | (apply M; omega) | (apply Mapped_mapRegion_old; assumption)))]
      simp only [ok_bind, h1, not_false_eq_true, if_true, a7]
    rw [add_to_free_list_cons _ (base + 48)]
    · simp only [ok_bind, Nat.add_assoc, Nat.reduceAdd]
    all_goals first | rfl | (with_reducible ((try dsimp only); (iterate 16 (try apply Mapped_store)); first | assumption | (apply M; omega) | (apply Mapped_mapRegion_old; assumption))) | exact h2 | omega | (dsimp only; omega)

end Sample

namespace Sample
open Alloc

theorem initMem_read (m : Mem) (base C clh flh : Nat) (hC1 : 80 ≤ C) (hC8 : C % 8 = 0)
    (hb8 : base % 8 = 0)
    (hclo : clh ≠ 0 → clh + 8 < base ∨ base + C ≤ clh + 8)
    (hflo : flh ≠ 0 → flh + 8 < base ∨ base + C ≤ flh + 8) :
    initMem m base C clh flh (base + 8) = some clh ∧
    initMem m base C clh flh (base + 16) = some 0 ∧
    initMem m base C clh flh (base + 24) = some 17 ∧
    initMem m base C clh flh (base + 32) = some 16 ∧
    initMem m base C clh flh (base + 40) = some (C - 48) ∧
    initMem m base C clh flh (base + C - 16) = some (C - 48) ∧
    initMem m base C clh flh (base + C - 8) = some 1 ∧
    initMem m base C clh flh (base + 48) = some flh ∧
    initMem m base C clh flh (base + 56) = some 0 ∧
    (∀ a, (a < base ∨ base + C ≤ a) → a ≠ clh + 8 → a ≠ flh + 8 →
      initMem m base C clh flh a = m a) := by
  unfold initMem
  by_cases h1 : clh = 0 <;> by_cases h2 : flh = 0
  all_goals
    first | have h1o := hclo h1 | skip
    first | have h2o := hflo h2 | skip
    simp only [h1, h2, ne_eq, not_true_eq_false, not_false_eq_true, if_true, if_false]
    refine ⟨?_, ?_, ?_, ?_, ?_, ?_, ?_, ?_, ?_, ?_⟩
    all_goals
      try intro a ha h1 h2
      simp (disch := omega) only [store_same, store_other, mapRegion_out]

end Sample

namespace Sample
open Alloc

theorem chunk_size_facts (k sz C : Nat) (hov : sz + 48 + 32 + 4095 < 18446744073709551616)
    (hC : C = k * PAGE_ALIGN (sz + 48 + 32)) (hCW : C < 18446744073709551616) (hk : 1 ≤ k) :
    mul64 k (PAGE_ALIGN (add64 (add64 sz 48) 32)) = C ∧ sz + 80 ≤ C ∧ 4096 ≤ C ∧ C % 16 = 0 := by
  have hP : PAGE_ALIGN (sz + 48 + 32) = (sz + 48 + 32 + 4095) / 4096 * 4096 :=
    PAGE_ALIGN_eq _ hov
  have hP1 : sz + 80 ≤ PAGE_ALIGN (sz + 48 + 32) := by rw [hP]; omega
  have hP2 : 4096 ≤ PAGE_ALIGN (sz + 48 + 32) := by rw [hP]; omega
  have hle : PAGE_ALIGN (sz + 48 + 32) ≤ C := by
    rw [hC]; exact Nat.le_mul_of_pos_left _ hk
  have h16 : C % 16 = 0 := by
    rw [hC, hP]
    have : (sz + 48 + 32 + 4095) / 4096 * 4096 = 16 * ((sz + 48 + 32 + 4095) / 4096 * 256) := by
      omega
    rw [this, ← Nat.mul_assoc, Nat.mul_comm k 16, Nat.mul_assoc]
    exact Nat.mul_mod_right _ _
  refine ⟨?_, by omega, by omega, h16⟩
  have e1 : add64 sz 48 = sz + 48 := add64_eq (by omega)
  have e2 : add64 (sz + 48) 32 = sz + 48 + 32 := add64_eq (by omega)
  rw [e1, e2, mul64_eq (by rw [← hC]; exact hCW), hC]

/-- Layout written by `init_chunk` (shared by C18 and C20). -/
theorem init_chunk_layout (s : State) (sz C base : Nat)
    (hov : sz + 48 + 32 + 4095 < 18446744073709551616)
    (hC : C = s.new_chunk_size * PAGE_ALIGN (sz + 48 + 32))
    (hCW : C < 18446744073709551616)
    (hk : 1 ≤ s.new_chunk_size)
    (hb : s.oracle s.nmaps = base) (hb0 : base ≠ 0) (hb8 : base % 8 = 0)
    (hbW : base + C ≤ 18446744073709551616)
    (hcl : s.chunk_list_head ≠ 0 → Mapped s.mem (s.chunk_list_head + 8) ∧
      (s.chunk_list_head + 8 < base ∨ base + C ≤ s.chunk_list_head + 8) ∧
      s.chunk_list_head + 8 < 18446744073709551616)
    (hfl : s.free_list_head ≠ 0 → Mapped s.mem (s.free_list_head + 8) ∧
      (s.free_list_head + 8 < base ∨ base + C ≤ s.free_list_head + 8) ∧
      s.free_list_head + 8 < 18446744073709551616) :
    ∃ s', init_chunk sz s = .ok (base + 48, s') ∧
      s'.regions = (base, C) :: s.regions ∧ s'.nmaps = s.nmaps + 1 ∧
      s'.new_chunk_size = s.new_chunk_size + 1 ∧
      s'.mem (base + 24) = some 17 ∧ s'.mem (base + 32) = some 16 ∧
      s'.mem (base + 40) = some (C - 48) ∧ s'.mem (base + C - 16) = some (C - 48) ∧
      s'.mem (base + C - 8) = some 1 ∧
      s'.chunk_list_head = base + 8 ∧ s'.free_list_head = base + 48 ∧
      (∀ a, (a < base ∨ base + C ≤ a) → a ≠ s.chunk_list_head + 8 →
        a ≠ s.free_list_head + 8 → s'.mem a = s.mem a) := by
  obtain ⟨e, h80, h4096, h16⟩ := chunk_size_facts _ sz C hov hC hCW hk
  have hclW : s.chunk_list_head + 8 < 18446744073709551616 := by
    by_cases h : s.chunk_list_head = 0
    · rw [h]; decide
    · exact (hcl h).2.2
  have hflW : s.free_list_head + 8 < 18446744073709551616 := by
    by_cases h : s.free_list_head = 0
    · rw [h]; decide
    · exact (hfl h).2.2
  have R := initMem_read s.mem base C s.chunk_list_head s.free_list_head (by omega) (by omega)
    hb8 (fun h => (hcl h).2.1) (fun h => (hfl h).2.1)
  refine ⟨_, init_chunk_eq s sz C base e (by omega) (by omega) hb hb0 hb8 hbW
    (fun h => (hcl h).1) hclW (fun h => (hfl h).1) hflW, rfl, rfl, rfl, ?_⟩
  exact ⟨R.2.2.1, R.2.2.2.1, R.2.2.2.2.1, R.2.2.2.2.2.1, R.2.2.2.2.2.2.1, rfl, rfl,
    R.2.2.2.2.2.2.2.2.2⟩

/-- C20 (amended): `init_chunk(sz)` with multiplier `k = new_chunk_size` requests
exactly `C = k * PAGE_ALIGN(sz + 48 + 32)` bytes from `mem_map` and increments
`new_chunk_size` by 1; with `base` the mapped address it writes the prologue header
17 at `base+24` and footer 16 at `base+32`, one free block whose header (`base+40`)
and footer (`base+C-16`) both hold `C-48`, and the terminator word 1 at `base+C-8`;
it makes `base+8` the chunk-list head and `base+48` the free-list head and returns
`base+48`. Outside `[base, base+C)` it writes only the `prev` word of the previous
chunk-list head and of the previous free-list head (when those lists are not
empty). -/
theorem C20_init_chunk_layout (s : State) (sz C base : Nat)
    (hov : sz + 48 + 32 + 4095 < 18446744073709551616)
    (hC : C = s.new_chunk_size * PAGE_ALIGN (sz + 48 + 32))
    (hCW : C < 18446744073709551616)
    (hk : 1 ≤ s.new_chunk_size)
    (hb : s.oracle s.nmaps = base) (hb0 : base ≠ 0) (hb8 : base % 8 = 0)
    (hbW : base + C ≤ 18446744073709551616)
    (hcl : s.chunk_list_head ≠ 0 → Mapped s.mem (s.chunk_list_head + 8) ∧
      (s.chunk_list_head + 8 < base ∨ base + C ≤ s.chunk_list_head + 8) ∧
      s.chunk_list_head + 8 < 18446744073709551616)
    (hfl : s.free_list_head ≠ 0 → Mapped s.mem (s.free_list_head + 8) ∧
      (s.free_list_head + 8 < base ∨ base + C ≤ s.free_list_head + 8) ∧
      s.free_list_head + 8 < 18446744073709551616) :
    ∃ s', init_chunk sz s = .ok (base + 48, s') ∧
      s'.regions = (base, C) :: s.regions ∧ s'.nmaps = s.nmaps + 1 ∧
      s'.new_chunk_size = s.new_chunk_size + 1 ∧
      s'.mem (base + 24) = some 17 ∧ s'.mem (base + 32) = some 16 ∧
      s'.mem (base + 40) = some (C - 48) ∧ s'.mem (base + C - 16) = some (C - 48) ∧
      s'.mem (base + C - 8) = some 1 ∧
      s'.chunk_list_head = base + 8 ∧ s'.free_list_head = base + 48 ∧
      (∀ a, (a < base ∨ base + C ≤ a) → a ≠ s.chunk_list_head + 8 →
        a ≠ s.free_list_head + 8 → s'.mem a = s.mem a) :=
  init_chunk_layout s sz C base hov hC hCW hk hb hb0 hb8 hbW hcl hfl

/-- Witness of C20 (amended): `init_chunk(5024)` in the state left by `mm_init`. -/
theorem C20_witness :
    ∃ s', init_chunk 5024 initState = .ok (2097152 + 48, s') ∧
      s'.regions = (2097152, 16384) :: initState.regions ∧ s'.nmaps = initState.nmaps + 1 ∧
      s'.new_chunk_size = initState.new_chunk_size + 1 ∧
      s'.mem (2097152 + 24) = some 17 ∧ s'.mem (2097152 + 32) = some 16 ∧
      s'.mem (2097152 + 40) = some (16384 - 48) ∧
      s'.mem (2097152 + 16384 - 16) = some (16384 - 48) ∧
      s'.mem (2097152 + 16384 - 8) = some 1 ∧
      s'.chunk_list_head = 2097152 + 8 ∧ s'.free_list_head = 2097152 + 48 ∧
      (∀ a, (a < 2097152 ∨ 2097152 + 16384 ≤ a) → a ≠ initState.chunk_list_head + 8 →
        a ≠ initState.free_list_head + 8 → s'.mem a = initState.mem a) :=
  C20_init_chunk_layout initState 5024 16384 2097152 (by decide) (by decide) (by decide)
    (by decide) (by decide) (by decide) (by decide) (by decide) (by decide) (by decide)


end Sample

namespace Sample
open Alloc

theorem sizeBits_of_dvd (v : Nat) (h : v % 16 = 0) : sizeBits v = v := by
  unfold sizeBits; omega

/-- Sizing of a fresh chunk: for every needed size `sz` that is a multiple of 16 and every multiplier
`new_chunk_size >= 1` (no overflow), the free block formatted by `init_chunk(sz)`
has size `F >= sz + 32`; hence `find_free_block_ff(sz)` started at that block
returns it, and in `alloc_block` the sizes differ (`sz ≠ F`, the split branch) and
the remainder `block_size - size` it formats is at least 32 bytes. -/
theorem fresh_chunk_fits (fuel : Nat) (s : State) (sz C base : Nat)
    (hsz : sz % 16 = 0)
    (hov : sz + 48 + 32 + 4095 < 18446744073709551616)
    (hC : C = s.new_chunk_size * PAGE_ALIGN (sz + 48 + 32))
    (hCW : C < 18446744073709551616)
    (hk : 1 ≤ s.new_chunk_size)
    (hb : s.oracle s.nmaps = base) (hb0 : base ≠ 0) (hb8 : base % 8 = 0)
    (hbW : base + C ≤ 18446744073709551616)
    (hcl : s.chunk_list_head ≠ 0 → Mapped s.mem (s.chunk_list_head + 8) ∧
      (s.chunk_list_head + 8 < base ∨ base + C ≤ s.chunk_list_head + 8) ∧
      s.chunk_list_head + 8 < 18446744073709551616)
    (hfl : s.free_list_head ≠ 0 → Mapped s.mem (s.free_list_head + 8) ∧
      (s.free_list_head + 8 < base ∨ base + C ≤ s.free_list_head + 8) ∧
      s.free_list_head + 8 < 18446744073709551616) :
    ∃ s' F, init_chunk sz s = .ok (base + 48, s') ∧
      GET_SIZE s' (HEADER (base + 48)) = .ok F ∧ sz + 32 ≤ F ∧
      find_free_block_ff (fuel + 1) (base + 48) sz s' = .ok (base + 48) ∧
      sz ≠ F ∧ 32 ≤ sub64 F sz := by
  obtain ⟨s', h1, -, -, -, -, -, h40, -⟩ :=
    init_chunk_layout s sz C base hov hC hCW hk hb hb0 hb8 hbW hcl hfl
  obtain ⟨e, h80, h4096, h16⟩ := chunk_size_facts _ sz C hov hC hCW hk
  have hH : HEADER (base + 48) = base + 40 := by
    unfold HEADER; rw [sub64_eq (by omega) (by omega)]; omega
  have hG : GET_SIZE s' (HEADER (base + 48)) = .ok (C - 48) := by
    unfold GET_SIZE; rw [hH, GET_eq _ _ _ h40]
    simp only [ok_bind, pure_eq_ok]
    rw [sizeBits_of_dvd _ (by omega)]
  refine ⟨s', C - 48, h1, hG, by omega, ?_, by omega, ?_⟩
  · unfold find_free_block_ff
    rw [if_neg (by omega), hG]
    simp only [ok_bind, pure_eq_ok]
    rw [add64_eq (by omega), if_pos (Or.inr (by omega))]
  · rw [sub64_eq (by omega) (by omega)]; omega


/-- Example: `init_chunk(5024)` in the state left by `mm_init`. -/
theorem fresh_chunk_fits_example :
    ∃ s' F, init_chunk 5024 initState = .ok (2097152 + 48, s') ∧
      GET_SIZE s' (HEADER (2097152 + 48)) = .ok F ∧ 5024 + 32 ≤ F ∧
      find_free_block_ff (0 + 1) (2097152 + 48) 5024 s' = .ok (2097152 + 48) ∧
      5024 ≠ F ∧ 32 ≤ sub64 F 5024 :=
  fresh_chunk_fits 0 initState 5024 16384 2097152 (by decide) (by decide) (by decide)
    (by decide) (by decide) (by decide) (by decide) (by decide) (by decide) (by decide)
    (by decide)

end Sample

/-! ### mm.c: `extend` -/

namespace Mm
open Alloc

theorem PUT_mm (s : State) (p v : Nat) (h : Mapped s.mem p) :
    PUT s p v = .ok { s with mem := store s.mem p v } := by
  unfold Mapped at h
  unfold PUT
  cases hm : s.mem p with
  | none => rw [hm] at h; cases h
  | some w => rfl

theorem GET_mm (s : State) (p v : Nat) (h : s.mem p = some v) : GET s p = .ok v := by
  simp [GET, load, h]

/-- `set_allocated(b, v)` when the size field of `v` is `z`: header at `b`, footer at
`b + z - 8`. -/
theorem set_allocated_eq (s : State) (b v z : Nat) (hz : sizeBits v = z)
    (h1 : Mapped s.mem b) (h2 : Mapped s.mem (b + z - 8)) (hz8 : 16 ≤ z)
    (hW : b + z ≤ 18446744073709551616) :
    set_allocated b v s = .ok { s with mem := store (store s.mem b v) (b + z - 8) v } := by
  have e1 : add64 b 8 = b + 8 := add64_eq (by omega)
  have e2 : HDRP (b + 8) = b := by unfold HDRP; rw [sub64_eq (by omega) (by omega)]; omega
  have e3 : sub64 (add64 (b + 8) z) 16 = b + z - 8 := by unfold sub64 add64 W; omega
  unfold set_allocated FTRP GET_SIZE
  rw [PUT_mm _ _ _ h1]
  simp only [ok_bind, e1, e2]
  rw [GET_mm _ b v (by simp only [store_same])]
  simp only [ok_bind, pure_eq_ok, hz, e3]
  rw [PUT_mm _ _ _ (by with_reducible (apply Mapped_store; assumption))]

theorem Mapped_addMem (m : Mem) (ptr head a : Nat) (h : Mapped m a) :
    Mapped (addMem m ptr head) a := by
  unfold addMem
  split
  · exact Mapped_store _ _ _ _ (Mapped_store _ _ _ _ h)
  · exact Mapped_store _ _ _ _ (Mapped_store _ _ _ _ (Mapped_store _ _ _ _ (Mapped_store _ _ _ _ h)))

theorem add_eq (s : State) (ptr page : Nat)
    (h1 : Mapped s.mem ptr) (h2 : Mapped s.mem (ptr + 8))
    (h3 : listHead page s ≠ 0 → Mapped s.mem (listHead page s))
    (hw : ptr + 8 < 18446744073709551616) :
    add ptr page s =
      .ok (setHead page ptr { s with mem := addMem s.mem ptr (listHead page s) }) := by
  have e1 : add64 ptr 8 = ptr + 8 := add64_eq (by omega)
  unfold add addMem setHead listHead at *
  rw [e1, PUT_mm _ _ _ h2]
  simp only [ok_bind]
  rw [PUT_mm _ _ _ (by with_reducible (apply Mapped_store; assumption))]
  simp only [ok_bind]
  by_cases hp : page = 0 <;> by_cases h0 : s.free_head = 0 <;> by_cases h0p : s.page_head = 0
  all_goals
    simp only [hp, h0, h0p, if_true, if_false, ne_eq, not_true_eq_false, not_false_eq_true,
      and_self, and_true, and_false, true_and, false_and, pure_eq_ok, forall_true_left] at h3 ⊢
    try rw [PUT_mm _ _ _ (by with_reducible ((iterate 4 (try apply Mapped_store)); assumption))]
    try simp only [ok_bind]
    try rw [PUT_mm _ _ _ (by with_reducible ((iterate 4 (try apply Mapped_store)); assumption))]
    try simp only [ok_bind, pure_eq_ok]

/-- The loop of `extend` started with `page_size = p`: with enough fuel and no
overflow it stops at the first candidate size `(m + 6 j) * 4096` that reaches `t`. -/
theorem extend_loop_spec (t : Nat) : ∀ (fuel p m : Nat),
    (t ≤ p ∧ 1 ≤ fuel ∨ 2 ≤ fuel ∧ t ≤ (m + 6 * (fuel - 2)) * 4096) →
    (m + 6 * fuel) * 4096 < 18446744073709551616 →
    ∃ P m', extend_loop fuel p m t = .ok (P, m') ∧ t ≤ P ∧
      (P = p ∧ m' = m ∨ p < t ∧ P = (m' - 6) * 4096 ∧ m + 6 ≤ m' ∧
        (m' = m + 6 ∨ (m' - 12) * 4096 < t)) := by
  intro fuel
  induction fuel with
  | zero => intro p m h; omega
  | succ n ih =>
    intro p m h hW
    unfold extend_loop
    by_cases hp : p < t
    · rw [if_pos hp]
      have hm : mul64 m mem_pagesize = m * 4096 := by
        unfold mem_pagesize; exact mul64_eq (by omega)
      rw [hm]
      have h2 : 2 ≤ n + 1 ∧ t ≤ (m + 6 * (n + 1 - 2)) * 4096 := by omega
      obtain ⟨P, m', hr, hP, hcase⟩ := ih (m * 4096) (m + 6) (by
        by_cases hq : t ≤ m * 4096
        · left; omega
        · right; omega) (by omega)
      refine ⟨P, m', hr, hP, Or.inr ⟨hp, ?_⟩⟩
      rcases hcase with ⟨h1, h2⟩ | ⟨h1, h2, h3, h4⟩
      · subst h2; refine ⟨by omega, by omega, Or.inl rfl⟩
      · refine ⟨h2, by omega, Or.inr ?_⟩
        rcases h4 with h4 | h4
        · subst h4; omega
        · exact h4
    · rw [if_neg hp]
      exact ⟨p, m, rfl, by omega, Or.inl ⟨rfl, rfl⟩⟩


theorem extend_eq (fuel : Nat) (s : State) (sz P m' base : Nat)
    (hL : extend_loop fuel 0 s.mapped (PAGE_ALIGN (add64 (add64 sz 16) 32)) = .ok (P, m'))
    (hP : 4096 ≤ P) (hP16 : P % 16 = 0)
    (hb : s.oracle s.nmaps = base) (hb0 : base ≠ 0) (hb8 : base % 8 = 0)
    (hbW : base + P ≤ 18446744073709551616)
    (hph : s.page_head ≠ 0 → Mapped s.mem s.page_head)
    (hfh : s.free_head ≠ 0 → Mapped s.mem s.free_head) :
    extend fuel 0 sz s = .ok { s with
      mapped := m'
      nmaps := s.nmaps + 1
      regions := (base, P) :: s.regions
      page_head := base + 16
      free_head := base + 48
      mem := extendMem s.mem base P s.page_head s.free_head } := by
  have M : ∀ a, (base ≤ a ∧ a < base + P ∧ a % 8 = 0) → Mapped (mapRegion s.mem base P) a :=
    fun a h => Mapped_mapRegion _ _ _ _ h.1 h.2.1 h.2.2
  have e1 : sub64 (sub64 (sub64 P 32) 16) 16 = P - 64 := by unfold sub64 W; omega
  have a1 : add64 base 8 = base + 8 := add64_eq (by omega)
  have a2 : add64 (base + 8) 8 = base + 16 := add64_eq (by omega)
  have a3 : add64 (base + 8) 32 = base + 40 := add64_eq (by omega)
  have a4 : add64 (base + 40) 8 = base + 48 := add64_eq (by omega)
  have a5 : sub64 (sub64 (add64 (base + 8) P) 16) 16 = base + P - 24 := by
    unfold sub64 add64 W; omega
  have p1 : PACK 32 1 = 33 := by decide
  have p2 : PACK 16 1 = 17 := by decide
  have p3 : PACK (P - 64) 0 = P - 64 := by unfold PACK; simp
  have z1 : sizeBits 33 = 32 := by decide
  have z2 : sizeBits 17 = 16 := by decide
  have z3 : sizeBits (P - 64) = P - 64 := by unfold sizeBits; omega
  have n1 : base + 8 + 32 - 8 = base + 32 := by omega
  have n2 : base + 40 + (P - 64) - 8 = base + P - 32 := by omega
  have n3 : base + P - 24 + 16 - 8 = base + P - 16 := by omega
  unfold extend extendMem
  simp only [hL, ok_bind, mem_map, hb, hb0, if_false, e1, a1, a2, a3, a4, a5, p1, p2, p3]
  rw [PUT_mm _ _ _ (by with_reducible ((try dsimp only); (iterate 16 (try (first | apply Mapped_store | apply Mapped_addMem))); first | assumption | (apply M; omega) | (apply Mapped_mapRegion_old; assumption)))]
  simp only [ok_bind]
  rw [set_allocated_eq _ _ _ 32 z1 (by with_reducible ((try dsimp only); (iterate 16 (try (first | apply Mapped_store | apply Mapped_addMem))); first | assumption | (apply M; omega) | (apply Mapped_mapRegion_old; assumption))) (by with_reducible ((try dsimp only); (iterate 16 (try (first | apply Mapped_store | apply Mapped_addMem))); first | assumption | (apply M; omega) | (apply Mapped_mapRegion_old; assumption))) (by omega) (by omega)]
  simp only [ok_bind, n1]
  rw [add_eq _ _ _ (by with_reducible ((try dsimp only); (iterate 16 (try (first | apply Mapped_store | apply Mapped_addMem))); first | assumption | (apply M; omega) | (apply Mapped_mapRegion_old; assumption))) (by with_reducible ((try dsimp only); (iterate 16 (try (first | apply Mapped_store | apply Mapped_addMem))); first | assumption | (apply M; omega) | (apply Mapped_mapRegion_old; assumption))) (fun h => by have h2 := hph h; show Mapped _ s.page_head; with_reducible ((try dsimp only); (iterate 16 (try (first | apply Mapped_store | apply Mapped_addMem))); first | assumption | (apply M; omega) | (apply Mapped_mapRegion_old; assumption))) (by omega)]
  simp only [ok_bind, setHead, listHead, one_ne_zero, if_false]
  rw [set_allocated_eq _ _ _ (P - 64) z3 (by with_reducible ((try dsimp only); (iterate 16 (try (first | apply Mapped_store | apply Mapped_addMem))); first | assumption | (apply M; omega) | (apply Mapped_mapRegion_old; assumption))) (by with_reducible ((try dsimp only); (iterate 16 (try (first | apply Mapped_store | apply Mapped_addMem))); first | assumption | (apply M; omega) | (apply Mapped_mapRegion_old; assumption))) (by omega) (by omega)]
  simp only [ok_bind, n2]
  rw [add_eq _ _ _ (by with_reducible ((try dsimp only); (iterate 16 (try (first | apply Mapped_store | apply Mapped_addMem))); first | assumption | (apply M; omega) | (apply Mapped_mapRegion_old; assumption))) (by with_reducible ((try dsimp only); (iterate 16 (try (first | apply Mapped_store | apply Mapped_addMem))); first | assumption | (apply M; omega) | (apply Mapped_mapRegion_old; assumption))) (fun h => by have h2 := hfh h; show Mapped _ s.free_head; with_reducible ((try dsimp only); (iterate 16 (try (first | apply Mapped_store | apply Mapped_addMem))); first | assumption | (apply M; omega) | (apply Mapped_mapRegion_old; assumption))) (by omega)]
  simp only [ok_bind, setHead, listHead, if_true]
  rw [set_allocated_eq _ _ _ 16 z2 (by with_reducible ((try dsimp only); (iterate 16 (try (first | apply Mapped_store | apply Mapped_addMem))); first | assumption | (apply M; omega) | (apply Mapped_mapRegion_old; assumption))) (by with_reducible ((try dsimp only); (iterate 16 (try (first | apply Mapped_store | apply Mapped_addMem))); first | assumption | (apply M; omega) | (apply Mapped_mapRegion_old; assumption))) (by omega) (by omega)]
  simp only [n3]

theorem addMem_other (m : Mem) (ptr head a : Nat) (h1 : a ≠ ptr) (h2 : a ≠ ptr + 8)
    (h3 : a ≠ head) : addMem m ptr head a = m a := by
  unfold addMem
  split <;> simp (disch := omega) only [store_other]

/-- Block formatted by `extend` (shared by the claims about `extend`). -/
theorem extend_block (fuel : Nat) (s : State) (sz base : Nat)
    (hov : sz + 16 + 32 + 4095 < 18446744073709551616)
    (hfuel : 2 ≤ fuel ∧ PAGE_ALIGN (sz + 16 + 32) ≤ (s.mapped + 6 * (fuel - 2)) * 4096)
    (hmW : (s.mapped + 6 * fuel) * 4096 < 18446744073709551616)
    (hb : s.oracle s.nmaps = base) (hb0 : base ≠ 0) (hb8 : base % 8 = 0)
    (hfresh : ∀ P m', extend_loop fuel 0 s.mapped (PAGE_ALIGN (sz + 16 + 32)) = .ok (P, m') →
      base + P ≤ 18446744073709551616 ∧
      (s.page_head ≠ 0 → Mapped s.mem s.page_head ∧
        (s.page_head < base ∨ base + P ≤ s.page_head)) ∧
      (s.free_head ≠ 0 → Mapped s.mem s.free_head ∧
        (s.free_head < base ∨ base + P ≤ s.free_head))) :
    ∃ s' P m', extend fuel 0 sz s = .ok s' ∧
      extend_loop fuel 0 s.mapped (PAGE_ALIGN (sz + 16 + 32)) = .ok (P, m') ∧
      s'.regions = (base, P) :: s.regions ∧ s'.mapped = m' ∧
      s'.free_head = base + 48 ∧ s'.page_head = base + 16 ∧
      s'.mem (base + 40) = some (P - 64) ∧
      PAGE_ALIGN (sz + 16 + 32) ≤ P ∧ P % 4096 = 0 ∧ sz ≤ P - 64 + 16 := by
  have hT : PAGE_ALIGN (sz + 16 + 32) = (sz + 16 + 32 + 4095) / 4096 * 4096 :=
    PAGE_ALIGN_eq _ hov
  have hT1 : 4096 ≤ PAGE_ALIGN (sz + 16 + 32) := by rw [hT]; omega
  have hT2 : sz + 48 ≤ PAGE_ALIGN (sz + 16 + 32) := by rw [hT]; omega
  obtain ⟨P, m', hL, hP, hcase⟩ :=
    extend_loop_spec (PAGE_ALIGN (sz + 16 + 32)) fuel 0 s.mapped (Or.inr hfuel) hmW
  have hP4 : P % 4096 = 0 := by
    rcases hcase with ⟨h1, -⟩ | ⟨-, h2, -⟩
    · omega
    · rw [h2]; exact Nat.mul_mod_left _ _
  obtain ⟨f1, f2, f3⟩ := hfresh P m' hL
  have e1 : add64 sz 16 = sz + 16 := add64_eq (by omega)
  have e2 : add64 (sz + 16) 32 = sz + 16 + 32 := add64_eq (by omega)
  have hE := extend_eq fuel s sz P m' base (by rw [e1, e2]; exact hL) (by omega) (by omega)
    hb hb0 hb8 f1 (fun h => (f2 h).1) (fun h => (f3 h).1)
  refine ⟨_, P, m', hE, hL, rfl, rfl, rfl, rfl, ?_, hP, hP4, by omega⟩
  show extendMem s.mem base P s.page_head s.free_head (base + 40) = some (P - 64)
  unfold extendMem
  have g1 : base + 40 ≠ s.free_head := by
    intro h
    have := (f3 (by omega)).2
    omega
  simp (disch := omega) only [store_other, addMem_other _ _ _ _ (by omega : base + 40 ≠ base + 48)
    (by omega : base + 40 ≠ base + 48 + 8) g1, store_same]


/-- C19 (amended): with the local `page_size` taken as 0 on entry, enough fuel and
no overflow, a single call `extend(sz)` returns; it maps `P` bytes, where `P` is
the page size chosen by its loop, `P >= PAGE_ALIGN(sz + 48)`, and formats one free
block (payload `base+48`, head of the free list) of `P - 64` bytes. That block is
at least `sz - 16` bytes: it may be smaller than `sz`, and then the retried
`get_first(sz)` fails and the loop of `mm_malloc` calls `extend` again. -/
theorem C19_extend_block_size (fuel : Nat) (s : State) (sz base : Nat)
    (hov : sz + 16 + 32 + 4095 < 18446744073709551616)
    (hfuel : 2 ≤ fuel ∧ PAGE_ALIGN (sz + 16 + 32) ≤ (s.mapped + 6 * (fuel - 2)) * 4096)
    (hmW : (s.mapped + 6 * fuel) * 4096 < 18446744073709551616)
    (hb : s.oracle s.nmaps = base) (hb0 : base ≠ 0) (hb8 : base % 8 = 0)
    (hfresh : ∀ P m', extend_loop fuel 0 s.mapped (PAGE_ALIGN (sz + 16 + 32)) = .ok (P, m') →
      base + P ≤ 18446744073709551616 ∧
      (s.page_head ≠ 0 → Mapped s.mem s.page_head ∧
        (s.page_head < base ∨ base + P ≤ s.page_head)) ∧
      (s.free_head ≠ 0 → Mapped s.mem s.free_head ∧
        (s.free_head < base ∨ base + P ≤ s.free_head))) :
    ∃ s' P m', extend fuel 0 sz s = .ok s' ∧
      extend_loop fuel 0 s.mapped (PAGE_ALIGN (sz + 16 + 32)) = .ok (P, m') ∧
      s'.regions = (base, P) :: s.regions ∧ s'.mapped = m' ∧
      s'.free_head = base + 48 ∧ s'.page_head = base + 16 ∧
      s'.mem (base + 40) = some (P - 64) ∧
      PAGE_ALIGN (sz + 16 + 32) ≤ P ∧ P % 4096 = 0 ∧ sz ≤ P - 64 + 16 :=
  extend_block fuel s sz base hov hfuel hmW hb hb0 hb8 hfresh

/-- Witness of C19 (amended): `extend(24528)` in the state left by `mm_init`; the block
formatted has 24512 bytes. -/
theorem C19_witness :
    ∃ s' P m', extend 8 0 24528 initState = .ok s' ∧
      extend_loop 8 0 initState.mapped (PAGE_ALIGN (24528 + 16 + 32)) = .ok (P, m') ∧
      s'.regions = (1048576, P) :: initState.regions ∧ s'.mapped = m' ∧
      s'.free_head = 1048576 + 48 ∧ s'.page_head = 1048576 + 16 ∧
      s'.mem (1048576 + 40) = some (P - 64) ∧
      PAGE_ALIGN (24528 + 16 + 32) ≤ P ∧ P % 4096 = 0 ∧ 24528 ≤ P - 64 + 16 :=
  C19_extend_block_size 8 initState 24528 1048576 (by decide) (by decide) (by decide)
    (by decide) (by decide) (by decide)
    (fun P m' h => by
      have h2 : extend_loop 8 0 initState.mapped (PAGE_ALIGN (24528 + 16 + 32)) =
          .ok (24576, 12) := by decide
      rw [h2] at h
      cases h
      decide)

end Mm

/-! ### First-fit search -/

namespace Mm
open Alloc

theorem GET_SIZE_mm (s : State) (x : Nat) (h1 : 8 ≤ x) (h2 : x < 18446744073709551616)
    (h3 : Mapped s.mem (x - 8)) : GET_SIZE s (HDRP x) = .ok (sizeAt s.mem x) := by
  unfold GET_SIZE HDRP GET load sizeAt
  rw [sub64_eq h1 h2]
  unfold Mapped at h3
  cases hm : s.mem (x - 8) with
  | none => rw [hm] at h3; cases h3
  | some v => rfl

theorem get_first_spec (s : State) (size : Nat) : ∀ (L : List Nat) (prv hd fuel : Nat),
    Chain s.mem 8 0 prv hd L → NodesOk s.mem L → L.length < fuel →
    ∃ r, get_first fuel hd size s = .ok r ∧
      (r = 0 → ∀ x ∈ L, sizeAt s.mem x < size) ∧
      (r ≠ 0 → ∃ L1 L2, L = L1 ++ r :: L2 ∧ size ≤ sizeAt s.mem r ∧
        ∀ y ∈ L1, sizeAt s.mem y < size) := by
  intro L
  induction L with
  | nil =>
    intro prv hd fuel hc hn hf
    cases fuel with
    | zero => simp at hf
    | succ n =>
      unfold Chain at hc
      subst hc
      refine ⟨0, by simp [get_first], by simp, by simp⟩
  | cons x xs ih =>
    intro prv hd fuel hc hn hf
    cases fuel with
    | zero => simp at hf
    | succ n =>
      unfold Chain at hc
      obtain ⟨h1, h2, h3, h4, h5⟩ := hc
      subst h1
      obtain ⟨n1, n2, n3⟩ := hn hd (by simp)
      unfold get_first
      rw [if_neg h2, GET_SIZE_mm s hd n1 (by omega) n3]
      simp only [ok_bind]
      by_cases hlt : sizeAt s.mem hd < size
      · rw [if_pos hlt, add64_eq (by omega), GET_mm s _ _ h4]
        simp only [ok_bind]
        obtain ⟨r, hr, hr0, hr1⟩ := ih hd (xs.headD 0) n h5
          (fun y hy => hn y (by simp [hy])) (by simp at hf; omega)
        refine ⟨r, hr, ?_, ?_⟩
        · intro h0 y hy
          rcases List.mem_cons.mp hy with rfl | hy
          · exact hlt
          · exact hr0 h0 y hy
        · intro h0
          obtain ⟨L1, L2, e, hs, hall⟩ := hr1 h0
          refine ⟨hd :: L1, L2, by simp [e], hs, ?_⟩
          intro y hy
          rcases List.mem_cons.mp hy with rfl | hy
          · exact hlt
          · exact hall y hy
      · rw [if_neg hlt]
        refine ⟨hd, rfl, fun h0 => absurd h0 h2, fun _ => ⟨[], xs, rfl, by omega, by simp⟩⟩


/-- C15: for a well-formed free list `L` (linked from `free_head`, headers mapped) and
every size, `get_first(size)` returns (with fuel beyond the length of the list) the
first block in list order whose header size is `>= size`: the result `r` is `NULL`
exactly when no block of the list has size `>= size` (in particular when the list is
empty); otherwise `r` is in the list, its size is `>= size` and every block before
it is smaller. `get_first` only reads: in the embedding it returns a pointer and no
state. -/
theorem C15_get_first_first_fit (s : State) (size fuel : Nat) (L : List Nat)
    (hc : Chain s.mem 8 0 0 s.free_head L) (hn : NodesOk s.mem L) (hf : L.length < fuel) :
    ∃ r, get_first fuel s.free_head size s = .ok r ∧
      (r = 0 ↔ ∀ x ∈ L, sizeAt s.mem x < size) ∧
      (r ≠ 0 → ∃ L1 L2, L = L1 ++ r :: L2 ∧ size ≤ sizeAt s.mem r ∧
        ∀ y ∈ L1, sizeAt s.mem y < size) := by
  obtain ⟨r, hr, h0, h1⟩ := get_first_spec s size L 0 s.free_head fuel hc hn hf
  refine ⟨r, hr, ⟨h0, ?_⟩, h1⟩
  intro hall
  by_contra hne
  obtain ⟨L1, L2, e, hs, -⟩ := h1 hne
  have := hall r (by rw [e]; simp)
  omega

/-- Witness of C15: in `twoFreeState` the free list is `[1048624, 1048880]` and
`get_first(200)` skips the first block (128 bytes). -/
theorem C15_witness :
    ∃ r, get_first 3 twoFreeState.free_head 200 twoFreeState = .ok r ∧
      (r = 0 ↔ ∀ x ∈ [1048624, 1048880], sizeAt twoFreeState.mem x < 200) ∧
      (r ≠ 0 → ∃ L1 L2, [1048624, 1048880] = L1 ++ r :: L2 ∧
        200 ≤ sizeAt twoFreeState.mem r ∧ ∀ y ∈ L1, sizeAt twoFreeState.mem y < 200) :=
  C15_get_first_first_fit twoFreeState 200 3 [1048624, 1048880] (by decide) (by decide)
    (by decide)

end Mm

namespace Sample
open Alloc

theorem GET_SIZE_eq (s : State) (x : Nat) (h1 : 8 ≤ x) (h2 : x < 18446744073709551616)
    (h3 : Mapped s.mem (x - 8)) : GET_SIZE s (HEADER x) = .ok (sizeAt s.mem x) := by
  unfold GET_SIZE HEADER GET load sizeAt
  rw [sub64_eq h1 h2]
  unfold Mapped at h3
  cases hm : s.mem (x - 8) with
  | none => rw [hm] at h3; cases h3
  | some v => rfl

theorem find_free_block_ff_spec (s : State) (t : Nat) (ht : t + 32 < 18446744073709551616) :
    ∀ (L : List Nat) (prv hd fuel : Nat),
    Chain s.mem 0 8 prv hd L → NodesOk s.mem L → L.length < fuel →
    ∃ r, find_free_block_ff fuel hd t s = .ok r ∧
      (r = 0 → ∀ x ∈ L, ¬ Fits t (sizeAt s.mem x)) ∧
      (r ≠ 0 → ∃ L1 L2, L = L1 ++ r :: L2 ∧ Fits t (sizeAt s.mem r) ∧
        ∀ y ∈ L1, ¬ Fits t (sizeAt s.mem y)) := by
  intro L
  induction L with
  | nil =>
    intro prv hd fuel hc hn hf
    cases fuel with
    | zero => simp at hf
    | succ n =>
      unfold Chain at hc
      subst hc
      refine ⟨0, by simp [find_free_block_ff], by simp, by simp⟩
  | cons x xs ih =>
    intro prv hd fuel hc hn hf
    cases fuel with
    | zero => simp at hf
    | succ n =>
      unfold Chain at hc
      obtain ⟨h1, h2, h3, h4, h5⟩ := hc
      subst h1
      obtain ⟨n1, n2, n3⟩ := hn hd (by simp)
      unfold find_free_block_ff
      rw [if_neg h2, GET_SIZE_eq s hd n1 (by omega) n3]
      simp only [ok_bind, add64_eq ht]
      by_cases hfit : Fits t (sizeAt s.mem hd)
      · rw [if_pos (by unfold Fits at hfit; omega)]
        refine ⟨hd, rfl, fun h0 => absurd h0 h2, fun _ => ⟨[], xs, rfl, hfit, by simp⟩⟩
      · rw [if_neg (by unfold Fits at hfit; omega)]
        rw [show hd = hd + 0 from rfl, GET_eq s _ _ h4]
        simp only [ok_bind]
        obtain ⟨r, hr, hr0, hr1⟩ := ih hd (xs.headD 0) n h5
          (fun y hy => hn y (by simp [hy])) (by simp at hf; omega)
        refine ⟨r, hr, ?_, ?_⟩
        · intro h0 y hy
          rcases List.mem_cons.mp hy with rfl | hy
          · exact hfit
          · exact hr0 h0 y hy
        · intro h0
          obtain ⟨L1, L2, e, hs, hall⟩ := hr1 h0
          refine ⟨hd :: L1, L2, by simp [e], hs, ?_⟩
          intro y hy
          rcases List.mem_cons.mp hy with rfl | hy
          · exact hfit
          · exact hall y hy


/-- C16 (amended): for a well-formed free list `L` and every target size `t` (with
`t + 32` not overflowing), `find_free_block_ff(t)` returns the first block in list
order whose size is exactly `t` or at least `t + MIN_FREE_BLOCK_SIZE`; it returns
`NULL` exactly when no free block has such a size. A block of size `t + 16` is
skipped although its size is `>= t`. -/
theorem C16_first_fit_with_margin (s : State) (t fuel : Nat) (L : List Nat)
    (ht : t + 32 < 18446744073709551616)
    (hc : Chain s.mem 0 8 0 s.free_list_head L) (hn : NodesOk s.mem L)
    (hf : L.length < fuel) :
    ∃ r, find_free_block_ff fuel s.free_list_head t s = .ok r ∧
      (r = 0 ↔ ∀ x ∈ L, ¬ Fits t (sizeAt s.mem x)) ∧
      (r ≠ 0 → ∃ L1 L2, L = L1 ++ r :: L2 ∧ Fits t (sizeAt s.mem r) ∧
        ∀ y ∈ L1, ¬ Fits t (sizeAt s.mem y)) := by
  obtain ⟨r, hr, h0, h1⟩ :=
    find_free_block_ff_spec s t ht L 0 s.free_list_head fuel hc hn hf
  refine ⟨r, hr, ⟨h0, ?_⟩, h1⟩
  intro hall
  by_contra hne
  obtain ⟨L1, L2, e, hs, -⟩ := h1 hne
  exact hall r (by rw [e]; simp) hs

/-- Witness of C16 (amended): in `twoFreeState` the free list is `[1048624, 1048880]`
and `find_free_block_ff(112)` skips the first block, whose 128 bytes are neither 112
nor at least 144. -/
theorem C16_witness :
    ∃ r, find_free_block_ff 3 twoFreeState.free_list_head 112 twoFreeState = .ok r ∧
      (r = 0 ↔ ∀ x ∈ [1048624, 1048880], ¬ Fits 112 (sizeAt twoFreeState.mem x)) ∧
      (r ≠ 0 → ∃ L1 L2, [1048624, 1048880] = L1 ++ r :: L2 ∧
        Fits 112 (sizeAt twoFreeState.mem r) ∧
        ∀ y ∈ L1, ¬ Fits 112 (sizeAt twoFreeState.mem y)) :=
  C16_first_fit_with_margin twoFreeState 112 3 [1048624, 1048880] (by decide) (by decide)
    (by decide) (by decide)

end Sample

/-! ### mm.c: `mm_free` and `mem_unmap` -/

namespace Alloc

end Alloc

namespace Mm
open Alloc

theorem SameEnv.trans {s t u : State} (hst : SameEnv s t) (htu : SameEnv t u) :
    SameEnv s u := by
  unfold SameEnv at *
  refine ⟨?_, ?_, ?_, ?_, ?_, ?_⟩
  · rw [htu.1, hst.1]
  · rw [htu.2.1, hst.2.1]
  · rw [htu.2.2.1, hst.2.2.1]
  · rw [htu.2.2.2.1, hst.2.2.2.1]
  · rw [htu.2.2.2.2.1, hst.2.2.2.2.1]
  · rw [htu.2.2.2.2.2, hst.2.2.2.2.2]

end Mm

namespace Alloc
open Alloc

theorem Chain_iff_Seg (m : Mem) (no po : Nat) : ∀ (L : List Nat) (prv hd : Nat),
    Chain m no po prv hd L ↔ hd = L.headD 0 ∧ Seg m no po prv L 0 := by
  intro L
  induction L with
  | nil => intro prv hd; simp [Chain, Seg]
  | cons x xs ih =>
    intro prv hd
    unfold Chain Seg
    rw [ih x (xs.headD 0)]
    simp only [List.headD_cons]
    constructor
    · rintro ⟨h1, h2, h3, h4, h6⟩; exact ⟨h1, h2, h3, h4, h6.2⟩
    · rintro ⟨h1, h2, h3, h4, h6⟩; exact ⟨h1, h2, h3, h4, trivial, h6⟩

theorem Seg_frame (m m' : Mem) (no po : Nat) : ∀ (L : List Nat) (prv nxt : Nat),
    Seg m no po prv L nxt →
    (∀ x ∈ L, m' (x + no) = m (x + no) ∧ m' (x + po) = m (x + po)) →
    Seg m' no po prv L nxt := by
  intro L
  induction L with
  | nil => intro prv nxt _ _; trivial
  | cons x xs ih =>
    intro prv nxt h hf
    unfold Seg at h ⊢
    obtain ⟨h1, h2, h3, h4⟩ := h
    obtain ⟨f1, f2⟩ := hf x (by simp)
    exact ⟨h1, by rw [f2, h2], by rw [f1, h3],
      ih x nxt h4 (fun y hy => hf y (by simp [hy]))⟩

theorem Seg_append (m : Mem) (no po : Nat) : ∀ (L1 L2 : List Nat) (prv nxt : Nat),
    Seg m no po prv (L1 ++ L2) nxt ↔
      Seg m no po prv L1 (L2.headD nxt) ∧ Seg m no po (lastD L1 prv) L2 nxt := by
  intro L1
  induction L1 with
  | nil => intro L2 prv nxt; simp [Seg, lastD]
  | cons x xs ih =>
    intro L2 prv nxt
    have e : (xs ++ L2).headD nxt = xs.headD (L2.headD nxt) := by
      cases xs <;> simp
    show (x ≠ 0 ∧ m (x + po) = some prv ∧ m (x + no) = some ((xs ++ L2).headD nxt) ∧
        Seg m no po x (xs ++ L2) nxt) ↔
      (x ≠ 0 ∧ m (x + po) = some prv ∧ m (x + no) = some (xs.headD (L2.headD nxt)) ∧
        Seg m no po x xs (L2.headD nxt)) ∧ Seg m no po (lastD xs x) L2 nxt
    rw [ih L2 x nxt, e]
    tauto

theorem Seg_ne_zero (m : Mem) (no po : Nat) : ∀ (L : List Nat) (prv nxt : Nat),
    Seg m no po prv L nxt → ∀ x ∈ L, x ≠ 0 := by
  intro L
  induction L with
  | nil => intro prv nxt _ x hx; simp at hx
  | cons y ys ih =>
    intro prv nxt h x hx
    unfold Seg at h
    rcases List.mem_cons.mp hx with rfl | hx
    · exact h.1
    · exact ih y nxt h.2.2.2 x hx

theorem lastD_mem : ∀ (L : List Nat) (d : Nat), L ≠ [] → lastD L d ∈ L := by
  intro L
  induction L with
  | nil => intro d h; exact absurd rfl h
  | cons x xs ih =>
    intro d _
    unfold lastD
    cases xs with
    | nil => simp [lastD]
    | cons y ys => exact List.mem_cons_of_mem _ (ih x (by simp))

/-- Changing the `next` word of the last node. -/
theorem Seg_set_next (m m' : Mem) (no po : Nat) (nxt' : Nat) :
    ∀ (L : List Nat) (prv nxt : Nat),
    Seg m no po prv L nxt → L.Nodup →
    (∀ x ∈ L, m' (x + po) = m (x + po)) →
    (∀ x ∈ L, x ≠ lastD L 0 → m' (x + no) = m (x + no)) →
    (L ≠ [] → m' (lastD L 0 + no) = some nxt') →
    Seg m' no po prv L nxt' := by
  intro L
  induction L with
  | nil => intro prv nxt _ _ _ _ _; trivial
  | cons x xs ih =>
    intro prv nxt h hnd hp hn hl
    unfold Seg at h ⊢
    obtain ⟨h1, h2, h3, h4⟩ := h
    have hx : x ∉ xs := (List.nodup_cons.mp hnd).1
    refine ⟨h1, by rw [hp x (by simp), h2], ?_, ?_⟩
    · cases xs with
      | nil =>
        have := hl (by simp)
        simpa [lastD] using this
      | cons y ys =>
        have hne : x ≠ lastD (x :: y :: ys) 0 := by
          intro e
          apply hx
          rw [e]
          exact lastD_mem (y :: ys) x (by simp)
        rw [hn x (by simp) hne, h3]
        simp
    · cases xs with
      | nil => trivial
      | cons y ys =>
        refine ih x nxt h4 (List.nodup_cons.mp hnd).2 (fun z hz => hp z (by simp [hz])) ?_ ?_
        · intro z hz hne
          exact hn z (by simp [hz]) (by simpa [lastD] using hne)
        · intro _
          have := hl (by simp)
          simpa [lastD] using this

/-- Changing the `prev` word of the first node. -/
theorem Seg_set_prev (m m' : Mem) (no po : Nat) (prv' : Nat) :
    ∀ (L : List Nat) (prv nxt : Nat),
    Seg m no po prv L nxt → L.Nodup →
    (∀ x ∈ L, m' (x + no) = m (x + no)) →
    (∀ x ∈ L, x ≠ L.headD 0 → m' (x + po) = m (x + po)) →
    (L ≠ [] → m' (L.headD 0 + po) = some prv') →
    Seg m' no po prv' L nxt := by
  intro L prv nxt h hnd hn hp hl
  cases L with
  | nil => trivial
  | cons x xs =>
    unfold Seg at h ⊢
    obtain ⟨h1, h2, h3, h4⟩ := h
    have hx : x ∉ xs := (List.nodup_cons.mp hnd).1
    refine ⟨h1, by simpa using hl (by simp), by rw [hn x (by simp), h3], ?_⟩
    refine Seg_frame m m' no po xs x nxt h4 (fun y hy => ⟨hn y (by simp [hy]), ?_⟩)
    refine hp y (by simp [hy]) ?_
    intro e
    simp only [List.headD_cons] at e
    exact hx (e ▸ hy)

end Alloc

namespace Alloc
open Alloc

theorem Seg_erase (m m' : Mem) (no po : Nat) (L1 L2 : List Nat) (x prv0 nxt0 : Nat)
    (h : Seg m no po prv0 (L1 ++ x :: L2) nxt0) (hnd : (L1 ++ x :: L2).Nodup)
    (hA : ∀ y ∈ L1 ++ L2, y ≠ lastD L1 0 → m' (y + no) = m (y + no))
    (hB : L1 ≠ [] → m' (lastD L1 0 + no) = some (L2.headD nxt0))
    (hC : ∀ y ∈ L1 ++ L2, y ≠ L2.headD 0 → m' (y + po) = m (y + po))
    (hD : L2 ≠ [] → m' (L2.headD 0 + po) = some (lastD L1 prv0)) :
    Seg m' no po prv0 (L1 ++ L2) nxt0 := by
  have hnz := Seg_ne_zero m no po _ _ _ h
  rw [Seg_append] at h ⊢
  obtain ⟨hs1, hs2⟩ := h
  simp only [List.headD_cons] at hs1
  unfold Seg at hs2
  obtain ⟨hx0, hxp, hxn, hs2⟩ := hs2
  have hnd1 : L1.Nodup := (List.nodup_append.mp hnd).1
  have hnd2 : L2.Nodup := (List.nodup_cons.mp (List.nodup_append.mp hnd).2.1).2
  have hdis : ∀ a ∈ L1, ∀ b ∈ L2, a ≠ b := by
    intro a ha b hb e
    subst e
    exact (List.nodup_append.mp hnd).2.2 ha (List.mem_cons_of_mem _ hb)
  have hh2 : ∀ y ∈ L1, y ≠ L2.headD 0 := by
    intro y hy
    cases L2 with
    | nil => simpa using hnz y (by simp [hy])
    | cons b bs => simpa using hdis y hy b (by simp)
  have hl1 : ∀ y ∈ L2, y ≠ lastD L1 0 := by
    intro y hy
    cases L1 with
    | nil => simpa [lastD] using hnz y (by simp [hy])
    | cons a as =>
      intro e
      exact hdis _ (lastD_mem (a :: as) 0 (by simp)) y hy e.symm
  constructor
  · refine Seg_set_next m m' no po (L2.headD nxt0) L1 prv0 x hs1 hnd1 ?_ ?_ hB
    · intro y hy; exact hC y (by simp [hy]) (hh2 y hy)
    · intro y hy hne; exact hA y (by simp [hy]) hne
  · refine Seg_set_prev m m' no po (lastD L1 prv0) L2 x nxt0 hs2 hnd2 ?_ ?_ hD
    · intro y hy; exact hA y (by simp [hy]) (hl1 y hy)
    · intro y hy hne; exact hC y (by simp [hy]) hne

theorem Seg_cons (m m' : Mem) (no po : Nat) (L : List Nat) (x nxt0 : Nat)
    (h : Seg m no po 0 L nxt0) (hx : x ≠ 0) (hnd : L.Nodup)
    (h1 : m' (x + no) = some (L.headD nxt0)) (h2 : m' (x + po) = some 0)
    (h3 : ∀ y ∈ L, m' (y + no) = m (y + no))
    (h4 : ∀ y ∈ L, y ≠ L.headD 0 → m' (y + po) = m (y + po))
    (h5 : L ≠ [] → m' (L.headD 0 + po) = some x) :
    Seg m' no po 0 (x :: L) nxt0 := by
  unfold Seg
  exact ⟨hx, h2, h1, Seg_set_prev m m' no po x L 0 nxt0 h hnd h3 h4 h5⟩

theorem Seg_split (m : Mem) (no po : Nat) (L1 L2 : List Nat) (x prv0 nxt0 : Nat)
    (h : Seg m no po prv0 (L1 ++ x :: L2) nxt0) :
    x ≠ 0 ∧ m (x + po) = some (lastD L1 prv0) ∧ m (x + no) = some (L2.headD nxt0) := by
  rw [Seg_append] at h
  obtain ⟨-, hs2⟩ := h
  unfold Seg at hs2
  exact ⟨hs2.1, hs2.2.1, hs2.2.2.1⟩

end Alloc

namespace Mm
open Alloc

theorem Mapped_unlinkMem (m : Mem) (prv nxt a : Nat) (h : Mapped m a) :
    Mapped (unlinkMem m prv nxt) a := by
  unfold unlinkMem
  dsimp only
  split <;> split <;> (with_reducible (iterate 3 (try apply Mapped_store))) <;> exact h

theorem remove_from_list_eq (s : State) (x page prv nxt : Nat)
    (hn : s.mem (x + 8) = some nxt) (hp : s.mem x = some prv)
    (hpm : prv ≠ 0 → Mapped s.mem (prv + 8)) (hnm : nxt ≠ 0 → Mapped s.mem nxt)
    (hd1 : prv + 8 ≠ x) (hd2 : prv ≠ x) (hd3 : nxt ≠ x + 8) (hd4 : nxt ≠ x)
    (hw1 : x + 8 < 18446744073709551616) (hw2 : prv + 8 < 18446744073709551616) :
    remove_from_list x page s =
      .ok (setHead page (if prv = 0 then nxt else listHead page s)
        { s with mem := store (store (unlinkMem s.mem prv nxt) x 0) (x + 8) 0 }) := by
  have e1 : add64 x 8 = x + 8 := add64_eq (by omega)
  have e2 : add64 prv 8 = prv + 8 := add64_eq (by omega)
  have hxm : Mapped s.mem x := Mapped_of_eq hp
  have hxm8 : Mapped s.mem (x + 8) := Mapped_of_eq hn
  unfold remove_from_list unlinkMem setHead listHead
  rw [e1, GET_mm _ _ _ hn]
  simp only [ok_bind]
  by_cases hn0 : nxt = 0 <;> by_cases hp0 : prv = 0 <;> by_cases hpg : page = 0
  all_goals
    simp only [hn0, hp0, hpg, if_true, if_false, ne_eq, not_true_eq_false, not_false_eq_true,
      GET_mm _ _ _ hp, ok_bind, pure_eq_ok, e2]
    try rw [PUT_mm _ _ _ (by first | exact hpm hp0 | exact hnm hn0)]
    try simp only [ok_bind]
    try rw [GET_mm _ (x + 8) nxt (by
      show store _ _ _ _ = _
      rw [store_other _ _ _ _ (by omega)]; exact hn)]
    try simp only [ok_bind, hpg, if_true, if_false, pure_eq_ok]
    try rw [GET_mm _ x prv (by
      show store _ _ _ _ = _
      rw [store_other _ _ _ _ (by omega)]; exact hp)]
    try simp only [ok_bind]
    try rw [PUT_mm _ nxt _ (by
      with_reducible ((try dsimp only); (iterate 3 (try apply Mapped_store)); exact hnm hn0))]
    try simp only [ok_bind]
    rw [PUT_mm _ x _ (by
      with_reducible ((try dsimp only); (iterate 3 (try apply Mapped_store)); exact hxm))]
    simp only [ok_bind]
    rw [PUT_mm _ (x + 8) _ (by
      with_reducible ((try dsimp only); (iterate 3 (try apply Mapped_store)); exact hxm8))]

end Mm

namespace Alloc
open Alloc

theorem lastD_mem_or (L : List Nat) (d : Nat) : lastD L d = d ∧ L = [] ∨ lastD L d ∈ L := by
  cases L with
  | nil => left; exact ⟨rfl, rfl⟩
  | cons a as => right; exact lastD_mem _ _ (by simp)

theorem headD_mem_or (L : List Nat) (d : Nat) : L.headD d = d ∧ L = [] ∨ L.headD d ∈ L := by
  cases L with
  | nil => left; exact ⟨rfl, rfl⟩
  | cons a as => right; simp

theorem Seg_mapped (m : Mem) (no po : Nat) : ∀ (L : List Nat) (prv nxt : Nat),
    Seg m no po prv L nxt → ∀ y ∈ L, Mapped m (y + no) ∧ Mapped m (y + po) := by
  intro L
  induction L with
  | nil => intro prv nxt _ y hy; simp at hy
  | cons a as ih =>
    intro prv nxt h y hy
    unfold Seg at h
    rcases List.mem_cons.mp hy with rfl | hy
    · exact ⟨Mapped_of_eq h.2.2.1, Mapped_of_eq h.2.1⟩
    · exact ih a nxt h.2.2.2 y hy

theorem lastD_eq_of_ne_nil (L : List Nat) (d e : Nat) (h : L ≠ []) : lastD L d = lastD L e := by
  cases L with
  | nil => exact absurd rfl h
  | cons a as => rfl

end Alloc

namespace Mm
open Alloc

theorem unlinkMem_other (m : Mem) (prv nxt a : Nat) (h1 : prv ≠ 0 → a ≠ prv + 8)
    (h2 : nxt ≠ 0 → a ≠ nxt) : unlinkMem m prv nxt a = m a := by
  unfold unlinkMem
  by_cases hp : prv = 0 <;> by_cases hn : nxt = 0
  · simp only [hp, hn, ne_eq, not_true_eq_false, if_false]
  · simp only [hp, hn, ne_eq, not_true_eq_false, not_false_eq_true, if_false, if_true]
    rw [store_other _ _ _ _ (h2 hn)]
  · simp only [hp, hn, ne_eq, not_true_eq_false, not_false_eq_true, if_false, if_true]
    rw [store_other _ _ _ _ (h1 hp)]
  · simp only [hp, hn, ne_eq, not_true_eq_false, not_false_eq_true, if_false, if_true]
    rw [store_other _ _ _ _ (h2 hn), store_other _ _ _ _ (h1 hp)]

theorem unlinkMem_prev (m : Mem) (prv nxt : Nat) (h0 : prv ≠ 0) (h1 : nxt ≠ prv + 8) :
    unlinkMem m prv nxt (prv + 8) = some nxt := by
  unfold unlinkMem
  by_cases hn : nxt = 0
  · simp only [h0, hn, ne_eq, not_true_eq_false, not_false_eq_true, if_false, if_true,
      store_same]
  · simp only [h0, hn, ne_eq, not_true_eq_false, not_false_eq_true, if_false, if_true]
    rw [store_other _ _ _ _ (fun h => h1 h.symm), store_same]

theorem unlinkMem_next (m : Mem) (prv nxt : Nat) (h0 : nxt ≠ 0) :
    unlinkMem m prv nxt nxt = some prv := by
  unfold unlinkMem
  simp only [h0, ne_eq, not_false_eq_true, if_true, store_same]

theorem remove_from_list_spec (s : State) (page x : Nat) (L1 L2 : List Nat)
    (hc : Chain s.mem 8 0 0 (listHead page s) (L1 ++ x :: L2))
    (hnd : (L1 ++ x :: L2).Nodup) (hal : Aligned (L1 ++ x :: L2)) :
    ∃ s', remove_from_list x page s = .ok s' ∧
      s' = setHead page ((L1 ++ L2).headD 0) { s with mem := s'.mem } ∧
      Chain s'.mem 8 0 0 (listHead page s') (L1 ++ L2) ∧
      s'.mem x = some 0 ∧ s'.mem (x + 8) = some 0 ∧
      (∀ a, (∀ y ∈ L1 ++ x :: L2, a ≠ y ∧ a ≠ y + 8) → s'.mem a = s.mem a) ∧
      (∀ a, Mapped s.mem a → Mapped s'.mem a) := by
  rw [Chain_iff_Seg] at hc
  obtain ⟨hhd, hseg⟩ := hc
  obtain ⟨hx0, hxp, hxn⟩ := Seg_split _ _ _ _ _ _ _ _ hseg
  rw [Nat.add_zero] at hxp
  have hnz := Seg_ne_zero _ _ _ _ _ _ hseg
  have hmp := Seg_mapped _ _ _ _ _ _ hseg
  have hxa := hal x (by simp)
  have hL1 : ∀ a ∈ L1, a ∈ L1 ++ x :: L2 := fun a ha => List.mem_append.mpr (Or.inl ha)
  have hL2 : ∀ a ∈ L2, a ∈ L1 ++ x :: L2 := fun a ha =>
    List.mem_append.mpr (Or.inr (List.mem_cons_of_mem _ ha))
  have hdisj : ∀ a ∈ L1, a ≠ x := by
    intro a ha e; subst e
    exact (List.nodup_append.mp hnd).2.2 ha (by simp)
  have hdisj2 : ∀ a ∈ L2, a ≠ x := by
    intro a ha e; subst e
    exact (List.nodup_cons.mp (List.nodup_append.mp hnd).2.1).1 ha
  have hPx : lastD L1 0 ≠ 0 → lastD L1 0 ∈ L1 := by
    intro h; rcases lastD_mem_or L1 0 with ⟨h1, -⟩ | h1
    · exact absurd h1 h
    · exact h1
  have hNx : L2.headD 0 ≠ 0 → L2.headD 0 ∈ L2 := by
    intro h; rcases headD_mem_or L2 0 with ⟨h1, -⟩ | h1
    · exact absurd h1 h
    · exact h1
  generalize hprv : lastD L1 0 = prv at *
  generalize hnxt : L2.headD 0 = nxt at *
  have hPal : prv ≠ 0 → prv % 16 = 0 ∧ prv + 16 ≤ 18446744073709551616 ∧ prv ≠ x := fun h =>
    ⟨(hal _ (hL1 _ (hPx h))).1, (hal _ (hL1 _ (hPx h))).2, hdisj _ (hPx h)⟩
  have hNal : nxt ≠ 0 → nxt % 16 = 0 ∧ nxt + 16 ≤ 18446744073709551616 ∧ nxt ≠ x := fun h =>
    ⟨(hal _ (hL2 _ (hNx h))).1, (hal _ (hL2 _ (hNx h))).2, hdisj2 _ (hNx h)⟩
  have hpw : prv + 8 < 18446744073709551616 := by
    by_cases h : prv = 0
    · omega
    · have := hPal h; omega
  have hd1 : prv + 8 ≠ x := by
    by_cases h : prv = 0
    · omega
    · have := hPal h; omega
  have hd2 : prv ≠ x := by
    by_cases h : prv = 0
    · omega
    · exact (hPal h).2.2
  have hd3 : nxt ≠ x + 8 := by
    by_cases h : nxt = 0
    · omega
    · have := hNal h; omega
  have hd4 : nxt ≠ x := by
    by_cases h : nxt = 0
    · omega
    · exact (hNal h).2.2
  have hE := remove_from_list_eq s x page prv nxt hxn hxp
    (fun h => (hmp _ (hL1 _ (hPx h))).1)
    (fun h => by have := (hmp _ (hL2 _ (hNx h))).2; rwa [Nat.add_zero] at this)
    hd1 hd2 hd3 hd4 (by omega) hpw
  have hhead : (if prv = 0 then nxt else listHead page s) = (L1 ++ L2).headD 0 := by
    cases L1 with
    | nil =>
      simp only [lastD] at hprv
      simp only [← hprv, if_true, List.nil_append, hnxt]
    | cons a as =>
      have : prv ≠ 0 := by
        rw [← hprv]; exact hnz _ (hL1 _ (lastD_mem _ _ (by simp)))
      simp only [this, if_false, hhd, List.cons_append, List.headD_cons]
  rw [hhead] at hE
  -- reading the final memory
  have hfr : ∀ a, a ≠ x → a ≠ x + 8 → (prv ≠ 0 → a ≠ prv + 8) → (nxt ≠ 0 → a ≠ nxt) →
      store (store (unlinkMem s.mem prv nxt) x 0) (x + 8) 0 a = s.mem a := by
    intro a h1 h2 h3 h4
    rw [store_other _ _ _ _ h2, store_other _ _ _ _ h1, unlinkMem_other _ _ _ _ h3 h4]
  refine ⟨_, hE, ?_, ?_, ?_, ?_, ?_, ?_⟩
  · unfold setHead; split <;> rfl
  · have hm : (setHead page ((L1 ++ L2).headD 0)
        { s with mem := store (store (unlinkMem s.mem prv nxt) x 0) (x + 8) 0 }).mem =
        store (store (unlinkMem s.mem prv nxt) x 0) (x + 8) 0 := by
      unfold setHead; split <;> rfl
    have hh : listHead page (setHead page ((L1 ++ L2).headD 0)
        { s with mem := store (store (unlinkMem s.mem prv nxt) x 0) (x + 8) 0 }) =
        (L1 ++ L2).headD 0 := by
      unfold setHead listHead; split <;> simp [*]
    rw [Chain_iff_Seg, hm]
    refine ⟨hh, ?_⟩
    refine Seg_erase s.mem _ 8 0 L1 L2 x 0 0 hseg hnd ?_ ?_ ?_ ?_
    · intro y hy hne
      have hy' : y ∈ L1 ++ x :: L2 := by
        rcases List.mem_append.mp hy with h | h
        · exact hL1 y h
        · exact hL2 y h
      have hyx : y ≠ x := by
        rcases List.mem_append.mp hy with h | h
        · exact hdisj y h
        · exact hdisj2 y h
      have hya := hal y hy'
      rw [hprv] at hne
      apply hfr
      · omega
      · omega
      · intro h; omega
      · intro h; have := hNal h; omega
    · intro hne
      have hp0 : prv ≠ 0 := by
        rw [← hprv]; exact hnz _ (hL1 _ (lastD_mem _ _ hne))
      have := hPal hp0
      rw [hprv, hnxt, store_other _ _ _ _ (by omega), store_other _ _ _ _ (by omega)]
      apply unlinkMem_prev _ _ _ hp0
      by_cases h : nxt = 0
      · omega
      · have := hNal h; omega
    · intro y hy hne
      have hy' : y ∈ L1 ++ x :: L2 := by
        rcases List.mem_append.mp hy with h | h
        · exact hL1 y h
        · exact hL2 y h
      have hyx : y ≠ x := by
        rcases List.mem_append.mp hy with h | h
        · exact hdisj y h
        · exact hdisj2 y h
      have hya := hal y hy'
      rw [hnxt] at hne
      rw [Nat.add_zero]
      apply hfr
      · omega
      · omega
      · intro h; have := hPal h; omega
      · intro h; omega
    · intro hne
      have hn0 : nxt ≠ 0 := by
        rw [← hnxt]
        cases L2 with
        | nil => exact absurd rfl hne
        | cons b bs => simpa using hnz b (hL2 b (by simp))
      have := hNal hn0
      have hl : lastD L1 0 = prv := hprv
      rw [hnxt, hl, store_other _ _ _ _ (by omega), store_other _ _ _ _ (by omega)]
      exact unlinkMem_next _ _ _ hn0
  · show (setHead page _ _).mem x = some 0
    unfold setHead; split <;> (dsimp only; rw [store_other _ _ _ _ (by omega), store_same])
  · show (setHead page _ _).mem (x + 8) = some 0
    unfold setHead; split <;> (dsimp only; rw [store_same])
  · intro a ha
    have h1 := ha x (by simp)
    have e : (setHead page ((L1 ++ L2).headD 0)
        { s with mem := store (store (unlinkMem s.mem prv nxt) x 0) (x + 8) 0 }).mem a =
        store (store (unlinkMem s.mem prv nxt) x 0) (x + 8) 0 a := by
      unfold setHead; split <;> rfl
    rw [e]
    apply hfr _ h1.1 h1.2
    · intro h; exact (ha _ (hL1 _ (hPx h))).2
    · intro h; exact (ha _ (hL2 _ (hNx h))).1
  · intro a ha
    have e : (setHead page ((L1 ++ L2).headD 0)
        { s with mem := store (store (unlinkMem s.mem prv nxt) x 0) (x + 8) 0 }).mem =
        store (store (unlinkMem s.mem prv nxt) x 0) (x + 8) 0 := by
      unfold setHead; split <;> rfl
    rw [e]
    exact Mapped_store _ _ _ _ (Mapped_store _ _ _ _ (Mapped_unlinkMem _ _ _ _ ha))

end Mm

namespace Mm
open Alloc

theorem listHead_setHead_other (page other h : Nat) (t : State)
    (ho : (page = 0 ∧ other ≠ 0) ∨ (page ≠ 0 ∧ other = 0)) :
    listHead other (setHead page h t) = listHead other t := by
  unfold listHead setHead
  rcases ho with ⟨h1, h2⟩ | ⟨h1, h2⟩ <;> simp [h1, h2]

theorem listHead_setHead_same (page h : Nat) (t : State) :
    listHead page (setHead page h t) = h := by
  unfold listHead setHead
  by_cases h1 : page = 0 <;> simp [h1]

/-- C23: in mm.c, for a well-formed doubly linked list `L1 ++ x :: L2` (the free
list when `page = 0`, the page list otherwise) without duplicates, whose nodes are
16-byte aligned, `remove_from_list(x, page)` returns; afterwards the selected list
is `L1 ++ L2` (the other nodes in their order), the selected head pointer is the
first node of `L1 ++ L2` (`NULL` when `x` was the sole element, the old head when
`x` was not the head), the other list `M` (head pointer, nodes and links) is as
before, and the `prev` and `next` words of `x` are both `NULL`. The position of `x`
is arbitrary: sole element (`L1 = L2 = []`), head (`L1 = []`), tail (`L2 = []`) or
interior. -/
theorem C23_remove_from_list_erases (s : State) (page other x : Nat) (L1 L2 M : List Nat)
    (hc : Chain s.mem 8 0 0 (listHead page s) (L1 ++ x :: L2))
    (hnd : (L1 ++ x :: L2).Nodup) (hal : Aligned (L1 ++ x :: L2))
    (ho : (page = 0 ∧ other ≠ 0) ∨ (page ≠ 0 ∧ other = 0))
    (hM : Chain s.mem 8 0 0 (listHead other s) M) (hMal : Aligned M)
    (hdisj : ∀ y ∈ M, y ∉ L1 ++ x :: L2) :
    ∃ s', remove_from_list x page s = .ok s' ∧
      Chain s'.mem 8 0 0 (listHead page s') (L1 ++ L2) ∧
      listHead page s' = (L1 ++ L2).headD 0 ∧
      (L1 ≠ [] → listHead page s' = listHead page s) ∧
      listHead other s' = listHead other s ∧
      Chain s'.mem 8 0 0 (listHead other s') M ∧
      s'.mem x = some 0 ∧ s'.mem (x + 8) = some 0 := by
  obtain ⟨s', hr, hs, hch, hx, hx8, hfr, -⟩ := remove_from_list_spec s page x L1 L2 hc hnd hal
  have hoth : listHead other s' = listHead other s := by
    rw [hs, listHead_setHead_other _ _ _ _ ho]
    unfold listHead; rfl
  have hsame : listHead page s' = (L1 ++ L2).headD 0 := by
    rw [hs, listHead_setHead_same]
  refine ⟨s', hr, hch, hsame, ?_, hoth, ?_, hx, hx8⟩
  · intro hne
    rw [hsame, ((Chain_iff_Seg _ _ _ _ _ _).mp hc).1]
    cases L1 with
    | nil => exact absurd rfl hne
    | cons a as => rfl
  · rw [Chain_iff_Seg] at hM ⊢
    refine ⟨by rw [hoth]; exact hM.1, ?_⟩
    refine Seg_frame s.mem s'.mem 8 0 M 0 0 hM.2 ?_
    intro y hy
    have hya := hMal y hy
    have hne : ∀ z ∈ L1 ++ x :: L2, y + 8 ≠ z ∧ y + 8 ≠ z + 8 ∧ y + 0 ≠ z ∧ y + 0 ≠ z + 8 := by
      intro z hz
      have hza := hal z hz
      have : y ≠ z := fun e => hdisj y hy (e ▸ hz)
      omega
    exact ⟨hfr _ (fun z hz => ⟨(hne z hz).1, (hne z hz).2.1⟩),
      hfr _ (fun z hz => ⟨(hne z hz).2.2.1, (hne z hz).2.2.2⟩)⟩

/-- Witness of C23: removing the tail `1048880` of the free list
`[1048624, 1048880]` of `twoFreeState`; the page list is `[1048592]`. -/
theorem C23_witness :
    ∃ s', remove_from_list 1048880 0 twoFreeState = .ok s' ∧
      Chain s'.mem 8 0 0 (listHead 0 s') ([1048624] ++ []) ∧
      listHead 0 s' = ([1048624] ++ []).headD 0 ∧
      ([1048624] ≠ [] → listHead 0 s' = listHead 0 twoFreeState) ∧
      listHead 1 s' = listHead 1 twoFreeState ∧
      Chain s'.mem 8 0 0 (listHead 1 s') [1048592] ∧
      s'.mem 1048880 = some 0 ∧ s'.mem (1048880 + 8) = some 0 :=
  C23_remove_from_list_erases twoFreeState 0 1 1048880 [1048624] [] [1048592]
    (by decide) (by decide) (by decide) (by decide) (by decide) (by decide) (by decide)

end Mm

namespace Alloc
open Alloc

theorem needed_size_bounds (n : Nat) (h : n ≤ 18446744073709551616 - 32) :
    ALIGN (add64 n 16) % 16 = 0 ∧ n + 16 ≤ ALIGN (add64 n 16) ∧
      ALIGN (add64 n 16) ≤ n + 31 ∧
      ∀ m, m % 16 = 0 → n + 16 ≤ m → ALIGN (add64 n 16) ≤ m := by
  unfold ALIGN add64 W
  refine ⟨by omega, by omega, by omega, ?_⟩
  intro m h1 h2
  omega

/-- C29: for every request size `n <= 2^64-32`, the value
`needed = ALIGN(n + OVERHEAD)` computed by `mm_malloc` (the same macro in `mm.c` and
`sample.c`, in wrap-around 64-bit arithmetic) is a multiple of 16 with
`n + 16 <= needed <= n + 31`, and it is the least multiple of 16 that is
`>= n + 16`. -/
theorem C29_needed_size (n : Nat) (h : n ≤ 18446744073709551616 - 32) :
    ALIGN (add64 n 16) % 16 = 0 ∧ n + 16 ≤ ALIGN (add64 n 16) ∧
      ALIGN (add64 n 16) ≤ n + 31 ∧
      ∀ m, m % 16 = 0 → n + 16 ≤ m → ALIGN (add64 n 16) ≤ m :=
  needed_size_bounds n h

/-- Witness of C29: `n = 100` gives `needed = 128`. -/
theorem C29_witness :
    ALIGN (add64 100 16) % 16 = 0 ∧ 100 + 16 ≤ ALIGN (add64 100 16) ∧
      ALIGN (add64 100 16) ≤ 100 + 31 ∧
      ∀ m, m % 16 = 0 → 100 + 16 ≤ m → ALIGN (add64 100 16) ≤ m :=
  C29_needed_size 100 (by decide)

end Alloc

namespace Sample
open Alloc

/-- C21, counterexample: after `mm_init()` the free list is not empty (its head is
the block at 1048624), the chunk list is not empty (head 1048584) and
`new_chunk_size` is 2. -/
theorem C21_counterexample : run_init = .ok [0, 1048624, 1048584, 2] := by
  decide

theorem get_chunk_header_first (f : Nat) (t : State) (p v : Nat) (hp : 40 ≤ p)
    (hpW : p < 18446744073709551616) (hv : t.mem (p - 16) = some v) (hs : sizeBits v = 16) :
    get_chunk_header (f + 1) p t = .ok (p - 40) := by
  have e1 : sub64 p 16 = p - 16 := sub64_eq (by omega) hpW
  have e2 : sub64 p 40 = p - 40 := sub64_eq (by omega) hpW
  unfold get_chunk_header
  rw [if_neg (by omega), e1, GET_SIZE, GET_eq _ _ v hv]
  simp only [ok_bind, pure_eq_ok]
  rw [hs, if_pos rfl, e2]

theorem mm_init_eq (fuel : Nat) (s : State) (base : Nat) (hfuel : 1 ≤ fuel)
    (hb : s.oracle s.nmaps = base) (hb0 : base ≠ 0) (hb8 : base % 8 = 0)
    (hbW : base + 4096 ≤ 18446744073709551616) :
    mm_init fuel s = .ok (0, { s with
      new_chunk_size := 2
      nmaps := s.nmaps + 1
      regions := (base, 4096) :: s.regions
      chunk_list_head := base + 8
      free_list_head := base + 48
      mem := initMem s.mem base 4096 0 0 }) := by
  obtain ⟨f, rfl⟩ : ∃ f, fuel = f + 1 := ⟨fuel - 1, by omega⟩
  have h1 : init_chunk 1
      { s with new_chunk_size := 1, free_list_head := 0, chunk_list_head := 0 } =
      .ok (base + 48, { s with
        new_chunk_size := 2
        nmaps := s.nmaps + 1
        regions := (base, 4096) :: s.regions
        chunk_list_head := base + 8
        free_list_head := base + 48
        mem := initMem s.mem base 4096 0 0 }) := 
    init_chunk_eq
      { s with new_chunk_size := 1, free_list_head := 0, chunk_list_head := 0 } 1 4096 base
      (by show mul64 1 _ = 4096; decide) (by decide) (by decide) hb hb0 hb8 hbW
      (fun h => absurd rfl h) (by show 0 + 8 < 18446744073709551616; decide)
      (fun h => absurd rfl h) (by show 0 + 8 < 18446744073709551616; decide)
  have hr := initMem_read s.mem base 4096 0 0 (by decide) (by decide) hb8
    (fun h => absurd rfl h) (fun h => absurd rfl h)
  have h2 := get_chunk_header_first f { s with
        new_chunk_size := 2
        nmaps := s.nmaps + 1
        regions := (base, 4096) :: s.regions
        chunk_list_head := base + 8
        free_list_head := base + 48
        mem := initMem s.mem base 4096 0 0 } (base + 48) 16 (by omega) (by omega)
        (by show initMem s.mem base 4096 0 0 (base + 48 - 16) = some 16
            rw [show base + 48 - 16 = base + 32 by omega]; exact hr.2.2.2.1) (by decide)
  unfold mm_init
  show (init_chunk 1 _ >>= _) = _
  rw [h1, ok_bind]
  show (get_chunk_header (f + 1) (base + 48) _ >>= _) = _
  rw [h2, ok_bind]
  rfl

/-- C21 (amended): `mm_init` resets the two lists and the growth multiplier and then
maps a first chunk with `init_chunk(1)`. For every prior state in which `mem_map`
succeeds (returning `base`), it returns 0 and leaves the free list holding exactly
the one free block of the new chunk (`free_list_head = base+48`, its `next` and
`prev` both `NULL`, size 4048), the chunk list holding exactly the new chunk
(`chunk_list_head = base+8`, `next` and `prev` both `NULL`) and `new_chunk_size`
equal to 2. -/
theorem C21_mm_init_maps_first_chunk (fuel : Nat) (s : State) (base : Nat) (hfuel : 1 ≤ fuel)
    (hb : s.oracle s.nmaps = base) (hb0 : base ≠ 0) (hb8 : base % 8 = 0)
    (hbW : base + 4096 ≤ 18446744073709551616) :
    ∃ s', mm_init fuel s = .ok (0, s') ∧
      s'.free_list_head = base + 48 ∧ s'.chunk_list_head = base + 8 ∧
      s'.new_chunk_size = 2 ∧ s'.regions = (base, 4096) :: s.regions ∧
      Chain s'.mem 0 8 0 s'.free_list_head [base + 48] ∧
      Chain s'.mem 0 8 0 s'.chunk_list_head [base + 8] ∧
      s'.mem (base + 40) = some 4048 := by
  have hr := initMem_read s.mem base 4096 0 0 (by decide) (by decide) hb8
    (fun h => absurd rfl h) (fun h => absurd rfl h)
  refine ⟨_, mm_init_eq fuel s base hfuel hb hb0 hb8 hbW, rfl, rfl, rfl, rfl, ?_, ?_, ?_⟩
  · simp only [Chain, List.headD_nil, and_true, true_and]
    exact ⟨by omega, hr.2.2.2.2.2.2.2.2.1, by rw [Nat.add_zero]; exact hr.2.2.2.2.2.2.2.1⟩
  · simp only [Chain, List.headD_nil, and_true, true_and]
    exact ⟨by omega, hr.2.1, by rw [Nat.add_zero]; exact hr.1⟩
  · exact hr.2.2.2.2.1

/-- Witness of C21 (amended): `mm_init` in a fresh process with `demoOracle`. -/
theorem C21_witness :
    ∃ s', mm_init 8 (boot demoOracle) = .ok (0, s') ∧
      s'.free_list_head = 1048576 + 48 ∧ s'.chunk_list_head = 1048576 + 8 ∧
      s'.new_chunk_size = 2 ∧ s'.regions = (1048576, 4096) :: (boot demoOracle).regions ∧
      Chain s'.mem 0 8 0 s'.free_list_head [1048576 + 48] ∧
      Chain s'.mem 0 8 0 s'.chunk_list_head [1048576 + 8] ∧
      s'.mem (1048576 + 40) = some 4048 :=
  C21_mm_init_maps_first_chunk 8 (boot demoOracle) 1048576 (by decide) (by decide) (by decide)
    (by decide) (by decide)

end Sample

namespace Sample
open Alloc

theorem unlinkS_other (m : Mem) (prv nxt a : Nat) (h1 : prv ≠ 0 → a ≠ prv)
    (h2 : nxt ≠ 0 → a ≠ nxt + 8) : unlinkS m prv nxt a = m a := by
  unfold unlinkS
  by_cases hp : prv = 0 <;> by_cases hn : nxt = 0
  · simp only [hp, hn, ne_eq, not_true_eq_false, if_false]
  · simp only [hp, hn, ne_eq, not_true_eq_false, not_false_eq_true, if_false, if_true]
    rw [store_other _ _ _ _ (h2 hn)]
  · simp only [hp, hn, ne_eq, not_true_eq_false, not_false_eq_true, if_false, if_true]
    rw [store_other _ _ _ _ (h1 hp)]
  · simp only [hp, hn, ne_eq, not_true_eq_false, not_false_eq_true, if_false, if_true]
    rw [store_other _ _ _ _ (h2 hn), store_other _ _ _ _ (h1 hp)]

theorem unlinkS_prev (m : Mem) (prv nxt : Nat) (h0 : prv ≠ 0) (h1 : nxt + 8 ≠ prv) :
    unlinkS m prv nxt prv = some nxt := by
  unfold unlinkS
  by_cases hn : nxt = 0
  · simp only [h0, hn, ne_eq, not_true_eq_false, not_false_eq_true, if_false, if_true,
      store_same]
  · simp only [h0, hn, ne_eq, not_true_eq_false, not_false_eq_true, if_false, if_true]
    rw [store_other _ _ _ _ (fun h => h1 h.symm), store_same]

theorem unlinkS_next (m : Mem) (prv nxt : Nat) (h0 : nxt ≠ 0) :
    unlinkS m prv nxt (nxt + 8) = some prv := by
  unfold unlinkS
  simp only [h0, ne_eq, not_false_eq_true, if_true, store_same]

theorem Mapped_unlinkS (m : Mem) (prv nxt a : Nat) (h : Mapped m a) :
    Mapped (unlinkS m prv nxt) a := by
  unfold unlinkS
  by_cases hp : prv = 0 <;> by_cases hn : nxt = 0 <;>
    simp only [hp, hn, ne_eq, not_true_eq_false, not_false_eq_true, if_false, if_true] <;>
    (iterate 2 (try apply Mapped_store)) <;> exact h

theorem remove_from_free_list_eq (s : State) (x prv nxt : Nat)
    (hn : s.mem x = some nxt) (hp : s.mem (x + 8) = some prv)
    (hh : x = s.free_list_head ↔ prv = 0)
    (hpm : prv ≠ 0 → Mapped s.mem prv) (hnm : nxt ≠ 0 → Mapped s.mem (nxt + 8))
    (hd1 : prv ≠ x) (hd2 : prv ≠ x + 8)
    (hw1 : x + 8 < 18446744073709551616) (hw2 : nxt + 8 < 18446744073709551616) :
    remove_from_free_list x s =
      .ok { s with free_list_head := if prv = 0 then nxt else s.free_list_head
                   mem := unlinkS s.mem prv nxt } := by
  have e1 : add64 x 8 = x + 8 := add64_eq (by omega)
  have e2 : add64 nxt 8 = nxt + 8 := add64_eq (by omega)
  unfold remove_from_free_list unlinkS
  by_cases hp0 : prv = 0
  · rw [if_pos (hh.mpr hp0), GET_eq _ _ _ hn]
    simp only [ok_bind, hp0, ne_eq, not_true_eq_false, if_false, if_true]
    by_cases hn0 : nxt = 0
    · simp only [hn0, ne_eq, not_true_eq_false, if_false, pure_eq_ok]
    · simp only [hn0, ne_eq, not_false_eq_true, if_true, e2]
      rw [PUT_eq _ _ _ (by exact hnm hn0)]
  · rw [if_neg (fun h => hp0 (hh.mp h)), e1, GET_eq _ _ _ hp]
    simp only [ok_bind, GET_eq _ _ _ hn]
    rw [PUT_eq _ _ _ (by exact hpm hp0)]
    simp only [ok_bind]
    rw [GET_eq _ x nxt (by
      show store _ _ _ _ = _
      rw [store_other _ _ _ _ (fun h => hd1 h.symm)]; exact hn)]
    simp only [ok_bind, hp0, ne_eq, not_false_eq_true, if_true, if_false]
    by_cases hn0 : nxt = 0
    · simp only [hn0, ne_eq, not_true_eq_false, if_false, pure_eq_ok]
    · simp only [hn0, ne_eq, not_false_eq_true, if_true, e2]
      rw [GET_eq _ (x + 8) prv (by
        show store _ _ _ _ = _
        rw [store_other _ _ _ _ (fun h => hd2 h.symm)]; exact hp)]
      simp only [ok_bind]
      rw [PUT_eq _ _ _ (by
        with_reducible ((try dsimp only); (iterate 3 (try apply Mapped_store)); exact hnm hn0))]

/-- Facts on the neighbours of `x` in a well-formed list `L1 ++ x :: L2`. -/
theorem Seg_neighbours (m : Mem) (no po : Nat) (L1 L2 : List Nat) (x : Nat)
    (hseg : Seg m no po 0 (L1 ++ x :: L2) 0)
    (hnd : (L1 ++ x :: L2).Nodup) (hal : Aligned (L1 ++ x :: L2)) :
    (lastD L1 0 ≠ 0 → lastD L1 0 ∈ L1 ∧ lastD L1 0 % 16 = 0 ∧
      lastD L1 0 + 16 ≤ 18446744073709551616 ∧ lastD L1 0 ≠ x) ∧
    (L2.headD 0 ≠ 0 → L2.headD 0 ∈ L2 ∧ L2.headD 0 % 16 = 0 ∧
      L2.headD 0 + 16 ≤ 18446744073709551616 ∧ L2.headD 0 ≠ x) ∧
    (L1 ≠ [] → lastD L1 0 ≠ 0) ∧ (L2 ≠ [] → L2.headD 0 ≠ 0) ∧
    (∀ a ∈ L1, a ≠ x) ∧ (∀ a ∈ L2, a ≠ x) := by
  have hnz := Seg_ne_zero _ _ _ _ _ _ hseg
  have hL1 : ∀ a ∈ L1, a ∈ L1 ++ x :: L2 := fun a ha => List.mem_append.mpr (Or.inl ha)
  have hL2 : ∀ a ∈ L2, a ∈ L1 ++ x :: L2 := fun a ha =>
    List.mem_append.mpr (Or.inr (List.mem_cons_of_mem _ ha))
  have hdisj : ∀ a ∈ L1, a ≠ x := by
    intro a ha e; subst e
    exact (List.nodup_append.mp hnd).2.2 ha (by simp)
  have hdisj2 : ∀ a ∈ L2, a ≠ x := by
    intro a ha e; subst e
    exact (List.nodup_cons.mp (List.nodup_append.mp hnd).2.1).1 ha
  have hPx : lastD L1 0 ≠ 0 → lastD L1 0 ∈ L1 := by
    intro h; rcases lastD_mem_or L1 0 with ⟨h1, -⟩ | h1
    · exact absurd h1 h
    · exact h1
  have hNx : L2.headD 0 ≠ 0 → L2.headD 0 ∈ L2 := by
    intro h; rcases headD_mem_or L2 0 with ⟨h1, -⟩ | h1
    · exact absurd h1 h
    · exact h1
  refine ⟨fun h => ⟨hPx h, (hal _ (hL1 _ (hPx h))).1, (hal _ (hL1 _ (hPx h))).2, hdisj _ (hPx h)⟩,
    fun h => ⟨hNx h, (hal _ (hL2 _ (hNx h))).1, (hal _ (hL2 _ (hNx h))).2, hdisj2 _ (hNx h)⟩,
    ?_, ?_, hdisj, hdisj2⟩
  · intro hne
    exact hnz _ (hL1 _ (lastD_mem _ _ hne))
  · intro hne
    cases L2 with
    | nil => exact absurd rfl hne
    | cons b bs => simpa using hnz b (hL2 b (by simp))

theorem remove_from_free_list_spec (s : State) (x : Nat) (L1 L2 : List Nat)
    (hc : Chain s.mem 0 8 0 s.free_list_head (L1 ++ x :: L2))
    (hnd : (L1 ++ x :: L2).Nodup) (hal : Aligned (L1 ++ x :: L2)) :
    remove_from_free_list x s =
      .ok { s with free_list_head := (L1 ++ L2).headD 0
                   mem := unlinkS s.mem (lastD L1 0) (L2.headD 0) } ∧
    Chain (unlinkS s.mem (lastD L1 0) (L2.headD 0)) 0 8 0 ((L1 ++ L2).headD 0) (L1 ++ L2) ∧
    unlinkS s.mem (lastD L1 0) (L2.headD 0) x = s.mem x ∧
    unlinkS s.mem (lastD L1 0) (L2.headD 0) (x + 8) = s.mem (x + 8) := by
  rw [Chain_iff_Seg] at hc
  obtain ⟨hhd, hseg⟩ := hc
  obtain ⟨hx0, hxp, hxn⟩ := Seg_split _ _ _ _ _ _ _ _ hseg
  rw [Nat.add_zero] at hxn
  have hmp := Seg_mapped _ _ _ _ _ _ hseg
  have hxa := hal x (by simp)
  have hL1 : ∀ a ∈ L1, a ∈ L1 ++ x :: L2 := fun a ha => List.mem_append.mpr (Or.inl ha)
  have hL2 : ∀ a ∈ L2, a ∈ L1 ++ x :: L2 := fun a ha =>
    List.mem_append.mpr (Or.inr (List.mem_cons_of_mem _ ha))
  obtain ⟨hP, hN, hP0, hN0, hdisj, hdisj2⟩ := Seg_neighbours _ _ _ _ _ _ hseg hnd hal
  generalize hprv : lastD L1 0 = prv at *
  generalize hnxt : L2.headD 0 = nxt at *
  have hhead : (if prv = 0 then nxt else s.free_list_head) = (L1 ++ L2).headD 0 := by
    cases L1 with
    | nil =>
      simp only [lastD] at hprv
      simp only [← hprv, if_true, List.nil_append, hnxt]
    | cons a as =>
      have : prv ≠ 0 := hP0 (by simp)
      simp only [this, if_false, hhd, List.cons_append, List.headD_cons]
  have hh : x = s.free_list_head ↔ prv = 0 := by
    rw [hhd]
    cases L1 with
    | nil =>
      simp only [lastD] at hprv
      simp [← hprv]
    | cons a as =>
      have h1 : prv ≠ 0 := hP0 (by simp)
      have h2 : a ≠ x := hdisj a (by simp)
      simp only [List.cons_append, List.headD_cons, h1, iff_false]
      exact fun e => h2 e.symm
  have hE := remove_from_free_list_eq s x prv nxt hxn hxp hh
    (fun h => by have := (hmp _ (hL1 _ (hP h).1)).1; rwa [Nat.add_zero] at this)
    (fun h => (hmp _ (hL2 _ (hN h).1)).2)
    (by
      by_cases h : prv = 0
      · omega
      · exact (hP h).2.2.2)
    (by
      by_cases h : prv = 0
      · omega
      · have := hP h; omega)
    (by omega)
    (by
      by_cases h : nxt = 0
      · omega
      · have := hN h; omega)
  rw [hhead] at hE
  refine ⟨hE, ?_, ?_, ?_⟩
  · rw [Chain_iff_Seg]
    refine ⟨rfl, ?_⟩
    have hmem : ∀ y ∈ L1 ++ L2, y ∈ L1 ++ x :: L2 ∧ y ≠ x := by
      intro y hy
      rcases List.mem_append.mp hy with h | h
      · exact ⟨hL1 y h, hdisj y h⟩
      · exact ⟨hL2 y h, hdisj2 y h⟩
    refine Seg_erase s.mem _ 0 8 L1 L2 x 0 0 hseg hnd ?_ ?_ ?_ ?_
    · intro y hy hne
      have hya := hal y (hmem y hy).1
      rw [hprv] at hne
      rw [Nat.add_zero]
      apply unlinkS_other
      · intro h; omega
      · intro h; have := hN h; omega
    · intro hne
      have hp0 : prv ≠ 0 := hP0 hne
      have := hP hp0
      rw [hprv, hnxt, Nat.add_zero]
      apply unlinkS_prev _ _ _ hp0
      by_cases h : nxt = 0
      · omega
      · have := hN h; omega
    · intro y hy hne
      have hya := hal y (hmem y hy).1
      rw [hnxt] at hne
      apply unlinkS_other
      · intro h; have := hP h; omega
      · intro h; omega
    · intro hne
      have hn0 : nxt ≠ 0 := hN0 hne
      rw [hnxt, hprv]
      exact unlinkS_next _ _ _ hn0
  · apply unlinkS_other
    · intro h; exact fun e => (hP h).2.2.2 e.symm
    · intro h; have := hN h; omega
  · apply unlinkS_other
    · intro h; have := hP h; omega
    · intro h; have := hN h; omega

/-- C24, counterexample: after `remove_from_free_list(1048624)` the `next` field of
the removed block still holds `1048880`; it is not cleared. -/
theorem C24_counterexample : run_remove = .ok [some 1048880, some 0] := by
  decide

/-- C24 (amended): for every well-formed free list `L1 ++ b :: L2` (no duplicates,
16-byte aligned nodes), `remove_from_free_list(b)` returns and unlinks `b`: the free
list becomes `L1 ++ L2`. The removed block's own fields are not written: its `next`
still holds its old successor and its `prev` its old predecessor (`NULL` only where
`b` was the tail, respectively the head). -/
theorem C24_remove_keeps_own_links (s : State) (b : Nat) (L1 L2 : List Nat)
    (hc : Chain s.mem 0 8 0 s.free_list_head (L1 ++ b :: L2))
    (hnd : (L1 ++ b :: L2).Nodup) (hal : Aligned (L1 ++ b :: L2)) :
    ∃ s', remove_from_free_list b s = .ok s' ∧
      Chain s'.mem 0 8 0 s'.free_list_head (L1 ++ L2) ∧
      s'.mem b = s.mem b ∧ s'.mem (b + 8) = s.mem (b + 8) ∧
      s'.mem b = some (L2.headD 0) ∧ s'.mem (b + 8) = some (lastD L1 0) := by
  obtain ⟨h1, h2, h3, h4⟩ := remove_from_free_list_spec s b L1 L2 hc hnd hal
  obtain ⟨-, hp, hn⟩ := Seg_split _ _ _ _ _ _ _ _ ((Chain_iff_Seg _ _ _ _ _ _).mp hc).2
  rw [Nat.add_zero] at hn
  exact ⟨_, h1, h2, h3, h4, h3.trans hn, h4.trans hp⟩

/-- Witness of C24 (amended): removing the head of the free list of `twoFreeState`. -/
theorem C24_witness :
    ∃ s', remove_from_free_list 1048624 twoFreeState = .ok s' ∧
      Chain s'.mem 0 8 0 s'.free_list_head ([] ++ [1048880]) ∧
      s'.mem 1048624 = twoFreeState.mem 1048624 ∧
      s'.mem (1048624 + 8) = twoFreeState.mem (1048624 + 8) ∧
      s'.mem 1048624 = some ([1048880].headD 0) ∧ s'.mem (1048624 + 8) = some (lastD [] 0) :=
  C24_remove_keeps_own_links twoFreeState 1048624 [] [1048880] (by decide) (by decide)
    (by decide)

end Sample

namespace Alloc
open Alloc

theorem PACK_one (z : Nat) (h : z % 2 = 0) : PACK z 1 = z + 1 := by
  unfold PACK
  apply Nat.eq_of_testBit_eq
  intro i
  rw [Nat.testBit_or]
  cases i with
  | zero =>
    simp only [Nat.testBit_zero]
    have : (z + 1) % 2 = 1 := by omega
    simp [h, this]
  | succ j =>
    simp only [Nat.testBit_succ]
    have h1 : (z + 1) / 2 = z / 2 := by omega
    have h2 : 1 / 2 = 0 := by decide
    rw [h1, h2]
    simp

theorem PACK_zero (z : Nat) : PACK z 0 = z := by
  unfold PACK
  simp

theorem sizeBits_succ (z : Nat) (h : z % 16 = 0) : sizeBits (z + 1) = z := by
  unfold sizeBits; omega

theorem Chain_frame (m m' : Mem) (no po prv hd : Nat) (L : List Nat)
    (h : Chain m no po prv hd L)
    (hf : ∀ x ∈ L, m' (x + no) = m (x + no) ∧ m' (x + po) = m (x + po)) :
    Chain m' no po prv hd L := by
  rw [Chain_iff_Seg] at h ⊢
  exact ⟨h.1, Seg_frame m m' no po L prv 0 h.2 hf⟩

end Alloc

namespace Mm
open Alloc

theorem set_allocated_spec (s : State) (b v z : Nat) (hz : sizeBits v = z)
    (h1 : Mapped s.mem b) (h2 : Mapped s.mem (b + z - 8)) (hz8 : 16 ≤ z)
    (hW : b + z ≤ 18446744073709551616) :
    ∃ s', set_allocated b v s = .ok s' ∧ s'.mem = store (store s.mem b v) (b + z - 8) v ∧
      s'.free_head = s.free_head ∧ SameEnv s s' :=
  ⟨_, set_allocated_eq s b v z hz h1 h2 hz8 hW, rfl, rfl, rfl, rfl, rfl, rfl, rfl, rfl⟩

theorem addMem_next (m : Mem) (ptr head : Nat) (h : head ≠ ptr + 8) :
    addMem m ptr head (ptr + 8) = some head := by
  unfold addMem
  by_cases h0 : head = 0
  · rw [if_pos h0, store_other _ _ _ _ (by omega), store_same, h0]
  · rw [if_neg h0, store_other _ _ _ _ (fun e => h e.symm), store_same]

theorem addMem_prev (m : Mem) (ptr head : Nat) (h : head ≠ ptr) :
    addMem m ptr head ptr = some 0 := by
  unfold addMem
  by_cases h0 : head = 0
  · rw [if_pos h0, store_same]
  · rw [if_neg h0, store_other _ _ _ _ (fun e => h e.symm), store_other _ _ _ _ (by omega),
      store_same]

theorem addMem_head (m : Mem) (ptr head : Nat) (h : head ≠ 0) :
    addMem m ptr head head = some ptr := by
  unfold addMem
  rw [if_neg h, store_same]

theorem add_spec (s : State) (x page : Nat) (L : List Nat)
    (hc : Chain s.mem 8 0 0 (listHead page s) L) (hnd : L.Nodup) (hal : Aligned L)
    (hx : x ∉ L) (hx0 : x ≠ 0) (hxa : x % 16 = 0) (hxW : x + 16 ≤ 18446744073709551616)
    (h1 : Mapped s.mem x) (h2 : Mapped s.mem (x + 8)) :
    ∃ s', add x page s = .ok s' ∧
      s' = setHead page x { s with mem := s'.mem } ∧
      s'.mem = addMem s.mem x (L.headD 0) ∧
      Chain s'.mem 8 0 0 (listHead page s') (x :: L) ∧
      (∀ a, a ≠ x → a ≠ x + 8 → a ≠ L.headD 0 → s'.mem a = s.mem a) ∧
      (∀ a, Mapped s.mem a → Mapped s'.mem a) := by
  rw [Chain_iff_Seg] at hc
  obtain ⟨hhd, hseg⟩ := hc
  have hmp := Seg_mapped _ _ _ _ _ _ hseg
  have hnz := Seg_ne_zero _ _ _ _ _ _ hseg
  have hH : L.headD 0 ≠ 0 → L.headD 0 ∈ L := by
    intro h; rcases headD_mem_or L 0 with ⟨h1, -⟩ | h1
    · exact absurd h1 h
    · exact h1
  have hE := add_eq s x page h1 h2
    (fun h => by
      rw [hhd] at h ⊢
      have := (hmp _ (hH h)).2; rwa [Nat.add_zero] at this) (by omega)
  rw [hhd] at hE
  have hm : (setHead page x { s with mem := addMem s.mem x (L.headD 0) }).mem =
      addMem s.mem x (L.headD 0) := by
    unfold setHead; split <;> rfl
  have hne : ∀ y ∈ L, y ≠ x ∧ y % 16 = 0 := fun y hy =>
    ⟨fun e => hx (e ▸ hy), (hal y hy).1⟩
  refine ⟨_, hE, ?_, hm, ?_, ?_, ?_⟩
  · unfold setHead; split <;> rfl
  · rw [Chain_iff_Seg, hm, listHead_setHead_same]
    refine ⟨rfl, ?_⟩
    refine Seg_cons s.mem _ 8 0 L x 0 hseg hx0 hnd ?_ ?_ ?_ ?_ ?_
    · apply addMem_next
      intro e
      by_cases h : L.headD 0 = 0
      · omega
      · have := hne _ (hH h); omega
    · rw [Nat.add_zero]
      apply addMem_prev
      intro e
      by_cases h : L.headD 0 = 0
      · omega
      · exact (hne _ (hH h)).1 e
    · intro y hy
      have := hne y hy
      apply addMem_other <;> try omega
      by_cases h : L.headD 0 = 0
      · omega
      · have := hne _ (hH h); omega
    · intro y hy hyh
      have := hne y hy
      rw [Nat.add_zero]
      apply addMem_other <;> omega
    · intro hL
      have h0 : L.headD 0 ≠ 0 := by
        cases L with
        | nil => exact absurd rfl hL
        | cons b bs => simpa using hnz b (by simp)
      rw [Nat.add_zero]
      exact addMem_head _ _ _ h0
  · intro a ha1 ha2 ha3
    rw [hm]
    exact addMem_other _ _ _ _ ha1 ha2 ha3
  · intro a ha
    rw [hm]
    exact Mapped_addMem _ _ _ _ ha

end Mm

namespace Mm
open Alloc

theorem mm_malloc_loop_found (fuel ps N ptr : Nat) (s : State) (hf : 1 ≤ fuel)
    (hget : get_first fuel s.free_head N s = .ok ptr) (hptr : ptr ≠ 0) :
    mm_malloc_loop fuel fuel ps N s = .ok (ptr, s) := by
  obtain ⟨f, rfl⟩ : ∃ f, fuel = f + 1 := ⟨fuel - 1, by omega⟩
  rw [mm_malloc_loop, hget, ok_bind, if_neg hptr]
  rfl

theorem mm_malloc_chosen (fuel ps n ptr B : Nat) (s : State) (L1 L2 : List Nat)
    (hn : n ≤ 18446744073709551616 - 32) (hf : 1 ≤ fuel)
    (hget : get_first fuel s.free_head (ALIGN (add64 n 16)) s = .ok ptr) (hptr : ptr ≠ 0)
    (hc : Chain s.mem 8 0 0 s.free_head (L1 ++ ptr :: L2))
    (hnd : (L1 ++ ptr :: L2).Nodup) (hal : Aligned (L1 ++ ptr :: L2))
    (hB : s.mem (ptr - 8) = some B) (hB16 : B % 16 = 0) (hB32 : 32 ≤ B)
    (hNB : ALIGN (add64 n 16) ≤ B) (hW : ptr + B ≤ 18446744073709551616)
    (hmap : ∀ a, ptr - 8 ≤ a → a < ptr + B - 8 → a % 8 = 0 → Mapped s.mem a)
    (hout : ∀ y ∈ L1 ++ L2, y + 8 < ptr - 8 ∨ ptr + B - 8 ≤ y) :
    ∃ s', mm_malloc fuel ps n s = .ok (ptr, s') ∧
      (B - ALIGN (add64 n 16) ≤ 32 →
        s'.mem (ptr - 8) = some (B + 1) ∧ s'.mem (ptr + B - 16) = some (B + 1) ∧
        Chain s'.mem 8 0 0 s'.free_head (L1 ++ L2)) ∧
      (32 < B - ALIGN (add64 n 16) →
        s'.mem (ptr - 8) = some (ALIGN (add64 n 16) + 1) ∧
        s'.mem (ptr + ALIGN (add64 n 16) - 16) = some (ALIGN (add64 n 16) + 1) ∧
        s'.mem (ptr + ALIGN (add64 n 16) - 8) = some (B - ALIGN (add64 n 16)) ∧
        s'.mem (ptr + B - 16) = some (B - ALIGN (add64 n 16)) ∧
        Chain s'.mem 8 0 0 s'.free_head ((ptr + ALIGN (add64 n 16)) :: (L1 ++ L2))) := by
  obtain ⟨hN16, hNlo, -, -⟩ := needed_size_bounds n hn
  generalize hN : ALIGN (add64 n 16) = N at *
  have hpa := hal ptr (by simp)
  have hp16 : 16 ≤ ptr := by
    have := (Seg_ne_zero _ _ _ _ _ _ ((Chain_iff_Seg _ _ _ _ _ _).mp hc).2) ptr (by simp)
    omega
  have eH : HDRP ptr = ptr - 8 := sub64_eq (by omega) (by omega)
  have hsub : sub64 B N = B - N := sub64_eq hNB (by omega)
  have hBW : B < 18446744073709551616 := by omega
  have hloop := mm_malloc_loop_found fuel ps N ptr s hf hget hptr
  have hsB : sizeBits B = B := Sample.sizeBits_of_dvd B hB16
  have hgs : GET_SIZE s (ptr - 8) = .ok B := by
    rw [GET_SIZE, GET_mm _ _ _ hB, ok_bind, pure_eq_ok, hsB]
  obtain ⟨s1, hr1, hs1, hch1, hx1, hx18, hfr1, hmp1⟩ :=
    remove_from_list_spec s 0 ptr L1 L2 hc hnd hal
  have hfh1 : s1.free_head = (L1 ++ L2).headD 0 := by
    have := listHead_setHead_same 0 ((L1 ++ L2).headD 0) { s with mem := s1.mem }
    rw [← hs1] at this
    exact this
  have hch1' : Chain s1.mem 8 0 0 s1.free_head (L1 ++ L2) := hch1
  have hmem : ∀ y ∈ L1 ++ L2, y ∈ L1 ++ ptr :: L2 := by
    intro y hy
    rcases List.mem_append.mp hy with h | h
    · exact List.mem_append.mpr (Or.inl h)
    · exact List.mem_append.mpr (Or.inr (List.mem_cons_of_mem _ h))
  have hndL : (L1 ++ L2).Nodup := by
    have := List.nodup_append.mp hnd
    exact List.nodup_append.mpr ⟨this.1, (List.nodup_cons.mp this.2.1).2,
      fun a h1 h2 => this.2.2 h1 (List.mem_cons_of_mem _ h2)⟩
  have halL : Aligned (L1 ++ L2) := fun y hy => hal y (hmem y hy)
  by_cases hsplit : B - N ≤ 32
  · -- the whole block is allocated
    obtain ⟨s2, hr2, hm2, hf2, -⟩ := set_allocated_spec s1 (ptr - 8) (PACK B 1) B
      (by rw [PACK_one B (by omega), sizeBits_succ B hB16])
      (hmp1 _ (hmap _ (by omega) (by omega) (by omega)))
      (hmp1 _ (hmap _ (by omega) (by omega) (by omega))) (by omega) (by omega)
    refine ⟨s2, ?_, ?_, ?_⟩
    · unfold mm_malloc
      show (mm_malloc_loop fuel fuel ps (ALIGN (add64 n 16)) s >>= _) = _
      rw [hN, hloop]
      simp only [ok_bind, hgs, hsub, hsplit, if_true, Nat.sub_self, hr1, eH, hr2,
        gt_iff_lt, lt_irrefl, if_false, pure_eq_ok, Nat.reduceAdd, sub64_eq (le_refl B) hBW]
    · intro _
      rw [hm2, PACK_one B (by omega)]
      have e : ptr - 8 + B - 8 = ptr + B - 16 := by omega
      rw [e]
      refine ⟨by rw [store_other _ _ _ _ (by omega), store_same], store_same _ _ _, ?_⟩
      rw [hf2]
      refine Chain_frame _ _ _ _ _ _ _ hch1' ?_
      intro y hy
      have := hout y hy
      have := halL y hy
      rw [store_other _ _ _ _ (by omega), store_other _ _ _ _ (by omega),
        store_other _ _ _ _ (by omega), store_other _ _ _ _ (by omega)]
      exact ⟨rfl, rfl⟩
    · intro h; omega
  · -- the block is split
    have hsplit' : 32 < B - N := by omega
    obtain ⟨s2, hr2, hm2, hf2, -⟩ := set_allocated_spec s1 (ptr - 8) (PACK N 1) N
      (by rw [PACK_one N (by omega), sizeBits_succ N hN16])
      (hmp1 _ (hmap _ (by omega) (by omega) (by omega)))
      (hmp1 _ (hmap _ (by omega) (by omega) (by omega))) (by omega) (by omega)
    have hmp2 : ∀ a, Mapped s1.mem a → Mapped s2.mem a := by
      intro a ha; rw [hm2]; exact Mapped_store _ _ _ _ (Mapped_store _ _ _ _ ha)
    have hnb2 : NEXT_BLKP s2 ptr = .ok (ptr + N) := by
      rw [NEXT_BLKP, eH, GET_SIZE, GET_mm _ _ (PACK N 1) (by
        rw [hm2, store_other _ _ _ _ (by omega), store_same]), ok_bind, pure_eq_ok, ok_bind,
        PACK_one N (by omega), sizeBits_succ N hN16, pure_eq_ok, add64_eq (by omega)]
    have eH2 : HDRP (ptr + N) = ptr + N - 8 := sub64_eq (by omega) (by omega)
    obtain ⟨s3, hr3, hm3, hf3, -⟩ := set_allocated_spec s2 (ptr + N - 8) (PACK (B - N) 0)
      (B - N) (by rw [PACK_zero, Sample.sizeBits_of_dvd _ (by omega)])
      (hmp2 _ (hmp1 _ (hmap _ (by omega) (by omega) (by omega))))
      (hmp2 _ (hmp1 _ (hmap _ (by omega) (by omega) (by omega)))) (by omega) (by omega)
    have hmp3 : ∀ a, Mapped s2.mem a → Mapped s3.mem a := by
      intro a ha; rw [hm3]; exact Mapped_store _ _ _ _ (Mapped_store _ _ _ _ ha)
    have hnb3 : NEXT_BLKP s3 ptr = .ok (ptr + N) := by
      rw [NEXT_BLKP, eH, GET_SIZE, GET_mm _ _ (PACK N 1) (by
        rw [hm3, store_other _ _ _ _ (by omega), store_other _ _ _ _ (by omega), hm2,
          store_other _ _ _ _ (by omega), store_same]), ok_bind, pure_eq_ok, ok_bind,
        PACK_one N (by omega), sizeBits_succ N hN16, pure_eq_ok, add64_eq (by omega)]
    have e1 : ptr - 8 + N - 8 = ptr + N - 16 := by omega
    have e2 : ptr + N - 8 + (B - N) - 8 = ptr + B - 16 := by omega
    rw [e1] at hm2
    rw [e2] at hm3
    have hch3 : Chain s3.mem 8 0 0 (listHead 0 s3) (L1 ++ L2) := by
      have : listHead 0 s3 = s1.free_head := by
        unfold listHead; rw [if_pos rfl, hf3, hf2]
      rw [this]
      refine Chain_frame _ _ _ _ _ _ _ hch1' ?_
      intro y hy
      have := hout y hy
      have := halL y hy
      rw [hm3, hm2]
      rw [store_other _ _ _ _ (by omega), store_other _ _ _ _ (by omega),
        store_other _ _ _ _ (by omega), store_other _ _ _ _ (by omega),
        store_other _ _ _ _ (by omega), store_other _ _ _ _ (by omega),
        store_other _ _ _ _ (by omega), store_other _ _ _ _ (by omega)]
      exact ⟨rfl, rfl⟩
    obtain ⟨s4, hr4, hs4, hm4, hch4, hfr4, -⟩ := add_spec s3 (ptr + N) 0 (L1 ++ L2) hch3 hndL halL
      (by intro hin; have := hout _ hin; omega) (by omega) (by omega) (by omega)
      (hmp3 _ (hmp2 _ (hmp1 _ (hmap _ (by omega) (by omega) (by omega)))))
      (hmp3 _ (hmp2 _ (hmp1 _ (hmap _ (by omega) (by omega) (by omega)))))
    have hhd : ∀ a, ptr - 8 ≤ a → a < ptr + B - 8 → a ≠ (L1 ++ L2).headD 0 := by
      intro a h1 h2 e
      rcases headD_mem_or (L1 ++ L2) 0 with ⟨h0, -⟩ | hin
      · omega
      · have := hout _ hin; omega
    refine ⟨s4, ?_, ?_, ?_⟩
    · unfold mm_malloc
      show (mm_malloc_loop fuel fuel ps (ALIGN (add64 n 16)) s >>= _) = _
      rw [hN, hloop]
      have hpos : B - N > 0 := by omega
      simp only [ok_bind, hgs, hsub, hsplit, if_false, hr1, eH, hr2, hpos, if_true, hnb2,
        eH2, hr3, hnb3, hr4, pure_eq_ok, Nat.reduceAdd, gt_iff_lt]
    · intro h; omega
    · intro _
      have hfh : s4.free_head = listHead 0 s4 := by unfold listHead; rw [if_pos rfl]
      rw [hfh]
      refine ⟨?_, ?_, ?_, ?_, hch4⟩
      · rw [hfr4 _ (by omega) (by omega) (hhd _ (by omega) (by omega)), hm3,
          store_other _ _ _ _ (by omega), store_other _ _ _ _ (by omega), hm2,
          store_other _ _ _ _ (by omega), store_same, PACK_one N (by omega)]
      · rw [hfr4 _ (by omega) (by omega) (hhd _ (by omega) (by omega)), hm3,
          store_other _ _ _ _ (by omega), store_other _ _ _ _ (by omega), hm2,
          store_same, PACK_one N (by omega)]
      · rw [hfr4 _ (by omega) (by omega) (hhd _ (by omega) (by omega)), hm3,
          store_other _ _ _ _ (by omega), store_same, PACK_zero]
      · rw [hfr4 _ (by omega) (by omega) (hhd _ (by omega) (by omega)), hm3,
          store_same, PACK_zero]

theorem BlockMapped_elim (m : Mem) (ptr B : Nat) (h : BlockMapped m ptr B) (hB : B % 16 = 0)
    (hp : ptr % 16 = 0) (hp8 : 8 ≤ ptr) :
    ∀ a, ptr - 8 ≤ a → a < ptr + B - 8 → a % 8 = 0 → Mapped m a := by
  intro a h1 h2 h3
  have := h ((a - (ptr - 8)) / 8) (by omega)
  have e : ptr - 8 + 8 * ((a - (ptr - 8)) / 8) = a := by omega
  rwa [e] at this

/-- C17 (amended): in mm.c, let `ptr` be the free block chosen by `get_first` for
`needed = ALIGN(n+16)`, of size `B`, in a well-formed free list `L1 ++ ptr :: L2`.
`mm_malloc(n)` returns `ptr`. If `B - needed <= 32` (so also when the difference is
exactly the minimum free-block size 32) the whole block of `B` bytes is marked
allocated and nothing is inserted: the free list is `L1 ++ L2`. Only if
`B - needed > 32` is the block split into an allocated block of exactly `needed`
bytes followed by a free block of `B - needed` bytes (header and footer), which
becomes the head of the free list. -/
theorem C17_split_above_minimum (fuel ps n ptr B : Nat) (s : State) (L1 L2 : List Nat)
    (hn : n ≤ 18446744073709551616 - 32) (hf : 1 ≤ fuel)
    (hget : get_first fuel s.free_head (ALIGN (add64 n 16)) s = .ok ptr) (hptr : ptr ≠ 0)
    (hc : Chain s.mem 8 0 0 s.free_head (L1 ++ ptr :: L2))
    (hnd : (L1 ++ ptr :: L2).Nodup) (hal : Aligned (L1 ++ ptr :: L2))
    (hB : s.mem (ptr - 8) = some B) (hB16 : B % 16 = 0) (hB32 : 32 ≤ B)
    (hNB : ALIGN (add64 n 16) ≤ B) (hW : ptr + B ≤ 18446744073709551616)
    (hmap : BlockMapped s.mem ptr B)
    (hout : ∀ y ∈ L1 ++ L2, y + 8 < ptr - 8 ∨ ptr + B - 8 ≤ y) :
    ∃ s', mm_malloc fuel ps n s = .ok (ptr, s') ∧
      (B - ALIGN (add64 n 16) ≤ 32 →
        s'.mem (ptr - 8) = some (B + 1) ∧ s'.mem (ptr + B - 16) = some (B + 1) ∧
        Chain s'.mem 8 0 0 s'.free_head (L1 ++ L2)) ∧
      (32 < B - ALIGN (add64 n 16) →
        s'.mem (ptr - 8) = some (ALIGN (add64 n 16) + 1) ∧
        s'.mem (ptr + ALIGN (add64 n 16) - 16) = some (ALIGN (add64 n 16) + 1) ∧
        s'.mem (ptr + ALIGN (add64 n 16) - 8) = some (B - ALIGN (add64 n 16)) ∧
        s'.mem (ptr + B - 16) = some (B - ALIGN (add64 n 16)) ∧
        Chain s'.mem 8 0 0 s'.free_head ((ptr + ALIGN (add64 n 16)) :: (L1 ++ L2))) := by
  have hp0 := (Seg_ne_zero _ _ _ _ _ _ ((Chain_iff_Seg _ _ _ _ _ _).mp hc).2) ptr (by simp)
  have hpa := hal ptr (by simp)
  exact mm_malloc_chosen fuel ps n ptr B s L1 L2 hn hf hget hptr hc hnd hal hB hB16 hB32 hNB hW
    (BlockMapped_elim _ _ _ hmap hB16 hpa.1 (by omega)) hout

/-- Witness of C17 (amended): in `twoFreeState` the free list is
`[1048624, 1048880]`; `mm_malloc(80)` needs 96 bytes and `get_first` chooses the
block `1048624` of 128 bytes, so `B - needed = 32`. -/
theorem C17_witness :
    ∃ s', mm_malloc 8 0 80 twoFreeState = .ok (1048624, s') ∧
      (128 - ALIGN (add64 80 16) ≤ 32 →
        s'.mem (1048624 - 8) = some (128 + 1) ∧ s'.mem (1048624 + 128 - 16) = some (128 + 1) ∧
        Chain s'.mem 8 0 0 s'.free_head ([] ++ [1048880])) ∧
      (32 < 128 - ALIGN (add64 80 16) →
        s'.mem (1048624 - 8) = some (ALIGN (add64 80 16) + 1) ∧
        s'.mem (1048624 + ALIGN (add64 80 16) - 16) = some (ALIGN (add64 80 16) + 1) ∧
        s'.mem (1048624 + ALIGN (add64 80 16) - 8) = some (128 - ALIGN (add64 80 16)) ∧
        s'.mem (1048624 + 128 - 16) = some (128 - ALIGN (add64 80 16)) ∧
        Chain s'.mem 8 0 0 s'.free_head ((1048624 + ALIGN (add64 80 16)) :: ([] ++ [1048880]))) :=
  C17_split_above_minimum 8 0 80 1048624 128 twoFreeState [] [1048880] (by decide) (by decide)
    (by decide) (by decide) (by decide) (by decide) (by decide) (by decide) (by decide)
    (by decide) (by decide) (by decide) (by decide) (by decide)

end Mm

namespace Mm
open Alloc

theorem extend_loop_steps (t : Nat) (ht : t + 24576 ≤ 18446744073709551616) :
    ∀ (fuel p m : Nat), p < t → 2 ≤ fuel → t ≤ (m + 6 * (fuel - 2)) * 4096 →
    m * 4096 < 18446744073709551616 →
    ∃ P m', extend_loop fuel p m t = .ok (P, m') ∧ t ≤ P ∧ m * 4096 ≤ P ∧
      m' * 4096 = P + 24576 ∧ (P = m * 4096 ∨ P < t + 24576) := by
  intro fuel
  induction fuel with
  | zero => intro p m _ h; omega
  | succ f ih =>
    intro p m hp hf hfuel hm
    have e : mul64 m mem_pagesize = m * 4096 := mul64_eq hm
    rw [extend_loop, if_pos hp, e]
    by_cases h : m * 4096 < t
    · have hf2 : 2 ≤ f := by
        by_contra hc
        have : f + 1 - 2 = 0 := by omega
        rw [this] at hfuel
        omega
      obtain ⟨P, m', h1, h2, h3, h4, h5⟩ := ih (m * 4096) (m + 6) h hf2
        (by
          have : f + 1 - 2 = (f - 2) + 1 := by omega
          rw [this] at hfuel
          have e2 : (m + 6 + 6 * (f - 2)) * 4096 = (m + 6 * (f - 2 + 1)) * 4096 := by ring
          rw [e2]; exact hfuel)
        (by omega)
      refine ⟨P, m', h1, h2, by omega, h4, ?_⟩
      rcases h5 with h5 | h5
      · right; omega
      · right; exact h5
    · obtain ⟨g, rfl⟩ : ∃ g, f = g + 1 := ⟨f - 1, by omega⟩
      rw [extend_loop, if_neg h]
      exact ⟨m * 4096, m + 6, rfl, by omega, le_refl _, by ring, Or.inl rfl⟩

theorem addMem_frame (m : Mem) (ptr head a : Nat) (h1 : a ≠ ptr) (h2 : a ≠ ptr + 8)
    (h3 : head ≠ 0 → a ≠ head) : addMem m ptr head a = m a := by
  by_cases h0 : head = 0
  · unfold addMem
    rw [if_pos h0, store_other _ _ _ _ h1, store_other _ _ _ _ h2]
  · exact addMem_other _ _ _ _ h1 h2 (h3 h0)

theorem extendMem_read (m : Mem) (base P ph fh : Nat) (hP : 4096 ≤ P) (hb0 : base ≠ 0)
    (hph : ph ≠ 0 → ph < base ∨ base + P ≤ ph)
    (hfh : fh ≠ 0 → fh < base ∨ base + P ≤ fh) :
    extendMem m base P ph fh (base + 40) = some (P - 64) ∧
    extendMem m base P ph fh (base + 48) = some 0 ∧
    extendMem m base P ph fh (base + 56) = some fh ∧
    (fh ≠ 0 → extendMem m base P ph fh fh = some (base + 48)) ∧
    (∀ a, (a < base ∨ base + P ≤ a) → (ph ≠ 0 → a ≠ ph) → (fh ≠ 0 → a ≠ fh) →
      extendMem m base P ph fh a = m a) ∧
    (∀ a, Mapped m a → Mapped (extendMem m base P ph fh) a) ∧
    Mapped (extendMem m base P ph fh) (base + 16) := by
  have g1 : ∀ k, k < P → base + k ≠ fh := by
    intro k hk h
    by_cases h0 : fh = 0
    · omega
    · have := hfh h0; omega
  have g2 : ∀ k, k < P → base + k ≠ ph := by
    intro k hk h
    by_cases h0 : ph = 0
    · omega
    · have := hph h0; omega
  have k1 : base + P - 24 = base + (P - 24) := by omega
  have k2 : base + P - 16 = base + (P - 16) := by omega
  have k3 : base + P - 32 = base + (P - 32) := by omega
  refine ⟨?_, ?_, ?_, ?_, ?_, ?_, ?_⟩
  · unfold extendMem
    simp (disch := omega) only [store_other, addMem_other _ _ _ _
      (by omega : base + 40 ≠ base + 48) (by omega : base + 40 ≠ base + 48 + 8) (g1 40 (by omega)),
      store_same]
  · unfold extendMem
    simp (disch := omega) only [store_other]
    exact addMem_prev _ _ _ (fun h => g1 48 (by omega) h.symm)
  · unfold extendMem
    simp (disch := omega) only [store_other]
    exact addMem_next _ _ _ (fun h => g1 56 (by omega) h.symm)
  · intro h0
    unfold extendMem
    have := hfh h0
    simp (disch := omega) only [store_other]
    exact addMem_head _ _ _ h0
  · intro a ha h1 h2
    unfold extendMem
    simp (disch := omega) only [store_other]
    rw [addMem_frame _ _ _ _ (by omega) (by omega) h2]
    simp (disch := omega) only [store_other]
    rw [addMem_frame _ _ _ _ (by omega) (by omega) h1]
    simp (disch := omega) only [store_other]
    exact mapRegion_out _ _ _ _ ha
  · intro a ha
    unfold extendMem
    with_reducible ((try dsimp only); (iterate 16 (try (first | apply Mapped_store | apply Mapped_addMem))); apply Mapped_mapRegion_old; assumption)
  · refine Mapped_of_eq (?_ : _ = some 0)
    unfold extendMem
    simp (disch := omega) only [store_other]
    rw [addMem_other _ _ _ _ (by omega) (by omega) (g1 16 (by omega))]
    simp (disch := omega) only [store_other]
    exact addMem_prev _ _ _ (fun h => g2 16 (by omega) h.symm)

end Mm

namespace Alloc
open Alloc

theorem Unmapped_out (m : Mem) (b Q a : Nat) (h : Unmapped m b Q) (ha : Mapped m a) :
    a < b ∨ b + Q ≤ a := by
  by_contra hc
  have := h a (by omega) (by omega)
  unfold Mapped at ha
  rw [this] at ha
  cases ha

theorem sizeAt_congr (m m' : Mem) (x : Nat) (h : m' (x - 8) = m (x - 8)) :
    sizeAt m' x = sizeAt m x := by
  unfold sizeAt; rw [h]

end Alloc

namespace Mm
open Alloc

theorem extend_full (fuel : Nat) (s : State) (sz base Q : Nat) (L : List Nat)
    (hov : sz + 16 + 32 + 4095 < 18446744073709551616)
    (hfuel : 2 ≤ fuel ∧ PAGE_ALIGN (sz + 16 + 32) ≤ (s.mapped + 6 * (fuel - 2)) * 4096)
    (hQ1 : s.mapped * 4096 ≤ Q) (hQ2 : PAGE_ALIGN (sz + 16 + 32) + 24576 ≤ Q)
    (hb : s.oracle s.nmaps = base) (hb0 : base ≠ 0) (hb16 : base % 16 = 0)
    (hbW : base + Q ≤ 18446744073709551616) (hfresh : Unmapped s.mem base Q)
    (hc : Chain s.mem 8 0 0 s.free_head L) (hn : NodesOk s.mem L) (hnd : L.Nodup)
    (hal : Aligned L)
    (hph : s.page_head ≠ 0 →
      Mapped s.mem s.page_head ∧ s.page_head % 16 = 0 ∧ s.page_head ∉ L) :
    ∃ s' P, extend fuel 0 sz s = .ok s' ∧ PAGE_ALIGN (sz + 16 + 32) ≤ P ∧
      s.mapped * 4096 ≤ P ∧ P ≤ Q ∧ s'.mapped * 4096 = P + 24576 ∧
      s'.nmaps = s.nmaps + 1 ∧ s'.oracle = s.oracle ∧ s'.free_head = base + 48 ∧
      Chain s'.mem 8 0 0 s'.free_head ((base + 48) :: L) ∧
      NodesOk s'.mem ((base + 48) :: L) ∧ ((base + 48) :: L).Nodup ∧
      Aligned ((base + 48) :: L) ∧
      sizeAt s'.mem (base + 48) = P - 64 ∧ (∀ y ∈ L, sizeAt s'.mem y = sizeAt s.mem y) ∧
      (s'.page_head ≠ 0 → Mapped s'.mem s'.page_head ∧ s'.page_head % 16 = 0 ∧
        s'.page_head ∉ (base + 48) :: L) ∧
      (∀ a, (a < base ∨ base + Q ≤ a) → s.mem a = none → s'.mem a = none) := by
  have hT : PAGE_ALIGN (sz + 16 + 32) = (sz + 16 + 32 + 4095) / 4096 * 4096 :=
    PAGE_ALIGN_eq _ hov
  have hT1 : 4096 ≤ PAGE_ALIGN (sz + 16 + 32) := by rw [hT]; omega
  obtain ⟨P, m', hL, hP, hmP, hm', hcase⟩ :=
    extend_loop_steps (PAGE_ALIGN (sz + 16 + 32)) (by omega) fuel 0 s.mapped (by omega)
      hfuel.1 hfuel.2 (by omega)
  have hPQ : P ≤ Q := by
    rcases hcase with h | h <;> omega
  have e1 : add64 sz 16 = sz + 16 := add64_eq (by omega)
  have e2 : add64 (sz + 16) 32 = sz + 16 + 32 := add64_eq (by omega)
  rw [Chain_iff_Seg] at hc
  obtain ⟨hhd, hseg⟩ := hc
  have hmp := Seg_mapped _ _ _ _ _ _ hseg
  have hnz := Seg_ne_zero _ _ _ _ _ _ hseg
  have hH : s.free_head ≠ 0 → s.free_head ∈ L := by
    intro h
    rw [hhd] at h ⊢
    rcases headD_mem_or L 0 with ⟨h1, -⟩ | h1
    · exact absurd h1 h
    · exact h1
  have hfm : s.free_head ≠ 0 → Mapped s.mem s.free_head := by
    intro h
    have := (hmp _ (hH h)).2
    rwa [Nat.add_zero] at this
  have hE := extend_eq fuel s sz P m' base (by rw [e1, e2]; exact hL) (by omega) (by omega)
    hb hb0 (by omega) (by omega) (fun h => (hph h).1) hfm
  have hout : ∀ a, Mapped s.mem a → a < base ∨ base + P ≤ a := by
    intro a ha
    have := Unmapped_out _ _ _ _ hfresh ha
    omega
  obtain ⟨r40, r48, r56, rfh, rfr, rmp, r16⟩ := extendMem_read s.mem base P s.page_head
    s.free_head (by omega) hb0 (fun h => hout _ (hph h).1) (fun h => hout _ (hfm h))
  have hLout : ∀ y ∈ L, (y - 8 < base ∨ base + P ≤ y - 8) ∧ (y < base ∨ base + P ≤ y) ∧
      (y + 8 < base ∨ base + P ≤ y + 8) ∧ y % 16 = 0 ∧ 8 ≤ y ∧ y ≠ s.page_head := by
    intro y hy
    have h1 := hout _ (hn y hy).2.2
    have h2 := hout _ (hmp y hy).1
    have h3 := hout _ (hmp y hy).2
    refine ⟨h1, by omega, h2, (hal y hy).1, (hn y hy).1, ?_⟩
    intro e
    have := hnz y hy
    exact (hph (by omega)).2.2 (e ▸ hy)
  have hfhal : s.free_head % 16 = 0 := by
    by_cases h : s.free_head = 0
    · omega
    · exact (hal _ (hH h)).1
  have hphal : s.page_head % 16 = 0 := by
    by_cases h : s.page_head = 0
    · omega
    · exact (hph h).2.1
  refine ⟨_, P, hE, hP, hmP, hPQ, hm', rfl, rfl, rfl, ?_, ?_, ?_, ?_, ?_, ?_, ?_, ?_⟩
  · show Chain (extendMem s.mem base P s.page_head s.free_head) 8 0 0 (base + 48)
      ((base + 48) :: L)
    rw [Chain_iff_Seg]
    refine ⟨rfl, ?_⟩
    refine Seg_cons s.mem _ 8 0 L (base + 48) 0 hseg (by omega) hnd ?_ ?_ ?_ ?_ ?_
    · rw [← hhd]; exact r56
    · exact r48
    · intro y hy
      have := hLout y hy
      exact rfr _ this.2.2.1 (fun _ => by omega) (fun _ => by omega)
    · intro y hy hne
      have := hLout y hy
      rw [Nat.add_zero]
      exact rfr _ this.2.1 (fun _ => this.2.2.2.2.2) (fun _ => by rw [hhd]; exact hne)
    · intro hne
      have h0 : L.headD 0 ≠ 0 := by
        cases L with
        | nil => exact absurd rfl hne
        | cons b bs => simpa using hnz b (by simp)
      rw [Nat.add_zero, ← hhd]
      exact rfh (by rw [hhd]; exact h0)
  · intro y hy
    rcases List.mem_cons.mp hy with rfl | hy
    · refine ⟨by omega, by omega, ?_⟩
      have e : base + 48 - 8 = base + 40 := by omega
      rw [e]
      exact Mapped_of_eq r40
    · exact ⟨(hn y hy).1, (hn y hy).2.1, rmp _ (hn y hy).2.2⟩
  · refine List.nodup_cons.mpr ⟨?_, hnd⟩
    intro hin
    have := hLout _ hin
    omega
  · intro y hy
    rcases List.mem_cons.mp hy with rfl | hy
    · exact ⟨by omega, by omega⟩
    · exact hal y hy
  · show sizeAt (extendMem s.mem base P s.page_head s.free_head) (base + 48) = P - 64
    unfold sizeAt
    have e : base + 48 - 8 = base + 40 := by omega
    rw [e, r40]
    show sizeBits (P - 64) = P - 64
    unfold sizeBits; omega
  · intro y hy
    have := hLout y hy
    exact sizeAt_congr _ _ _ (rfr _ this.1 (fun _ => by omega) (fun _ => by omega))
  · intro _
    refine ⟨r16, by show (base + 16) % 16 = 0; omega, ?_⟩
    show base + 16 ∉ (base + 48) :: L
    intro hin
    rcases List.mem_cons.mp hin with h | h
    · omega
    · have := hLout _ h; omega
  · intro a ha hnone
    show extendMem s.mem base P s.page_head s.free_head a = none
    rw [rfr a (by omega) ?_ ?_]
    · exact hnone
    · intro h e
      have := (hph h).1
      unfold Mapped at this
      rw [← e, hnone] at this
      cases this
    · intro h e
      have := hfm h
      unfold Mapped at this
      rw [← e, hnone] at this
      cases this

end Mm

namespace Mm
open Alloc

theorem mm_malloc_loop_hit (f lfuel ps N r : Nat) (s : State)
    (hget : get_first lfuel s.free_head N s = .ok r) (hr : r ≠ 0) :
    mm_malloc_loop (f + 1) lfuel ps N s = .ok (r, s) := by
  rw [mm_malloc_loop, hget, ok_bind, if_neg hr]
  rfl

theorem mm_malloc_loop_miss (f lfuel ps N : Nat) (s s1 : State)
    (hget : get_first lfuel s.free_head N s = .ok 0) (hext : extend lfuel ps N s = .ok s1) :
    mm_malloc_loop (f + 1) lfuel ps N s = mm_malloc_loop f lfuel ps N s1 := by
  rw [mm_malloc_loop, hget, ok_bind, if_pos rfl, hext, ok_bind]

theorem Unmapped_mono (m : Mem) (b Q Q' : Nat) (h : Unmapped m b Q) (hq : Q' ≤ Q) :
    Unmapped m b Q' := fun a h1 h2 => h a h1 (by omega)

theorem mm_malloc_loop_two (fuel lfuel : Nat) (s : State) (N b1 b2 Q : Nat) (L : List Nat)
    (hfuel : 3 ≤ fuel) (hlf : L.length + 3 ≤ lfuel)
    (hlf2 : PAGE_ALIGN (N + 16 + 32) ≤ (s.mapped + 6 * (lfuel - 2)) * 4096)
    (hov : N + 16 + 32 + 4095 < 18446744073709551616)
    (hQ1 : s.mapped * 4096 + 24576 ≤ Q) (hQ2 : PAGE_ALIGN (N + 16 + 32) + 49152 ≤ Q)
    (hb1 : s.oracle s.nmaps = b1) (hb2 : s.oracle (s.nmaps + 1) = b2)
    (h1 : b1 ≠ 0 ∧ b1 % 16 = 0 ∧ b1 + Q ≤ 18446744073709551616 ∧ Unmapped s.mem b1 Q)
    (h2 : b2 ≠ 0 ∧ b2 % 16 = 0 ∧ b2 + Q ≤ 18446744073709551616 ∧ Unmapped s.mem b2 Q)
    (hdis : b1 + Q ≤ b2 ∨ b2 + Q ≤ b1)
    (hc : Chain s.mem 8 0 0 s.free_head L) (hn : NodesOk s.mem L) (hnd : L.Nodup)
    (hal : Aligned L)
    (hph : s.page_head ≠ 0 →
      Mapped s.mem s.page_head ∧ s.page_head % 16 = 0 ∧ s.page_head ∉ L) :
    ∃ r s', mm_malloc_loop fuel lfuel 0 N s = .ok (r, s') ∧ r ≠ 0 ∧
      s'.nmaps ≤ s.nmaps + 2 := by
  obtain ⟨f, rfl⟩ : ∃ f, fuel = f + 1 + 1 + 1 := ⟨fuel - 3, by omega⟩
  have hT : PAGE_ALIGN (N + 16 + 32) = (N + 16 + 32 + 4095) / 4096 * 4096 :=
    PAGE_ALIGN_eq _ hov
  obtain ⟨r, hr, hr0, -⟩ := get_first_spec s N L 0 s.free_head lfuel hc hn (by omega)
  by_cases hz : r = 0
  swap
  · exact ⟨r, s, mm_malloc_loop_hit _ _ _ _ _ _ hr hz, hz, by omega⟩
  subst hz
  obtain ⟨s1, P1, he1, hP1, -, hPQ1, hm1, hnm1, hor1, hfh1, hc1, hn1, hnd1, hal1, hsz1, -,
    hph1, hfr1⟩ := extend_full lfuel s N b1 (Q - 24576) L hov ⟨by omega, hlf2⟩ (by omega)
      (by omega) hb1 h1.1 h1.2.1 (by omega) (Unmapped_mono _ _ _ _ h1.2.2.2 (by omega))
      hc hn hnd hal hph
  rw [mm_malloc_loop_miss _ _ _ _ _ _ hr he1]
  obtain ⟨r1, hr1, hr10, -⟩ := get_first_spec s1 N _ 0 s1.free_head lfuel hc1 hn1
    (by simp only [List.length_cons]; omega)
  by_cases hz1 : r1 = 0
  swap
  · exact ⟨r1, s1, mm_malloc_loop_hit _ _ _ _ _ _ hr1 hz1, hz1, by omega⟩
  subst hz1
  have hfresh2 : Unmapped s1.mem b2 Q := by
    intro a ha1 ha2
    exact hfr1 a (by omega) (h2.2.2.2 a ha1 ha2)
  obtain ⟨s2, P2, he2, hP2, hmP2, -, -, hnm2, -, hfh2, hc2, hn2, -, -, hsz2, -, -, -⟩ :=
    extend_full lfuel s1 N b2 Q _ hov ⟨by omega, by omega⟩ (by omega) (by omega)
      (by rw [hor1, hnm1]; exact hb2) h2.1 h2.2.1 h2.2.2.1 hfresh2 hc1 hn1 hnd1 hal1 hph1
  rw [mm_malloc_loop_miss _ _ _ _ _ _ hr1 he2]
  obtain ⟨r2, hr2, hr20, -⟩ := get_first_spec s2 N _ 0 s2.free_head lfuel hc2 hn2
    (by simp only [List.length_cons]; omega)
  have hz2 : r2 ≠ 0 := by
    intro h
    have := hr20 h (b2 + 48) (by simp)
    rw [hsz2] at this
    omega
  exact ⟨r2, s2, mm_malloc_loop_hit _ _ _ _ _ _ hr2 hz2, hz2, by omega⟩

/-- C28: in mm.c, for a well-formed free list `L`, a request `n <= 2^64 - 2^20`, the
local `page_size` of `extend` taken as 0 on entry and `mem_map` answering with fresh
(unmapped, disjoint, non-wrapping) regions `b1`, `b2`, the loop
`while ((ptr = get_first(size)) == NULL) extend(size)` of `mm_malloc` returns a
non-null block after at most two calls of `extend` (each call of `extend` is one
call of `mem_map`, counted by `nmaps`). `Q` bounds the sizes `extend` can request:
the bytes already counted by `mapped` plus 6 pages, and the page-aligned target
plus 12 pages. -/
theorem C28_at_most_two_extends (fuel lfuel n : Nat) (s : State) (b1 b2 Q : Nat)
    (L : List Nat) (hn : n ≤ 18446744073709551616 - 1048576)
    (hfuel : 3 ≤ fuel) (hlf : L.length + 3 ≤ lfuel)
    (hlf2 : PAGE_ALIGN (ALIGN (add64 n 16) + 16 + 32) ≤ (s.mapped + 6 * (lfuel - 2)) * 4096)
    (hQ1 : s.mapped * 4096 + 24576 ≤ Q)
    (hQ2 : PAGE_ALIGN (ALIGN (add64 n 16) + 16 + 32) + 49152 ≤ Q)
    (hb1 : s.oracle s.nmaps = b1) (hb2 : s.oracle (s.nmaps + 1) = b2)
    (h1 : b1 ≠ 0 ∧ b1 % 16 = 0 ∧ b1 + Q ≤ 18446744073709551616 ∧ Unmapped s.mem b1 Q)
    (h2 : b2 ≠ 0 ∧ b2 % 16 = 0 ∧ b2 + Q ≤ 18446744073709551616 ∧ Unmapped s.mem b2 Q)
    (hdis : b1 + Q ≤ b2 ∨ b2 + Q ≤ b1)
    (hc : Chain s.mem 8 0 0 s.free_head L) (hnodes : NodesOk s.mem L) (hnd : L.Nodup)
    (hal : Aligned L)
    (hph : s.page_head ≠ 0 →
      Mapped s.mem s.page_head ∧ s.page_head % 16 = 0 ∧ s.page_head ∉ L) :
    ∃ r s', mm_malloc_loop fuel lfuel 0 (ALIGN (add64 n 16)) s = .ok (r, s') ∧ r ≠ 0 ∧
      s'.nmaps ≤ s.nmaps + 2 := by
  obtain ⟨-, -, hhi, -⟩ := needed_size_bounds n (by omega)
  exact mm_malloc_loop_two fuel lfuel s _ b1 b2 Q L hfuel hlf hlf2 (by omega) hQ1 hQ2 hb1 hb2
    h1 h2 hdis hc hnodes hnd hal hph

/-- Witness of C28: `mm_malloc(24512)` right after `mm_init` (needed size 24528). -/
theorem C28_witness :
    ∃ r s', mm_malloc_loop 3 8 0 (ALIGN (add64 24512 16)) initState = .ok (r, s') ∧ r ≠ 0 ∧
      s'.nmaps ≤ initState.nmaps + 2 :=
  C28_at_most_two_extends 3 8 24512 initState 1048576 2097152 73728 [] (by decide) (by decide)
    (by decide) (by decide) (by decide) (by decide) (by decide) (by decide)
    ⟨by decide, by decide, by decide, fun a _ _ => rfl⟩
    ⟨by decide, by decide, by decide, fun a _ _ => rfl⟩
    (by decide) (by decide) (by decide) (by decide) (by decide) (fun h => absurd rfl h)

end Mm

namespace Mm
open Alloc

end Mm

namespace Mm
open Alloc

end Mm

namespace Mm
open Alloc

end Mm

namespace Sample
open Alloc

theorem Tiles_cons (m : Mem) (b : Blk) (bs : List Blk) (p e : Nat) :
    Tiles m p (b :: bs) e ↔
      b.1 = p ∧ 32 ≤ b.2.1 ∧ b.2.1 % 16 = 0 ∧ m (p - 8) = some (hdrWord b) ∧
        m (p + b.2.1 - 16) = some b.2.1 ∧ Tiles m (p + b.2.1) bs e :=
  Iff.of_eq (by rw [Tiles])

theorem Tiles_nil (m : Mem) (p e : Nat) : Tiles m p [] e ↔ p = e :=
  Iff.of_eq (by rw [Tiles])

theorem sumSizes_append (bs1 bs2 : List Blk) :
    sumSizes (bs1 ++ bs2) = sumSizes bs1 + sumSizes bs2 := by
  induction bs1 with
  | nil => simp [sumSizes]
  | cons b bs ih => simp [sumSizes, ih]; omega

theorem Tiles_end (m : Mem) : ∀ (bs : List Blk) (p e : Nat),
    Tiles m p bs e → e = p + sumSizes bs := by
  intro bs
  induction bs with
  | nil => intro p e h; unfold Tiles at h; simp [sumSizes, h]
  | cons b bs ih =>
    intro p e h
    unfold Tiles at h
    have := ih _ _ h.2.2.2.2.2
    simp only [sumSizes]; omega

theorem Tiles_append (m : Mem) : ∀ (bs1 bs2 : List Blk) (p e : Nat),
    Tiles m p (bs1 ++ bs2) e ↔
      Tiles m p bs1 (p + sumSizes bs1) ∧ Tiles m (p + sumSizes bs1) bs2 e := by
  intro bs1
  induction bs1 with
  | nil => intro bs2 p e; simp [Tiles, sumSizes]
  | cons b bs ih =>
    intro bs2 p e
    have e1 : p + b.2.1 + sumSizes bs = p + (b.2.1 + sumSizes bs) := by omega
    show Tiles m p (b :: (bs ++ bs2)) e ↔
      Tiles m p (b :: bs) (p + (b.2.1 + sumSizes bs)) ∧ Tiles m (p + (b.2.1 + sumSizes bs)) bs2 e
    rw [Tiles_cons, Tiles_cons, ih bs2 (p + b.2.1) e, e1]
    constructor
    · rintro ⟨h1, h2, h3, h4, h5, h6, h7⟩
      exact ⟨⟨h1, h2, h3, h4, h5, h6⟩, h7⟩
    · rintro ⟨⟨h1, h2, h3, h4, h5, h6⟩, h7⟩
      exact ⟨h1, h2, h3, h4, h5, h6, h7⟩

theorem Tiles_mem (m : Mem) : ∀ (bs : List Blk) (p e : Nat), Tiles m p bs e →
    ∀ b ∈ bs, p ≤ b.1 ∧ b.1 + b.2.1 ≤ e ∧ 32 ≤ b.2.1 ∧ b.2.1 % 16 = 0 ∧
      m (b.1 - 8) = some (hdrWord b) ∧ m (b.1 + b.2.1 - 16) = some b.2.1 := by
  intro bs
  induction bs with
  | nil => intro p e _ b hb; simp at hb
  | cons c cs ih =>
    intro p e h b hb
    unfold Tiles at h
    obtain ⟨h1, h2, h3, h4, h5, h6⟩ := h
    have he := Tiles_end m cs _ _ h6
    rcases List.mem_cons.mp hb with rfl | hb
    · rw [h1]; exact ⟨le_refl _, by omega, h2, h3, h4, h5⟩
    · have := ih _ _ h6 b hb
      exact ⟨by omega, this.2.1, this.2.2⟩

theorem Tiles_focus (m : Mem) (bs1 bs2 : List Blk) (b : Blk) (p e : Nat)
    (h : Tiles m p (bs1 ++ b :: bs2) e) :
    Tiles m p bs1 b.1 ∧ b.1 = p + sumSizes bs1 ∧ 32 ≤ b.2.1 ∧ b.2.1 % 16 = 0 ∧
      m (b.1 - 8) = some (hdrWord b) ∧ m (b.1 + b.2.1 - 16) = some b.2.1 ∧
      Tiles m (b.1 + b.2.1) bs2 e := by
  rw [Tiles_append] at h
  obtain ⟨h1, h2⟩ := h
  unfold Tiles at h2
  obtain ⟨e1, h3, h4, h5, h6, h7⟩ := h2
  rw [e1]
  exact ⟨h1, rfl, h3, h4, h5, h6, h7⟩

end Sample

namespace Sample
open Alloc

theorem GET_SIZE_sv (s : State) (a v : Nat) (h : s.mem a = some v) :
    GET_SIZE s a = .ok (sizeBits v) := by
  rw [GET_SIZE, GET_eq _ _ _ h, ok_bind, pure_eq_ok]

theorem GET_ALLOC_sv (s : State) (a v : Nat) (h : s.mem a = some v) :
    GET_ALLOC s a = .ok (allocBit v) := by
  rw [GET_ALLOC, GET_eq _ _ _ h, ok_bind, pure_eq_ok]

theorem sizeBits_hdrWord (b : Blk) (h : b.2.1 % 16 = 0) : sizeBits (hdrWord b) = b.2.1 := by
  unfold sizeBits hdrWord
  split <;> omega

theorem allocBit_hdrWord (b : Blk) (h : b.2.1 % 16 = 0) :
    allocBit (hdrWord b) = if b.2.2 then 1 else 0 := by
  unfold allocBit hdrWord
  split <;> omega

theorem get_chunk_header_walk (s : State) (base : Nat) (hb : s.mem (base + 32) = some 16) :
    ∀ (bs1 : List Blk) (q fuel : Nat), Tiles s.mem (base + 48) bs1 q →
      q < 18446744073709551616 → bs1.length < fuel →
      get_chunk_header fuel q s = .ok (base + 8) := by
  intro bs1
  induction bs1 using List.reverseRecOn with
  | nil =>
    intro q fuel ht hq hf
    obtain ⟨f, rfl⟩ : ∃ f, fuel = f + 1 := ⟨fuel - 1, by simp at hf; omega⟩
    rw [Tiles_nil] at ht
    subst ht
    exact get_chunk_header_first f s (base + 48) 16 (by omega) hq
      (by rw [show base + 48 - 16 = base + 32 by omega]; exact hb) (by decide)
  | append_singleton l a ih =>
    intro q fuel ht hq hf
    obtain ⟨f, rfl⟩ : ∃ f, fuel = f + 1 := ⟨fuel - 1, by simp at hf; omega⟩
    obtain ⟨h1, h2, h3, h4, h5, h6, h7⟩ := Tiles_focus _ _ _ _ _ _ ht
    rw [Tiles_nil] at h7
    have hle : base + 48 ≤ a.1 := by omega
    have e1 : sub64 q 16 = a.1 + a.2.1 - 16 := by
      rw [← h7]; exact sub64_eq (by omega) (by omega)
    have e2 : sub64 q a.2.1 = a.1 := by
      rw [← h7, sub64_eq (by omega) (by omega)]; omega
    have hsz : sizeBits a.2.1 = a.2.1 := sizeBits_of_dvd _ h4
    rw [get_chunk_header, if_neg (by omega), e1, GET_SIZE_sv _ _ _ h6, ok_bind, hsz,
      if_neg (by omega), PREV_BLK_PTR, e1, GET_SIZE_sv _ _ _ h6, ok_bind, pure_eq_ok,
      ok_bind, hsz, e2]
    exact ih a.1 f h1 (by omega) (by simp at hf; omega)

theorem allFree_append (l : List Blk) (a : Blk) :
    (∀ b ∈ l ++ [a], b.2.2 = false) ↔ a.2.2 = false ∧ ∀ b ∈ l, b.2.2 = false := by
  constructor
  · intro h
    exact ⟨h a (by simp), fun b hb => h b (by simp [hb])⟩
  · rintro ⟨h1, h2⟩ b hb
    rcases List.mem_append.mp hb with h | h
    · exact h2 b h
    · simp at h; rw [h]; exact h1

theorem is_in_free_chunk_back_walk (s : State) (base : Nat)
    (hb : s.mem (base + 32) = some 16) :
    ∀ (bs1 : List Blk) (q acc fuel : Nat), Tiles s.mem (base + 48) bs1 q →
      q < 18446744073709551616 → acc + sumSizes bs1 < 18446744073709551616 →
      bs1.length < fuel →
      is_in_free_chunk_back fuel q acc s =
        .ok (if ∀ b ∈ bs1, b.2.2 = false then some (acc + sumSizes bs1) else none) := by
  intro bs1
  induction bs1 using List.reverseRecOn with
  | nil =>
    intro q acc fuel ht hq hacc hf
    obtain ⟨f, rfl⟩ : ∃ f, fuel = f + 1 := ⟨fuel - 1, by simp at hf; omega⟩
    rw [Tiles_nil] at ht
    subst ht
    have e1 : sub64 (base + 48) 16 = base + 32 := by
      rw [sub64_eq (by omega) (by omega)]; omega
    rw [is_in_free_chunk_back, if_neg (by omega), e1, GET_SIZE_sv _ _ _ hb, ok_bind,
      if_pos (by decide)]
    simp [sumSizes, pure_eq_ok]
  | append_singleton l a ih =>
    intro q acc fuel ht hq hacc hf
    obtain ⟨f, rfl⟩ : ∃ f, fuel = f + 1 := ⟨fuel - 1, by simp at hf; omega⟩
    obtain ⟨h1, h2, h3, h4, h5, h6, h7⟩ := Tiles_focus _ _ _ _ _ _ ht
    rw [Tiles_nil] at h7
    have hle : base + 48 ≤ a.1 := by omega
    have e1 : sub64 q 16 = a.1 + a.2.1 - 16 := by
      rw [← h7]; exact sub64_eq (by omega) (by omega)
    have e2 : sub64 q a.2.1 = a.1 := by
      rw [← h7, sub64_eq (by omega) (by omega)]; omega
    have e3 : HEADER a.1 = a.1 - 8 := sub64_eq (by omega) (by omega)
    have hsz : sizeBits a.2.1 = a.2.1 := sizeBits_of_dvd _ h4
    have hsum : sumSizes (l ++ [a]) = sumSizes l + a.2.1 := by
      rw [sumSizes_append]; simp [sumSizes]
    rw [hsum] at hacc
    rw [is_in_free_chunk_back, if_neg (by omega), e1, GET_SIZE_sv _ _ _ h6, ok_bind, hsz,
      if_neg (by omega), PREV_BLK_PTR, e1, GET_SIZE_sv _ _ _ h6, ok_bind, pure_eq_ok,
      ok_bind, hsz, e2, e3, GET_ALLOC_sv _ _ _ h5, ok_bind, allocBit_hdrWord a h4]
    have hiff := allFree_append l a
    cases ha : a.2.2 with
    | true =>
      have : ¬ ∀ b ∈ l ++ [a], b.2.2 = false := by
        intro h; rw [hiff, ha] at h; cases h.1
      rw [if_neg this]
      simp [pure_eq_ok]
    | false =>
      simp only [Bool.false_eq_true, if_false, ne_eq, not_true_eq_false]
      rw [add64_eq (by omega), ih a.1 (acc + a.2.1) f h1 (by omega) (by omega)
        (by simp at hf; omega)]
      have : (∀ b ∈ l ++ [a], b.2.2 = false) ↔ ∀ b ∈ l, b.2.2 = false := by
        rw [hiff, ha]; simp
      simp only [this, hsum]
      have e : acc + a.2.1 + sumSizes l = acc + (sumSizes l + a.2.1) := by omega
      rw [e]

theorem is_in_free_chunk_fwd_walk (s : State) (e : Nat) (he : s.mem (e - 8) = some 1)
    (he8 : 8 ≤ e) (heW : e < 18446744073709551616) :
    ∀ (bs2 : List Blk) (p acc fuel : Nat), Tiles s.mem p bs2 e → 8 ≤ p →
      acc + sumSizes bs2 < 18446744073709551616 → bs2.length < fuel →
      is_in_free_chunk_fwd fuel p acc s =
        .ok (if ∀ b ∈ bs2, b.2.2 = false then acc + sumSizes bs2 else 0) := by
  intro bs2
  induction bs2 with
  | nil =>
    intro p acc fuel ht hp hacc hf
    obtain ⟨f, rfl⟩ : ∃ f, fuel = f + 1 := ⟨fuel - 1, by simp at hf; omega⟩
    rw [Tiles_nil] at ht
    subst ht
    have e3 : HEADER p = p - 8 := sub64_eq (by omega) (by omega)
    rw [is_in_free_chunk_fwd, if_neg (by omega), e3, GET_SIZE_sv _ _ _ he, ok_bind,
      GET_ALLOC_sv _ _ _ he, ok_bind, if_pos (by decide)]
    simp [sumSizes, pure_eq_ok]
  | cons b bs ih =>
    intro p acc fuel ht hp hacc hf
    obtain ⟨f, rfl⟩ : ∃ f, fuel = f + 1 := ⟨fuel - 1, by simp at hf; omega⟩
    rw [Tiles_cons] at ht
    obtain ⟨h1, h3, h4, h5, h6, h7⟩ := ht
    have hend := Tiles_end _ _ _ _ h7
    have e3 : HEADER p = p - 8 := sub64_eq (by omega) (by omega)
    simp only [sumSizes] at hacc
    rw [is_in_free_chunk_fwd, if_neg (by omega), e3, GET_SIZE_sv _ _ _ h5, ok_bind,
      GET_ALLOC_sv _ _ _ h5, ok_bind, sizeBits_hdrWord b h4, allocBit_hdrWord b h4,
      if_neg (by omega)]
    cases ha : b.2.2 with
    | true =>
      have : ¬ ∀ c ∈ b :: bs, c.2.2 = false := by
        intro h; have := h b (by simp); rw [ha] at this; cases this
      rw [if_neg this]
      simp [pure_eq_ok]
    | false =>
      simp only [Bool.false_eq_true, if_false, ne_eq, not_true_eq_false]
      rw [NXT_BLK_PTR, e3, GET_SIZE_sv _ _ _ h5, ok_bind, pure_eq_ok, ok_bind,
        sizeBits_hdrWord b h4, add64_eq (by omega), add64_eq (by omega),
        ih (p + b.2.1) (acc + b.2.1) f h7 (by omega) (by omega) (by simp at hf; omega)]
      have : (∀ c ∈ b :: bs, c.2.2 = false) ↔ ∀ c ∈ bs, c.2.2 = false := by
        simp [ha]
      simp only [this, sumSizes]
      have e : acc + b.2.1 + sumSizes bs = acc + (b.2.1 + sumSizes bs) := by omega
      rw [e]

theorem is_in_free_chunk_spec (s : State) (base C : Nat) (bs1 bs2 : List Blk) (ptr z fuel : Nat)
    (hc : ChunkOk s.mem base C (bs1 ++ (ptr, z, false) :: bs2))
    (hf : bs1.length < fuel ∧ bs2.length < fuel) :
    is_in_free_chunk fuel ptr s =
      .ok (if (∀ b ∈ bs1, b.2.2 = false) ∧ ∀ b ∈ bs2, b.2.2 = false then C else 0) := by
  obtain ⟨hb16, hb, hW, h17, h16, ht, hterm⟩ := hc
  have hend := Tiles_end _ _ _ _ ht
  rw [sumSizes_append] at hend
  simp only [sumSizes] at hend
  obtain ⟨h1, h2, h3, h4, h5, h6, h7⟩ := Tiles_focus _ _ _ _ _ _ ht
  simp only at h2 h3 h4 h5 h6 h7
  have e3 : HEADER ptr = ptr - 8 := sub64_eq (by omega) (by omega)
  have hsz : sizeBits (hdrWord (ptr, z, false)) = z := sizeBits_hdrWord (ptr, z, false) h4
  unfold is_in_free_chunk
  rw [e3, GET_SIZE_sv _ _ _ h5, ok_bind, hsz, add64_eq (by omega)]
  show (is_in_free_chunk_back fuel ptr (z + 48) s >>= _) = _
  rw [is_in_free_chunk_back_walk s base h16 bs1 ptr (z + 48) fuel h1 (by omega) (by omega) hf.1,
    ok_bind]
  by_cases hall1 : ∀ b ∈ bs1, b.2.2 = false
  · rw [if_pos hall1]
    simp only []
    rw [NXT_BLK_PTR, e3, GET_SIZE_sv _ _ _ h5, ok_bind, pure_eq_ok, ok_bind, hsz,
      add64_eq (by omega),
      is_in_free_chunk_fwd_walk s (base + C) hterm (by omega) hW bs2 (ptr + z)
        (z + 48 + sumSizes bs1) fuel h7 (by omega) (by omega) hf.2]
    by_cases hall2 : ∀ b ∈ bs2, b.2.2 = false
    · have e : z + 48 + sumSizes bs1 + sumSizes bs2 = C := by omega
      rw [if_pos hall2, if_pos ⟨hall1, hall2⟩, e]
    · rw [if_neg hall2, if_neg (fun h => hall2 h.2)]
  · rw [if_neg hall1, if_neg (fun h => hall1 h.1)]
    rfl

/-- C26: in sample.c, let `ptr` be the payload pointer of a free block of a chunk
whose blocks tile the space between prologue and terminator, all of size at least
32. Then `is_in_free_chunk(ptr)` terminates (with fuel beyond the number of blocks)
and returns a non-zero value if and only if every block of the chunk is marked free;
the non-zero value is the size of the chunk. -/
theorem C26_is_in_free_chunk (s : State) (base C : Nat) (bs1 bs2 : List Blk)
    (ptr z fuel : Nat)
    (hc : ChunkOk s.mem base C (bs1 ++ (ptr, z, false) :: bs2))
    (hf : bs1.length < fuel ∧ bs2.length < fuel) :
    ∃ r, is_in_free_chunk fuel ptr s = .ok r ∧
      (r ≠ 0 ↔ ∀ b ∈ bs1 ++ (ptr, z, false) :: bs2, b.2.2 = false) ∧
      (r ≠ 0 → r = C) := by
  have hC : C ≠ 0 := by
    have hend := Tiles_end _ _ _ _ hc.2.2.2.2.2.1
    omega
  refine ⟨_, is_in_free_chunk_spec s base C bs1 bs2 ptr z fuel hc hf, ?_, ?_⟩
  · constructor
    · intro h b hb
      by_cases hall : (∀ b ∈ bs1, b.2.2 = false) ∧ ∀ b ∈ bs2, b.2.2 = false
      · rcases List.mem_append.mp hb with h1 | h1
        · exact hall.1 b h1
        · rcases List.mem_cons.mp h1 with h2 | h2
          · rw [h2]
          · exact hall.2 b h2
      · rw [if_neg hall] at h
        exact absurd rfl h
    · intro h
      rw [if_pos ⟨fun b hb => h b (by simp [hb]), fun b hb => h b (by simp [hb])⟩]
      exact hC
  · intro h
    by_cases hall : (∀ b ∈ bs1, b.2.2 = false) ∧ ∀ b ∈ bs2, b.2.2 = false
    · rw [if_pos hall]
    · rw [if_neg hall] at h
      exact absurd rfl h

/-- Witness of C26: the chunk of `twoFreeState` holds a free block of 128 bytes, a
live block of 128 bytes and a free block of 3792 bytes; `is_in_free_chunk` on the
last one. -/
theorem C26_witness :
    ∃ r, is_in_free_chunk 8 1048880 twoFreeState = .ok r ∧
      (r ≠ 0 ↔ ∀ b ∈ [(1048624, 128, false), (1048752, 128, true)] ++
        ((1048880 : Nat), (3792 : Nat), false) :: [], b.2.2 = false) ∧
      (r ≠ 0 → r = 4096) :=
  C26_is_in_free_chunk twoFreeState 1048576 4096
    [(1048624, 128, false), (1048752, 128, true)] [] 1048880 3792 8 (by decide) (by decide)

/-- For the payload pointer `b.1` of any block `b` (free or allocated) of a well-formed
chunk mapped at `base` (blocks of size at least 32 tiling the chunk),
`get_chunk_header` terminates (with fuel beyond the number of blocks before `b`) and
returns `base+8`, the address of the chunk's node in the chunk list. -/
theorem get_chunk_header_block (s : State) (base C : Nat) (bs1 bs2 : List Blk) (b : Blk)
    (fuel : Nat) (hc : ChunkOk s.mem base C (bs1 ++ b :: bs2)) (hf : bs1.length < fuel) :
    get_chunk_header fuel b.1 s = .ok (base + 8) := by
  obtain ⟨hb16, hb, hW, h17, h16, ht, hterm⟩ := hc
  obtain ⟨h1, h2, h3, h4, h5, h6, h7⟩ := Tiles_focus _ _ _ _ _ _ ht
  have hend := Tiles_end _ _ _ _ h7
  exact get_chunk_header_walk s base h16 bs1 b.1 fuel h1 (by omega) hf

/-- Example: the last block of the chunk of `twoFreeState`. -/
theorem get_chunk_header_block_example :
    get_chunk_header 8 ((1048880, 3792, false) : Blk).1 twoFreeState = .ok (1048576 + 8) :=
  get_chunk_header_block twoFreeState 1048576 4096
    [(1048624, 128, false), (1048752, 128, true)] [] (1048880, 3792, false) 8 (by decide)
    (by decide)

end Sample

namespace Sample
open Alloc

theorem ChunkMapped_elim (m : Mem) (base C : Nat) (h : ChunkMapped m base C)
    (hb : base % 8 = 0) (hC : C % 8 = 0) :
    ∀ a, base ≤ a → a < base + C → a % 8 = 0 → Mapped m a := by
  intro a h1 h2 h3
  have := h ((a - base) / 8) (by omega)
  have e : base + 8 * ((a - base) / 8) = a := by omega
  rwa [e] at this

theorem ChunkMapped_mono (m m' : Mem) (base C : Nat) (h : ChunkMapped m base C)
    (hm : ∀ a, Mapped m a → Mapped m' a) : ChunkMapped m' base C :=
  fun k hk => hm _ (h k hk)

theorem Tiles_aligned (m : Mem) : ∀ (bs : List Blk) (p e : Nat), Tiles m p bs e →
    p % 16 = 0 → ∀ b ∈ bs, b.1 % 16 = 0 := by
  intro bs
  induction bs with
  | nil => intro p e _ _ b hb; simp at hb
  | cons c cs ih =>
    intro p e h hp b hb
    rw [Tiles_cons] at h
    rcases List.mem_cons.mp hb with rfl | hb
    · omega
    · exact ih _ _ h.2.2.2.2.2 (by omega) b hb

theorem Tiles_apart (m : Mem) : ∀ (bs : List Blk) (p e : Nat), Tiles m p bs e →
    ∀ b ∈ bs, ∀ b' ∈ bs, b = b' ∨ b.1 + b.2.1 ≤ b'.1 ∨ b'.1 + b'.2.1 ≤ b.1 := by
  intro bs
  induction bs with
  | nil => intro p e _ b hb; simp at hb
  | cons c cs ih =>
    intro p e h b hb b' hb'
    rw [Tiles_cons] at h
    have hm := Tiles_mem m cs _ _ h.2.2.2.2.2
    rcases List.mem_cons.mp hb with e1 | g1 <;> rcases List.mem_cons.mp hb' with e2 | g2
    · exact Or.inl (e1.trans e2.symm)
    · have := hm b' g2; rw [e1]; right; left; omega
    · have := hm b g1; rw [e2]; right; right; omega
    · exact ih _ _ h.2.2.2.2.2 b g1 b' g2

theorem Tiles_frame (m m' : Mem) : ∀ (bs : List Blk) (p e : Nat), Tiles m p bs e →
    (∀ b ∈ bs, m' (b.1 - 8) = m (b.1 - 8) ∧ m' (b.1 + b.2.1 - 16) = m (b.1 + b.2.1 - 16)) →
    Tiles m' p bs e := by
  intro bs
  induction bs with
  | nil => intro p e h _; rw [Tiles_nil] at h ⊢; exact h
  | cons c cs ih =>
    intro p e h hf
    rw [Tiles_cons] at h ⊢
    obtain ⟨h1, h2, h3, h4, h5, h6⟩ := h
    have := hf c (by simp)
    rw [h1] at this
    refine ⟨h1, h2, h3, by rw [this.1]; exact h4, by rw [this.2]; exact h5, ?_⟩
    exact ih _ _ h6 (fun b hb => hf b (List.mem_cons_of_mem _ hb))

end Sample

namespace Sample
open Alloc

theorem Struct_block {s : State} {cs : List (Nat × Nat)} {B : Nat → List Blk} 
    (hR : Struct s cs B) {c : Nat × Nat} (hc : c ∈ cs) {b : Blk} (hb : b ∈ B c.1) :
    c.1 % 16 = 0 ∧ 16 ≤ c.1 ∧ c.1 + c.2 < 18446744073709551616 ∧ c.2 % 16 = 0 ∧
      c.1 + 48 ≤ b.1 ∧ b.1 + b.2.1 ≤ c.1 + c.2 ∧ 32 ≤ b.2.1 ∧ b.2.1 % 16 = 0 ∧
      b.1 % 16 = 0 ∧ s.mem (b.1 - 8) = some (hdrWord b) ∧
      s.mem (b.1 + b.2.1 - 16) = some b.2.1 := by
  obtain ⟨⟨h16, hb16, hW, h17, hf16, ht, hterm⟩, -⟩ := hR.2.1 c hc
  have hm := Tiles_mem _ _ _ _ ht b hb
  have ha := Tiles_aligned _ _ _ _ ht (by omega) b hb
  have he := Tiles_end _ _ _ _ ht
  have hs : ∀ (l : List Blk) (p e : Nat), Tiles s.mem p l e → sumSizes l % 16 = 0 := by
    intro l
    induction l with
    | nil => intro p e _; rfl
    | cons x xs ih =>
      intro p e h
      rw [Tiles_cons] at h
      have := ih _ _ h.2.2.2.2.2
      simp only [sumSizes]; omega
  have := hs _ _ _ ht
  exact ⟨h16, hb16, hW, by omega, hm.1, hm.2.1, hm.2.2.1, hm.2.2.2.1, ha, hm.2.2.2.2.1,
    hm.2.2.2.2.2⟩

theorem Struct_chunk {s : State} {cs : List (Nat × Nat)} {B : Nat → List Blk} 
    (hR : Struct s cs B) {c : Nat × Nat} (hc : c ∈ cs) :
    c.1 % 16 = 0 ∧ 16 ≤ c.1 ∧ c.1 + c.2 < 18446744073709551616 ∧ c.2 % 16 = 0 ∧ 48 ≤ c.2 ∧
      s.mem (c.1 + 24) = some 17 ∧ s.mem (c.1 + 32) = some 16 ∧
      s.mem (c.1 + c.2 - 8) = some 1 ∧
      ∀ a, c.1 ≤ a → a < c.1 + c.2 → a % 8 = 0 → Mapped s.mem a := by
  obtain ⟨⟨h16, hb16, hW, h17, hf16, ht, hterm⟩, hmp⟩ := hR.2.1 c hc
  have he := Tiles_end _ _ _ _ ht
  have hs : ∀ (l : List Blk) (p e : Nat), Tiles s.mem p l e → sumSizes l % 16 = 0 := by
    intro l
    induction l with
    | nil => intro p e _; rfl
    | cons x xs ih =>
      intro p e h
      rw [Tiles_cons] at h
      have := ih _ _ h.2.2.2.2.2
      simp only [sumSizes]; omega
  have := hs _ _ _ ht
  exact ⟨h16, hb16, hW, by omega, by omega, h17, hf16, hterm,
    ChunkMapped_elim _ _ _ hmp (by omega) (by omega)⟩

theorem Struct_chunks_apart {s : State} {cs : List (Nat × Nat)} {B : Nat → List Blk}
     (hR : Struct s cs B) {c d : Nat × Nat} (hc : c ∈ cs) (hd : d ∈ cs) :
    c = d ∨ c.1 + c.2 ≤ d.1 ∨ d.1 + d.2 ≤ c.1 := by
  by_cases h : c = d
  · exact Or.inl h
  · right
    have hsym : Symmetric (fun c d : Nat × Nat => c.1 + c.2 ≤ d.1 ∨ d.1 + d.2 ≤ c.1) :=
      fun a b hab => hab.symm
    exact hR.2.2.1.forall hsym hc hd h

theorem Struct_blocks_apart {s : State} {cs : List (Nat × Nat)} {B : Nat → List Blk}
     (hR : Struct s cs B) {c d : Nat × Nat} (hc : c ∈ cs) (hd : d ∈ cs)
    {b b' : Blk} (hb : b ∈ B c.1) (hb' : b' ∈ B d.1) :
    b = b' ∨ b.1 + b.2.1 ≤ b'.1 ∨ b'.1 + b'.2.1 ≤ b.1 := by
  have f1 := Struct_block hR hc hb
  have f2 := Struct_block hR hd hb'
  rcases Struct_chunks_apart hR hc hd with h | h
  · subst h
    exact Tiles_apart _ _ _ _ (hR.2.1 c hc).1.2.2.2.2.2.1 b hb b' hb'
  · right; omega

theorem Struct_sizeAt {s : State} {cs : List (Nat × Nat)} {B : Nat → List Blk}
     (hR : Struct s cs B) {c : Nat × Nat} (hc : c ∈ cs) {b : Blk}
    (hb : b ∈ B c.1) : sizeAt s.mem b.1 = b.2.1 := by
  have f := Struct_block hR hc hb
  unfold sizeAt
  rw [f.2.2.2.2.2.2.2.2.2.1]
  exact sizeBits_hdrWord b f.2.2.2.2.2.2.2.1

end Sample

namespace Sample
open Alloc

theorem Nb_of_block {cs : List (Nat × Nat)} {B : Nat → List Blk} {c : Nat × Nat}
    (hc : c ∈ cs) {b : Blk} (hb : b ∈ B c.1) : Nb cs B b.1 b.2.1 :=
  Or.inr ⟨c, hc, b.2.2, hb⟩

theorem Nb_block {s : State} {cs : List (Nat × Nat)} {B : Nat → List Blk}
    (hS : Struct s cs B) {n zn : Nat} (hn : Nb cs B n zn) {d : Nat × Nat} (hd : d ∈ cs)
    {b : Blk} (hb : b ∈ B d.1) :
    n = 0 ∨ (32 ≤ zn ∧ zn % 16 = 0 ∧ n % 16 = 0 ∧ 48 ≤ n ∧ n + zn < 18446744073709551616 ∧
      ((b.1 = n ∧ b.2.1 = zn) ∨ n + zn ≤ b.1 ∨ b.1 + b.2.1 ≤ n)) := by
  rcases hn with h | ⟨c, hc, a, hx⟩
  · exact Or.inl h
  · right
    have f := Struct_block hS hc hx
    simp only at f
    refine ⟨f.2.2.2.2.2.2.1, f.2.2.2.2.2.2.2.1, f.2.2.2.2.2.2.2.2.1, by omega, by omega, ?_⟩
    rcases Struct_blocks_apart hS hc hd hx hb with h | h | h
    · left; rw [← h]; exact ⟨rfl, rfl⟩
    · right; left; exact h
    · right; right; exact h

theorem Nb_chunk {s : State} {cs : List (Nat × Nat)} {B : Nat → List Blk}
    (hS : Struct s cs B) {n zn : Nat} (hn : Nb cs B n zn) {d : Nat × Nat} (hd : d ∈ cs) :
    n = 0 ∨ (32 ≤ zn ∧ zn % 16 = 0 ∧ n % 16 = 0 ∧ 48 ≤ n ∧ n + zn < 18446744073709551616 ∧
      ((d.1 + 48 ≤ n ∧ n + zn ≤ d.1 + d.2) ∨ n + zn ≤ d.1 ∨ d.1 + d.2 + 48 ≤ n)) := by
  rcases hn with h | ⟨c, hc, a, hx⟩
  · exact Or.inl h
  · right
    have f := Struct_block hS hc hx
    have g := Struct_chunk hS hd
    simp only at f
    refine ⟨f.2.2.2.2.2.2.1, f.2.2.2.2.2.2.2.1, f.2.2.2.2.2.2.2.2.1, by omega, by omega, ?_⟩
    rcases Struct_chunks_apart hS hc hd with h | h | h
    · subst h; left; omega
    · right; left; omega
    · right; right; omega

theorem Nb_mapped {s : State} {cs : List (Nat × Nat)} {B : Nat → List Blk}
    (hS : Struct s cs B) {n zn : Nat} (hn : Nb cs B n zn) (hn0 : n ≠ 0) :
    ∀ a, n - 8 ≤ a → a < n + zn - 8 → a % 8 = 0 → Mapped s.mem a := by
  rcases hn with h | ⟨c, hc, a, hx⟩
  · exact absurd h hn0
  · intro a h1 h2 h3
    have f := Struct_block hS hc hx
    simp only at f
    exact (Struct_chunk hS hc).2.2.2.2.2.2.2.2 a (by omega) (by omega) h3

theorem Struct_frame {s : State} {cs : List (Nat × Nat)} {B : Nat → List Blk}
    (hS : Struct s cs B) (s' : State) (hh : s'.chunk_list_head = s.chunk_list_head)
    (hr : s'.regions = s.regions) (hmp : ∀ a, Mapped s.mem a → Mapped s'.mem a)
    (hfr : ∀ d ∈ cs, s'.mem (d.1 + 8) = s.mem (d.1 + 8) ∧ s'.mem (d.1 + 16) = s.mem (d.1 + 16) ∧
      s'.mem (d.1 + 24) = s.mem (d.1 + 24) ∧ s'.mem (d.1 + 32) = s.mem (d.1 + 32) ∧
      s'.mem (d.1 + d.2 - 8) = s.mem (d.1 + d.2 - 8) ∧
      ∀ b ∈ B d.1, s'.mem (b.1 - 8) = s.mem (b.1 - 8) ∧
        s'.mem (b.1 + b.2.1 - 16) = s.mem (b.1 + b.2.1 - 16)) :
    Struct s' cs B := by
  obtain ⟨h1, h2, h3, h4⟩ := hS
  refine ⟨?_, ?_, h3, by rw [hr]; exact h4⟩
  · rw [hh]
    refine Chain_frame _ _ _ _ _ _ _ h1 ?_
    intro x hx
    obtain ⟨d, hd, rfl⟩ := List.mem_map.mp hx
    have := hfr d hd
    rw [Nat.add_zero]
    exact ⟨this.1, this.2.1⟩
  · intro d hd
    obtain ⟨⟨g1, g2, g3, g4, g5, g6, g7⟩, g8⟩ := h2 d hd
    have f := hfr d hd
    refine ⟨⟨g1, g2, g3, by rw [f.2.2.1]; exact g4, by rw [f.2.2.2.1]; exact g5, ?_,
      by rw [f.2.2.2.2.1]; exact g7⟩, ChunkMapped_mono _ _ _ _ g8 hmp⟩
    exact Tiles_frame _ _ _ _ _ g6 f.2.2.2.2.2

/-- A change of the memory confined to the link words (first 16 bytes of the payload)
of blocks of the heap preserves the structure. -/
theorem Struct_soft {s : State} {cs : List (Nat × Nat)} {B : Nat → List Blk}
    (hS : Struct s cs B) (s' : State) (hh : s'.chunk_list_head = s.chunk_list_head)
    (hr : s'.regions = s.regions) (hmp : ∀ a, Mapped s.mem a → Mapped s'.mem a)
    (T : List (Nat × Nat)) (hT : ∀ t ∈ T, Nb cs B t.1 t.2)
    (hfr : ∀ a, (∀ t ∈ T, t.1 = 0 ∨ (a ≠ t.1 ∧ a ≠ t.1 + 8)) → s'.mem a = s.mem a) :
    Struct s' cs B := by
  refine Struct_frame hS s' hh hr hmp ?_
  intro d hd
  have g := Struct_chunk hS hd
  refine ⟨?_, ?_, ?_, ?_, ?_, ?_⟩
  · exact hfr _ (fun t ht => by have := Nb_chunk hS (hT t ht) hd; omega)
  · exact hfr _ (fun t ht => by have := Nb_chunk hS (hT t ht) hd; omega)
  · exact hfr _ (fun t ht => by have := Nb_chunk hS (hT t ht) hd; omega)
  · exact hfr _ (fun t ht => by have := Nb_chunk hS (hT t ht) hd; omega)
  · exact hfr _ (fun t ht => by have := Nb_chunk hS (hT t ht) hd; omega)
  · intro b hb
    have f := Struct_block hS hd hb
    constructor
    · exact hfr _ (fun t ht => by have := Nb_block hS (hT t ht) hd hb; omega)
    · exact hfr _ (fun t ht => by have := Nb_block hS (hT t ht) hd hb; omega)

end Sample

namespace Sample
open Alloc

theorem Struct_base_inj {s : State} {cs : List (Nat × Nat)} {B : Nat → List Blk}
    (hS : Struct s cs B) {c d : Nat × Nat} (hc : c ∈ cs) (hd : d ∈ cs) (h : d.1 = c.1) :
    d = c := by
  have g1 := Struct_chunk hS hc
  have g2 := Struct_chunk hS hd
  rcases Struct_chunks_apart hS hd hc with h1 | h1 | h1
  · exact h1
  · omega
  · omega

/-- Rewriting the run `mid` of consecutive blocks of the chunk `c` into the run `mid'`
over the same byte range, by stores confined to that range, preserves the structure
(with the new block list for `c`). -/
theorem Struct_rewrite {s : State} {cs : List (Nat × Nat)} {B : Nat → List Blk}
    (hS : Struct s cs B) {c : Nat × Nat} (hc : c ∈ cs) (bs1 mid mid' bs2 : List Blk)
    (hB : B c.1 = bs1 ++ (mid ++ bs2)) (s' : State)
    (hh : s'.chunk_list_head = s.chunk_list_head) (hr : s'.regions = s.regions)
    (hmp : ∀ a, Mapped s.mem a → Mapped s'.mem a)
    (hfr : ∀ a, (a < c.1 + 48 + sumSizes bs1 - 8 ∨
      c.1 + 48 + sumSizes bs1 + sumSizes mid - 8 ≤ a) → s'.mem a = s.mem a)
    (hmid : Tiles s'.mem (c.1 + 48 + sumSizes bs1) mid'
      (c.1 + 48 + sumSizes bs1 + sumSizes mid)) :
    Struct s' cs (Function.update B c.1 (bs1 ++ (mid' ++ bs2))) := by
  have gc := Struct_chunk hS hc
  obtain ⟨⟨-, -, -, -, -, htc, -⟩, -⟩ := hS.2.1 c hc
  rw [hB, Tiles_append, Tiles_append] at htc
  obtain ⟨ht1, ht2, ht3⟩ := htc
  have hend := Tiles_end _ _ _ _ ht3
  have hx : c.1 + 48 ≤ c.1 + 48 + sumSizes bs1 := by omega
  obtain ⟨h1, h2, h3, h4⟩ := hS
  refine ⟨?_, ?_, h3, by rw [hr]; exact h4⟩
  · rw [hh]
    refine Chain_frame _ _ _ _ _ _ _ h1 ?_
    intro y hy
    obtain ⟨d, hd, rfl⟩ := List.mem_map.mp hy
    have gd := Struct_chunk ⟨h1, h2, h3, h4⟩ hd
    have := Struct_chunks_apart ⟨h1, h2, h3, h4⟩ hd hc
    rw [Nat.add_zero]
    constructor
    · refine hfr _ ?_
      rcases this with e | e | e
      · subst e; omega
      · omega
      · omega
    · refine hfr _ ?_
      rcases this with e | e | e
      · subst e; omega
      · omega
      · omega
  · intro d hd
    have gd := Struct_chunk ⟨h1, h2, h3, h4⟩ hd
    obtain ⟨⟨g1, g2, g3, g4, g5, g6, g7⟩, g8⟩ := h2 d hd
    by_cases hdc : d.1 = c.1
    · have := Struct_base_inj ⟨h1, h2, h3, h4⟩ hc hd hdc
      subst this
      rw [Function.update_same]
      refine ⟨⟨g1, g2, g3, ?_, ?_, ?_, ?_⟩, ChunkMapped_mono _ _ _ _ g8 hmp⟩
      · rw [hfr _ (by omega)]; exact g4
      · rw [hfr _ (by omega)]; exact g5
      · rw [Tiles_append, Tiles_append]
        have he' := Tiles_end _ _ _ _ hmid
        refine ⟨?_, ?_, ?_⟩
        · refine Tiles_frame _ _ _ _ _ ht1 ?_
          intro b hb
          have := Tiles_mem _ _ _ _ ht1 b hb
          exact ⟨hfr _ (by omega), hfr _ (by omega)⟩
        · rw [← he']; exact hmid
        · rw [← he']
          refine Tiles_frame _ _ _ _ _ ht3 ?_
          intro b hb
          have := Tiles_mem _ _ _ _ ht3 b hb
          exact ⟨hfr _ (by omega), hfr _ (by omega)⟩
      · rw [hfr _ (by omega)]; exact g7
    · rw [Function.update_noteq hdc]
      have hap := Struct_chunks_apart ⟨h1, h2, h3, h4⟩ hd hc
      have hne : d ≠ c := fun e => hdc (by rw [e])
      have hout : ∀ a, d.1 ≤ a → a < d.1 + d.2 → s'.mem a = s.mem a := by
        intro a ha1 ha2
        refine hfr _ ?_
        rcases hap with e | e | e
        · exact absurd e hne
        · omega
        · omega
      refine ⟨⟨g1, g2, g3, ?_, ?_, ?_, ?_⟩, ChunkMapped_mono _ _ _ _ g8 hmp⟩
      · rw [hout _ (by omega) (by omega)]; exact g4
      · rw [hout _ (by omega) (by omega)]; exact g5
      · refine Tiles_frame _ _ _ _ _ g6 ?_
        intro b hb
        have := Tiles_mem _ _ _ _ g6 b hb
        exact ⟨hout _ (by omega) (by omega), hout _ (by omega) (by omega)⟩
      · rw [hout _ (by omega) (by omega)]; exact g7

end Sample

namespace Sample
open Alloc

theorem addS_other (m : Mem) (x h a : Nat) (h1 : a ≠ x) (h2 : a ≠ x + 8)
    (h3 : h ≠ 0 → a ≠ h + 8) : addS m x h a = m a := by
  unfold addS
  by_cases h0 : h = 0
  · rw [if_neg (by simpa using h0), store_other _ _ _ _ h2, store_other _ _ _ _ h1]
  · rw [if_pos h0, store_other _ _ _ _ h2, store_other _ _ _ _ (h3 h0),
      store_other _ _ _ _ h1]

theorem addS_next (m : Mem) (x h : Nat) (hx : h + 8 ≠ x) : addS m x h x = some h := by
  unfold addS
  by_cases h0 : h = 0
  · rw [if_neg (by simpa using h0), store_other _ _ _ _ (by omega), store_same, h0]
  · rw [if_pos h0, store_other _ _ _ _ (by omega), store_other _ _ _ _ (fun e => hx e.symm),
      store_same]

theorem addS_prev (m : Mem) (x h : Nat) : addS m x h (x + 8) = some 0 := by
  unfold addS
  rw [store_same]

theorem addS_head (m : Mem) (x h : Nat) (h0 : h ≠ 0) (hx : h ≠ x) :
    addS m x h (h + 8) = some x := by
  unfold addS
  rw [if_pos h0, store_other _ _ _ _ (by omega), store_same]

theorem Mapped_addS (m : Mem) (x h a : Nat) (hm : Mapped m a) : Mapped (addS m x h) a := by
  unfold addS
  by_cases h0 : h = 0
  · rw [if_neg (by simpa using h0)]
    exact Mapped_store _ _ _ _ (Mapped_store _ _ _ _ hm)
  · rw [if_pos h0]
    exact Mapped_store _ _ _ _ (Mapped_store _ _ _ _ (Mapped_store _ _ _ _ hm))

theorem add_to_free_list_eq (s : State) (x : Nat)
    (h1 : Mapped s.mem x) (h2 : Mapped s.mem (x + 8))
    (h3 : s.free_list_head ≠ 0 → Mapped s.mem (s.free_list_head + 8))
    (hw1 : x + 8 < 18446744073709551616)
    (hw2 : s.free_list_head + 8 < 18446744073709551616) :
    add_to_free_list x s = .ok { s with
      free_list_head := x
      mem := addS s.mem x s.free_list_head } := by
  unfold addS
  by_cases h0 : s.free_list_head = 0
  · rw [if_neg (by simpa using h0), add_to_free_list_nil s x h1 h2 h0 hw1]
  · rw [if_pos h0, add_to_free_list_cons s x h1 h2 h0 (h3 h0) hw1 hw2]

theorem add_to_free_list_spec (s : State) (x : Nat) (L : List Nat)
    (hc : Chain s.mem 0 8 0 s.free_list_head L) (hnd : L.Nodup) (hal : Aligned L)
    (hx : x ∉ L) (hx0 : x ≠ 0) (hxa : x % 16 = 0) (hxW : x + 16 ≤ 18446744073709551616)
    (h1 : Mapped s.mem x) (h2 : Mapped s.mem (x + 8)) :
    add_to_free_list x s = .ok { s with
      free_list_head := x
      mem := addS s.mem x (L.headD 0) } ∧
    Chain (addS s.mem x (L.headD 0)) 0 8 0 x (x :: L) := by
  rw [Chain_iff_Seg] at hc
  obtain ⟨hhd, hseg⟩ := hc
  have hmp := Seg_mapped _ _ _ _ _ _ hseg
  have hnz := Seg_ne_zero _ _ _ _ _ _ hseg
  have hH : L.headD 0 ≠ 0 → L.headD 0 ∈ L := by
    intro h; rcases headD_mem_or L 0 with ⟨h1, -⟩ | h1
    · exact absurd h1 h
    · exact h1
  have hhW : L.headD 0 + 16 ≤ 18446744073709551616 ∧ L.headD 0 % 16 = 0 := by
    by_cases h : L.headD 0 = 0
    · rw [h]; decide
    · exact ⟨(hal _ (hH h)).2, (hal _ (hH h)).1⟩
  have hne : ∀ y ∈ L, y ≠ x ∧ y % 16 = 0 := fun y hy =>
    ⟨fun e => hx (e ▸ hy), (hal y hy).1⟩
  have hE := add_to_free_list_eq s x h1 h2
    (fun h => by rw [hhd] at h ⊢; exact (hmp _ (hH h)).2) (by omega) (by rw [hhd]; omega)
  rw [hhd] at hE
  refine ⟨hE, ?_⟩
  rw [Chain_iff_Seg]
  refine ⟨rfl, ?_⟩
  refine Seg_cons s.mem _ 0 8 L x 0 hseg hx0 hnd ?_ ?_ ?_ ?_ ?_
  · rw [Nat.add_zero]; exact addS_next _ _ _ (by omega)
  · exact addS_prev _ _ _
  · intro y hy
    have := hne y hy
    rw [Nat.add_zero]
    exact addS_other _ _ _ _ (by omega) (by omega) (fun _ => by omega)
  · intro y hy hyh
    have := hne y hy
    exact addS_other _ _ _ _ (by omega) (by omega) (fun _ => by omega)
  · intro hL
    have h0 : L.headD 0 ≠ 0 := by
      cases L with
      | nil => exact absurd rfl hL
      | cons b bs => simpa using hnz b (by simp)
    exact addS_head _ _ _ h0 (hne _ (hH h0)).1

end Sample

namespace Sample
open Alloc

theorem Rep1_Nb {s : State} {cs : List (Nat × Nat)} {B : Nat → List Blk} {fl : List Nat}
    (hR : Rep1 s cs B fl) {y : Nat} (hy : y ∈ fl) : ∃ zy, Nb cs B y zy := by
  obtain ⟨c, hc, b, hb, e⟩ := hR.2.2.2 y hy
  exact ⟨b.2.1, e ▸ Nb_of_block hc hb⟩

theorem Rep1_Nb0 {s : State} {cs : List (Nat × Nat)} {B : Nat → List Blk} {fl : List Nat}
    (hR : Rep1 s cs B fl) {y : Nat} (hy : y = 0 ∨ y ∈ fl) : ∃ zy, Nb cs B y zy := by
  rcases hy with h | h
  · exact ⟨0, Or.inl h⟩
  · exact Rep1_Nb hR h

theorem Rep1_Aligned {s : State} {cs : List (Nat × Nat)} {B : Nat → List Blk}
    {fl : List Nat} (hR : Rep1 s cs B fl) : Aligned fl ∧ ∀ y ∈ fl, y ≠ 0 := by
  constructor
  · intro y hy
    obtain ⟨c, hc, b, hb, e⟩ := hR.2.2.2 y hy
    have f := Struct_block hR.1 hc hb
    rw [← e]
    exact ⟨f.2.2.2.2.2.2.2.2.1, by omega⟩
  · intro y hy
    obtain ⟨c, hc, b, hb, e⟩ := hR.2.2.2 y hy
    have f := Struct_block hR.1 hc hb
    omega

theorem lastD_zero_or_mem (L : List Nat) : lastD L 0 = 0 ∨ lastD L 0 ∈ L := by
  rcases lastD_mem_or L 0 with ⟨h, -⟩ | h
  · exact Or.inl h
  · exact Or.inr h

theorem headD_zero_or_mem (L : List Nat) : L.headD 0 = 0 ∨ L.headD 0 ∈ L := by
  rcases headD_mem_or L 0 with ⟨h, -⟩ | h
  · exact Or.inl h
  · exact Or.inr h

/-- `remove_from_free_list(x)` in a heap with free list `L1 ++ x :: L2`. -/
theorem remove_step {s : State} {cs : List (Nat × Nat)} {B : Nat → List Blk}
    (x : Nat) (L1 L2 : List Nat) (hR : Rep1 s cs B (L1 ++ x :: L2)) :
    ∃ s', remove_from_free_list x s = .ok s' ∧ Rep1 s' cs B (L1 ++ L2) ∧
      s'.chunk_list_head = s.chunk_list_head ∧ s'.regions = s.regions ∧
      s'.new_chunk_size = s.new_chunk_size ∧ s'.oracle = s.oracle ∧ s'.nmaps = s.nmaps ∧
      s'.unmaps = s.unmaps ∧
      s'.mem = unlinkS s.mem (lastD L1 0) (L2.headD 0) ∧
      (∀ a, Mapped s.mem a → Mapped s'.mem a) := by
  obtain ⟨hS, hc, hnd, hbl⟩ := hR
  have hal := (Rep1_Aligned ⟨hS, hc, hnd, hbl⟩).1
  obtain ⟨h1, h2, -, -⟩ := remove_from_free_list_spec s x L1 L2 hc hnd hal
  obtain ⟨zp, hzp⟩ := Rep1_Nb0 ⟨hS, hc, hnd, hbl⟩ (y := lastD L1 0) (by
    rcases lastD_zero_or_mem L1 with h | h
    · exact Or.inl h
    · exact Or.inr (List.mem_append.mpr (Or.inl h)))
  obtain ⟨zn, hzn⟩ := Rep1_Nb0 ⟨hS, hc, hnd, hbl⟩ (y := L2.headD 0) (by
    rcases headD_zero_or_mem L2 with h | h
    · exact Or.inl h
    · exact Or.inr (List.mem_append.mpr (Or.inr (List.mem_cons_of_mem _ h))))
  have hmp : ∀ a, Mapped s.mem a → Mapped (unlinkS s.mem (lastD L1 0) (L2.headD 0)) a :=
    fun a ha => Mapped_unlinkS _ _ _ _ ha
  refine ⟨_, h1, ⟨?_, h2, ?_, ?_⟩, rfl, rfl, rfl, rfl, rfl, rfl, rfl, hmp⟩
  · refine Struct_soft hS _ rfl rfl hmp [(lastD L1 0, zp), (L2.headD 0, zn)] ?_ ?_
    · intro t ht
      simp only [List.mem_cons, List.mem_singleton, List.not_mem_nil, or_false] at ht
      rcases ht with rfl | rfl
      · exact hzp
      · exact hzn
    · intro a ha
      have ha1 := ha (lastD L1 0, zp) (by simp)
      have ha2 := ha (L2.headD 0, zn) (by simp)
      simp only at ha1 ha2
      exact unlinkS_other _ _ _ _ (fun h => by omega) (fun h => by omega)
  · have := List.nodup_append.mp hnd
    exact List.nodup_append.mpr ⟨this.1, (List.nodup_cons.mp this.2.1).2,
      fun a h1 h2 => this.2.2 h1 (List.mem_cons_of_mem _ h2)⟩
  · intro p hp
    refine hbl p ?_
    rcases List.mem_append.mp hp with h | h
    · exact List.mem_append.mpr (Or.inl h)
    · exact List.mem_append.mpr (Or.inr (List.mem_cons_of_mem _ h))

/-- `add_to_free_list(x)` for a block `x` of the heap that is not in the free list. -/
theorem add_step {s : State} {cs : List (Nat × Nat)} {B : Nat → List Blk} {fl : List Nat}
    (x zx : Nat) (hR : Rep1 s cs B fl) (hx : Nb cs B x zx) (hx0 : x ≠ 0) (hxf : x ∉ fl) :
    ∃ s', add_to_free_list x s = .ok s' ∧ Rep1 s' cs B (x :: fl) ∧
      s'.chunk_list_head = s.chunk_list_head ∧ s'.regions = s.regions ∧
      s'.new_chunk_size = s.new_chunk_size ∧ s'.oracle = s.oracle ∧ s'.nmaps = s.nmaps ∧
      s'.unmaps = s.unmaps ∧
      s'.mem = addS s.mem x (fl.headD 0) ∧
      (∀ a, Mapped s.mem a → Mapped s'.mem a) := by
  obtain ⟨hS, hc, hnd, hbl⟩ := hR
  have hal := (Rep1_Aligned ⟨hS, hc, hnd, hbl⟩).1
  obtain ⟨c, hcc, a, hxb⟩ : ∃ c ∈ cs, ∃ a, (x, zx, a) ∈ B c.1 := by
    rcases hx with h | h
    · exact absurd h hx0
    · exact h
  have f := Struct_block hS hcc hxb
  simp only at f
  have hxm := Nb_mapped hS hx hx0
  obtain ⟨h1, h2⟩ := add_to_free_list_spec s x fl hc hnd hal hxf hx0 f.2.2.2.2.2.2.2.2.1
    (by omega) (hxm _ (by omega) (by omega) (by omega)) (hxm _ (by omega) (by omega) (by omega))
  obtain ⟨zh, hzh⟩ := Rep1_Nb0 ⟨hS, hc, hnd, hbl⟩ (y := fl.headD 0) (headD_zero_or_mem fl)
  have hmp : ∀ a, Mapped s.mem a → Mapped (addS s.mem x (fl.headD 0)) a :=
    fun a ha => Mapped_addS _ _ _ _ ha
  refine ⟨_, h1, ⟨?_, h2, List.nodup_cons.mpr ⟨hxf, hnd⟩, ?_⟩, rfl, rfl, rfl, rfl, rfl, rfl, rfl,
    hmp⟩
  · refine Struct_soft hS _ rfl rfl hmp [(x, zx), (fl.headD 0, zh)] ?_ ?_
    · intro t ht
      simp only [List.mem_cons, List.mem_singleton, List.not_mem_nil, or_false] at ht
      rcases ht with rfl | rfl
      · exact hx
      · exact hzh
    · intro a ha
      have ha1 := ha (x, zx) (by simp)
      have ha2 := ha (fl.headD 0, zh) (by simp)
      simp only at ha1 ha2
      exact addS_other _ _ _ _ (by omega) (by omega) (fun h => by omega)
  · intro p hp
    rcases List.mem_cons.mp hp with h | h
    · exact ⟨c, hcc, _, hxb, h.symm⟩
    · exact hbl p h

end Sample

namespace Sample
open Alloc

/-- Position of the blocks of a chunk `c` whose block list is `bs1 ++ (mid ++ bs2)`,
relative to the byte range of `mid`. -/
theorem Struct_split {s : State} {cs : List (Nat × Nat)} {B : Nat → List Blk}
    (hS : Struct s cs B) {c : Nat × Nat} (hc : c ∈ cs) (bs1 mid bs2 : List Blk)
    (hB : B c.1 = bs1 ++ (mid ++ bs2)) :
    Tiles s.mem (c.1 + 48) bs1 (c.1 + 48 + sumSizes bs1) ∧
    Tiles s.mem (c.1 + 48 + sumSizes bs1) mid (c.1 + 48 + sumSizes bs1 + sumSizes mid) ∧
    Tiles s.mem (c.1 + 48 + sumSizes bs1 + sumSizes mid) bs2 (c.1 + c.2) ∧
    c.1 + 48 + sumSizes bs1 + sumSizes mid ≤ c.1 + c.2 ∧
    (∀ b ∈ bs1, b.1 + b.2.1 ≤ c.1 + 48 + sumSizes bs1 ∧ 32 ≤ b.2.1) ∧
    (∀ b ∈ bs2, c.1 + 48 + sumSizes bs1 + sumSizes mid ≤ b.1) := by
  obtain ⟨⟨-, -, -, -, -, htc, -⟩, -⟩ := hS.2.1 c hc
  rw [hB, Tiles_append, Tiles_append] at htc
  obtain ⟨ht1, ht2, ht3⟩ := htc
  have hend := Tiles_end _ _ _ _ ht3
  refine ⟨ht1, ht2, ht3, by omega, ?_, ?_⟩
  · intro b hb
    have := Tiles_mem _ _ _ _ ht1 b hb
    exact ⟨this.2.1, this.2.2.1⟩
  · intro b hb
    exact (Tiles_mem _ _ _ _ ht3 b hb).1

theorem Rep1_rewrite {s : State} {cs : List (Nat × Nat)} {B : Nat → List Blk}
    {fl : List Nat} (hR : Rep1 s cs B fl) {c : Nat × Nat} (hc : c ∈ cs)
    (bs1 mid mid' bs2 : List Blk) (hB : B c.1 = bs1 ++ (mid ++ bs2)) (s' : State)
    (hh : s'.chunk_list_head = s.chunk_list_head) (hr : s'.regions = s.regions)
    (hfh : s'.free_list_head = s.free_list_head)
    (hmp : ∀ a, Mapped s.mem a → Mapped s'.mem a)
    (hfr : ∀ a, (a < c.1 + 48 + sumSizes bs1 - 8 ∨
      c.1 + 48 + sumSizes bs1 + sumSizes mid - 8 ≤ a) → s'.mem a = s.mem a)
    (hmid : Tiles s'.mem (c.1 + 48 + sumSizes bs1) mid'
      (c.1 + 48 + sumSizes bs1 + sumSizes mid))
    (hkeep : ∀ b ∈ mid, b.1 ∈ fl → (∃ b' ∈ mid', b'.1 = b.1) ∧
      s'.mem b.1 = s.mem b.1 ∧ s'.mem (b.1 + 8) = s.mem (b.1 + 8)) :
    Rep1 s' cs (Function.update B c.1 (bs1 ++ (mid' ++ bs2))) fl := by
  obtain ⟨hS, hch, hnd, hbl⟩ := hR
  obtain ⟨ht1, ht2, ht3, hle, hb1, hb2⟩ := Struct_split hS hc bs1 mid bs2 hB
  have gc := Struct_chunk hS hc
  refine ⟨Struct_rewrite hS hc bs1 mid mid' bs2 hB s' hh hr hmp hfr hmid, ?_, hnd, ?_⟩
  · rw [hfh]
    refine Chain_frame _ _ _ _ _ _ _ hch ?_
    intro y hy
    rw [Nat.add_zero]
    obtain ⟨d, hd, b, hb, e⟩ := hbl y hy
    have f := Struct_block hS hd hb
    by_cases hdc : d.1 = c.1
    · have := Struct_base_inj hS hc hd hdc
      subst this
      rw [hB] at hb
      rcases List.mem_append.mp hb with h | h
      · have := hb1 b h
        exact ⟨hfr _ (by omega), hfr _ (by omega)⟩
      · rcases List.mem_append.mp h with h | h
        · have := (hkeep b h (e ▸ hy)).2
          rw [e] at this
          exact this
        · have := hb2 b h
          exact ⟨hfr _ (by omega), hfr _ (by omega)⟩
    · have hap := Struct_chunks_apart hS hd hc
      have hne : d ≠ c := fun e => hdc (by rw [e])
      rcases hap with e1 | e1 | e1
      · exact absurd e1 hne
      · exact ⟨hfr _ (by omega), hfr _ (by omega)⟩
      · exact ⟨hfr _ (by omega), hfr _ (by omega)⟩
  · intro y hy
    obtain ⟨d, hd, b, hb, e⟩ := hbl y hy
    refine ⟨d, hd, ?_⟩
    by_cases hdc : d.1 = c.1
    · have := Struct_base_inj hS hc hd hdc
      subst this
      rw [Function.update_same]
      rw [hB] at hb
      rcases List.mem_append.mp hb with h | h
      · exact ⟨b, List.mem_append.mpr (Or.inl h), e⟩
      · rcases List.mem_append.mp h with h | h
        · obtain ⟨b', hb', e'⟩ := (hkeep b h (e ▸ hy)).1
          exact ⟨b', List.mem_append.mpr (Or.inr (List.mem_append.mpr (Or.inl hb'))),
            e'.trans e⟩
        · exact ⟨b, List.mem_append.mpr (Or.inr (List.mem_append.mpr (Or.inr h))), e⟩
    · rw [Function.update_noteq hdc]
      exact ⟨b, hb, e⟩

end Sample

namespace Sample
open Alloc

theorem SameG_refl (s : State) : SameG s s := ⟨rfl, rfl, rfl, rfl, rfl, rfl⟩

theorem SameG_trans {s t u : State} (hst : SameG s t) (htu : SameG t u) : SameG s u := by
  unfold SameG at *
  refine ⟨?_, ?_, ?_, ?_, ?_, ?_⟩
  · rw [htu.1, hst.1]
  · rw [htu.2.1, hst.2.1]
  · rw [htu.2.2.1, hst.2.2.1]
  · rw [htu.2.2.2.1, hst.2.2.2.1]
  · rw [htu.2.2.2.2.1, hst.2.2.2.2.1]
  · rw [htu.2.2.2.2.2, hst.2.2.2.2.2]

theorem PUT_spec (s : State) (p v : Nat) (h : Mapped s.mem p) :
    ∃ s', PUT s p v = .ok s' ∧ s'.mem = store s.mem p v ∧
      s'.free_list_head = s.free_list_head ∧ SameG s s' :=
  ⟨_, PUT_eq s p v h, rfl, rfl, SameG_refl _⟩

theorem hdrWord_true (p z : Nat) : hdrWord (p, z, true) = z + 1 := rfl

theorem hdrWord_false (p z : Nat) : hdrWord (p, z, false) = z := rfl

/-- Position of a block in its chunk. -/
theorem Struct_at {s : State} {cs : List (Nat × Nat)} {B : Nat → List Blk}
    (hS : Struct s cs B) {c : Nat × Nat} (hc : c ∈ cs) (bs1 bs2 : List Blk) (b : Blk)
    (hB : B c.1 = bs1 ++ ([b] ++ bs2)) :
    c.1 + 48 + sumSizes bs1 = b.1 ∧ sumSizes [b] = b.2.1 ∧ 48 ≤ b.1 ∧ b.1 % 16 = 0 ∧
      32 ≤ b.2.1 ∧ b.2.1 % 16 = 0 ∧ b.1 + b.2.1 < 18446744073709551616 ∧
      s.mem (b.1 - 8) = some (hdrWord b) ∧ s.mem (b.1 + b.2.1 - 16) = some b.2.1 ∧
      (∀ a, b.1 - 8 ≤ a → a < b.1 + b.2.1 → a % 8 = 0 → Mapped s.mem a) := by
  have hb : b ∈ B c.1 := by rw [hB]; simp
  have f := Struct_block hS hc hb
  have g := Struct_chunk hS hc
  obtain ⟨-, ht2, -⟩ := Struct_split hS hc bs1 [b] bs2 hB
  rw [Tiles_cons] at ht2
  refine ⟨ht2.1.symm, by simp [sumSizes], by omega, f.2.2.2.2.2.2.2.2.1, f.2.2.2.2.2.2.1,
    f.2.2.2.2.2.2.2.1, by omega, f.2.2.2.2.2.2.2.2.2.1, f.2.2.2.2.2.2.2.2.2.2, ?_⟩
  intro a h1 h2 h3
  exact g.2.2.2.2.2.2.2.2 a (by omega) (by omega) h3

end Sample

namespace Sample
open Alloc

theorem mem_mid (L1 L2 : List Nat) (x : Nat) : x ∈ L1 ++ x :: L2 := by simp

/-- `alloc_block(p, z)` on a free block of exactly `z` bytes. -/
theorem alloc_block_exact {s : State} {cs : List (Nat × Nat)} {B : Nat → List Blk}
    (p z : Nat) (L1 L2 : List Nat) (hR : Rep1 s cs B (L1 ++ p :: L2))
    {c : Nat × Nat} (hc : c ∈ cs) (bs1 bs2 : List Blk)
    (hB : B c.1 = bs1 ++ ([(p, z, false)] ++ bs2)) :
    ∃ s', alloc_block p z s = .ok s' ∧
      Rep1 s' cs (Function.update B c.1 (bs1 ++ ([(p, z, true)] ++ bs2))) (L1 ++ L2) ∧
      SameG s s' ∧ (∀ a, Mapped s.mem a → Mapped s'.mem a) := by
  obtain ⟨e1, e2, h48, hp16, hz32, hz16, hW, hhdr, hftr, hmp⟩ :=
    Struct_at hR.1 hc bs1 bs2 (p, z, false) hB
  simp only at e1 e2 h48 hp16 hz32 hz16 hW hhdr hftr hmp
  have eH : HEADER p = p - 8 := sub64_eq (by omega) (by omega)
  obtain ⟨s1, hr1, hm1, hf1, hg1⟩ := PUT_spec s (p - 8) (PACK z 1) (Mapped_of_eq hhdr)
  rw [PACK_one z (by omega)] at hm1
  have hmp1 : ∀ a, Mapped s.mem a → Mapped s1.mem a := by
    intro a ha; rw [hm1]; exact Mapped_store _ _ _ _ ha
  have hR1 : Rep1 s1 cs (Function.update B c.1 (bs1 ++ ([(p, z, true)] ++ bs2)))
      (L1 ++ p :: L2) := by
    refine Rep1_rewrite hR hc bs1 [(p, z, false)] [(p, z, true)] bs2 hB s1 hg1.1 hg1.2.1 hf1
      hmp1 ?_ ?_ ?_
    · intro a ha
      rw [hm1, store_other _ _ _ _ (by omega)]
    · rw [e1, e2, Tiles_cons, Tiles_nil]
      refine ⟨rfl, hz32, hz16, ?_, ?_, rfl⟩
      · rw [hm1, store_same]; rfl
      · show s1.mem (p + z - 16) = some z
        rw [hm1, store_other _ _ _ _ (by omega)]; exact hftr
    · intro b hb _
      simp only [List.mem_singleton] at hb
      subst hb
      refine ⟨⟨(p, z, true), by simp, rfl⟩, ?_, ?_⟩
      · show s1.mem p = s.mem p
        rw [hm1, store_other _ _ _ _ (by omega)]
      · show s1.mem (p + 8) = s.mem (p + 8)
        rw [hm1, store_other _ _ _ _ (by omega)]
  obtain ⟨s2, hr2, hR2, g1, g2, g3, g4, g5, g6, -, hmp2⟩ := remove_step p L1 L2 hR1
  refine ⟨s2, ?_, hR2, SameG_trans hg1 ⟨g1, g2, g3, g4, g5, g6⟩, fun a ha => hmp2 _ (hmp1 _ ha)⟩
  unfold alloc_block
  rw [eH, GET_SIZE_sv _ _ _ hhdr, ok_bind, hdrWord_false, sizeBits_of_dvd z hz16, if_pos rfl,
    hr1, ok_bind, hr2]

/-- `alloc_block(p, N)` on a free block of `z >= N + 32` bytes: the block is split. -/
theorem alloc_block_split {s : State} {cs : List (Nat × Nat)} {B : Nat → List Blk}
    (p z N : Nat) (L1 L2 : List Nat) (hR : Rep1 s cs B (L1 ++ p :: L2))
    {c : Nat × Nat} (hc : c ∈ cs) (bs1 bs2 : List Blk)
    (hB : B c.1 = bs1 ++ ([(p, z, false)] ++ bs2))
    (hN : 32 ≤ N ∧ N % 16 = 0) (hfit : N + 32 ≤ z) :
    ∃ s', alloc_block p N s = .ok s' ∧
      Rep1 s' cs (Function.update B c.1
        (bs1 ++ ([(p, N, true), (p + N, z - N, false)] ++ bs2))) ((p + N) :: (L1 ++ L2)) ∧
      SameG s s' ∧ (∀ a, Mapped s.mem a → Mapped s'.mem a) := by
  obtain ⟨e1, e2, h48, hp16, hz32, hz16, hW, hhdr, hftr, hmp⟩ :=
    Struct_at hR.1 hc bs1 bs2 (p, z, false) hB
  simp only at e1 e2 h48 hp16 hz32 hz16 hW hhdr hftr hmp
  have eH : HEADER p = p - 8 := sub64_eq (by omega) (by omega)
  have eH2 : HEADER (p + N) = p + N - 8 := sub64_eq (by omega) (by omega)
  have hzN : (z - N) % 16 = 0 := by omega
  -- the four stores
  obtain ⟨s1, hr1, hm1, hf1, hg1⟩ := PUT_spec s (p - 8) (PACK N 1) (Mapped_of_eq hhdr)
  rw [PACK_one N (by omega)] at hm1
  have hF1 : FOOTER s1 p = .ok (p + N - 16) := by
    rw [FOOTER, eH, GET_SIZE_sv _ _ (N + 1) (by rw [hm1, store_same]), ok_bind, pure_eq_ok,
      sizeBits_succ N hN.2, add64_eq (by omega), sub64_eq (by omega) (by omega)]
  obtain ⟨s2, hr2, hm2, hf2, hg2⟩ := PUT_spec s1 (p + N - 16) N (by
    rw [hm1]; exact Mapped_store _ _ _ _ (hmp _ (by omega) (by omega) (by omega)))
  have hS2 : GET_SIZE s2 (p - 8) = .ok N := by
    rw [GET_SIZE_sv _ _ (N + 1) (by rw [hm2, store_other _ _ _ _ (by omega), hm1, store_same]),
      sizeBits_succ N hN.2]
  obtain ⟨s3, hr3, hm3, hf3, hg3⟩ := PUT_spec s2 (p + N - 8) (z - N) (by
    rw [hm2, hm1]
    exact Mapped_store _ _ _ _ (Mapped_store _ _ _ _ (hmp _ (by omega) (by omega) (by omega))))
  have hF3 : FOOTER s3 (p + N) = .ok (p + z - 16) := by
    rw [FOOTER, eH2, GET_SIZE_sv _ _ (z - N) (by rw [hm3, store_same]), ok_bind, pure_eq_ok,
      sizeBits_of_dvd _ hzN, add64_eq (by omega), sub64_eq (by omega) (by omega)]
    have e : p + N + (z - N) - 16 = p + z - 16 := by omega
    rw [e]
  obtain ⟨s4, hr4, hm4, hf4, hg4⟩ := PUT_spec s3 (p + z - 16) (z - N) (by
    rw [hm3, hm2, hm1]
    exact Mapped_store _ _ _ _ (Mapped_store _ _ _ _ (Mapped_store _ _ _ _
      (hmp _ (by omega) (by omega) (by omega)))))
  have hmem4 : s4.mem = store (store (store (store s.mem (p - 8) (N + 1)) (p + N - 16) N)
      (p + N - 8) (z - N)) (p + z - 16) (z - N) := by
    rw [hm4, hm3, hm2, hm1]
  have hmp4 : ∀ a, Mapped s.mem a → Mapped s4.mem a := by
    intro a ha
    rw [hmem4]
    exact Mapped_store _ _ _ _ (Mapped_store _ _ _ _ (Mapped_store _ _ _ _
      (Mapped_store _ _ _ _ ha)))
  have hG4 : SameG s s4 := SameG_trans (SameG_trans (SameG_trans hg1 hg2) hg3) hg4
  have hR4 : Rep1 s4 cs (Function.update B c.1
      (bs1 ++ ([(p, N, true), (p + N, z - N, false)] ++ bs2))) (L1 ++ p :: L2) := by
    refine Rep1_rewrite hR hc bs1 [(p, z, false)] [(p, N, true), (p + N, z - N, false)] bs2 hB
      s4 hG4.1 hG4.2.1 (by rw [hf4, hf3, hf2, hf1]) hmp4 ?_ ?_ ?_
    · intro a ha
      rw [hmem4, store_other _ _ _ _ (by omega), store_other _ _ _ _ (by omega),
        store_other _ _ _ _ (by omega), store_other _ _ _ _ (by omega)]
    · rw [e1, e2, Tiles_cons, Tiles_cons, Tiles_nil]
      refine ⟨rfl, hN.1, hN.2, ?_, ?_, rfl, by show 32 ≤ z - N; omega, hzN, ?_, ?_, ?_⟩
      · rw [hmem4, store_other _ _ _ _ (by omega), store_other _ _ _ _ (by omega),
          store_other _ _ _ _ (by omega), store_same]; rfl
      · show s4.mem (p + N - 16) = some N
        rw [hmem4, store_other _ _ _ _ (by omega), store_other _ _ _ _ (by omega), store_same]
      · show s4.mem (p + N - 8) = some (z - N)
        rw [hmem4, store_other _ _ _ _ (by omega), store_same]
      · show s4.mem (p + N + (z - N) - 16) = some (z - N)
        have e : p + N + (z - N) - 16 = p + z - 16 := by omega
        rw [e, hmem4, store_same]
      · show p + N + (z - N) = p + z
        omega
    · intro b hb _
      simp only [List.mem_singleton] at hb
      subst hb
      refine ⟨⟨(p, N, true), by simp, rfl⟩, ?_, ?_⟩
      · show s4.mem p = s.mem p
        rw [hmem4, store_other _ _ _ _ (by omega), store_other _ _ _ _ (by omega),
          store_other _ _ _ _ (by omega), store_other _ _ _ _ (by omega)]
      · show s4.mem (p + 8) = s.mem (p + 8)
        rw [hmem4, store_other _ _ _ _ (by omega), store_other _ _ _ _ (by omega),
          store_other _ _ _ _ (by omega), store_other _ _ _ _ (by omega)]
  obtain ⟨s5, hr5, hR5, g1, g2, g3, g4, g5, g6, -, hmp5⟩ := remove_step p L1 L2 hR4
  have hnb : Nb cs (Function.update B c.1
      (bs1 ++ ([(p, N, true), (p + N, z - N, false)] ++ bs2))) (p + N) (z - N) := by
    right
    refine ⟨c, hc, false, ?_⟩
    rw [Function.update_same]
    simp
  have hnin : p + N ∉ L1 ++ L2 := by
    intro hin
    have hin' : p + N ∈ L1 ++ p :: L2 := by
      rcases List.mem_append.mp hin with h | h
      · exact List.mem_append.mpr (Or.inl h)
      · exact List.mem_append.mpr (Or.inr (List.mem_cons_of_mem _ h))
    obtain ⟨d, hd, b, hb, e⟩ := hR.2.2.2 _ hin'
    have hpb : (p, z, false) ∈ B c.1 := by rw [hB]; simp
    have := Struct_blocks_apart hR.1 hd hc hb hpb
    have fb := Struct_block hR.1 hd hb
    rcases this with h | h | h
    · rw [h] at e; simp only at e; omega
    · simp only at h; omega
    · simp only at h; omega
  obtain ⟨s6, hr6, hR6, k1, k2, k3, k4, k5, k6, -, hmp6⟩ :=
    add_step (p + N) (z - N) hR5 hnb (by omega) hnin
  refine ⟨s6, ?_, hR6,
    SameG_trans (SameG_trans hG4 ⟨g1, g2, g3, g4, g5, g6⟩) ⟨k1, k2, k3, k4, k5, k6⟩,
    fun a ha => hmp6 _ (hmp5 _ (hmp4 _ ha))⟩
  have hne : ¬ N = z := by omega
  have ea : add64 p N = p + N := add64_eq (by omega)
  have es : sub64 z N = z - N := sub64_eq (by omega) (by omega)
  unfold alloc_block
  simp only [eH, GET_SIZE_sv _ _ _ hhdr, ok_bind, hdrWord_false, sizeBits_of_dvd z hz16, hne,
    if_false, hr1, hF1, hr2, hS2, ea, eH2, es, hr3, hF3, hr4, hr5, hr6]

end Sample

namespace Sample
open Alloc

theorem initMem_links (m : Mem) (base C clh flh : Nat) (hC1 : 80 ≤ C) (hC8 : C % 8 = 0)
    (hb8 : base % 8 = 0)
    (hclo : clh ≠ 0 → clh + 8 < base ∨ base + C ≤ clh + 8)
    (hflo : flh ≠ 0 → flh + 8 < base ∨ base + C ≤ flh + 8) (hne : clh ≠ flh ∨ clh = 0) :
    (clh ≠ 0 → initMem m base C clh flh (clh + 8) = some (base + 8)) ∧
    (flh ≠ 0 → initMem m base C clh flh (flh + 8) = some (base + 48)) ∧
    (∀ a, (a < base ∨ base + C ≤ a) → (clh ≠ 0 → a ≠ clh + 8) → (flh ≠ 0 → a ≠ flh + 8) →
      initMem m base C clh flh a = m a) ∧
    (∀ a, Mapped m a → Mapped (initMem m base C clh flh) a) ∧
    (∀ a, base ≤ a → a < base + C → a % 8 = 0 → Mapped (initMem m base C clh flh) a) := by
  unfold initMem
  by_cases h1 : clh = 0 <;> by_cases h2 : flh = 0
  all_goals
    first | have h1o := hclo h1 | skip
    first | have h2o := hflo h2 | skip
    simp only [h1, h2, ne_eq, not_true_eq_false, not_false_eq_true, if_true, if_false]
    refine ⟨?_, ?_, ?_, ?_, ?_⟩
  all_goals first
    | (intro h; exact absurd rfl h)
    | (intro h; exact h.elim)
    | (intro _; simp (disch := omega) only [store_same, store_other, mapRegion_out])
    | (intro a ha h1' h2'
       first | have h1'' := h1' trivial | skip
       first | have h2'' := h2' trivial | skip
       simp (disch := omega) only [store_same, store_other, mapRegion_out])
    | (intro a ha
       with_reducible ((iterate 16 (try apply Mapped_store)); first
         | (apply Mapped_mapRegion_old; assumption)))
    | (intro a ha1 ha2 ha3
       with_reducible ((iterate 16 (try apply Mapped_store)); first
         | (exact Mapped_mapRegion _ _ _ _ ha1 ha2 ha3)))

end Sample

namespace Sample
open Alloc

theorem Struct_nodup {s : State} {cs : List (Nat × Nat)} {B : Nat → List Blk}
    (hS : Struct s cs B) : (cs.map (fun c => c.1 + 8)).Nodup := by
  unfold List.Nodup
  rw [List.pairwise_map]
  refine List.Pairwise.imp_of_mem ?_ hS.2.2.1
  intro c d hc hd h
  have g1 := Struct_chunk hS hc
  have g2 := Struct_chunk hS hd
  omega

/-- Linking a new, well-formed chunk in front of the chunk list preserves the
structure. -/
theorem Struct_newchunk {s : State} {cs : List (Nat × Nat)} {B : Nat → List Blk}
    (hS : Struct s cs B) (s' : State) (base C : Nat) (bs : List Blk)
    (hnew : ChunkOk s'.mem base C bs ∧ ChunkMapped s'.mem base C)
    (hdis : ∀ d ∈ cs, d.1 + d.2 ≤ base ∨ base + C ≤ d.1) (hC : 48 ≤ C)
    (hh : s'.chunk_list_head = base + 8) (hr : s'.regions = (base, C) :: s.regions)
    (hmp : ∀ a, Mapped s.mem a → Mapped s'.mem a)
    (hn : s'.mem (base + 8) = some s.chunk_list_head) (hp : s'.mem (base + 16) = some 0)
    (hprev : s.chunk_list_head ≠ 0 → s'.mem (s.chunk_list_head + 8) = some (base + 8))
    (hfr : ∀ d ∈ cs, s'.mem (d.1 + 8) = s.mem (d.1 + 8) ∧
      (d.1 + 8 ≠ s.chunk_list_head → s'.mem (d.1 + 16) = s.mem (d.1 + 16)) ∧
      s'.mem (d.1 + 24) = s.mem (d.1 + 24) ∧ s'.mem (d.1 + 32) = s.mem (d.1 + 32) ∧
      s'.mem (d.1 + d.2 - 8) = s.mem (d.1 + d.2 - 8) ∧
      ∀ b ∈ B d.1, s'.mem (b.1 - 8) = s.mem (b.1 - 8) ∧
        s'.mem (b.1 + b.2.1 - 16) = s.mem (b.1 + b.2.1 - 16)) :
    Struct s' ((base, C) :: cs) (Function.update B base bs) := by
  have hnd := Struct_nodup hS
  obtain ⟨h1, h2, h3, h4⟩ := hS
  have hne : ∀ d ∈ cs, d.1 ≠ base := by
    intro d hd
    have g := Struct_chunk ⟨h1, h2, h3, h4⟩ hd
    have := hdis d hd
    omega
  rw [Chain_iff_Seg] at h1
  refine ⟨?_, ?_, ?_, by rw [hr, h4]⟩
  · rw [Chain_iff_Seg, hh]
    refine ⟨rfl, ?_⟩
    show Seg s'.mem 0 8 0 ((base + 8) :: cs.map (fun c => c.1 + 8)) 0
    refine Seg_cons s.mem s'.mem 0 8 _ (base + 8) 0 h1.2 (by omega) hnd ?_ ?_ ?_ ?_ ?_
    · rw [Nat.add_zero, hn, h1.1]
    · exact hp
    · intro y hy
      obtain ⟨d, hd, rfl⟩ := List.mem_map.mp hy
      rw [Nat.add_zero]
      exact (hfr d hd).1
    · intro y hy hne'
      obtain ⟨d, hd, rfl⟩ := List.mem_map.mp hy
      rw [← h1.1] at hne'
      exact (hfr d hd).2.1 hne'
    · intro hnil
      rw [← h1.1]
      refine hprev ?_
      rw [h1.1]
      rcases headD_mem_or (cs.map (fun c => c.1 + 8)) 0 with ⟨-, h⟩ | h
      · exact absurd h hnil
      · exact Seg_ne_zero _ _ _ _ _ _ h1.2 _ h
  · intro d hd
    rcases List.mem_cons.mp hd with rfl | hd
    · simp only [Function.update_same]
      exact hnew
    · rw [Function.update_noteq (hne d hd)]
      obtain ⟨⟨g1, g2, g3, g4, g5, g6, g7⟩, g8⟩ := h2 d hd
      have f := hfr d hd
      refine ⟨⟨g1, g2, g3, by rw [f.2.2.1]; exact g4, by rw [f.2.2.2.1]; exact g5, ?_,
        by rw [f.2.2.2.2.1]; exact g7⟩, ChunkMapped_mono _ _ _ _ g8 hmp⟩
      exact Tiles_frame _ _ _ _ _ g6 f.2.2.2.2.2
  · rw [List.pairwise_cons]
    refine ⟨?_, h3⟩
    intro d hd
    have := hdis d hd
    simp only
    omega

end Sample

namespace Sample
open Alloc

theorem init_chunk_step {s : State} {cs : List (Nat × Nat)} {B : Nat → List Blk}
    {fl : List Nat} (hR : Rep1 s cs B fl) (N C base : Nat)
    (hC : mul64 s.new_chunk_size (PAGE_ALIGN (add64 (add64 N 48) 32)) = C)
    (hC1 : 80 ≤ C) (hC16 : C % 16 = 0)
    (hb : s.oracle s.nmaps = base) (hb0 : 16 ≤ base) (hb16 : base % 16 = 0)
    (hbW : base + C < 18446744073709551616)
    (hdis : ∀ d ∈ cs, d.1 + d.2 ≤ base ∨ base + C ≤ d.1) :
    ∃ s', init_chunk N s = .ok (base + 48, s') ∧
      Rep1 s' ((base, C) :: cs) (Function.update B base [(base + 48, C - 48, false)])
        ((base + 48) :: fl) ∧
      s'.new_chunk_size = s.new_chunk_size + 1 ∧ s'.oracle = s.oracle ∧
      s'.nmaps = s.nmaps + 1 ∧ s'.unmaps = s.unmaps ∧
      (∀ a, Mapped s.mem a → Mapped s'.mem a) ∧
      (∀ a, (a < base ∨ base + C ≤ a) → a % 16 = 0 → a ∉ fl → a ≠ s.chunk_list_head + 8 →
        s'.mem a = s.mem a) := by
  obtain ⟨hS, hfc, hnd, hbl⟩ := hR
  have hR : Rep1 s cs B fl := ⟨hS, hfc, hnd, hbl⟩
  have hcl := hS.1
  rw [Chain_iff_Seg] at hcl hfc
  -- the head of the chunk list
  have hclh : s.chunk_list_head ≠ 0 → ∃ c ∈ cs, s.chunk_list_head = c.1 + 8 := by
    intro h0
    rcases headD_mem_or (cs.map (fun c => c.1 + 8)) 0 with ⟨h, -⟩ | h
    · rw [hcl.1] at h0; exact absurd h h0
    · obtain ⟨c, hc, e⟩ := List.mem_map.mp h
      exact ⟨c, hc, by rw [hcl.1, ← e]⟩
  have hflh : s.free_list_head = 0 ∨ s.free_list_head ∈ fl := by
    rw [hfc.1]; exact headD_zero_or_mem fl
  have hflb : ∀ y ∈ fl, ∃ c ∈ cs, ∃ b ∈ B c.1, b.1 = y := hbl
  have hflr : ∀ y ∈ fl, y % 16 = 0 ∧ 48 ≤ y ∧ (y + 32 ≤ base ∨ base + C ≤ y) ∧
      y + 16 < 18446744073709551616 := by
    intro y hy
    obtain ⟨c, hc, b, hb, e⟩ := hbl y hy
    have f := Struct_block hS hc hb
    have := hdis c hc
    omega
  have hfl16 : s.free_list_head % 16 = 0 := by
    rcases hflh with h | h
    · rw [h]
    · exact (hflr _ h).1
  have hclo : s.chunk_list_head ≠ 0 →
      s.chunk_list_head + 8 < base ∨ base + C ≤ s.chunk_list_head + 8 := by
    intro h0
    obtain ⟨c, hc, e⟩ := hclh h0
    have g := Struct_chunk hS hc
    have := hdis c hc
    omega
  have hflo : s.free_list_head ≠ 0 →
      s.free_list_head + 8 < base ∨ base + C ≤ s.free_list_head + 8 := by
    intro h0
    rcases hflh with h | h
    · exact absurd h h0
    · have := hflr _ h
      omega
  have hne : s.chunk_list_head ≠ s.free_list_head ∨ s.chunk_list_head = 0 := by
    by_cases h0 : s.chunk_list_head = 0
    · exact Or.inr h0
    · left
      obtain ⟨c, hc, e⟩ := hclh h0
      have g := Struct_chunk hS hc
      rcases hflh with h | h
      · omega
      · have := hflr _ h
        omega
  have hinit := init_chunk_eq s N C base hC (by omega) (by omega) hb (by omega) (by omega)
    (by omega)
    (by
      intro h0
      obtain ⟨c, hc, e⟩ := hclh h0
      have g := Struct_chunk hS hc
      rw [e]
      exact g.2.2.2.2.2.2.2.2 _ (by omega) (by omega) (by omega))
    (by
      by_cases h0 : s.chunk_list_head = 0
      · rw [h0]; omega
      · obtain ⟨c, hc, e⟩ := hclh h0
        have g := Struct_chunk hS hc
        omega)
    (by
      intro h0
      rcases hflh with h | h
      · exact absurd h h0
      · exact (Seg_mapped _ _ _ _ _ _ hfc.2 _ h).2)
    (by
      rcases hflh with h | h
      · rw [h]; omega
      · have := hflr _ h
        omega)
  obtain ⟨r8, r16, r24, r32, r40, rf, rt, r48, r56, -⟩ :=
    initMem_read s.mem base C s.chunk_list_head s.free_list_head (by omega) (by omega)
      (by omega) hclo hflo
  obtain ⟨l1, l2, lfr, lmp, lnew⟩ :=
    initMem_links s.mem base C s.chunk_list_head s.free_list_head (by omega) (by omega)
      (by omega) hclo hflo hne
  refine ⟨_, hinit, ⟨?_, ?_, ?_, ?_⟩, rfl, rfl, rfl, rfl, lmp, ?_⟩
  · -- structure
    refine Struct_newchunk hS _ base C _ ⟨⟨hb16, hb0, hbW, r24, r32, ?_, rt⟩, ?_⟩ hdis (by omega)
      rfl (by show (base, C) :: s.regions = _; rfl) lmp r8 r16 l1 ?_
    · rw [Tiles_cons, Tiles_nil]
      refine ⟨rfl, by simp only; omega, by simp only; omega, ?_, ?_, ?_⟩
      · have e : base + 48 - 8 = base + 40 := by omega
        rw [e]
        exact r40
      · have e : base + 48 + (C - 48) - 16 = base + C - 16 := by omega
        show initMem _ _ _ _ _ (base + 48 + (C - 48) - 16) = _
        rw [e]
        exact rf
      · show base + 48 + (C - 48) = base + C
        omega
    · intro k hk
      exact lnew _ (by omega) (by omega) (by omega)
    · intro d hd
      have g := Struct_chunk hS hd
      have hdd := hdis d hd
      have key : ∀ a, d.1 ≤ a → a < d.1 + d.2 → a ≠ s.chunk_list_head + 8 →
          (∀ y ∈ fl, a ≠ y + 8) → initMem s.mem base C s.chunk_list_head s.free_list_head a
            = s.mem a := by
        intro a h1 h2 h3 h4
        refine lfr a (by omega) (fun _ => h3) ?_
        intro h0
        rcases hflh with h | h
        · exact absurd h h0
        · exact h4 _ h
      have hfl8 : ∀ y ∈ fl, ∀ a, a % 16 = 0 → a ≠ y + 8 := by
        intro y hy a ha
        have := hflr y hy
        omega
      have hflc : ∀ y ∈ fl, (d.1 + 48 ≤ y ∨ y + 32 ≤ d.1 ∨ d.1 + d.2 + 48 ≤ y) := by
        intro y hy
        obtain ⟨zy, hzy⟩ := Rep1_Nb hR hy
        have := Nb_chunk hS hzy hd
        have := hflr y hy
        omega
      have hclc : ∀ a, a % 16 = 8 ∧ 16 ≤ a → a ≠ s.chunk_list_head + 8 := by
        intro a ha
        by_cases h0 : s.chunk_list_head = 0
        · rw [h0]; omega
        · obtain ⟨c, hc, e⟩ := hclh h0
          have gc := Struct_chunk hS hc
          omega
      refine ⟨?_, ?_, ?_, ?_, ?_, ?_⟩
      · exact key _ (by omega) (by omega) (hclc _ (by omega))
          (fun y hy => by have := hflc y hy; omega)
      · intro hne'
        exact key _ (by omega) (by omega) (by omega) (fun y hy => by have := hflc y hy; omega)
      · exact key _ (by omega) (by omega) (hclc _ (by omega))
          (fun y hy => by have := hflc y hy; omega)
      · exact key _ (by omega) (by omega) (by
          by_cases h0 : s.chunk_list_head = 0
          · rw [h0]; omega
          · obtain ⟨c, hc, e⟩ := hclh h0
            have gc := Struct_chunk hS hc
            rcases Struct_chunks_apart hS hc hd with h | h | h
            · subst h; omega
            · omega
            · omega) (hfl8 · · _ (by omega))
      · exact key _ (by omega) (by omega) (hclc _ (by omega))
          (fun y hy => by
            obtain ⟨zy, hzy⟩ := Rep1_Nb hR hy
            have := Nb_chunk hS hzy hd
            have := hflr y hy
            omega)
      · intro b hb
        have f := Struct_block hS hd hb
        have hbb : ∀ y ∈ fl, (b.1 = y ∨ y + 32 ≤ b.1 ∨ b.1 + b.2.1 ≤ y) := by
          intro y hy
          obtain ⟨zy, hzy⟩ := Rep1_Nb hR hy
          have := Nb_block hS hzy hd hb
          have := hflr y hy
          omega
        refine ⟨?_, ?_⟩
        · exact key _ (by omega) (by omega) (hclc _ (by omega))
            (fun y hy => by have := hbb y hy; have := hflr y hy; omega)
        · refine key _ (by omega) (by omega) ?_ (hfl8 · · _ (by omega))
          by_cases h0 : s.chunk_list_head = 0
          · rw [h0]; omega
          · obtain ⟨c, hc, e⟩ := hclh h0
            have gc := Struct_chunk hS hc
            rcases Struct_chunks_apart hS hc hd with h | h | h
            · subst h; omega
            · omega
            · omega
  · -- free list
    rw [Chain_iff_Seg]
    refine ⟨rfl, ?_⟩
    refine Seg_cons s.mem _ 0 8 fl (base + 48) 0 hfc.2 (by omega) hnd ?_ ?_ ?_ ?_ ?_
    · rw [Nat.add_zero, ← hfc.1]; exact r48
    · exact r56
    · intro y hy
      have hy' := hflr y hy
      rw [Nat.add_zero]
      refine lfr y (by omega) ?_ (fun _ => by omega)
      intro h0
      obtain ⟨c, hc, e⟩ := hclh h0
      obtain ⟨zy, hzy⟩ := Rep1_Nb hR hy
      have := Nb_chunk hS hzy hc
      omega
    · intro y hy hne'
      have hy' := hflr y hy
      refine lfr _ (by omega) ?_ ?_
      · intro h0
        obtain ⟨c, hc, e⟩ := hclh h0
        have gc := Struct_chunk hS hc
        omega
      · intro _
        rw [← hfc.1] at hne'
        omega
    · intro hnil
      rw [← hfc.1]
      refine l2 ?_
      rcases hflh with h | h
      · rw [hfc.1] at h ⊢
        rcases headD_mem_or fl 0 with ⟨-, h'⟩ | h'
        · exact absurd h' hnil
        · exact Seg_ne_zero _ _ _ _ _ _ hfc.2 _ h'
      · have := hflr _ h
        omega
  · rw [List.nodup_cons]
    refine ⟨?_, hnd⟩
    intro hin
    have := hflr _ hin
    omega
  · intro p hp
    rcases List.mem_cons.mp hp with h | h
    · refine ⟨(base, C), List.mem_cons_self _ _, (base + 48, C - 48, false), ?_, h.symm⟩
      simp only [Function.update_same, List.mem_singleton]
    · obtain ⟨c, hc, b, hb, e⟩ := hbl p h
      have g := Struct_chunk hS hc
      have := hdis c hc
      refine ⟨c, List.mem_cons_of_mem _ hc, b, ?_, e⟩
      rw [Function.update_noteq (by omega)]
      exact hb
  · intro a ha h16 hnf hnc
    refine lfr a ha (fun _ => hnc) ?_
    intro _
    omega

end Sample

namespace Sample
open Alloc

theorem NoAdjFree_cons2 (b b' : Blk) (l : List Blk) :
    NoAdjFree (b :: b' :: l) ↔ ¬ (b.2.2 = false ∧ b'.2.2 = false) ∧ NoAdjFree (b' :: l) :=
  Iff.of_eq (by rw [NoAdjFree])

theorem NoAdjFree_single (b : Blk) : NoAdjFree [b] := by
  unfold NoAdjFree; trivial

theorem NoAdjFree_cons (b : Blk) (l : List Blk) :
    NoAdjFree (b :: l) ↔ NoAdjFree l ∧ ¬ (b.2.2 = false ∧ headFree l) := by
  cases l with
  | nil =>
    simp only [NoAdjFree_single, true_iff]
    refine ⟨by unfold NoAdjFree; trivial, ?_⟩
    rintro ⟨-, b', h, -⟩
    simp at h
  | cons b' l =>
    rw [NoAdjFree_cons2]
    unfold headFree
    simp only [List.head?_cons, Option.some.injEq, exists_eq_left']
    exact and_comm

theorem headFree_append (l1 l2 : List Blk) (h : l1 ≠ []) :
    headFree (l1 ++ l2) ↔ headFree l1 := by
  cases l1 with
  | nil => exact absurd rfl h
  | cons a l => unfold headFree; simp

theorem lastFree_append (l1 l2 : List Blk) (h : l2 ≠ []) :
    lastFree (l1 ++ l2) ↔ lastFree l2 := by
  unfold lastFree
  rw [List.getLast?_append_of_ne_nil _ h]

theorem lastFree_cons (b : Blk) (l : List Blk) (h : l ≠ []) :
    lastFree (b :: l) ↔ lastFree l :=
  lastFree_append [b] l h

theorem headFree_nil : ¬ headFree [] := by
  rintro ⟨b, h, -⟩
  simp at h

theorem lastFree_nil : ¬ lastFree [] := by
  rintro ⟨b, h, -⟩
  simp at h

theorem headFree_cons (b : Blk) (l : List Blk) : headFree (b :: l) ↔ b.2.2 = false := by
  unfold headFree; simp

theorem lastFree_single (b : Blk) : lastFree [b] ↔ b.2.2 = false := by
  unfold lastFree; simp

theorem NoAdjFree_append : ∀ (l1 l2 : List Blk),
    NoAdjFree (l1 ++ l2) ↔ NoAdjFree l1 ∧ NoAdjFree l2 ∧ ¬ (lastFree l1 ∧ headFree l2) := by
  intro l1
  induction l1 with
  | nil =>
    intro l2
    simp only [List.nil_append]
    constructor
    · intro h
      exact ⟨by unfold NoAdjFree; trivial, h, fun h' => lastFree_nil h'.1⟩
    · intro h
      exact h.2.1
  | cons a l ih =>
    intro l2
    rw [List.cons_append, NoAdjFree_cons, NoAdjFree_cons, ih]
    by_cases hl : l = []
    · subst hl
      simp only [List.nil_append, lastFree_single]
      constructor
      · rintro ⟨⟨-, h2, -⟩, h3⟩
        exact ⟨⟨by unfold NoAdjFree; trivial, fun h => headFree_nil h.2⟩, h2, h3⟩
      · rintro ⟨-, h2, h3⟩
        exact ⟨⟨by unfold NoAdjFree; trivial, h2, fun h => lastFree_nil h.1⟩, h3⟩
    · rw [headFree_append _ _ hl, lastFree_cons _ _ hl]
      constructor
      · rintro ⟨⟨h1, h2, h3⟩, h4⟩
        exact ⟨⟨h1, h4⟩, h2, h3⟩
      · rintro ⟨⟨h1, h4⟩, h2, h3⟩
        exact ⟨⟨h1, h2, h3⟩, h4⟩

/-- Replacing a non-empty run of blocks by another non-empty run keeps the chunk free
of adjacent free blocks when the new run is, and its ends do not meet free
neighbours. -/
theorem NoAdjFree_rewrite (bs1 mid mid' bs2 : List Blk)
    (h : NoAdjFree (bs1 ++ (mid ++ bs2))) (hm : NoAdjFree mid') (hne : mid' ≠ [])
    (hl : ¬ (lastFree bs1 ∧ headFree mid')) (hr : ¬ (lastFree mid' ∧ headFree bs2)) :
    NoAdjFree (bs1 ++ (mid' ++ bs2)) := by
  rw [NoAdjFree_append] at h ⊢
  obtain ⟨h1, h2, -⟩ := h
  rw [NoAdjFree_append] at h2
  refine ⟨h1, ?_, ?_⟩
  · rw [NoAdjFree_append]
    exact ⟨hm, h2.2.1, hr⟩
  · rw [headFree_append _ _ hne]
    exact hl

/-- In a run without adjacent free blocks, the neighbours of a free block are not
free. -/
theorem NoAdjFree_around (bs1 bs2 : List Blk) (b : Blk) (hb : b.2.2 = false)
    (h : NoAdjFree (bs1 ++ ([b] ++ bs2))) : ¬ lastFree bs1 ∧ ¬ headFree bs2 := by
  rw [NoAdjFree_append, NoAdjFree_append] at h
  obtain ⟨-, ⟨-, -, h2⟩, h3⟩ := h
  rw [headFree_append _ _ (by simp), headFree_cons] at h3
  rw [lastFree_single] at h2
  exact ⟨fun h => h3 ⟨h, hb⟩, fun h => h2 ⟨hb, h⟩⟩

/-- A run of free blocks without adjacent free blocks has at most one block. -/
theorem NoAdjFree_all_free (l : List Blk) (h : NoAdjFree l) (hf : ∀ b ∈ l, b.2.2 = false) :
    l.length ≤ 1 := by
  match l, h, hf with
  | [], _, _ => simp
  | [_], _, _ => simp
  | b :: b' :: l, h, hf =>
    rw [NoAdjFree_cons2] at h
    exact absurd ⟨hf b (by simp), hf b' (by simp)⟩ h.1

theorem Tiles_sorted (m : Mem) (l1 l2 : List Blk) (p e : Nat) (h : Tiles m p (l1 ++ l2) e) :
    ∀ b ∈ l1, ∀ b' ∈ l2, b.1 + b.2.1 ≤ b'.1 := by
  intro b hb b' hb'
  rw [Tiles_append] at h
  have f1 := Tiles_mem _ _ _ _ h.1 b hb
  have f2 := Tiles_mem _ _ _ _ h.2 b' hb'
  omega

end Sample

namespace Sample
open Alloc

/-- A block belongs to one chunk only. -/
theorem Struct_block_chunk {s : State} {cs : List (Nat × Nat)} {B : Nat → List Blk}
    (hS : Struct s cs B) {c d : Nat × Nat} (hc : c ∈ cs) (hd : d ∈ cs)
    {b b' : Blk} (hb : b ∈ B c.1) (hb' : b' ∈ B d.1) (h : b.1 = b'.1) : c = d ∧ b = b' := by
  have f1 := Struct_block hS hc hb
  have f2 := Struct_block hS hd hb'
  have hcd : c = d := by
    rcases Struct_chunks_apart hS hc hd with h1 | h1 | h1
    · exact h1
    · omega
    · omega
  refine ⟨hcd, ?_⟩
  rcases Struct_blocks_apart hS hc hd hb hb' with h1 | h1 | h1
  · exact h1
  · omega
  · omega

/-- Bookkeeping of the free flags when the run `mid` of the chunk `c` is rewritten
into `mid'`: the free list loses the blocks of `mid` and gains the free blocks of
`mid'`. -/
theorem Rep0_rewrite {s s' : State} {cs : List (Nat × Nat)} {B : Nat → List Blk}
    {fl fl' : List Nat} (h0 : Rep0 s cs B fl) {c : Nat × Nat} (hc : c ∈ cs)
    (bs1 mid mid' bs2 : List Blk) (hB : B c.1 = bs1 ++ (mid ++ bs2))
    (h1 : Rep1 s' cs (Function.update B c.1 (bs1 ++ (mid' ++ bs2))) fl')
    (hfl : ∀ q, q ∈ fl' ↔ (q ∈ fl ∧ ∀ b ∈ mid, b.1 ≠ q) ∨ (∃ b ∈ mid', b.1 = q ∧ b.2.2 = false)) :
    Rep0 s' cs (Function.update B c.1 (bs1 ++ (mid' ++ bs2))) fl' := by
  obtain ⟨hR, hF1, hF2⟩ := h0
  have hS := hR.1
  have htc := (hS.2.1 c hc).1.2.2.2.2.2.1
  rw [hB] at htc
  have hmidB : ∀ b ∈ mid, b ∈ B c.1 := by
    intro b hb; rw [hB]; simp [hb]
  refine ⟨h1, ?_, ?_⟩
  · intro q hq
    rcases (hfl q).mp hq with ⟨hq1, hq2⟩ | ⟨b, hb, e, hf⟩
    · obtain ⟨d, hd, b, hb, e, hf⟩ := hF1 q hq1
      refine ⟨d, hd, b, ?_, e, hf⟩
      by_cases hdc : d.1 = c.1
      · rw [hdc, Function.update_same]
        rw [hdc, hB] at hb
        simp only [List.mem_append] at hb ⊢
        rcases hb with hb | hb | hb
        · exact Or.inl hb
        · exact absurd e (hq2 b hb)
        · exact Or.inr (Or.inr hb)
      · rw [Function.update_noteq hdc]
        exact hb
    · refine ⟨c, hc, b, ?_, e, hf⟩
      rw [Function.update_same]
      simp [hb]
  · intro d hd b hb hf
    rw [hfl]
    by_cases hdc : d.1 = c.1
    · rw [hdc, Function.update_same] at hb
      simp only [List.mem_append] at hb
      have hold : b ∈ bs1 ∨ b ∈ bs2 → (b.1 ∈ fl ∧ ∀ m ∈ mid, m.1 ≠ b.1) := by
        intro hbb
        refine ⟨hF2 c hc b (by rw [hB]; simp only [List.mem_append]; tauto) hf, ?_⟩
        intro m hm
        have m32 := (Tiles_mem _ _ _ _ htc m (by simp [hm])).2.2.1
        have b32 := (Tiles_mem _ _ _ _ htc b (by simp only [List.mem_append]; tauto)).2.2.1
        rcases hbb with hbb | hbb
        · have := Tiles_sorted _ _ _ _ _ htc b hbb m (by simp [hm])
          omega
        · rw [← List.append_assoc] at htc
          have := Tiles_sorted _ _ _ _ _ htc m (by simp [hm]) b hbb
          omega
      rcases hb with hb | hb | hb
      · exact Or.inl (hold (Or.inl hb))
      · exact Or.inr ⟨b, hb, rfl, hf⟩
      · exact Or.inl (hold (Or.inr hb))
    · rw [Function.update_noteq hdc] at hb
      left
      refine ⟨hF2 d hd b hb hf, ?_⟩
      intro m hm e
      have := (Struct_block_chunk hS hc hd (hmidB m hm) hb e).1
      exact hdc (by rw [this])

end Sample

namespace Sample
open Alloc

theorem NoAdj_update {cs : List (Nat × Nat)} {B : Nat → List Blk}
    (h : ∀ c ∈ cs, NoAdjFree (B c.1)) (b : Nat) (l : List Blk) (hl : NoAdjFree l) :
    ∀ d ∈ cs, NoAdjFree (Function.update B b l d.1) := by
  intro d hd
  by_cases hdc : d.1 = b
  · rw [hdc, Function.update_same]; exact hl
  · rw [Function.update_noteq hdc]; exact h d hd

/-- The allocated blocks after the run `mid` of the chunk `c` is rewritten into
`mid'`. -/
theorem Live_rewrite {s : State} {cs : List (Nat × Nat)} {B : Nat → List Blk}
    (hS : Struct s cs B) {c : Nat × Nat} (hc : c ∈ cs)
    (bs1 mid mid' bs2 : List Blk) (hB : B c.1 = bs1 ++ (mid ++ bs2)) (q z : Nat) :
    Live cs (Function.update B c.1 (bs1 ++ (mid' ++ bs2))) q z ↔
      (Live cs B q z ∧ (q, z, true) ∉ mid) ∨ (q, z, true) ∈ mid' := by
  have htc := (hS.2.1 c hc).1.2.2.2.2.2.1
  rw [hB] at htc
  have hout : (q, z, true) ∈ bs1 ∨ (q, z, true) ∈ bs2 → (q, z, true) ∉ mid := by
    intro hbb hm
    have m32 := (Tiles_mem _ _ _ _ htc (q, z, true) (by simp [hm])).2.2.1
    rcases hbb with hbb | hbb
    · have := Tiles_sorted _ _ _ _ _ htc _ hbb _ (show (q, z, true) ∈ mid ++ bs2 by simp [hm])
      simp only at this m32
      omega
    · rw [← List.append_assoc] at htc
      have := Tiles_sorted _ _ _ _ _ htc _ (show (q, z, true) ∈ bs1 ++ mid by simp [hm]) _ hbb
      simp only at this m32
      omega
  constructor
  · rintro ⟨d, hd, hb⟩
    by_cases hdc : d.1 = c.1
    · rw [hdc, Function.update_same] at hb
      simp only [List.mem_append] at hb
      rcases hb with hb | hb | hb
      · exact Or.inl ⟨⟨c, hc, by rw [hB]; simp [hb]⟩, hout (Or.inl hb)⟩
      · exact Or.inr hb
      · exact Or.inl ⟨⟨c, hc, by rw [hB]; simp [hb]⟩, hout (Or.inr hb)⟩
    · rw [Function.update_noteq hdc] at hb
      refine Or.inl ⟨⟨d, hd, hb⟩, ?_⟩
      intro hm
      have := (Struct_block_chunk hS hc hd (show (q, z, true) ∈ B c.1 by rw [hB]; simp [hm])
        hb rfl).1
      exact hdc (by rw [this])
  · rintro (⟨⟨d, hd, hb⟩, hm⟩ | hm)
    · refine ⟨d, hd, ?_⟩
      by_cases hdc : d.1 = c.1
      · rw [hdc, Function.update_same]
        rw [hdc, hB] at hb
        simp only [List.mem_append] at hb ⊢
        rcases hb with hb | hb | hb
        · exact Or.inl hb
        · exact absurd hb hm
        · exact Or.inr (Or.inr hb)
      · rw [Function.update_noteq hdc]
        exact hb
    · exact ⟨c, hc, by rw [Function.update_same]; simp [hm]⟩

/-- `alloc_block(p, z)` on a free block of exactly `z` bytes keeps the invariant. -/
theorem alloc_exact_Rep {s : State} {cs : List (Nat × Nat)} {B : Nat → List Blk}
    (p z : Nat) (L1 L2 : List Nat) (hR : Rep s cs B (L1 ++ p :: L2))
    {c : Nat × Nat} (hc : c ∈ cs) (bs1 bs2 : List Blk)
    (hB : B c.1 = bs1 ++ ([(p, z, false)] ++ bs2)) :
    ∃ s', alloc_block p z s = .ok s' ∧
      Rep s' cs (Function.update B c.1 (bs1 ++ ([(p, z, true)] ++ bs2))) (L1 ++ L2) ∧
      SameG s s' ∧ (∀ a, Mapped s.mem a → Mapped s'.mem a) ∧
      (∀ q zq, Live cs (Function.update B c.1 (bs1 ++ ([(p, z, true)] ++ bs2))) q zq ↔
        Live cs B q zq ∨ (q = p ∧ zq = z)) := by
  obtain ⟨h0, hna, hk⟩ := hR
  obtain ⟨s', h1, h2, h3, h4⟩ := alloc_block_exact p z L1 L2 h0.1 hc bs1 bs2 hB
  have hnd := h0.1.2.2.1
  refine ⟨s', h1, ⟨?_, ?_, ?_⟩, h3, h4, ?_⟩
  · refine Rep0_rewrite h0 hc bs1 _ _ bs2 hB h2 ?_
    intro q
    have hpn : p ∉ L1 ++ L2 := by
      intro hp
      have := List.nodup_middle.mp hnd
      exact (List.nodup_cons.mp this).1 hp
    constructor
    · intro hq
      left
      refine ⟨?_, ?_⟩
      · simp only [List.mem_append, List.mem_cons] at hq ⊢
        tauto
      · intro b hb
        rw [List.mem_singleton] at hb
        subst hb
        show p ≠ q
        rintro rfl
        exact hpn hq
    · rintro (⟨hq, hne⟩ | ⟨b, hb, e, hf⟩)
      · have hne' : p ≠ q := hne (p, z, false) (by simp)
        simp only [List.mem_append, List.mem_cons] at hq ⊢
        rcases hq with h | h | h
        · exact Or.inl h
        · exact absurd h.symm hne'
        · exact Or.inr h
      · rw [List.mem_singleton] at hb
        subst hb
        cases hf
  · refine NoAdj_update hna _ _ ?_
    have := hna c hc
    rw [hB] at this
    refine NoAdjFree_rewrite _ _ _ _ this (NoAdjFree_single _) (by simp) ?_ ?_
    · rintro ⟨-, h⟩
      rw [headFree_cons] at h
      cases h
    · rintro ⟨h, -⟩
      rw [lastFree_single] at h
      cases h
  · rw [h3.2.2.1]; exact hk
  · intro q zq
    rw [Live_rewrite h0.1.1 hc bs1 _ _ bs2 hB]
    simp only [List.mem_singleton, Prod.mk.injEq, Bool.true_eq_false, and_false,
      not_false_eq_true, and_true]

/-- `alloc_block(p, N)` on a free block of at least `N + 32` bytes keeps the
invariant; the remainder becomes the head of the free list. -/
theorem alloc_split_Rep {s : State} {cs : List (Nat × Nat)} {B : Nat → List Blk}
    (p z N : Nat) (L1 L2 : List Nat) (hR : Rep s cs B (L1 ++ p :: L2))
    {c : Nat × Nat} (hc : c ∈ cs) (bs1 bs2 : List Blk)
    (hB : B c.1 = bs1 ++ ([(p, z, false)] ++ bs2))
    (hN : 32 ≤ N ∧ N % 16 = 0) (hfit : N + 32 ≤ z) :
    ∃ s', alloc_block p N s = .ok s' ∧
      Rep s' cs (Function.update B c.1
        (bs1 ++ ([(p, N, true), (p + N, z - N, false)] ++ bs2))) ((p + N) :: (L1 ++ L2)) ∧
      SameG s s' ∧ (∀ a, Mapped s.mem a → Mapped s'.mem a) ∧
      (∀ q zq, Live cs (Function.update B c.1
        (bs1 ++ ([(p, N, true), (p + N, z - N, false)] ++ bs2))) q zq ↔
        Live cs B q zq ∨ (q = p ∧ zq = N)) := by
  obtain ⟨h0, hna, hk⟩ := hR
  obtain ⟨s', h1, h2, h3, h4⟩ := alloc_block_split p z N L1 L2 h0.1 hc bs1 bs2 hB hN hfit
  have hnd := h0.1.2.2.1
  refine ⟨s', h1, ⟨?_, ?_, ?_⟩, h3, h4, ?_⟩
  · refine Rep0_rewrite h0 hc bs1 _ _ bs2 hB h2 ?_
    intro q
    have hpn : p ∉ L1 ++ L2 := by
      intro hp
      have := List.nodup_middle.mp hnd
      exact (List.nodup_cons.mp this).1 hp
    constructor
    · intro hq
      rcases List.mem_cons.mp hq with hq | hq
      · right
        exact ⟨(p + N, z - N, false), by simp, hq.symm, rfl⟩
      · left
        refine ⟨?_, ?_⟩
        · simp only [List.mem_append, List.mem_cons] at hq ⊢
          tauto
        · intro b hb
          rw [List.mem_singleton] at hb
          subst hb
          show p ≠ q
          rintro rfl
          exact hpn hq
    · rintro (⟨hq, hne⟩ | ⟨b, hb, e, hf⟩)
      · have hne' : p ≠ q := hne (p, z, false) (by simp)
        refine List.mem_cons_of_mem _ ?_
        simp only [List.mem_append, List.mem_cons] at hq ⊢
        rcases hq with h | h | h
        · exact Or.inl h
        · exact absurd h.symm hne'
        · exact Or.inr h
      · simp only [List.mem_cons, List.mem_singleton, List.not_mem_nil, or_false] at hb
        rcases hb with hb | hb
        · subst hb
          cases hf
        · subst hb
          rw [← e]
          exact List.mem_cons_self _ _
  · refine NoAdj_update hna _ _ ?_
    have := hna c hc
    rw [hB] at this
    have har := NoAdjFree_around bs1 bs2 (p, z, false) rfl this
    refine NoAdjFree_rewrite _ _ _ _ this ?_ (by simp) ?_ ?_
    · rw [NoAdjFree_cons2]
      refine ⟨?_, NoAdjFree_single _⟩
      intro h
      exact Bool.noConfusion h.1
    · rintro ⟨-, h⟩
      rw [headFree_cons] at h
      cases h
    · rintro ⟨-, h⟩
      exact har.2 h
  · rw [h3.2.2.1]; exact hk
  · intro q zq
    rw [Live_rewrite h0.1.1 hc bs1 _ _ bs2 hB]
    simp only [List.mem_singleton, List.mem_cons, List.not_mem_nil, or_false, Prod.mk.injEq,
      Bool.true_eq_false, and_false, not_false_eq_true, and_true, and_self]

end Sample

namespace Sample
open Alloc

theorem free_not_live {s : State} {cs : List (Nat × Nat)} {B : Nat → List Blk}
    (hS : Struct s cs B) {c : Nat × Nat} (hc : c ∈ cs) {p z : Nat}
    (hb : (p, z, false) ∈ B c.1) (z' : Nat) : ¬ Live cs B p z' := by
  rintro ⟨d, hd, hb'⟩
  have := (Struct_block_chunk hS hc hd hb hb' rfl).2
  simp at this

/-- Size of the chunk that `init_chunk` requests for a block of `N` bytes. -/
theorem chunk_size_bounds (k N : Nat) (hk : 1 ≤ k) (hN : N + 4175 < 18446744073709551616)
    (hW : k * PAGE_ALIGN (add64 (add64 N 48) 32) < 18446744073709551616) :
    mul64 k (PAGE_ALIGN (add64 (add64 N 48) 32)) = k * PAGE_ALIGN (add64 (add64 N 48) 32) ∧
      N + 80 ≤ k * PAGE_ALIGN (add64 (add64 N 48) 32) ∧
      k * PAGE_ALIGN (add64 (add64 N 48) 32) % 16 = 0 := by
  have e1 : add64 (add64 N 48) 32 = N + 80 := by
    rw [add64_eq (show N + 48 < 18446744073709551616 by omega),
      add64_eq (show N + 48 + 32 < 18446744073709551616 by omega)]
  rw [e1, PAGE_ALIGN_eq _ (by omega)] at hW ⊢
  refine ⟨mul64_eq hW, ?_, ?_⟩
  · have h1 : N + 80 ≤ (N + 80 + 4095) / 4096 * 4096 := by omega
    have h2 : (N + 80 + 4095) / 4096 * 4096 ≤ k * ((N + 80 + 4095) / 4096 * 4096) :=
      Nat.le_mul_of_pos_left _ hk
    omega
  · have h1 : (16 : Nat) ∣ (N + 80 + 4095) / 4096 * 4096 := by
      refine Dvd.dvd.mul_left ?_ _
      decide
    exact Nat.mod_eq_zero_of_dvd (Dvd.dvd.mul_left h1 k)

/-- `init_chunk` keeps the invariant: the new chunk holds one free block, which
becomes the head of the free list. -/
theorem init_chunk_Rep {s : State} {cs : List (Nat × Nat)} {B : Nat → List Blk}
    {fl : List Nat} (hR : Rep s cs B fl) (N : Nat) (hN : N + 4175 < 18446744073709551616)
    (henv : FreshOk s N) :
    ∃ s' base C, init_chunk N s = .ok (base + 48, s') ∧
      base = s.oracle s.nmaps ∧
      C = s.new_chunk_size * PAGE_ALIGN (add64 (add64 N 48) 32) ∧ N + 80 ≤ C ∧
      Rep s' ((base, C) :: cs) (Function.update B base [(base + 48, C - 48, false)])
        ((base + 48) :: fl) ∧
      s'.oracle = s.oracle ∧ s'.nmaps = s.nmaps + 1 ∧ s'.unmaps = s.unmaps ∧
      (∀ a, Mapped s.mem a → Mapped s'.mem a) ∧
      (∀ q z, Live ((base, C) :: cs)
        (Function.update B base [(base + 48, C - 48, false)]) q z ↔ Live cs B q z) := by
  obtain ⟨h0, hna, hk⟩ := hR
  obtain ⟨e0, e4096, eW, edis⟩ := henv
  obtain ⟨c1, c2, c3⟩ := chunk_size_bounds s.new_chunk_size N hk hN (by omega)
  have hreg : s.regions = cs := h0.1.1.2.2.2
  rw [hreg] at edis
  obtain ⟨s', h1, h2, h3, h4, h5, h6, h7, -⟩ :=
    init_chunk_step h0.1 N _ (s.oracle s.nmaps) c1 (by omega) c3 rfl (by omega) (by omega) eW edis
  have hne : ∀ d ∈ cs, d.1 ≠ s.oracle s.nmaps := by
    intro d hd
    have g := Struct_chunk h0.1.1 hd
    have := edis d hd
    omega
  refine ⟨s', _, _, h1, rfl, rfl, c2, ⟨⟨h2, ?_, ?_⟩, ?_, ?_⟩, h4, h5, h6, h7, ?_⟩
  · intro q hq
    rcases List.mem_cons.mp hq with h | h
    · refine ⟨_, List.mem_cons_self _ _, ?_⟩
      simp only [Function.update_same, List.mem_singleton, exists_eq_left]
      exact ⟨h.symm, trivial⟩
    · obtain ⟨d, hd, b, hb, e, hf⟩ := h0.2.1 q h
      refine ⟨d, List.mem_cons_of_mem _ hd, b, ?_, e, hf⟩
      rw [Function.update_noteq (hne d hd)]
      exact hb
  · intro d hd b hb hf
    rcases List.mem_cons.mp hd with h | h
    · subst h
      simp only [Function.update_same, List.mem_singleton] at hb
      subst hb
      exact List.mem_cons_self _ _
    · rw [Function.update_noteq (hne d h)] at hb
      exact List.mem_cons_of_mem _ (h0.2.2 d h b hb hf)
  · intro d hd
    rcases List.mem_cons.mp hd with h | h
    · subst h
      simp only [Function.update_same]
      exact NoAdjFree_single _
    · rw [Function.update_noteq (hne d h)]
      exact hna d h
  · rw [h3]; omega
  · intro q z
    constructor
    · rintro ⟨d, hd, hb⟩
      rcases List.mem_cons.mp hd with h | h
      · subst h
        simp only [Function.update_same, List.mem_singleton, Prod.mk.injEq,
          Bool.true_eq_false, and_false] at hb
      · rw [Function.update_noteq (hne d h)] at hb
        exact ⟨d, h, hb⟩
    · rintro ⟨d, hd, hb⟩
      refine ⟨d, List.mem_cons_of_mem _ hd, ?_⟩
      rw [Function.update_noteq (hne d hd)]
      exact hb

end Sample

namespace Sample
open Alloc

theorem Rep1_NodesOk {s : State} {cs : List (Nat × Nat)} {B : Nat → List Blk}
    {fl : List Nat} (hR : Rep1 s cs B fl) : NodesOk s.mem fl := by
  intro x hx
  obtain ⟨c, hc, b, hb, e⟩ := hR.2.2.2 x hx
  have f := Struct_block hR.1 hc hb
  have g := Struct_chunk hR.1 hc
  rw [← e]
  exact ⟨by omega, by omega, g.2.2.2.2.2.2.2.2 _ (by omega) (by omega) (by omega)⟩

theorem mm_malloc_found (fuel n r : Nat) (s : State)
    (h : find_free_block_ff fuel s.free_list_head (ALIGN (add64 n 16)) s = .ok r) (hr : r ≠ 0) :
    mm_malloc fuel n s =
      (alloc_block r (ALIGN (add64 n 16)) s >>= fun s' => pure (r, s')) := by
  unfold mm_malloc
  simp only [h, ok_bind, if_neg hr]

theorem mm_malloc_new (fuel n : Nat) (s : State)
    (h : find_free_block_ff fuel s.free_list_head (ALIGN (add64 n 16)) s = .ok 0) :
    mm_malloc fuel n s =
      (init_chunk (ALIGN (add64 n 16)) s >>= fun r =>
        alloc_block r.1 (ALIGN (add64 n 16)) r.2 >>= fun s' => pure (r.1, s')) := by
  unfold mm_malloc
  simp only [h, ok_bind, if_true]

/-- `mm_malloc` keeps the invariant, and the block it returns is a new allocated block
of `ALIGN(n+16)` bytes. -/
theorem mm_malloc_Rep {s : State} {cs : List (Nat × Nat)} {B : Nat → List Blk}
    {fl : List Nat} (hR : Rep s cs B fl) (n fuel : Nat) (hn1 : 1 ≤ n)
    (hn2 : n + 8192 ≤ 18446744073709551616) (hfuel : fl.length < fuel)
    (henv : find_free_block_ff fuel s.free_list_head (ALIGN (add64 n 16)) s = .ok 0 →
      FreshOk s (ALIGN (add64 n 16))) :
    ∃ p s' cs' B' fl', mm_malloc fuel n s = .ok (p, s') ∧ Rep s' cs' B' fl' ∧
      (∀ q zq, Live cs' B' q zq ↔ Live cs B q zq ∨ (q = p ∧ zq = ALIGN (add64 n 16))) ∧
      (∀ z', ¬ Live cs B p z') ∧
      s'.unmaps = s.unmaps ∧ s'.oracle = s.oracle ∧
      (∀ a, Mapped s.mem a → Mapped s'.mem a) ∧
      (s.free_list_head ≠ 0 → Fits (ALIGN (add64 n 16)) (sizeAt s.mem s.free_list_head) →
        p = s.free_list_head) := by
  obtain ⟨b1, b2, b3, -⟩ := needed_size_bounds n (by omega)
  generalize hNdef : ALIGN (add64 n 16) = N at *
  have hN32 : 32 ≤ N := by omega
  have h0 := hR.1
  have hS := h0.1.1
  obtain ⟨r, hfind, hr0, hr1⟩ := find_free_block_ff_spec s N (by omega) fl 0 s.free_list_head
    fuel h0.1.2.1 (Rep1_NodesOk h0.1) hfuel
  have hhead : s.free_list_head = fl.headD 0 := ((Chain_iff_Seg _ _ _ _ _ _).mp h0.1.2.1).1
  by_cases hr : r = 0
  · -- no block fits: a new chunk is mapped
    subst hr
    obtain ⟨s1, base, C, i1, i2, -, i3, i4, i5, i6, i7, i8, i9⟩ :=
      init_chunk_Rep hR N (by omega) (henv hfind)
    obtain ⟨s2, a1, a2, a3, a4, a5⟩ := alloc_split_Rep (base + 48) (C - 48) N [] fl i4
      (List.mem_cons_self _ _) [] [] (by simp) ⟨hN32, b1⟩ (by omega)
    refine ⟨base + 48, s2, _, _, _, ?_, a2, ?_, ?_, ?_, ?_, ?_, ?_⟩
    · have e := mm_malloc_new fuel n s (by rw [hNdef]; exact hfind)
      rw [hNdef] at e
      rw [e, i1, ok_bind]
      show (alloc_block (base + 48) N s1 >>= _) = _
      rw [a1, ok_bind]
      rfl
    · intro q zq
      rw [a5, i9]
    · intro z' hl
      obtain ⟨d, hd, hb⟩ := hl
      have f := Struct_block hS hd hb
      have g := Struct_chunk hS hd
      have hp := (List.pairwise_cons.mp i4.1.1.1.2.2.1).1 d hd
      simp only at f hp
      omega
    · rw [a3.2.2.2.2.2, i7]
    · rw [a3.2.2.2.1, i5]
    · exact fun a ha => a4 a (i8 a ha)
    · intro hne hfit
      rcases headD_mem_or fl 0 with ⟨h, -⟩ | h
      · rw [hhead] at hne; exact absurd h hne
      · rw [← hhead] at h
        exact absurd hfit (hr0 rfl _ h)
  · -- a block of the free list fits
    obtain ⟨L1, L2, hL, hfit, hfirst⟩ := hr1 hr
    subst hL
    obtain ⟨c, hc, b, hb, e, hf⟩ := h0.2.1 r (mem_mid L1 L2 r)
    obtain ⟨bs1, bs2, hB⟩ := List.append_of_mem hb
    obtain ⟨p', z, a⟩ := b
    simp only at e hf
    subst e hf
    have hsz : sizeAt s.mem p' = z := Struct_sizeAt hS hc hb
    rw [hsz] at hfit
    have hB' : B c.1 = bs1 ++ ([(p', z, false)] ++ bs2) := by rw [hB]; rfl
    have e := mm_malloc_found fuel n p' s (by rw [hNdef]; exact hfind) hr
    rw [hNdef] at e
    have hC9 : s.free_list_head ≠ 0 → Fits N (sizeAt s.mem s.free_list_head) →
        p' = s.free_list_head := by
      intro hne hfit'
      cases L1 with
      | nil => rw [hhead]; rfl
      | cons x xs =>
        have : s.free_list_head = x := by rw [hhead]; rfl
        rw [this] at hfit'
        exact absurd hfit' (hfirst x (List.mem_cons_self _ _))
    rcases hfit with hfit | hfit
    · subst hfit
      obtain ⟨s2, a1, a2, a3, a4, a5⟩ := alloc_exact_Rep p' z L1 L2 hR hc bs1 bs2 hB'
      refine ⟨p', s2, _, _, _, ?_, a2, a5, free_not_live hS hc hb, a3.2.2.2.2.2, a3.2.2.2.1, a4,
        hC9⟩
      rw [e, a1, ok_bind]
      rfl
    · obtain ⟨s2, a1, a2, a3, a4, a5⟩ := alloc_split_Rep p' z N L1 L2 hR hc bs1 bs2 hB'
        ⟨hN32, b1⟩ hfit
      refine ⟨p', s2, _, _, _, ?_, a2, a5, free_not_live hS hc hb, a3.2.2.2.2.2, a3.2.2.2.1, a4,
        hC9⟩
      rw [e, a1, ok_bind]
      rfl

end Sample

namespace Sample
open Alloc

/-- First part of `mm_free` on an allocated block: the header is rewritten with the
allocated flag cleared and the block is put in front of the free list. -/
theorem mark_free_step {s : State} {cs : List (Nat × Nat)} {B : Nat → List Blk}
    {fl : List Nat} (p z : Nat) (hR : Rep1 s cs B fl)
    {c : Nat × Nat} (hc : c ∈ cs) (bs1 bs2 : List Blk)
    (hB : B c.1 = bs1 ++ ([(p, z, true)] ++ bs2)) (hp : p ∉ fl) :
    GET_ALLOC s (HEADER p) = .ok 1 ∧ GET_SIZE s (HEADER p) = .ok z ∧
    ∃ s1 s2, PUT s (HEADER p) z = .ok s1 ∧ add_to_free_list p s1 = .ok s2 ∧
      Rep1 s2 cs (Function.update B c.1 (bs1 ++ ([(p, z, false)] ++ bs2))) (p :: fl) ∧
      SameG s s2 ∧ (∀ a, Mapped s.mem a → Mapped s2.mem a) ∧
      s2.mem = addS (store s.mem (p - 8) z) p (fl.headD 0) := by
  obtain ⟨e1, e2, h48, hp16, hz32, hz16, hW, hhdr, hftr, hmp⟩ :=
    Struct_at hR.1 hc bs1 bs2 (p, z, true) hB
  simp only at e1 e2 h48 hp16 hz32 hz16 hW hhdr hftr hmp
  have eH : HEADER p = p - 8 := sub64_eq (by omega) (by omega)
  rw [hdrWord_true] at hhdr
  obtain ⟨s1, hr1, hm1, hf1, hg1⟩ := PUT_spec s (p - 8) z (Mapped_of_eq hhdr)
  have hmp1 : ∀ a, Mapped s.mem a → Mapped s1.mem a := by
    intro a ha; rw [hm1]; exact Mapped_store _ _ _ _ ha
  have hR1 : Rep1 s1 cs (Function.update B c.1 (bs1 ++ ([(p, z, false)] ++ bs2))) fl := by
    refine Rep1_rewrite hR hc bs1 [(p, z, true)] [(p, z, false)] bs2 hB s1 hg1.1 hg1.2.1 hf1
      hmp1 ?_ ?_ ?_
    · intro a ha
      rw [hm1, store_other _ _ _ _ (by omega)]
    · rw [e1, e2, Tiles_cons, Tiles_nil]
      refine ⟨rfl, hz32, hz16, ?_, ?_, rfl⟩
      · rw [hm1, store_same]; rfl
      · show s1.mem (p + z - 16) = some z
        rw [hm1, store_other _ _ _ _ (by omega)]; exact hftr
    · intro b hb hbf
      simp only [List.mem_singleton] at hb
      subst hb
      exact absurd hbf hp
  have hNb : Nb cs (Function.update B c.1 (bs1 ++ ([(p, z, false)] ++ bs2))) p z :=
    Or.inr ⟨c, hc, false, by rw [Function.update_same]; simp⟩
  obtain ⟨s2, hr2, hR2, g1, g2, g3, g4, g5, g6, hm2, hmp2⟩ :=
    add_step p z hR1 hNb (by omega) hp
  refine ⟨?_, ?_, s1, s2, by rw [eH]; exact hr1, hr2, hR2,
    SameG_trans hg1 ⟨g1, g2, g3, g4, g5, g6⟩, fun a ha => hmp2 _ (hmp1 _ ha), by rw [hm2, hm1]⟩
  · rw [eH, GET_ALLOC_sv _ _ _ hhdr]
    have : allocBit (z + 1) = 1 := by unfold allocBit; omega
    rw [this]
  · rw [eH, GET_SIZE_sv _ _ _ hhdr]
    have : sizeBits (z + 1) = z := by unfold sizeBits; omega
    rw [this]

end Sample

namespace Sample
open Alloc

theorem Tiles_sum16 (m : Mem) : ∀ (l : List Blk) (p e : Nat), Tiles m p l e →
    sumSizes l % 16 = 0 ∧ (l ≠ [] → 32 ≤ sumSizes l) := by
  intro l
  induction l with
  | nil => intro p e _; exact ⟨rfl, fun h => absurd rfl h⟩
  | cons x xs ih =>
    intro p e h
    rw [Tiles_cons] at h
    have := ih _ _ h.2.2.2.2.2
    simp only [sumSizes]
    refine ⟨by omega, fun _ => by omega⟩

/-- `extend(q, T)` over a run of blocks starting at `q` with total size `T`, of which
only the first may be in the free list: the run becomes one free block. -/
theorem extend_step {s : State} {cs : List (Nat × Nat)} {B : Nat → List Blk}
    {fl : List Nat} (hR : Rep1 s cs B fl) {c : Nat × Nat} (hc : c ∈ cs)
    (bs1 bs2 : List Blk) (b0 : Blk) (rest : List Blk)
    (hB : B c.1 = bs1 ++ ((b0 :: rest) ++ bs2)) (hrest : ∀ b ∈ rest, b.1 ∉ fl) :
    ∃ s', extend b0.1 (sumSizes (b0 :: rest)) s = .ok s' ∧
      Rep1 s' cs (Function.update B c.1
        (bs1 ++ ([(b0.1, sumSizes (b0 :: rest), false)] ++ bs2))) fl ∧
      SameG s s' ∧ s'.free_list_head = s.free_list_head ∧
      (∀ a, Mapped s.mem a → Mapped s'.mem a) ∧
      (∀ a, a ≠ b0.1 - 8 → a ≠ b0.1 + sumSizes (b0 :: rest) - 16 → s'.mem a = s.mem a) := by
  obtain ⟨ht1, ht2, ht3, hle, hb1, hb2⟩ := Struct_split hR.1 hc bs1 (b0 :: rest) bs2 hB
  obtain ⟨hT16, hT32⟩ := Tiles_sum16 _ _ _ _ ht2
  have hT32 := hT32 (by simp)
  have hs1 := (Tiles_sum16 _ _ _ _ ht1).1
  have gc := Struct_chunk hR.1 hc
  generalize hT : sumSizes (b0 :: rest) = T at *
  have hq : b0.1 = c.1 + 48 + sumSizes bs1 := by
    rw [Tiles_cons] at ht2; exact ht2.1
  have hmq : ∀ a, b0.1 - 8 ≤ a → a < b0.1 + T → a % 8 = 0 → Mapped s.mem a :=
    fun a h1 h2 h3 => gc.2.2.2.2.2.2.2.2 a (by omega) (by omega) h3
  have eH : HEADER b0.1 = b0.1 - 8 := sub64_eq (by omega) (by omega)
  obtain ⟨s1, hr1, hm1, hf1, hg1⟩ := PUT_spec s (b0.1 - 8) T (hmq _ (by omega) (by omega)
    (by omega))
  have hmp1 : ∀ a, Mapped s.mem a → Mapped s1.mem a := by
    intro a ha; rw [hm1]; exact Mapped_store _ _ _ _ ha
  have hh1 : s1.mem (b0.1 - 8) = some T := by rw [hm1, store_same]
  obtain ⟨s2, hr2, hm2, hf2, hg2⟩ := PUT_spec s1 (b0.1 + T - 16) T
    (hmp1 _ (hmq _ (by omega) (by omega) (by omega)))
  have hmp2 : ∀ a, Mapped s.mem a → Mapped s2.mem a := by
    intro a ha; rw [hm2]; exact Mapped_store _ _ _ _ (hmp1 _ ha)
  have hfr : ∀ a, a ≠ b0.1 - 8 → a ≠ b0.1 + T - 16 → s2.mem a = s.mem a := by
    intro a h1 h2
    rw [hm2, store_other _ _ _ _ h2, hm1, store_other _ _ _ _ h1]
  have hg := SameG_trans hg1 hg2
  refine ⟨s2, ?_, ?_, hg, by rw [hf2, hf1], hmp2, hfr⟩
  · unfold extend FOOTER
    rw [eH, hr1, ok_bind, GET_SIZE_sv _ _ _ hh1, ok_bind, sizeBits_of_dvd T hT16, pure_eq_ok,
      ok_bind]
    have e : sub64 (add64 b0.1 T) 16 = b0.1 + T - 16 := by
      rw [add64_eq (by omega), sub64_eq (by omega) (by omega)]
    rw [e, hr2]
  · refine Rep1_rewrite hR hc bs1 (b0 :: rest) [(b0.1, T, false)] bs2 hB s2 hg.1 hg.2.1
      (by rw [hf2, hf1]) hmp2 ?_ ?_ ?_
    · intro a ha
      rw [hT] at ha
      exact hfr a (by omega) (by omega)
    · rw [hT, ← hq, Tiles_cons, Tiles_nil]
      refine ⟨rfl, hT32, hT16, ?_, ?_, rfl⟩
      · rw [hm2, store_other _ _ _ _ (by omega), hh1]; rfl
      · show s2.mem (b0.1 + T - 16) = some T
        rw [hm2, store_same]
    · intro b hb hbf
      rcases List.mem_cons.mp hb with h | h
      · subst h
        exact ⟨⟨(b.1, T, false), by simp, rfl⟩, hfr _ (by omega) (by omega),
          hfr _ (by omega) (by omega)⟩
      · exact absurd hbf (hrest b h)

theorem reads_prev_nil {s : State} {cs : List (Nat × Nat)} {B : Nat → List Blk}
    (hS : Struct s cs B) {c : Nat × Nat} (hc : c ∈ cs) (bs2 : List Blk) (b : Blk)
    (hB : B c.1 = [] ++ ([b] ++ bs2)) :
    PREV_BLK_PTR s b.1 = .ok (b.1 - 16) ∧ GET_ALLOC s (HEADER (b.1 - 16)) = .ok 1 ∧
      GET_SIZE s (HEADER (b.1 - 16)) = .ok 16 := by
  obtain ⟨e1, -⟩ := Struct_at hS hc [] bs2 b hB
  simp only [sumSizes, Nat.add_zero] at e1
  have gc := Struct_chunk hS hc
  have e2 : sub64 b.1 16 = c.1 + 32 := by rw [sub64_eq (by omega) (by omega)]; omega
  have e3 : HEADER (b.1 - 16) = c.1 + 24 := by
    unfold HEADER; rw [sub64_eq (by omega) (by omega)]; omega
  refine ⟨?_, ?_, ?_⟩
  · unfold PREV_BLK_PTR
    rw [e2, GET_SIZE_sv _ _ _ gc.2.2.2.2.2.2.1, ok_bind, pure_eq_ok]
    have : sizeBits 16 = 16 := by decide
    rw [this, sub64_eq (by omega) (by omega)]
  · rw [e3, GET_ALLOC_sv _ _ _ gc.2.2.2.2.2.1]
    have : allocBit 17 = 1 := by decide
    rw [this]
  · rw [e3, GET_SIZE_sv _ _ _ gc.2.2.2.2.2.1]
    have : sizeBits 17 = 16 := by decide
    rw [this]

theorem reads_prev_snoc {s : State} {cs : List (Nat × Nat)} {B : Nat → List Blk}
    (hS : Struct s cs B) {c : Nat × Nat} (hc : c ∈ cs) (bs1 bs2 : List Blk) (b0 b : Blk)
    (hB : B c.1 = bs1 ++ ([b0, b] ++ bs2)) :
    b0.1 + b0.2.1 = b.1 ∧
    PREV_BLK_PTR s b.1 = .ok b0.1 ∧
      GET_ALLOC s (HEADER b0.1) = .ok (if b0.2.2 then 1 else 0) ∧
      GET_SIZE s (HEADER b0.1) = .ok b0.2.1 := by
  obtain ⟨ht1, ht2, ht3, hle, hb1, hb2⟩ := Struct_split hS hc bs1 [b0, b] bs2 hB
  rw [Tiles_cons, Tiles_cons] at ht2
  obtain ⟨q1, q2, q3, q4, q5, r1, r2, r3, r4, r5, -⟩ := ht2
  have gc := Struct_chunk hS hc
  simp only [sumSizes] at hle
  have eH : HEADER b0.1 = b0.1 - 8 := sub64_eq (by omega) (by omega)
  have e2 : sub64 b.1 16 = c.1 + 48 + sumSizes bs1 + b0.2.1 - 16 := by
    rw [sub64_eq (by omega) (by omega)]; omega
  refine ⟨by omega, ?_, ?_, ?_⟩
  · unfold PREV_BLK_PTR
    rw [e2, GET_SIZE_sv _ _ _ q5, ok_bind, pure_eq_ok, sizeBits_of_dvd _ q3,
      sub64_eq (by omega) (by omega)]
    have : b.1 - b0.2.1 = b0.1 := by omega
    rw [this]
  · rw [eH, q1, GET_ALLOC_sv _ _ _ q4, allocBit_hdrWord _ q3]
  · rw [eH, q1, GET_SIZE_sv _ _ _ q4, sizeBits_hdrWord _ q3]

theorem reads_next_nil {s : State} {cs : List (Nat × Nat)} {B : Nat → List Blk}
    (hS : Struct s cs B) {c : Nat × Nat} (hc : c ∈ cs) (bs1 : List Blk) (b : Blk)
    (hB : B c.1 = bs1 ++ ([b] ++ [])) :
    NXT_BLK_PTR s b.1 = .ok (b.1 + b.2.1) ∧ GET_ALLOC s (HEADER (b.1 + b.2.1)) = .ok 1 ∧
      GET_SIZE s (HEADER (b.1 + b.2.1)) = .ok 0 := by
  obtain ⟨e1, e2, h48, hp16, hz32, hz16, hW, hhdr, hftr, hmp⟩ := Struct_at hS hc bs1 [] b hB
  obtain ⟨ht1, ht2, ht3, hle, hb1, hb2⟩ := Struct_split hS hc bs1 [b] [] hB
  rw [Tiles_nil] at ht3
  have gc := Struct_chunk hS hc
  have eH : HEADER b.1 = b.1 - 8 := sub64_eq (by omega) (by omega)
  have e3 : HEADER (b.1 + b.2.1) = c.1 + c.2 - 8 := by
    unfold HEADER; rw [sub64_eq (by omega) (by omega)]; omega
  refine ⟨?_, ?_, ?_⟩
  · unfold NXT_BLK_PTR
    rw [eH, GET_SIZE_sv _ _ _ hhdr, ok_bind, pure_eq_ok, sizeBits_hdrWord _ hz16,
      add64_eq (by omega)]
  · rw [e3, GET_ALLOC_sv _ _ _ gc.2.2.2.2.2.2.2.1]
    have : allocBit 1 = 1 := by decide
    rw [this]
  · rw [e3, GET_SIZE_sv _ _ _ gc.2.2.2.2.2.2.2.1]
    have : sizeBits 1 = 0 := by decide
    rw [this]

theorem reads_next_cons {s : State} {cs : List (Nat × Nat)} {B : Nat → List Blk}
    (hS : Struct s cs B) {c : Nat × Nat} (hc : c ∈ cs) (bs1 bs2 : List Blk) (b b2 : Blk)
    (hB : B c.1 = bs1 ++ ([b, b2] ++ bs2)) :
    b.1 + b.2.1 = b2.1 ∧
    NXT_BLK_PTR s b.1 = .ok b2.1 ∧
      GET_ALLOC s (HEADER b2.1) = .ok (if b2.2.2 then 1 else 0) ∧
      GET_SIZE s (HEADER b2.1) = .ok b2.2.1 ∧ GET_SIZE s (HEADER b.1) = .ok b.2.1 := by
  obtain ⟨ht1, ht2, ht3, hle, hb1, hb2⟩ := Struct_split hS hc bs1 [b, b2] bs2 hB
  rw [Tiles_cons, Tiles_cons] at ht2
  obtain ⟨q1, q2, q3, q4, q5, r1, r2, r3, r4, r5, -⟩ := ht2
  have gc := Struct_chunk hS hc
  simp only [sumSizes] at hle
  have eH : HEADER b.1 = b.1 - 8 := sub64_eq (by omega) (by omega)
  have eH2 : HEADER b2.1 = b2.1 - 8 := sub64_eq (by omega) (by omega)
  rw [← q1] at q4
  rw [← r1] at r4
  refine ⟨by omega, ?_, ?_, ?_, ?_⟩
  · unfold NXT_BLK_PTR
    rw [eH, GET_SIZE_sv _ _ _ q4, ok_bind, pure_eq_ok, sizeBits_hdrWord _ q3,
      add64_eq (by omega)]
    have : b.1 + b.2.1 = b2.1 := by omega
    rw [this]
  · rw [eH2, GET_ALLOC_sv _ _ _ r4, allocBit_hdrWord _ r3]
  · rw [eH2, GET_SIZE_sv _ _ _ r4, sizeBits_hdrWord _ r3]
  · rw [eH, GET_SIZE_sv _ _ _ q4, sizeBits_hdrWord _ q3]

end Sample

namespace Sample
open Alloc

/-- The branch that `coalesce` takes, from the words it reads. -/
theorem coalesce_eq (s : State) (p pb pa ps nb na ns z : Nat)
    (h1 : PREV_BLK_PTR s p = .ok pb) (h2 : NXT_BLK_PTR s p = .ok nb)
    (h3 : GET_ALLOC s (HEADER pb) = .ok pa) (h4 : GET_ALLOC s (HEADER nb) = .ok na)
    (h5 : GET_SIZE s (HEADER p) = .ok z) (h6 : GET_SIZE s (HEADER pb) = .ok ps)
    (h7 : GET_SIZE s (HEADER nb) = .ok ns) :
    coalesce p s =
      if pa = 0 ∧ na = 0 then
        (remove_from_free_list p s >>= fun s1 =>
          remove_from_free_list (add64 (HEADER nb) 8) s1 >>= fun s2 =>
          extend (add64 (HEADER pb) 8) (add64 (add64 z ps) ns) s2 >>= fun s3 =>
          pure (add64 (HEADER pb) 8, s3))
      else if pa = 0 then
        (remove_from_free_list p s >>= fun s1 =>
          extend (add64 (HEADER pb) 8) (add64 z ps) s1 >>= fun s3 =>
          pure (add64 (HEADER pb) 8, s3))
      else if na = 0 then
        (remove_from_free_list (add64 (HEADER nb) 8) s >>= fun s1 =>
          extend p (add64 z ns) s1 >>= fun s3 => pure (p, s3))
      else pure (p, s) := by
  unfold coalesce
  simp only [h1, h2, h3, h4, h5, h6, h7, ok_bind]

/-- What `coalesce` reads about the block in front of the block `b`. -/
theorem reads_prev {s : State} {cs : List (Nat × Nat)} {B : Nat → List Blk}
    (hS : Struct s cs B) {c : Nat × Nat} (hc : c ∈ cs) (bs1 bs2 : List Blk) (b : Blk)
    (hB : B c.1 = bs1 ++ ([b] ++ bs2)) :
    ∃ pb pa ps, PREV_BLK_PTR s b.1 = .ok pb ∧ GET_ALLOC s (HEADER pb) = .ok pa ∧
      GET_SIZE s (HEADER pb) = .ok ps ∧ (pa = 0 ↔ lastFree bs1) ∧
      (pa = 0 → ∃ bs1', bs1 = bs1' ++ [(pb, ps, false)] ∧ add64 (HEADER pb) 8 = pb ∧
        pb + ps = b.1) := by
  rcases List.eq_nil_or_concat bs1 with h | ⟨bs1', b0, h⟩
  · subst h
    obtain ⟨r1, r2, r3⟩ := reads_prev_nil hS hc bs2 b hB
    refine ⟨_, _, _, r1, r2, r3, ?_, ?_⟩
    · constructor
      · intro h; cases h
      · intro h; exact absurd h lastFree_nil
    · intro h; cases h
  · rw [List.concat_eq_append] at h
    subst h
    have hB' : B c.1 = bs1' ++ ([b0, b] ++ bs2) := by rw [hB]; simp
    obtain ⟨r0, r1, r2, r3⟩ := reads_prev_snoc hS hc bs1' bs2 b0 b hB'
    have f := Struct_block hS hc (show b0 ∈ B c.1 by rw [hB']; simp)
    have eH : add64 (HEADER b0.1) 8 = b0.1 := by
      unfold HEADER
      rw [sub64_eq (by omega) (by omega), add64_eq (by omega)]
      omega
    refine ⟨_, _, _, r1, r2, r3, ?_, ?_⟩
    · rw [lastFree_append _ _ (by simp), lastFree_single]
      cases b0.2.2 <;> simp
    · intro h
      obtain ⟨q, zq, aq⟩ := b0
      cases aq with
      | true => simp at h
      | false => exact ⟨bs1', rfl, eH, r0⟩

/-- What `coalesce` reads about the block behind the block `b`. -/
theorem reads_next {s : State} {cs : List (Nat × Nat)} {B : Nat → List Blk}
    (hS : Struct s cs B) {c : Nat × Nat} (hc : c ∈ cs) (bs1 bs2 : List Blk) (b : Blk)
    (hB : B c.1 = bs1 ++ ([b] ++ bs2)) :
    ∃ nb na ns, NXT_BLK_PTR s b.1 = .ok nb ∧ GET_ALLOC s (HEADER nb) = .ok na ∧
      GET_SIZE s (HEADER nb) = .ok ns ∧ (na = 0 ↔ headFree bs2) ∧
      (na = 0 → ∃ bs2', bs2 = (nb, ns, false) :: bs2' ∧ add64 (HEADER nb) 8 = nb ∧
        b.1 + b.2.1 = nb) := by
  cases bs2 with
  | nil =>
    obtain ⟨r1, r2, r3⟩ := reads_next_nil hS hc bs1 b hB
    refine ⟨_, _, _, r1, r2, r3, ?_, ?_⟩
    · constructor
      · intro h; cases h
      · intro h; exact absurd h headFree_nil
    · intro h; cases h
  | cons b2 bs2' =>
    have hB' : B c.1 = bs1 ++ ([b, b2] ++ bs2') := by rw [hB]; simp
    obtain ⟨r0, r1, r2, r3, -⟩ := reads_next_cons hS hc bs1 bs2' b b2 hB'
    have f := Struct_block hS hc (show b2 ∈ B c.1 by rw [hB']; simp)
    have eH : add64 (HEADER b2.1) 8 = b2.1 := by
      unfold HEADER
      rw [sub64_eq (by omega) (by omega), add64_eq (by omega)]
      omega
    refine ⟨_, _, _, r1, r2, r3, ?_, ?_⟩
    · rw [headFree_cons]
      cases b2.2.2 <;> simp
    · intro h
      obtain ⟨q, zq, aq⟩ := b2
      cases aq with
      | true => simp at h
      | false => exact ⟨bs2', rfl, eH, r0⟩

end Sample

namespace Sample
open Alloc

theorem reads_self {s : State} {cs : List (Nat × Nat)} {B : Nat → List Blk}
    (hS : Struct s cs B) {c : Nat × Nat} (hc : c ∈ cs) (bs1 bs2 : List Blk) (b : Blk)
    (hB : B c.1 = bs1 ++ ([b] ++ bs2)) : GET_SIZE s (HEADER b.1) = .ok b.2.1 := by
  obtain ⟨e1, e2, h48, hp16, hz32, hz16, hW, hhdr, hftr, hmp⟩ := Struct_at hS hc bs1 bs2 b hB
  have eH : HEADER b.1 = b.1 - 8 := sub64_eq (by omega) (by omega)
  rw [eH, GET_SIZE_sv _ _ _ hhdr, sizeBits_hdrWord _ hz16]

/-- A node of the free list and a block of the heap are the same block or apart. -/
theorem Rep1_node_block {s : State} {cs : List (Nat × Nat)} {B : Nat → List Blk}
    {fl : List Nat} (hR : Rep1 s cs B fl) {c : Nat × Nat} (hc : c ∈ cs) {b : Blk}
    (hb : b ∈ B c.1) {y : Nat} (hy : y ∈ fl) :
    y % 16 = 0 ∧ 48 ≤ y ∧ (y = b.1 ∨ y + 32 ≤ b.1 ∨ b.1 + b.2.1 ≤ y) := by
  obtain ⟨zy, hzy⟩ := Rep1_Nb hR hy
  have h0 := (Rep1_Aligned hR).2 y hy
  have := Nb_block hR.1 hzy hc hb
  omega

/-- `remove_from_free_list(x)` with the cells it leaves unchanged. -/
theorem remove_step_frame {s : State} {cs : List (Nat × Nat)} {B : Nat → List Blk}
    (x : Nat) (L1 L2 : List Nat) (hR : Rep1 s cs B (L1 ++ x :: L2)) :
    ∃ s', remove_from_free_list x s = .ok s' ∧ Rep1 s' cs B (L1 ++ L2) ∧ SameG s s' ∧
      (∀ a, Mapped s.mem a → Mapped s'.mem a) ∧
      (∀ a, (∀ y ∈ L1 ++ L2, a ≠ y ∧ a ≠ y + 8) → s'.mem a = s.mem a) := by
  obtain ⟨s', h1, h2, g1, g2, g3, g4, g5, g6, hm, hmp⟩ := remove_step x L1 L2 hR
  refine ⟨s', h1, h2, ⟨g1, g2, g3, g4, g5, g6⟩, hmp, ?_⟩
  intro a ha
  rw [hm]
  refine unlinkS_other _ _ _ _ ?_ ?_
  · intro h0
    rcases lastD_zero_or_mem L1 with h | h
    · exact absurd h h0
    · exact (ha _ (List.mem_append.mpr (Or.inl h))).1
  · intro h0
    rcases headD_zero_or_mem L2 with h | h
    · exact absurd h h0
    · exact (ha _ (List.mem_append.mpr (Or.inr h))).2

/-- `coalesce` when neither neighbour is free: nothing changes. -/
theorem coalesce_none {s : State} {cs : List (Nat × Nat)} {B : Nat → List Blk}
    (hS : Struct s cs B) {c : Nat × Nat} (hc : c ∈ cs) (bs1 bs2 : List Blk) (p z : Nat)
    (hB : B c.1 = bs1 ++ ([(p, z, false)] ++ bs2))
    (h1 : ¬ lastFree bs1) (h2 : ¬ headFree bs2) : coalesce p s = .ok (p, s) := by
  obtain ⟨pb, pa, ps, r1, r2, r3, r4, -⟩ := reads_prev hS hc bs1 bs2 _ hB
  obtain ⟨nb, na, ns, q1, q2, q3, q4, -⟩ := reads_next hS hc bs1 bs2 _ hB
  have r5 := reads_self hS hc bs1 bs2 _ hB
  rw [coalesce_eq s p pb pa ps nb na ns z r1 q1 r2 q2 r5 r3 q3]
  have hpa : pa ≠ 0 := fun h => h1 (r4.mp h)
  have hna : na ≠ 0 := fun h => h2 (q4.mp h)
  rw [if_neg (fun h => hpa h.1), if_neg hpa, if_neg hna]
  rfl

/-- `coalesce` when only the next block is free: it is taken out of the free list and
merged into the block. -/
theorem coalesce_next {s : State} {cs : List (Nat × Nat)} {B : Nat → List Blk}
    (p z r zr : Nat) (L1 L2 : List Nat) (hR : Rep1 s cs B (p :: (L1 ++ r :: L2)))
    {c : Nat × Nat} (hc : c ∈ cs) (bs1 bs2 : List Blk)
    (hB : B c.1 = bs1 ++ ([(p, z, false), (r, zr, false)] ++ bs2))
    (h1 : ¬ lastFree bs1) :
    ∃ s', coalesce p s = .ok (p, s') ∧
      Rep1 s' cs (Function.update B c.1 (bs1 ++ ([(p, z + zr, false)] ++ bs2)))
        (p :: (L1 ++ L2)) ∧
      SameG s s' ∧ (∀ a, Mapped s.mem a → Mapped s'.mem a) := by
  have hS := hR.1
  have hB1 : B c.1 = bs1 ++ ([(p, z, false)] ++ ((r, zr, false) :: bs2)) := by rw [hB]; rfl
  obtain ⟨pb, pa, ps, r1, r2, r3, r4, -⟩ := reads_prev hS hc bs1 _ _ hB1
  obtain ⟨q0, q1, q2, q3, r5⟩ := reads_next_cons hS hc bs1 bs2 _ _ hB
  simp only at q0 q1 q2 q3 r5
  rw [coalesce_eq s p pb pa ps r 0 zr z r1 q1 r2 (by simpa using q2) r5 r3 q3]
  have hpa : pa ≠ 0 := fun h => h1 (r4.mp h)
  rw [if_neg (fun h => hpa h.1), if_neg hpa, if_pos rfl]
  have f := Struct_block hS hc (show (r, zr, false) ∈ B c.1 by rw [hB]; simp)
  have fp := Struct_block hS hc (show (p, z, false) ∈ B c.1 by rw [hB]; simp)
  simp only at f fp
  have eH : add64 (HEADER r) 8 = r := by
    unfold HEADER
    rw [sub64_eq (by omega) (by omega), add64_eq (by omega)]
    omega
  have hnd := hR.2.2.1
  obtain ⟨s1, a1, a2, a3, a4, -⟩ := remove_step_frame r (p :: L1) L2 hR
  have hrn : r ∉ (p :: L1) ++ L2 := by
    have : ((p :: L1) ++ r :: L2).Nodup := hnd
    intro hr
    exact (List.nodup_cons.mp (List.nodup_middle.mp this)).1 hr
  obtain ⟨s2, b1, b2, b3, b4, b5, -⟩ := extend_step a2 hc bs1 bs2 (p, z, false)
    [(r, zr, false)] hB (by
      intro b hb
      simp only [List.mem_singleton] at hb
      subst hb
      exact hrn)
  have eT : sumSizes [((p, z, false) : Blk), (r, zr, false)] = z + zr := by
    simp [sumSizes]
  rw [eT] at b1 b2
  refine ⟨s2, ?_, b2, SameG_trans a3 b3, fun a ha => b5 _ (a4 _ ha)⟩
  rw [eH, a1, ok_bind, add64_eq (by omega)]
  show (extend p (z + zr) s1 >>= _) = _
  rw [b1, ok_bind]
  rfl

/-- `coalesce` when only the previous block is free: the block is taken out of the free
list and merged into the previous block. -/
theorem coalesce_prev {s : State} {cs : List (Nat × Nat)} {B : Nat → List Blk}
    (p z q zq : Nat) (fl : List Nat) (hR : Rep1 s cs B (p :: fl))
    {c : Nat × Nat} (hc : c ∈ cs) (bs1 bs2 : List Blk)
    (hB : B c.1 = bs1 ++ ([(q, zq, false), (p, z, false)] ++ bs2))
    (h2 : ¬ headFree bs2) :
    ∃ s', coalesce p s = .ok (q, s') ∧
      Rep1 s' cs (Function.update B c.1 (bs1 ++ ([(q, zq + z, false)] ++ bs2))) fl ∧
      SameG s s' ∧ (∀ a, Mapped s.mem a → Mapped s'.mem a) ∧
      s'.mem (p - 8) = s.mem (p - 8) := by
  have hS := hR.1
  have hB1 : B c.1 = (bs1 ++ [(q, zq, false)]) ++ ([(p, z, false)] ++ bs2) := by
    rw [hB]; simp
  obtain ⟨nb, na, ns, q1, q2, q3, q4, -⟩ := reads_next hS hc _ bs2 _ hB1
  obtain ⟨r0, r1, r2, r3⟩ := reads_prev_snoc hS hc bs1 bs2 _ _ hB
  have r5 := reads_self hS hc _ bs2 _ hB1
  simp only at r0 r1 r2 r3 r5
  rw [coalesce_eq s p q 0 zq nb na ns z r1 q1 (by simpa using r2) q2 r5 r3 q3]
  have hna : na ≠ 0 := fun h => h2 (q4.mp h)
  rw [if_neg (fun h => hna h.2), if_pos rfl]
  have hqb : (q, zq, false) ∈ B c.1 := by rw [hB]; simp
  have f := Struct_block hS hc hqb
  have fp := Struct_block hS hc (show (p, z, false) ∈ B c.1 by rw [hB]; simp)
  simp only at f fp
  have eH : add64 (HEADER q) 8 = q := by
    unfold HEADER
    rw [sub64_eq (by omega) (by omega), add64_eq (by omega)]
    omega
  have hnd := hR.2.2.1
  obtain ⟨s1, a1, a2, a3, a4, a5⟩ := remove_step_frame p [] fl hR
  have hpn : p ∉ fl := (List.nodup_cons.mp hnd).1
  obtain ⟨s2, b1, b2, b3, b4, b5, b6⟩ := extend_step a2 hc bs1 bs2 (q, zq, false)
    [(p, z, false)] hB (by
      intro b hb
      simp only [List.mem_singleton] at hb
      subst hb
      exact hpn)
  have eT : sumSizes [((q, zq, false) : Blk), (p, z, false)] = zq + z := by
    simp [sumSizes]
  rw [eT] at b1 b2 b6
  refine ⟨s2, ?_, b2, SameG_trans a3 b3, fun a ha => b5 _ (a4 _ ha), ?_⟩
  · rw [eH, a1, ok_bind, add64_eq (by omega)]
    have : z + zq = zq + z := by omega
    rw [this]
    show (extend q (zq + z) s1 >>= _) = _
    rw [b1, ok_bind]
    rfl
  · rw [b6 _ (by simp only; omega) (by simp only; omega)]
    refine a5 _ ?_
    intro y hy
    have := Rep1_node_block hR hc hqb (List.mem_cons_of_mem _ hy)
    simp only [List.nil_append] at hy
    simp only at this
    omega

/-- `coalesce` when both neighbours are free: the block and the next block are taken
out of the free list and merged into the previous block. -/
theorem coalesce_both {s : State} {cs : List (Nat × Nat)} {B : Nat → List Blk}
    (p z q zq r zr : Nat) (L1 L2 : List Nat) (hR : Rep1 s cs B (p :: (L1 ++ r :: L2)))
    {c : Nat × Nat} (hc : c ∈ cs) (bs1 bs2 : List Blk)
    (hB : B c.1 = bs1 ++ ([(q, zq, false), (p, z, false), (r, zr, false)] ++ bs2)) :
    ∃ s', coalesce p s = .ok (q, s') ∧
      Rep1 s' cs (Function.update B c.1 (bs1 ++ ([(q, zq + z + zr, false)] ++ bs2)))
        (L1 ++ L2) ∧
      SameG s s' ∧ (∀ a, Mapped s.mem a → Mapped s'.mem a) ∧
      s'.mem (p - 8) = s.mem (p - 8) := by
  have hS := hR.1
  have hB1 : B c.1 = bs1 ++ ([(q, zq, false), (p, z, false)] ++ ((r, zr, false) :: bs2)) := by
    rw [hB]; simp
  have hB2 : B c.1 = (bs1 ++ [(q, zq, false)]) ++ ([(p, z, false), (r, zr, false)] ++ bs2) := by
    rw [hB]; simp
  obtain ⟨r0, r1, r2, r3⟩ := reads_prev_snoc hS hc bs1 _ _ _ hB1
  obtain ⟨q0, q1, q2, q3, r5⟩ := reads_next_cons hS hc _ bs2 _ _ hB2
  simp only at r0 r1 r2 r3 q0 q1 q2 q3 r5
  rw [coalesce_eq s p q 0 zq r 0 zr z r1 q1 (by simpa using r2) (by simpa using q2) r5 r3 q3]
  rw [if_pos ⟨rfl, rfl⟩]
  have hqb : (q, zq, false) ∈ B c.1 := by rw [hB]; simp
  have f := Struct_block hS hc hqb
  have fp := Struct_block hS hc (show (p, z, false) ∈ B c.1 by rw [hB]; simp)
  have fr := Struct_block hS hc (show (r, zr, false) ∈ B c.1 by rw [hB]; simp)
  simp only at f fp fr
  have eH : add64 (HEADER q) 8 = q := by
    unfold HEADER
    rw [sub64_eq (by omega) (by omega), add64_eq (by omega)]
    omega
  have eHr : add64 (HEADER r) 8 = r := by
    unfold HEADER
    rw [sub64_eq (by omega) (by omega), add64_eq (by omega)]
    omega
  have hnd := hR.2.2.1
  obtain ⟨s1, a1, a2, a3, a4, a5⟩ := remove_step_frame p [] (L1 ++ r :: L2) hR
  simp only [List.nil_append] at a2 a5
  obtain ⟨s2, c1, c2, c3, c4, c5⟩ := remove_step_frame r L1 L2 a2
  have hpn : p ∉ L1 ++ r :: L2 := (List.nodup_cons.mp hnd).1
  have hrn : r ∉ L1 ++ L2 :=
    (List.nodup_cons.mp (List.nodup_middle.mp (List.nodup_cons.mp hnd).2)).1
  obtain ⟨s3, b1, b2, b3, b4, b5, b6⟩ := extend_step c2 hc bs1 bs2 (q, zq, false)
    [(p, z, false), (r, zr, false)] hB (by
      intro b hb
      simp only [List.mem_cons, List.mem_singleton, List.not_mem_nil, or_false] at hb
      rcases hb with hb | hb
      · subst hb
        intro hp
        refine hpn ?_
        rcases List.mem_append.mp hp with h | h
        · exact List.mem_append.mpr (Or.inl h)
        · exact List.mem_append.mpr (Or.inr (List.mem_cons_of_mem _ h))
      · subst hb
        exact hrn)
  have eT : sumSizes [((q, zq, false) : Blk), (p, z, false), (r, zr, false)] = zq + z + zr := by
    show zq + (z + (zr + 0)) = zq + z + zr
    omega
  rw [eT] at b1 b2 b6
  refine ⟨s3, ?_, b2, SameG_trans (SameG_trans a3 c3) b3,
    fun a ha => b5 _ (c4 _ (a4 _ ha)), ?_⟩
  · rw [eH, eHr, a1, ok_bind]
    show (remove_from_free_list r s1 >>= _) = _
    rw [c1, ok_bind, add64_eq (show z + zq < 18446744073709551616 by omega),
      add64_eq (show z + zq + zr < 18446744073709551616 by omega)]
    have : z + zq + zr = zq + z + zr := by omega
    rw [this]
    show (extend q (zq + z + zr) s2 >>= _) = _
    rw [b1, ok_bind]
    rfl
  · rw [b6 _ (by simp only; omega) (by simp only; omega)]
    rw [c5 _ (by
      intro y hy
      have hy' : y ∈ L1 ++ r :: L2 := by
        rcases List.mem_append.mp hy with h | h
        · exact List.mem_append.mpr (Or.inl h)
        · exact List.mem_append.mpr (Or.inr (List.mem_cons_of_mem _ h))
      have := Rep1_node_block a2 hc hqb hy'
      simp only at this
      omega)]
    refine a5 _ ?_
    intro y hy
    have := Rep1_node_block a2 hc hqb hy
    simp only at this
    omega

end Sample

namespace Sample
open Alloc

theorem remove_chunk_eq (s : State) (x prv nxt C : Nat)
    (hn : s.mem x = some nxt) (hp : s.mem (x + 8) = some prv)
    (hh : x = s.chunk_list_head ↔ prv = 0)
    (hpm : prv ≠ 0 → Mapped s.mem prv) (hnm : nxt ≠ 0 → Mapped s.mem (nxt + 8))
    (hd1 : prv ≠ x) (hd2 : prv ≠ x + 8)
    (hw1 : x + 8 < 18446744073709551616) (hw2 : nxt + 8 < 18446744073709551616) :
    remove_chunk x C s =
      .ok (mem_unmap { s with chunk_list_head := if prv = 0 then nxt else s.chunk_list_head
                              mem := unlinkS s.mem prv nxt } (sub64 x 8) C) := by
  have e1 : add64 x 8 = x + 8 := add64_eq (by omega)
  have e2 : add64 nxt 8 = nxt + 8 := add64_eq (by omega)
  unfold remove_chunk unlinkS
  by_cases hp0 : prv = 0
  · rw [if_pos (hh.mpr hp0), GET_eq _ _ _ hn]
    simp only [ok_bind, hp0, ne_eq, not_true_eq_false, if_false, if_true]
    by_cases hn0 : nxt = 0
    · simp only [hn0, ne_eq, not_true_eq_false, if_false, pure_eq_ok, ok_bind]
    · simp only [hn0, ne_eq, not_false_eq_true, if_true, e2]
      rw [PUT_eq _ _ _ (by exact hnm hn0)]
      simp only [ok_bind, pure_eq_ok]
  · rw [if_neg (fun h => hp0 (hh.mp h)), e1, GET_eq _ _ _ hp]
    simp only [ok_bind, GET_eq _ _ _ hn]
    rw [PUT_eq _ _ _ (by exact hpm hp0)]
    simp only [ok_bind]
    rw [GET_eq _ x nxt (by
      show store _ _ _ _ = _
      rw [store_other _ _ _ _ (fun h => hd1 h.symm)]; exact hn)]
    simp only [ok_bind, hp0, ne_eq, not_false_eq_true, if_true, if_false]
    by_cases hn0 : nxt = 0
    · simp only [hn0, ne_eq, not_true_eq_false, if_false, pure_eq_ok, ok_bind]
    · simp only [hn0, ne_eq, not_false_eq_true, if_true, e2]
      rw [GET_eq _ (x + 8) prv (by
        show store _ _ _ _ = _
        rw [store_other _ _ _ _ (fun h => hd2 h.symm)]; exact hp)]
      simp only [ok_bind]
      rw [PUT_eq _ _ _ (by
        with_reducible ((try dsimp only); (iterate 3 (try apply Mapped_store)); exact hnm hn0))]
      simp only [ok_bind, pure_eq_ok]

end Sample

namespace Sample
open Alloc

theorem unmapRegion_out (m : Mem) (b C a : Nat) (h : a < b ∨ b + C ≤ a) :
    unmapRegion m b C a = m a := by
  unfold unmapRegion
  rw [if_neg (by omega)]

/-- `remove_chunk` on a chunk that holds no node of the free list: the chunk leaves the
chunk list and is unmapped. -/
theorem remove_chunk_step {s : State} {B : Nat → List Blk} {fl : List Nat}
    (K1 K2 : List (Nat × Nat)) (c : Nat × Nat) (hR : Rep1 s (K1 ++ c :: K2) B fl)
    (hfl : ∀ y ∈ fl, y < c.1 ∨ c.1 + c.2 ≤ y) :
    ∃ s', remove_chunk (c.1 + 8) c.2 s = .ok s' ∧ Rep1 s' (K1 ++ K2) B fl ∧
      s'.unmaps = s.unmaps ++ [c] ∧ s'.free_list_head = s.free_list_head ∧
      s'.oracle = s.oracle ∧ s'.nmaps = s.nmaps ∧ s'.new_chunk_size = s.new_chunk_size ∧
      (∀ a, (a < c.1 ∨ c.1 + c.2 ≤ a) → Mapped s.mem a → Mapped s'.mem a) := by
  obtain ⟨hS, hfc, hnd, hbl⟩ := hR
  have hcm : c ∈ K1 ++ c :: K2 := by simp
  have hK : ∀ d ∈ K1 ++ K2, d ∈ K1 ++ c :: K2 := by
    intro d hd
    rcases List.mem_append.mp hd with h | h
    · exact List.mem_append.mpr (Or.inl h)
    · exact List.mem_append.mpr (Or.inr (List.mem_cons_of_mem _ h))
  have hndn := Struct_nodup hS
  have hmap : (K1 ++ c :: K2).map (fun c => c.1 + 8) =
      K1.map (fun c => c.1 + 8) ++ (c.1 + 8) :: K2.map (fun c => c.1 + 8) := by
    rw [List.map_append, List.map_cons]
  have hmap2 : (K1 ++ K2).map (fun c => c.1 + 8) =
      K1.map (fun c => c.1 + 8) ++ K2.map (fun c => c.1 + 8) := List.map_append _ _ _
  rw [hmap] at hndn
  have hcl := hS.1
  rw [hmap, Chain_iff_Seg] at hcl
  obtain ⟨hhd, hseg⟩ := hcl
  generalize hL1 : K1.map (fun c => c.1 + 8) = L1 at *
  generalize hL2 : K2.map (fun c => c.1 + 8) = L2 at *
  have gc := Struct_chunk hS hcm
  -- the other chunks lie apart from `c`
  have hapart : ∀ d ∈ K1 ++ K2, d.1 + d.2 ≤ c.1 ∨ c.1 + c.2 ≤ d.1 := by
    intro d hd
    have hp := hS.2.2.1
    rw [List.pairwise_append, List.pairwise_cons] at hp
    rcases List.mem_append.mp hd with h | h
    · exact hp.2.2 d h c (List.mem_cons_self _ _)
    · exact (hp.2.1.1 d h).symm
  have hL1m : ∀ y ∈ L1, ∃ d ∈ K1, y = d.1 + 8 := by
    intro y hy
    rw [← hL1] at hy
    obtain ⟨d, hd, e⟩ := List.mem_map.mp hy
    exact ⟨d, hd, e.symm⟩
  have hL2m : ∀ y ∈ L2, ∃ d ∈ K2, y = d.1 + 8 := by
    intro y hy
    rw [← hL2] at hy
    obtain ⟨d, hd, e⟩ := List.mem_map.mp hy
    exact ⟨d, hd, e.symm⟩
  have hnode : ∀ y ∈ L1 ++ L2, ∃ d ∈ K1 ++ K2, y = d.1 + 8 := by
    intro y hy
    rcases List.mem_append.mp hy with h | h
    · obtain ⟨d, hd, e⟩ := hL1m y h
      exact ⟨d, List.mem_append.mpr (Or.inl hd), e⟩
    · obtain ⟨d, hd, e⟩ := hL2m y h
      exact ⟨d, List.mem_append.mpr (Or.inr hd), e⟩
  obtain ⟨hx0, hxp, hxn⟩ := Seg_split _ _ _ _ _ _ _ _ hseg
  rw [Nat.add_zero] at hxn
  generalize hprv : lastD L1 0 = prv at *
  generalize hnxt : L2.headD 0 = nxt at *
  have hP : prv ≠ 0 → prv ∈ L1 := by
    intro h
    rcases lastD_zero_or_mem L1 with h1 | h1
    · rw [hprv] at h1; exact absurd h1 h
    · rw [hprv] at h1; exact h1
  have hN : nxt ≠ 0 → nxt ∈ L2 := by
    intro h
    rcases headD_zero_or_mem L2 with h1 | h1
    · rw [hnxt] at h1; exact absurd h1 h
    · rw [hnxt] at h1; exact h1
  have hPc : prv ≠ 0 → ∃ d ∈ K1 ++ K2, prv = d.1 + 8 :=
    fun h => hnode _ (List.mem_append.mpr (Or.inl (hP h)))
  have hNc : nxt ≠ 0 → ∃ d ∈ K1 ++ K2, nxt = d.1 + 8 :=
    fun h => hnode _ (List.mem_append.mpr (Or.inr (hN h)))
  have hchunk : ∀ d ∈ K1 ++ K2, d.1 % 16 = 0 ∧ 16 ≤ d.1 ∧ d.1 + d.2 < 18446744073709551616 ∧
      48 ≤ d.2 ∧ (d.1 + d.2 ≤ c.1 ∨ c.1 + c.2 ≤ d.1) := by
    intro d hd
    have g := Struct_chunk hS (hK d hd)
    exact ⟨g.1, g.2.1, g.2.2.1, g.2.2.2.2.1, hapart d hd⟩
  have hP0 : L1 ≠ [] → prv ≠ 0 := by
    intro hne
    have := lastD_mem L1 0 hne
    rw [hprv] at this
    obtain ⟨d, hd, e⟩ := hL1m _ this
    omega
  have hN0 : L2 ≠ [] → nxt ≠ 0 := by
    intro hne
    rcases headD_mem_or L2 0 with ⟨-, h⟩ | h
    · exact absurd h hne
    · rw [hnxt] at h
      obtain ⟨d, hd, e⟩ := hL2m _ h
      omega
  have hh : c.1 + 8 = s.chunk_list_head ↔ prv = 0 := by
    rw [hhd]
    cases L1 with
    | nil =>
      simp only [lastD] at hprv
      simp [← hprv]
    | cons a as =>
      have h1 : prv ≠ 0 := hP0 (by simp)
      have h2 : a ≠ c.1 + 8 := by
        intro e
        exact (List.nodup_append.mp hndn).2.2 (List.mem_cons_self a as) (by rw [e]; simp)
      simp only [List.cons_append, List.headD_cons, h1, iff_false]
      exact fun e => h2 e.symm
  have hhead : (if prv = 0 then nxt else s.chunk_list_head) = (L1 ++ L2).headD 0 := by
    cases L1 with
    | nil =>
      simp only [lastD] at hprv
      simp only [← hprv, if_true, List.nil_append, hnxt]
    | cons a as =>
      have : prv ≠ 0 := hP0 (by simp)
      simp only [this, if_false, hhd, List.cons_append, List.headD_cons]
  have hE := remove_chunk_eq s (c.1 + 8) prv nxt c.2 hxn hxp hh
    (by
      intro h
      obtain ⟨d, hd, e⟩ := hPc h
      have g := Struct_chunk hS (hK d hd)
      rw [e]
      exact g.2.2.2.2.2.2.2.2 _ (by omega) (by omega) (by omega))
    (by
      intro h
      obtain ⟨d, hd, e⟩ := hNc h
      have g := Struct_chunk hS (hK d hd)
      rw [e]
      exact g.2.2.2.2.2.2.2.2 _ (by omega) (by omega) (by omega))
    (by
      by_cases h : prv = 0
      · omega
      · obtain ⟨d, hd, e⟩ := hPc h
        have := hchunk d hd
        omega)
    (by
      by_cases h : prv = 0
      · omega
      · obtain ⟨d, hd, e⟩ := hPc h
        have := hchunk d hd
        omega)
    (by omega)
    (by
      by_cases h : nxt = 0
      · omega
      · obtain ⟨d, hd, e⟩ := hNc h
        have := hchunk d hd
        omega)
  have e8 : sub64 (c.1 + 8) 8 = c.1 := by
    rw [sub64_eq (by omega) (by omega)]; omega
  rw [e8, hhead] at hE
  -- the cells of the other chunks that keep their value
  have key : ∀ d ∈ K1 ++ K2, ∀ a, d.1 + 24 ≤ a → a < d.1 + d.2 →
      unmapRegion (unlinkS s.mem prv nxt) c.1 c.2 a = s.mem a := by
    intro d hd a h1 h2
    have g := hchunk d hd
    rw [unmapRegion_out _ _ _ _ (by omega)]
    refine unlinkS_other _ _ _ _ ?_ ?_
    · intro h
      obtain ⟨d', hd', e⟩ := hPc h
      have g' := hchunk d' hd'
      rcases Struct_chunks_apart hS (hK d hd) (hK d' hd') with h3 | h3 | h3
      · subst h3; omega
      · omega
      · omega
    · intro h
      obtain ⟨d', hd', e⟩ := hNc h
      have g' := hchunk d' hd'
      rcases Struct_chunks_apart hS (hK d hd) (hK d' hd') with h3 | h3 | h3
      · subst h3; omega
      · omega
      · omega
  have hmp : ∀ a, (a < c.1 ∨ c.1 + c.2 ≤ a) → Mapped s.mem a →
      Mapped (unmapRegion (unlinkS s.mem prv nxt) c.1 c.2) a := by
    intro a ha hm
    unfold Mapped
    rw [unmapRegion_out _ _ _ _ ha]
    exact Mapped_unlinkS _ _ _ _ hm
  have hcerase : (K1 ++ c :: K2).erase c = K1 ++ K2 := by
    have hcn : c ∉ K1 := by
      intro h
      have := hapart c (List.mem_append.mpr (Or.inl h))
      omega
    rw [List.erase_append_right _ hcn, List.erase_cons_head]
  refine ⟨_, hE, ⟨⟨?_, ?_, ?_, ?_⟩, ?_, hnd, ?_⟩, rfl, rfl, rfl, rfl, rfl, hmp⟩
  · -- chunk list
    show Chain (unmapRegion (unlinkS s.mem prv nxt) c.1 c.2) 0 8 0 ((L1 ++ L2).headD 0)
      ((K1 ++ K2).map (fun c => c.1 + 8))
    rw [hmap2, Chain_iff_Seg]
    refine ⟨rfl, ?_⟩
    refine Seg_erase s.mem _ 0 8 L1 L2 (c.1 + 8) 0 0 hseg hndn ?_ ?_ ?_ ?_
    · intro y hy hne
      obtain ⟨d, hd, e⟩ := hnode y hy
      have g := hchunk d hd
      rw [hprv] at hne
      rw [Nat.add_zero, unmapRegion_out _ _ _ _ (by omega)]
      refine unlinkS_other _ _ _ _ (fun _ => hne) ?_
      intro h
      obtain ⟨d', hd', e'⟩ := hNc h
      have g' := hchunk d' hd'
      omega
    · intro hne
      have hp0 := hP0 hne
      obtain ⟨d, hd, e⟩ := hPc hp0
      have g := hchunk d hd
      rw [hprv, hnxt, Nat.add_zero, unmapRegion_out _ _ _ _ (by omega)]
      refine unlinkS_prev _ _ _ hp0 ?_
      by_cases h : nxt = 0
      · omega
      · obtain ⟨d', hd', e'⟩ := hNc h
        have g' := hchunk d' hd'
        omega
    · intro y hy hne
      obtain ⟨d, hd, e⟩ := hnode y hy
      have g := hchunk d hd
      rw [hnxt] at hne
      rw [unmapRegion_out _ _ _ _ (by omega)]
      refine unlinkS_other _ _ _ _ ?_ (fun _ => by omega)
      intro h
      obtain ⟨d', hd', e'⟩ := hPc h
      have g' := hchunk d' hd'
      omega
    · intro hne
      have hn0 := hN0 hne
      obtain ⟨d, hd, e⟩ := hNc hn0
      have g := hchunk d hd
      rw [hnxt, hprv, unmapRegion_out _ _ _ _ (by omega)]
      exact unlinkS_next _ _ _ hn0
  · -- the chunks
    intro d hd
    obtain ⟨⟨g1, g2, g3, g4, g5, g6, g7⟩, g8⟩ := hS.2.1 d (hK d hd)
    have g := hchunk d hd
    have he := Tiles_end _ _ _ _ g6
    refine ⟨⟨g1, g2, g3, ?_, ?_, ?_, ?_⟩, ?_⟩
    · show unmapRegion (unlinkS s.mem prv nxt) c.1 c.2 (d.1 + 24) = some 17
      rw [key d hd _ (by omega) (by omega)]; exact g4
    · show unmapRegion (unlinkS s.mem prv nxt) c.1 c.2 (d.1 + 32) = some 16
      rw [key d hd _ (by omega) (by omega)]; exact g5
    · refine Tiles_frame _ _ _ _ _ g6 ?_
      intro b hb
      have f := Struct_block hS (hK d hd) hb
      exact ⟨key d hd _ (by omega) (by omega), key d hd _ (by omega) (by omega)⟩
    · show unmapRegion (unlinkS s.mem prv nxt) c.1 c.2 (d.1 + d.2 - 8) = some 1
      rw [key d hd _ (by omega) (by omega)]; exact g7
    · intro k hk
      exact hmp _ (by omega) (g8 k hk)
  · have hp := hS.2.2.1
    rw [List.pairwise_append, List.pairwise_cons] at hp
    rw [List.pairwise_append]
    exact ⟨hp.1, hp.2.1.2, fun a ha b hb => hp.2.2 a ha b (List.mem_cons_of_mem _ hb)⟩
  · show s.regions.erase (c.1, c.2) = K1 ++ K2
    rw [hS.2.2.2]
    exact hcerase
  · -- free list
    refine Chain_frame _ _ _ _ _ _ _ hfc ?_
    intro y hy
    obtain ⟨d, hd, b, hb, e⟩ := hbl y hy
    have f := Struct_block hS hd hb
    have hy' := hfl y hy
    have hdK : d ∈ K1 ++ K2 := by
      rcases List.mem_append.mp hd with h | h
      · exact List.mem_append.mpr (Or.inl h)
      · rcases List.mem_cons.mp h with h | h
        · subst h; omega
        · exact List.mem_append.mpr (Or.inr h)
    rw [Nat.add_zero]
    exact ⟨key d hdK _ (by omega) (by omega), key d hdK _ (by omega) (by omega)⟩
  · intro y hy
    obtain ⟨d, hd, b, hb, e⟩ := hbl y hy
    have f := Struct_block hS hd hb
    have hy' := hfl y hy
    have hdK : d ∈ K1 ++ K2 := by
      rcases List.mem_append.mp hd with h | h
      · exact List.mem_append.mpr (Or.inl h)
      · rcases List.mem_cons.mp h with h | h
        · subst h; omega
        · exact List.mem_append.mpr (Or.inr h)
    exact ⟨d, hdK, b, hb, e⟩

end Sample

namespace Sample
open Alloc

/-- Last part of `mm_free`, for a free block `q` that is the only block of its chunk:
the block leaves the free list and the chunk is unmapped. -/
theorem release_step {s : State} {B : Nat → List Blk}
    (K1 K2 : List (Nat × Nat)) (c : Nat × Nat) (q T : Nat) (L1 L2 : List Nat) (fuel : Nat)
    (hR : Rep1 s (K1 ++ c :: K2) B (L1 ++ q :: L2)) (hB : B c.1 = [(q, T, false)])
    (hfuel : 0 < fuel) :
    is_in_free_chunk fuel q s = .ok c.2 ∧ c.2 ≠ 0 ∧
    ∃ s1 s2, remove_from_free_list q s = .ok s1 ∧
      get_chunk_header fuel q s1 = .ok (c.1 + 8) ∧
      remove_chunk (c.1 + 8) c.2 s1 = .ok s2 ∧
      Rep1 s2 (K1 ++ K2) B (L1 ++ L2) ∧
      s2.unmaps = s.unmaps ++ [c] ∧ s2.oracle = s.oracle ∧ s2.nmaps = s.nmaps ∧
      s2.new_chunk_size = s.new_chunk_size := by
  have hcm : c ∈ K1 ++ c :: K2 := by simp
  have hS := hR.1
  have hck := (hS.2.1 c hcm).1
  have gc := Struct_chunk hS hcm
  have hB' : B c.1 = [] ++ (q, T, false) :: [] := by rw [hB]; rfl
  rw [hB'] at hck
  have h1 := is_in_free_chunk_spec s c.1 c.2 [] [] q T fuel hck ⟨hfuel, hfuel⟩
  rw [if_pos ⟨by simp, by simp⟩] at h1
  refine ⟨h1, by omega, ?_⟩
  obtain ⟨s1, a1, a2, a3, a4, -⟩ := remove_step_frame q L1 L2 hR
  have hck1 := (a2.1.2.1 c hcm).1
  rw [hB] at hck1
  have ht := hck1.2.2.2.2.2.1
  rw [Tiles_cons] at ht
  have hq : q = c.1 + 48 := ht.1
  have g1 : get_chunk_header fuel q s1 = .ok (c.1 + 8) :=
    get_chunk_header_walk s1 c.1 hck1.2.2.2.2.1 [] q fuel (by rw [Tiles_nil]; exact hq.symm)
      (by omega) hfuel
  have hnd := hR.2.2.1
  have hqn : q ∉ L1 ++ L2 := (List.nodup_cons.mp (List.nodup_middle.mp hnd)).1
  obtain ⟨s2, b1, b2, b3, b4, b5, b6, b7, -⟩ := remove_chunk_step K1 K2 c a2 (by
    intro y hy
    obtain ⟨d, hd, b, hb, e⟩ := a2.2.2.2 y hy
    have f := Struct_block a2.1 hd hb
    by_cases hdc : d = c
    · subst hdc
      rw [hB, List.mem_singleton] at hb
      subst hb
      simp only at e
      rw [← e] at hy
      exact absurd hy hqn
    · rcases Struct_chunks_apart a2.1 hd hcm with h | h | h
      · exact absurd h hdc
      · omega
      · omega)
  exact ⟨s1, s2, a1, g1, b1, b2, by rw [b3, a3.2.2.2.2.2], by rw [b5, a3.2.2.2.1],
    by rw [b6, a3.2.2.2.2.1], by rw [b7, a3.2.2.1]⟩

/-- `is_in_free_chunk` answers 0 when the chunk holds an allocated block. -/
theorem not_all_free {s : State} {cs : List (Nat × Nat)} {B : Nat → List Blk}
    (hS : Struct s cs B) {c : Nat × Nat} (hc : c ∈ cs) (bs1 bs2 : List Blk) (q T fuel : Nat)
    (hB : B c.1 = bs1 ++ ([(q, T, false)] ++ bs2))
    (hfuel : (B c.1).length < fuel) (b : Blk) (hb : b ∈ B c.1) (ha : b.2.2 = true) :
    is_in_free_chunk fuel q s = .ok 0 := by
  have hck := (hS.2.1 c hc).1
  have hB' : B c.1 = bs1 ++ (q, T, false) :: bs2 := by rw [hB]; rfl
  rw [hB'] at hck hfuel hb
  simp only [List.length_append, List.length_cons] at hfuel
  rw [is_in_free_chunk_spec s c.1 c.2 bs1 bs2 q T fuel hck ⟨by omega, by omega⟩]
  rw [if_neg]
  rintro ⟨h1, h2⟩
  rcases List.mem_append.mp hb with h | h
  · rw [h1 b h] at ha; cases ha
  · rcases List.mem_cons.mp h with h | h
    · rw [h] at ha; cases ha
    · rw [h2 b h] at ha; cases ha

theorem mm_free_eq (fuel p z q : Nat) (s s1 s2 s3 : State)
    (h1 : GET_ALLOC s (HEADER p) = .ok 1) (h2 : GET_SIZE s (HEADER p) = .ok z)
    (h3 : PUT s (HEADER p) z = .ok s1) (h4 : add_to_free_list p s1 = .ok s2)
    (h5 : coalesce p s2 = .ok (q, s3)) :
    mm_free fuel p s =
      (is_in_free_chunk fuel q s3 >>= fun chunk_size =>
        if chunk_size ≠ 0 then
          (remove_from_free_list q s3 >>= fun s4 =>
            get_chunk_header fuel q s4 >>= fun h => remove_chunk h chunk_size s4)
        else pure s3) := by
  unfold mm_free
  simp only [h1, h2, h3, h4, h5, ok_bind]
  rfl

end Sample

namespace Sample
open Alloc

theorem lastFree_shape (l : List Blk) (h : lastFree l) :
    ∃ l' q zq, l = l' ++ [(q, zq, false)] := by
  obtain ⟨b, hb, hf⟩ := h
  rcases List.eq_nil_or_concat l with h | ⟨l', b0, h⟩
  · subst h; simp at hb
  · rw [List.concat_eq_append] at h
    subst h
    rw [List.getLast?_append_of_ne_nil _ (by simp)] at hb
    simp only [List.getLast?_singleton, Option.some.injEq] at hb
    subst hb
    obtain ⟨q, zq, a⟩ := b0
    simp only at hf
    subst hf
    exact ⟨l', q, zq, rfl⟩

theorem headFree_shape (l : List Blk) (h : headFree l) :
    ∃ r zr l', l = (r, zr, false) :: l' := by
  obtain ⟨b, hb, hf⟩ := h
  cases l with
  | nil => simp at hb
  | cons b0 l' =>
    simp only [List.head?_cons, Option.some.injEq] at hb
    subst hb
    obtain ⟨q, zq, a⟩ := b0
    simp only at hf
    subst hf
    exact ⟨q, zq, l', rfl⟩

theorem ex_single (q T x : Nat) :
    (∃ b ∈ [((q, T, false) : Blk)], b.1 = x ∧ b.2.2 = false) ↔ q = x := by
  constructor
  · rintro ⟨b, hb, e, -⟩
    rw [List.mem_singleton] at hb
    subst hb
    exact e
  · intro e
    exact ⟨_, List.mem_singleton.mpr rfl, e, rfl⟩

theorem all_one (b1 : Blk) (x : Nat) : (∀ b ∈ [b1], b.1 ≠ x) ↔ b1.1 ≠ x := by
  constructor
  · intro h; exact h b1 (by simp)
  · intro h b hb
    rw [List.mem_singleton] at hb
    subst hb
    exact h

theorem all_two (b1 b2 : Blk) (x : Nat) :
    (∀ b ∈ [b1, b2], b.1 ≠ x) ↔ b1.1 ≠ x ∧ b2.1 ≠ x := by
  constructor
  · intro h; exact ⟨h b1 (by simp), h b2 (by simp)⟩
  · intro h b hb
    simp only [List.mem_cons, List.mem_singleton, List.not_mem_nil, or_false] at hb
    rcases hb with hb | hb
    · subst hb; exact h.1
    · subst hb; exact h.2

theorem all_three (b1 b2 b3 : Blk) (x : Nat) :
    (∀ b ∈ [b1, b2, b3], b.1 ≠ x) ↔ b1.1 ≠ x ∧ b2.1 ≠ x ∧ b3.1 ≠ x := by
  constructor
  · intro h; exact ⟨h b1 (by simp), h b2 (by simp), h b3 (by simp)⟩
  · intro h b hb
    simp only [List.mem_cons, List.mem_singleton, List.not_mem_nil, or_false] at hb
    rcases hb with hb | hb | hb
    · subst hb; exact h.1
    · subst hb; exact h.2.1
    · subst hb; exact h.2.2

theorem fl_iff_none (p z T : Nat) (fl : List Nat) (hp : p ∉ fl) (x : Nat) :
    x ∈ p :: fl ↔ (x ∈ fl ∧ ∀ b ∈ [((p, z, true) : Blk)], b.1 ≠ x) ∨
      ∃ b ∈ [((p, T, false) : Blk)], b.1 = x ∧ b.2.2 = false := by
  rw [ex_single, all_one, List.mem_cons]
  show x = p ∨ x ∈ fl ↔ (x ∈ fl ∧ p ≠ x) ∨ p = x
  constructor
  · rintro (h | h)
    · exact Or.inr h.symm
    · exact Or.inl ⟨h, fun e => hp (e ▸ h)⟩
  · rintro (⟨h, -⟩ | h)
    · exact Or.inr h
    · exact Or.inl h.symm

theorem fl_iff_next (p z r zr T : Nat) (L1 L2 : List Nat) (hp : p ∉ L1 ++ r :: L2)
    (hnd : (L1 ++ r :: L2).Nodup) (x : Nat) :
    x ∈ p :: (L1 ++ L2) ↔
      (x ∈ L1 ++ r :: L2 ∧ ∀ b ∈ [((p, z, true) : Blk), (r, zr, false)], b.1 ≠ x) ∨
      ∃ b ∈ [((p, T, false) : Blk)], b.1 = x ∧ b.2.2 = false := by
  have hr : r ∉ L1 ++ L2 := (List.nodup_cons.mp (List.nodup_middle.mp hnd)).1
  rw [ex_single, all_two, List.mem_cons]
  show x = p ∨ x ∈ L1 ++ L2 ↔ (x ∈ L1 ++ r :: L2 ∧ p ≠ x ∧ r ≠ x) ∨ p = x
  simp only [List.mem_append, List.mem_cons] at hp hr ⊢
  constructor
  · rintro (h | h | h)
    · exact Or.inr h.symm
    · refine Or.inl ⟨Or.inl h, fun e => hp (Or.inl (e ▸ h)), fun e => hr (Or.inl (e ▸ h))⟩
    · refine Or.inl ⟨Or.inr (Or.inr h), fun e => hp (Or.inr (Or.inr (e ▸ h))),
        fun e => hr (Or.inr (e ▸ h))⟩
  · rintro (⟨h, -, h2⟩ | h)
    · rcases h with h | h | h
      · exact Or.inr (Or.inl h)
      · exact absurd h.symm h2
      · exact Or.inr (Or.inr h)
    · exact Or.inl h.symm

theorem fl_iff_prev (p z q zq T : Nat) (fl : List Nat) (hp : p ∉ fl) (hq : q ∈ fl) (x : Nat) :
    x ∈ fl ↔
      (x ∈ fl ∧ ∀ b ∈ [((q, zq, false) : Blk), (p, z, true)], b.1 ≠ x) ∨
      ∃ b ∈ [((q, T, false) : Blk)], b.1 = x ∧ b.2.2 = false := by
  rw [ex_single, all_two]
  show x ∈ fl ↔ (x ∈ fl ∧ q ≠ x ∧ p ≠ x) ∨ q = x
  constructor
  · intro h
    by_cases e : q = x
    · exact Or.inr e
    · exact Or.inl ⟨h, e, fun e' => hp (e' ▸ h)⟩
  · rintro (⟨h, -⟩ | h)
    · exact h
    · exact h ▸ hq

theorem fl_iff_both (p z q zq r zr T : Nat) (L1 L2 : List Nat) (hp : p ∉ L1 ++ r :: L2)
    (hq : q ∈ L1 ++ r :: L2) (hqr : q ≠ r) (hnd : (L1 ++ r :: L2).Nodup) (x : Nat) :
    x ∈ L1 ++ L2 ↔
      (x ∈ L1 ++ r :: L2 ∧
        ∀ b ∈ [((q, zq, false) : Blk), (p, z, true), (r, zr, false)], b.1 ≠ x) ∨
      ∃ b ∈ [((q, T, false) : Blk)], b.1 = x ∧ b.2.2 = false := by
  have hr : r ∉ L1 ++ L2 := (List.nodup_cons.mp (List.nodup_middle.mp hnd)).1
  rw [ex_single, all_three]
  show x ∈ L1 ++ L2 ↔ (x ∈ L1 ++ r :: L2 ∧ q ≠ x ∧ p ≠ x ∧ r ≠ x) ∨ q = x
  simp only [List.mem_append, List.mem_cons] at hp hr hq ⊢
  have hq' : q ∈ L1 ∨ q ∈ L2 := by
    rcases hq with h | h | h
    · exact Or.inl h
    · exact absurd h hqr
    · exact Or.inr h
  constructor
  · intro h
    by_cases e : q = x
    · exact Or.inr e
    · refine Or.inl ⟨?_, e, ?_, ?_⟩
      · rcases h with h | h
        · exact Or.inl h
        · exact Or.inr (Or.inr h)
      · intro e'
        subst e'
        rcases h with h | h
        · exact hp (Or.inl h)
        · exact hp (Or.inr (Or.inr h))
      · intro e'
        subst e'
        exact hr h
  · rintro (⟨h, -, -, h2⟩ | h)
    · rcases h with h | h | h
      · exact Or.inl h
      · exact absurd h.symm h2
      · exact Or.inr h
    · exact h ▸ hq'

end Sample

namespace Sample
open Alloc

/-- The allocated blocks after the run `mid`, whose only allocated block is `p`, has
been merged into one free block. -/
theorem Live_merge {s : State} {cs : List (Nat × Nat)} {B : Nat → List Blk}
    (hS : Struct s cs B) {c : Nat × Nat} (hc : c ∈ cs)
    (bsA mid bsB : List Blk) (hB : B c.1 = bsA ++ (mid ++ bsB)) (q T p z : Nat)
    (hmid : ∀ b ∈ mid, b = (p, z, true) ∨ b.2.2 = false) (hpm : (p, z, true) ∈ mid)
    (x zx : Nat) :
    Live cs (Function.update B c.1 (bsA ++ ([(q, T, false)] ++ bsB))) x zx ↔
      Live cs B x zx ∧ x ≠ p := by
  have hpb : (p, z, true) ∈ B c.1 := by rw [hB]; simp [hpm]
  rw [Live_rewrite hS hc bsA mid [(q, T, false)] bsB hB]
  constructor
  · rintro (⟨hl, hn⟩ | h)
    · refine ⟨hl, ?_⟩
      rintro rfl
      obtain ⟨d, hd, hb⟩ := hl
      have := (Struct_block_chunk hS hd hc hb hpb rfl).2
      rw [this] at hn
      exact hn hpm
    · rw [List.mem_singleton] at h
      simp at h
  · rintro ⟨hl, hne⟩
    refine Or.inl ⟨hl, ?_⟩
    intro hm
    rcases hmid _ hm with h | h
    · simp only [Prod.mk.injEq] at h
      exact hne h.1
    · simp at h

/-- `mm_free` up to the end of `coalesce`, on an allocated block: the block, merged
with its free neighbours, is a free block of the heap and the invariant holds. -/
theorem free_merge_Rep {s : State} {cs : List (Nat × Nat)} {B : Nat → List Blk}
    {fl : List Nat} (hR : Rep s cs B fl) (p z : Nat) {c : Nat × Nat} (hc : c ∈ cs)
    (bs1 bs2 : List Blk) (hB : B c.1 = bs1 ++ ([(p, z, true)] ++ bs2)) :
    GET_ALLOC s (HEADER p) = .ok 1 ∧ GET_SIZE s (HEADER p) = .ok z ∧
    ∃ s1 s2 s3 q T bsA bsB fl3,
      PUT s (HEADER p) z = .ok s1 ∧ add_to_free_list p s1 = .ok s2 ∧
      coalesce p s2 = .ok (q, s3) ∧
      Rep s3 cs (Function.update B c.1 (bsA ++ ([(q, T, false)] ++ bsB))) fl3 ∧
      q ∈ fl3 ∧
      (∀ x zx, Live cs (Function.update B c.1 (bsA ++ ([(q, T, false)] ++ bsB))) x zx ↔
        Live cs B x zx ∧ x ≠ p) ∧
      SameG s s3 ∧ (∀ a, Mapped s.mem a → Mapped s3.mem a) ∧
      (∃ v, s3.mem (p - 8) = some v ∧ allocBit v = 0) ∧
      bsA.length + bsB.length ≤ bs1.length + bs2.length ∧
      (¬ lastFree bs1 → ¬ headFree bs2 →
        q = p ∧ T = z ∧ bsA = bs1 ∧ bsB = bs2 ∧ s3.free_list_head = p) := by
  obtain ⟨h0, hna, hk⟩ := hR
  have hR1 := h0.1
  have hS := hR1.1
  have hpb : (p, z, true) ∈ B c.1 := by rw [hB]; simp
  have fp := Struct_block hS hc hpb
  simp only at fp
  have hpn : p ∉ fl := by
    intro hp
    obtain ⟨d, hd, b, hb, e, hf⟩ := h0.2.1 p hp
    have := (Struct_block_chunk hS hd hc hb hpb e).2
    rw [this] at hf
    cases hf
  obtain ⟨m1, m2, s1, s2, m3, m4, hR2, hg2, hmp2, hm2⟩ :=
    mark_free_step p z hR1 hc bs1 bs2 hB hpn
  refine ⟨m1, m2, ?_⟩
  have hB1 : Function.update B c.1 (bs1 ++ ([(p, z, false)] ++ bs2)) c.1 =
      bs1 ++ ([(p, z, false)] ++ bs2) := Function.update_same _ _ _
  have hNA := hna c hc
  rw [hB] at hNA
  have hz0 : allocBit z = 0 := by unfold allocBit; omega
  have hk3 : ∀ s3 : State, SameG s s3 → 1 ≤ s3.new_chunk_size := by
    intro s3 h; rw [h.2.2.1]; exact hk
  by_cases hl : lastFree bs1
  · obtain ⟨bs1', q, zq, hbs1⟩ := lastFree_shape bs1 hl
    subst hbs1
    have hqb : (q, zq, false) ∈ B c.1 := by rw [hB]; simp
    have fq := Struct_block hS hc hqb
    simp only at fq
    have hqfl : q ∈ fl := h0.2.2 c hc _ hqb rfl
    have hqp : q + zq = p := by
      have hB' : B c.1 = bs1' ++ ([(q, zq, false), (p, z, true)] ++ bs2) := by rw [hB]; simp
      exact (reads_prev_snoc hS hc bs1' bs2 _ _ hB').1
    -- the header of `p` keeps the value written by `mm_free`
    have hp8 : s2.mem (p - 8) = some z := by
      rw [hm2, addS_other _ _ _ _ (by omega) (by omega) (by
        intro h
        rcases headD_zero_or_mem fl with h' | h'
        · exact absurd h' h
        · have := Rep1_node_block hR1 hc hqb h'
          simp only at this
          omega), store_same]
    have hNAq : NoAdjFree (bs1' ++ ([(q, zq, false)] ++ ((p, z, true) :: bs2))) := by
      have e : bs1' ++ [(q, zq, false)] ++ ([(p, z, true)] ++ bs2) =
          bs1' ++ ([(q, zq, false)] ++ ((p, z, true) :: bs2)) := by simp
      rw [← e]; exact hNA
    have hl' : ¬ lastFree bs1' := (NoAdjFree_around _ _ _ rfl hNAq).1
    by_cases hr : headFree bs2
    · -- both neighbours are free
      obtain ⟨r, zr, bs2', hbs2⟩ := headFree_shape bs2 hr
      subst hbs2
      have hrb : (r, zr, false) ∈ B c.1 := by rw [hB]; simp
      have fr := Struct_block hS hc hrb
      simp only at fr
      have hrfl : r ∈ fl := h0.2.2 c hc _ hrb rfl
      obtain ⟨L1, L2, hfl⟩ := List.append_of_mem hrfl
      subst hfl
      have hBm : B c.1 = bs1' ++ ([(q, zq, false), (p, z, true), (r, zr, false)] ++ bs2') := by
        rw [hB]; simp
      have hB1' : Function.update B c.1 (bs1' ++ [(q, zq, false)] ++
          ([(p, z, false)] ++ (r, zr, false) :: bs2')) c.1 =
          bs1' ++ ([(q, zq, false), (p, z, false), (r, zr, false)] ++ bs2') := by
        rw [Function.update_same]; simp
      obtain ⟨s3, c1, c2, c3, c4, c5⟩ := coalesce_both p z q zq r zr L1 L2 hR2 hc bs1' bs2' hB1'
      rw [Function.update_idem] at c2
      have hr' : ¬ headFree bs2' := by
        have e : bs1' ++ [(q, zq, false)] ++ ([(p, z, true)] ++ (r, zr, false) :: bs2') =
            (bs1' ++ [(q, zq, false), (p, z, true)]) ++ ([(r, zr, false)] ++ bs2') := by simp
        rw [e] at hNA
        exact (NoAdjFree_around _ _ _ rfl hNA).2
      have hNA2 : NoAdjFree (bs1' ++
          ([(q, zq, false), (p, z, true), (r, zr, false)] ++ bs2')) := by
        rw [← hBm]; exact hna c hc
      have hpr : p + z = r := by
        have hB' : B c.1 = (bs1' ++ [(q, zq, false)]) ++
            ([(p, z, true), (r, zr, false)] ++ bs2') := by rw [hB]; simp
        exact (reads_next_cons hS hc _ bs2' _ _ hB').1
      have hqr : q ≠ r := by omega
      have hmemq : q ∈ L1 ++ L2 := by
        rcases List.mem_append.mp hqfl with h | h
        · exact List.mem_append.mpr (Or.inl h)
        · rcases List.mem_cons.mp h with h | h
          · exact absurd h hqr
          · exact List.mem_append.mpr (Or.inr h)
      refine ⟨s1, s2, s3, q, zq + z + zr, bs1', bs2', L1 ++ L2, m3, m4, c1, ⟨?_, ?_, ?_⟩, hmemq, ?_,
        SameG_trans hg2 c3, fun a ha => c4 _ (hmp2 _ ha), ⟨z, by rw [c5]; exact hp8, hz0⟩, ?_, ?_⟩
      · exact Rep0_rewrite h0 hc bs1' _ _ bs2' hBm c2
          (fl_iff_both p z q zq r zr _ L1 L2 hpn hqfl hqr h0.1.2.2.1)
      · exact NoAdj_update hna _ _ (NoAdjFree_rewrite _ _ _ _ hNA2 (NoAdjFree_single _)
          (by simp) (fun h => hl' h.1) (fun h => hr' h.2))
      · exact hk3 _ (SameG_trans hg2 c3)
      · intro x zx
        refine Live_merge hS hc bs1' _ bs2' hBm _ _ p z ?_ (by simp) x zx
        intro b hb
        simp only [List.mem_cons, List.mem_singleton, List.not_mem_nil, or_false] at hb
        rcases hb with h | h | h
        · subst h; exact Or.inr rfl
        · exact Or.inl h
        · subst h; exact Or.inr rfl
      · simp only [List.length_append, List.length_cons, List.length_nil]
        omega
      · intro h; exact absurd hl h
    · -- only the previous block is free
      have hBm : B c.1 = bs1' ++ ([(q, zq, false), (p, z, true)] ++ bs2) := by
        rw [hB]; simp
      have hB1' : Function.update B c.1 (bs1' ++ [(q, zq, false)] ++
          ([(p, z, false)] ++ bs2)) c.1 =
          bs1' ++ ([(q, zq, false), (p, z, false)] ++ bs2) := by
        rw [Function.update_same]; simp
      obtain ⟨s3, c1, c2, c3, c4, c5⟩ := coalesce_prev p z q zq fl hR2 hc bs1' bs2 hB1' hr
      rw [Function.update_idem] at c2
      have hNA2 : NoAdjFree (bs1' ++ ([(q, zq, false), (p, z, true)] ++ bs2)) := by
        rw [← hBm]; exact hna c hc
      refine ⟨s1, s2, s3, q, zq + z, bs1', bs2, fl, m3, m4, c1, ⟨?_, ?_, ?_⟩, hqfl, ?_,
        SameG_trans hg2 c3, fun a ha => c4 _ (hmp2 _ ha), ⟨z, by rw [c5]; exact hp8, hz0⟩, ?_, ?_⟩
      · exact Rep0_rewrite h0 hc bs1' _ _ bs2 hBm c2 (fl_iff_prev p z q zq _ fl hpn hqfl)
      · exact NoAdj_update hna _ _ (NoAdjFree_rewrite _ _ _ _ hNA2 (NoAdjFree_single _)
          (by simp) (fun h => hl' h.1) (fun h => hr h.2))
      · exact hk3 _ (SameG_trans hg2 c3)
      · intro x zx
        refine Live_merge hS hc bs1' _ bs2 hBm _ _ p z ?_ (by simp) x zx
        intro b hb
        simp only [List.mem_cons, List.mem_singleton, List.not_mem_nil, or_false] at hb
        rcases hb with h | h
        · subst h; exact Or.inr rfl
        · exact Or.inl h
      · simp only [List.length_append, List.length_cons, List.length_nil]
        omega
      · intro h; exact absurd hl h
  · by_cases hr : headFree bs2
    · -- only the next block is free
      obtain ⟨r, zr, bs2', hbs2⟩ := headFree_shape bs2 hr
      subst hbs2
      have hrb : (r, zr, false) ∈ B c.1 := by rw [hB]; simp
      have fr := Struct_block hS hc hrb
      simp only at fr
      have hrfl : r ∈ fl := h0.2.2 c hc _ hrb rfl
      obtain ⟨L1, L2, hfl⟩ := List.append_of_mem hrfl
      subst hfl
      have hBm : B c.1 = bs1 ++ ([(p, z, true), (r, zr, false)] ++ bs2') := by
        rw [hB]; simp
      have hB1' : Function.update B c.1 (bs1 ++
          ([(p, z, false)] ++ (r, zr, false) :: bs2')) c.1 =
          bs1 ++ ([(p, z, false), (r, zr, false)] ++ bs2') := by
        rw [Function.update_same]; simp
      obtain ⟨s3, c1, c2, c3, c4⟩ := coalesce_next p z r zr L1 L2 hR2 hc bs1 bs2' hB1' hl
      rw [Function.update_idem] at c2
      have hr' : ¬ headFree bs2' := by
        have e : bs1 ++ ([(p, z, true)] ++ (r, zr, false) :: bs2') =
            (bs1 ++ [(p, z, true)]) ++ ([(r, zr, false)] ++ bs2') := by simp
        rw [e] at hNA
        exact (NoAdjFree_around _ _ _ rfl hNA).2
      have hNA2 : NoAdjFree (bs1 ++ ([(p, z, true), (r, zr, false)] ++ bs2')) := by
        rw [← hBm]; exact hna c hc
      have hpb3 : (p, z + zr, false) ∈
          Function.update B c.1 (bs1 ++ ([(p, z + zr, false)] ++ bs2')) c.1 := by
        rw [Function.update_same]; simp
      have f3 := Struct_block c2.1 hc hpb3
      simp only at f3
      refine ⟨s1, s2, s3, p, z + zr, bs1, bs2', p :: (L1 ++ L2), m3, m4, c1, ⟨?_, ?_, ?_⟩,
        List.mem_cons_self _ _, ?_,
        SameG_trans hg2 c3, fun a ha => c4 _ (hmp2 _ ha),
        ⟨z + zr, f3.2.2.2.2.2.2.2.2.2.1, by unfold allocBit; omega⟩, ?_, ?_⟩
      · exact Rep0_rewrite h0 hc bs1 _ _ bs2' hBm c2
          (fl_iff_next p z r zr _ L1 L2 hpn h0.1.2.2.1)
      · exact NoAdj_update hna _ _ (NoAdjFree_rewrite _ _ _ _ hNA2 (NoAdjFree_single _)
          (by simp) (fun h => hl h.1) (fun h => hr' h.2))
      · exact hk3 _ (SameG_trans hg2 c3)
      · intro x zx
        refine Live_merge hS hc bs1 _ bs2' hBm _ _ p z ?_ (by simp) x zx
        intro b hb
        simp only [List.mem_cons, List.mem_singleton, List.not_mem_nil, or_false] at hb
        rcases hb with h | h
        · exact Or.inl h
        · subst h; exact Or.inr rfl
      · simp only [List.length_append, List.length_cons, List.length_nil]
        omega
      · intro _ h; exact absurd hr h
    · -- no neighbour is free
      have c1 := coalesce_none hR2.1 hc bs1 bs2 p z hB1 hl hr
      have hpb3 : (p, z, false) ∈
          Function.update B c.1 (bs1 ++ ([(p, z, false)] ++ bs2)) c.1 := by
        rw [Function.update_same]; simp
      have f3 := Struct_block hR2.1 hc hpb3
      simp only at f3
      have hhead : s2.free_list_head = p := by
        have := ((Chain_iff_Seg _ _ _ _ _ _).mp hR2.2.1).1
        rw [this]; rfl
      refine ⟨s1, s2, s2, p, z, bs1, bs2, p :: fl, m3, m4, c1, ⟨?_, ?_, ?_⟩,
        List.mem_cons_self _ _, ?_, hg2, hmp2,
        ⟨z, f3.2.2.2.2.2.2.2.2.2.1, hz0⟩, le_refl _, fun _ _ => ⟨rfl, rfl, rfl, rfl, hhead⟩⟩
      · exact Rep0_rewrite h0 hc bs1 _ _ bs2 hB hR2 (fl_iff_none p z _ fl hpn)
      · exact NoAdj_update hna _ _ (NoAdjFree_rewrite _ _ _ _ hNA (NoAdjFree_single _)
          (by simp) (fun h => hl h.1) (fun h => hr h.2))
      · exact hk3 _ hg2
      · intro x zx
        refine Live_merge hS hc bs1 _ bs2 hB _ _ p z ?_ (by simp) x zx
        intro b hb
        rw [List.mem_singleton] at hb
        exact Or.inl hb

end Sample

namespace Sample
open Alloc

theorem Struct_not_mem {s : State} {B : Nat → List Blk} (K1 K2 : List (Nat × Nat))
    (c : Nat × Nat) (hS : Struct s (K1 ++ c :: K2) B) : c ∉ K1 ++ K2 := by
  have h := (Struct_nodup hS).of_map
  exact (List.nodup_cons.mp (List.nodup_middle.mp h)).1

theorem mem_of_ne {K1 K2 : List (Nat × Nat)} {c d : Nat × Nat} (hd : d ∈ K1 ++ c :: K2)
    (hne : d ≠ c) : d ∈ K1 ++ K2 := by
  rcases List.mem_append.mp hd with h | h
  · exact List.mem_append.mpr (Or.inl h)
  · rcases List.mem_cons.mp h with h | h
    · exact absurd h hne
    · exact List.mem_append.mpr (Or.inr h)

theorem mem_of_mem {K1 K2 : List (Nat × Nat)} {c d : Nat × Nat} (hd : d ∈ K1 ++ K2) :
    d ∈ K1 ++ c :: K2 := by
  rcases List.mem_append.mp hd with h | h
  · exact List.mem_append.mpr (Or.inl h)
  · exact List.mem_append.mpr (Or.inr (List.mem_cons_of_mem _ h))

theorem Tiles_decomp_unique (m : Mem) (x : Blk) : ∀ (b1 bs1 b2 bs2 : List Blk) (p e : Nat),
    Tiles m p (b1 ++ ([x] ++ b2)) e → b1 ++ ([x] ++ b2) = bs1 ++ ([x] ++ bs2) →
    b1 = bs1 ∧ b2 = bs2 := by
  intro b1
  induction b1 with
  | nil =>
    intro bs1 b2 bs2 p e ht h
    cases bs1 with
    | nil => simpa using h
    | cons y ys =>
      exfalso
      simp only [List.nil_append, List.singleton_append, List.cons_append, List.cons.injEq] at h
      obtain ⟨rfl, h⟩ := h
      simp only [List.nil_append, List.singleton_append] at ht
      rw [Tiles_cons] at ht
      have := (Tiles_mem _ _ _ _ ht.2.2.2.2.2 x (by rw [h]; simp)).1
      omega
  | cons a as ih =>
    intro bs1 b2 bs2 p e ht h
    cases bs1 with
    | nil =>
      exfalso
      simp only [List.nil_append, List.singleton_append, List.cons_append, List.cons.injEq] at h
      obtain ⟨rfl, h⟩ := h
      rw [List.cons_append, Tiles_cons] at ht
      have := (Tiles_mem _ _ _ _ ht.2.2.2.2.2 a (by simp)).1
      omega
    | cons y ys =>
      simp only [List.cons_append, List.cons.injEq] at h
      obtain ⟨rfl, h⟩ := h
      rw [List.cons_append, Tiles_cons] at ht
      obtain ⟨h1, h2⟩ := ih ys b2 bs2 _ e ht.2.2.2.2.2 (by simpa using h)
      exact ⟨by rw [h1], h2⟩

/-- `mm_free` on an allocated block keeps the invariant. Either the chunk stays
mapped, and the header word of the block has its allocated flag cleared, or the chunk
held no other allocated block and is unmapped. -/
theorem mm_free_Rep {s : State} {cs : List (Nat × Nat)} {B : Nat → List Blk}
    {fl : List Nat} (hR : Rep s cs B fl) (p z fuel : Nat) (hlive : Live cs B p z)
    (hfuel : ∀ c ∈ cs, (B c.1).length < fuel) :
    ∃ s' cs' B' fl', mm_free fuel p s = .ok s' ∧ Rep s' cs' B' fl' ∧
      (∀ x zx, Live cs' B' x zx ↔ Live cs B x zx ∧ x ≠ p) ∧
      s'.oracle = s.oracle ∧ s'.nmaps = s.nmaps ∧
      ((cs' = cs ∧ s'.unmaps = s.unmaps ∧ ∃ v, s'.mem (p - 8) = some v ∧ allocBit v = 0) ∨
        (∃ K1 K2 c, cs = K1 ++ c :: K2 ∧ cs' = K1 ++ K2 ∧ s'.unmaps = s.unmaps ++ [c] ∧
          (p, z, true) ∈ B c.1 ∧ ∀ b ∈ B c.1, b.1 = p ∨ b.2.2 = false)) ∧
      (∀ c ∈ cs, ∀ bs1 bs2, B c.1 = bs1 ++ ([(p, z, true)] ++ bs2) →
        ¬ lastFree bs1 → ¬ headFree bs2 → (bs1 ≠ [] ∨ bs2 ≠ []) →
        cs' = cs ∧ s'.unmaps = s.unmaps ∧ s'.free_list_head = p ∧ sizeAt s'.mem p = z) := by
  obtain ⟨c, hc, hpb⟩ := hlive
  obtain ⟨bs1, bs2, hB0⟩ := List.append_of_mem hpb
  have hB : B c.1 = bs1 ++ ([(p, z, true)] ++ bs2) := by rw [hB0]; rfl
  have hS := hR.1.1.1
  obtain ⟨m1, m2, s1, s2, s3, q, T, bsA, bsB, fl3, m3, m4, m5, hR3, hq3, hL3, hg3, hmp3, hv3,
    hlen, hC9⟩ := free_merge_Rep hR p z hc bs1 bs2 hB
  have hE := mm_free_eq fuel p z q s s1 s2 s3 m1 m2 m3 m4 m5
  have hB3 : Function.update B c.1 (bsA ++ ([(q, T, false)] ++ bsB)) c.1 =
      bsA ++ ([(q, T, false)] ++ bsB) := Function.update_same _ _ _
  have hf := hfuel c hc
  rw [hB] at hf
  simp only [List.length_append, List.length_cons, List.length_nil] at hf
  -- uniqueness of the decomposition around `p`
  have huniq : ∀ d ∈ cs, ∀ b1 b2, B d.1 = b1 ++ ([(p, z, true)] ++ b2) →
      d = c ∧ b1 = bs1 ∧ b2 = bs2 := by
    intro d hd b1 b2 hBd
    have hpd : (p, z, true) ∈ B d.1 := by rw [hBd]; simp
    have hdc := (Struct_block_chunk hS hd hc hpd hpb rfl).1
    subst hdc
    refine ⟨rfl, ?_⟩
    have ht := (hS.2.1 d hd).1.2.2.2.2.2.1
    rw [hBd] at ht
    rw [hBd] at hB
    exact Tiles_decomp_unique _ _ b1 bs1 b2 bs2 _ _ ht hB
  by_cases hall : ∀ b ∈ bsA ++ bsB, b.2.2 = false
  · -- the chunk holds no allocated block: it is released
    have hlen1 := NoAdjFree_all_free _ (hR3.2.1 c hc) (by
      rw [hB3]
      intro b hb
      simp only [List.mem_append, List.mem_cons, List.mem_singleton, List.not_mem_nil,
        or_false] at hb
      rcases hb with h | h | h
      · exact hall b (List.mem_append.mpr (Or.inl h))
      · rw [h]
      · exact hall b (List.mem_append.mpr (Or.inr h)))
    rw [hB3] at hlen1
    simp only [List.length_append, List.length_cons, List.length_nil] at hlen1
    have hA : bsA = [] := List.length_eq_zero.mp (by omega)
    have hBn : bsB = [] := List.length_eq_zero.mp (by omega)
    subst hA hBn
    simp only [List.nil_append, List.append_nil] at hB3 hR3 hL3
    obtain ⟨K1, K2, hK⟩ := List.append_of_mem hc
    subst hK
    obtain ⟨L1, L2, hL⟩ := List.append_of_mem hq3
    subst hL
    obtain ⟨r1, r0, s4, s5, r2, r3, r4, r5, r6, r7, r8, r9⟩ :=
      release_step K1 K2 c q T L1 L2 fuel hR3.1.1 hB3 (by omega)
    have hcn := Struct_not_mem K1 K2 c hS
    have hqn : q ∉ L1 ++ L2 :=
      (List.nodup_cons.mp (List.nodup_middle.mp hR3.1.1.2.2.1)).1
    have hallB : ∀ b ∈ B c.1, b.1 = p ∨ b.2.2 = false := by
      intro b hb
      by_cases hbp : b.1 = p
      · exact Or.inl hbp
      · right
        cases hbf : b.2.2 with
        | false => rfl
        | true =>
          exfalso
          have hl : Live (K1 ++ c :: K2) B b.1 b.2.1 := ⟨c, hc, by rw [← hbf]; exact hb⟩
          obtain ⟨d, hd, hb3⟩ := (hL3 b.1 b.2.1).mpr ⟨hl, hbp⟩
          have hb3' := hb3
          by_cases hdc : d.1 = c.1
          · rw [hdc, Function.update_same, List.mem_singleton] at hb3
            simp at hb3
          · rw [Function.update_noteq hdc] at hb3
            have := (Struct_block_chunk hS hd hc hb3 (by rw [← hbf]; exact hb) rfl).1
            exact hdc (by rw [this])
    refine ⟨s5, K1 ++ K2, _, L1 ++ L2, ?_, ⟨⟨r5, ?_, ?_⟩, ?_, ?_⟩, ?_, ?_, ?_, ?_, ?_⟩
    · rw [hE, r1, ok_bind, if_pos r0, r2, ok_bind, r3, ok_bind, r4]
    · intro y hy
      obtain ⟨d, hd, b, hb, e, hfb⟩ := hR3.1.2.1 y (by
        rcases List.mem_append.mp hy with h | h
        · exact List.mem_append.mpr (Or.inl h)
        · exact List.mem_append.mpr (Or.inr (List.mem_cons_of_mem _ h)))
      have hdc : d ≠ c := by
        rintro rfl
        rw [hB3, List.mem_singleton] at hb
        subst hb
        simp only at e
        rw [← e] at hy
        exact hqn hy
      exact ⟨d, mem_of_ne hd hdc, b, hb, e, hfb⟩
    · intro d hd b hb hfb
      have hbf := hR3.1.2.2 d (mem_of_mem hd) b hb hfb
      have hne : b.1 ≠ q := by
        intro e
        have hqb : (q, T, false) ∈ Function.update B c.1 [(q, T, false)] c.1 := by
          rw [hB3]; simp
        have := (Struct_block_chunk hR3.1.1.1 (mem_of_mem hd) hc hb hqb e).1
        rw [this] at hd
        exact hcn hd
      rcases List.mem_append.mp hbf with h | h
      · exact List.mem_append.mpr (Or.inl h)
      · rcases List.mem_cons.mp h with h | h
        · exact absurd h hne
        · exact List.mem_append.mpr (Or.inr h)
    · intro d hd
      exact hR3.2.1 d (mem_of_mem hd)
    · rw [r9]; exact hR3.2.2
    · intro x zx
      rw [← hL3]
      constructor
      · rintro ⟨d, hd, hb⟩
        exact ⟨d, mem_of_mem hd, hb⟩
      · rintro ⟨d, hd, hb⟩
        have hdc : d ≠ c := by
          rintro rfl
          rw [hB3, List.mem_singleton] at hb
          simp at hb
        exact ⟨d, mem_of_ne hd hdc, hb⟩
    · rw [r7, hg3.2.2.2.1]
    · rw [r8, hg3.2.2.2.2.1]
    · right
      exact ⟨K1, K2, c, rfl, rfl, by rw [r6, hg3.2.2.2.2.2], hpb, hallB⟩
    · intro d hd b1 b2 hBd h1 h2 hne
      exfalso
      obtain ⟨rfl, rfl, rfl⟩ := huniq d hd b1 b2 hBd
      rcases hne with h | h
      · rcases List.exists_mem_of_ne_nil _ h with ⟨b, hb⟩
        rcases hallB b (by rw [hB]; simp [hb]) with h' | h'
        · have ht := (hS.2.1 d hd).1.2.2.2.2.2.1
          rw [hB] at ht
          have := Tiles_sorted _ _ _ _ _ ht b hb (p, z, true) (by simp)
          have f := Struct_block hS hd (show b ∈ B d.1 by rw [hB]; simp [hb])
          simp only at this
          omega
        · -- a free block in front of `p`: the last block of `b1` is allocated
          have hNA := hR.2.1 d hd
          rw [hB] at hNA
          have hfree : ∀ b' ∈ b1, b'.2.2 = false := by
            intro b' hb'
            rcases hallB b' (by rw [hB]; simp [hb']) with h'' | h''
            · exfalso
              have ht := (hS.2.1 d hd).1.2.2.2.2.2.1
              rw [hB] at ht
              have := Tiles_sorted _ _ _ _ _ ht b' hb' (p, z, true) (by simp)
              have f := Struct_block hS hd (show b' ∈ B d.1 by rw [hB]; simp [hb'])
              simp only at this
              omega
            · exact h''
          apply h1
          rcases List.eq_nil_or_concat b1 with hnil | ⟨l', b0, hcat⟩
          · exact absurd hnil h
          · rw [List.concat_eq_append] at hcat
            subst hcat
            rw [lastFree_append _ _ (by simp), lastFree_single]
            exact hfree b0 (by simp)
      · rcases List.exists_mem_of_ne_nil _ h with ⟨b, hb⟩
        have hfree : ∀ b' ∈ b2, b'.2.2 = false := by
          intro b' hb'
          rcases hallB b' (by rw [hB]; simp [hb']) with h'' | h''
          · exfalso
            have ht := (hS.2.1 d hd).1.2.2.2.2.2.1
            rw [hB, ← List.append_assoc] at ht
            have := Tiles_sorted _ _ _ _ _ ht (p, z, true) (by simp) b' hb'
            have f := Struct_block hS hd hpb
            simp only at this f
            omega
          · exact h''
        apply h2
        cases b2 with
        | nil => exact absurd rfl h
        | cons b0 l' =>
          rw [headFree_cons]
          exact hfree b0 (by simp)
  · -- an allocated block remains: the chunk stays
    have hex : ∃ b ∈ bsA ++ bsB, b.2.2 = true := by
      by_contra hcon
      apply hall
      intro b hb
      cases hbf : b.2.2 with
      | false => rfl
      | true => exact absurd ⟨b, hb, hbf⟩ hcon
    obtain ⟨b, hb, hbt⟩ := hex
    have h0 := not_all_free hR3.1.1.1 hc bsA bsB q T fuel hB3 (by
      rw [hB3]
      simp only [List.length_append, List.length_cons, List.length_nil]
      omega) b (by
      rw [hB3]
      simp only [List.mem_append] at hb ⊢
      rcases hb with h | h
      · exact Or.inl h
      · exact Or.inr (Or.inr h)) hbt
    refine ⟨s3, cs, _, fl3, ?_, hR3, hL3, hg3.2.2.2.1, hg3.2.2.2.2.1,
      Or.inl ⟨rfl, hg3.2.2.2.2.2, hv3⟩, ?_⟩
    · rw [hE, h0, ok_bind, if_neg (by simp)]
      rfl
    · intro d hd b1 b2 hBd h1 h2 hne
      obtain ⟨rfl, rfl, rfl⟩ := huniq d hd b1 b2 hBd
      obtain ⟨e1, e2, e3, e4, e5⟩ := hC9 h1 h2
      subst e1 e2 e3 e4
      refine ⟨rfl, hg3.2.2.2.2.2, e5, ?_⟩
      exact Struct_sizeAt hR3.1.1.1 hd (show (q, T, false) ∈ _ by rw [hB3]; simp)

end Sample

namespace Sample
open Alloc

theorem bind_error_ne {α β : Type} (e : Err) (f : α → Except Err β) (r : β)
    (h : (Except.error e >>= f) = .ok r) : False := by
  rw [error_bind] at h
  cases h

theorem find_free_block_ff_mono (t : Nat) (s : State) : ∀ (fuel temp r k : Nat),
    find_free_block_ff fuel temp t s = .ok r →
    find_free_block_ff (fuel + k) temp t s = .ok r := by
  intro fuel
  induction fuel with
  | zero => intro temp r k h; cases h
  | succ f ih =>
    intro temp r k h
    have e : f + 1 + k = (f + k) + 1 := by omega
    rw [e]
    unfold find_free_block_ff at h ⊢
    by_cases h0 : temp = 0
    · rw [if_pos h0] at h ⊢; exact h
    · rw [if_neg h0] at h ⊢
      cases hs : GET_SIZE s (HEADER temp) with
      | error e' => rw [hs] at h; exact (bind_error_ne _ _ _ h).elim
      | ok sz =>
        rw [hs] at h
        simp only [ok_bind] at h ⊢
        by_cases hc : sz = t ∨ sz ≥ add64 t 32
        · rw [if_pos hc] at h ⊢; exact h
        · rw [if_neg hc] at h ⊢
          cases hn : GET s temp with
          | error e' => rw [hn] at h; exact (bind_error_ne _ _ _ h).elim
          | ok nxt =>
            rw [hn] at h
            simp only [ok_bind] at h ⊢
            exact ih nxt r k h

theorem get_chunk_header_mono (s : State) : ∀ (fuel curr r k : Nat),
    get_chunk_header fuel curr s = .ok r →
    get_chunk_header (fuel + k) curr s = .ok r := by
  intro fuel
  induction fuel with
  | zero => intro curr r k h; cases h
  | succ f ih =>
    intro curr r k h
    have e : f + 1 + k = (f + k) + 1 := by omega
    rw [e]
    unfold get_chunk_header at h ⊢
    by_cases h0 : curr = 0
    · rw [if_pos h0] at h ⊢; exact h
    · rw [if_neg h0] at h ⊢
      cases hs : GET_SIZE s (sub64 curr 16) with
      | error e' => rw [hs] at h; exact (bind_error_ne _ _ _ h).elim
      | ok sz =>
        rw [hs] at h
        simp only [ok_bind] at h ⊢
        by_cases hc : sz = 16
        · rw [if_pos hc] at h ⊢; exact h
        · rw [if_neg hc] at h ⊢
          cases hn : PREV_BLK_PTR s curr with
          | error e' => rw [hn] at h; exact (bind_error_ne _ _ _ h).elim
          | ok prv =>
            rw [hn] at h
            simp only [ok_bind] at h ⊢
            exact ih prv r k h

theorem is_in_free_chunk_back_mono (s : State) : ∀ (fuel curr acc : Nat) (r : Option Nat)
    (k : Nat), is_in_free_chunk_back fuel curr acc s = .ok r →
    is_in_free_chunk_back (fuel + k) curr acc s = .ok r := by
  intro fuel
  induction fuel with
  | zero => intro curr acc r k h; cases h
  | succ f ih =>
    intro curr acc r k h
    have e : f + 1 + k = (f + k) + 1 := by omega
    rw [e]
    unfold is_in_free_chunk_back at h ⊢
    by_cases h0 : curr = 0
    · rw [if_pos h0] at h ⊢; exact h
    · rw [if_neg h0] at h ⊢
      cases hs : GET_SIZE s (sub64 curr 16) with
      | error e' => rw [hs] at h; exact (bind_error_ne _ _ _ h).elim
      | ok sz =>
        rw [hs] at h
        simp only [ok_bind] at h ⊢
        by_cases hc : sz = 16
        · rw [if_pos hc] at h ⊢; exact h
        · rw [if_neg hc] at h ⊢
          cases hn : PREV_BLK_PTR s curr with
          | error e' => rw [hn] at h; exact (bind_error_ne _ _ _ h).elim
          | ok prv =>
            rw [hn] at h
            simp only [ok_bind] at h ⊢
            cases ha : GET_ALLOC s (HEADER prv) with
            | error e' => rw [ha] at h; exact (bind_error_ne _ _ _ h).elim
            | ok al =>
              rw [ha] at h
              simp only [ok_bind] at h ⊢
              by_cases hal : al ≠ 0
              · rw [if_pos hal] at h ⊢; exact h
              · rw [if_neg hal] at h ⊢
                exact ih _ _ r k h

theorem is_in_free_chunk_fwd_mono (s : State) : ∀ (fuel curr acc r k : Nat),
    is_in_free_chunk_fwd fuel curr acc s = .ok r →
    is_in_free_chunk_fwd (fuel + k) curr acc s = .ok r := by
  intro fuel
  induction fuel with
  | zero => intro curr acc r k h; cases h
  | succ f ih =>
    intro curr acc r k h
    have e : f + 1 + k = (f + k) + 1 := by omega
    rw [e]
    unfold is_in_free_chunk_fwd at h ⊢
    by_cases h0 : curr = 0
    · rw [if_pos h0] at h ⊢; exact h
    · rw [if_neg h0] at h ⊢
      cases hs : GET_SIZE s (HEADER curr) with
      | error e' => rw [hs] at h; exact (bind_error_ne _ _ _ h).elim
      | ok sz =>
        rw [hs] at h
        simp only [ok_bind] at h ⊢
        cases ha : GET_ALLOC s (HEADER curr) with
        | error e' => rw [ha] at h; exact (bind_error_ne _ _ _ h).elim
        | ok al =>
          rw [ha] at h
          simp only [ok_bind] at h ⊢
          by_cases hc : sz = 0 ∧ al ≠ 0
          · rw [if_pos hc] at h ⊢; exact h
          · rw [if_neg hc] at h ⊢
            by_cases hal : al ≠ 0
            · rw [if_pos hal] at h ⊢; exact h
            · rw [if_neg hal] at h ⊢
              cases hn : NXT_BLK_PTR s curr with
              | error e' => rw [hn] at h; exact (bind_error_ne _ _ _ h).elim
              | ok nxt =>
                rw [hn] at h
                simp only [ok_bind] at h ⊢
                exact ih _ _ r k h

theorem is_in_free_chunk_mono (s : State) (fuel ptr r k : Nat)
    (h : is_in_free_chunk fuel ptr s = .ok r) :
    is_in_free_chunk (fuel + k) ptr s = .ok r := by
  unfold is_in_free_chunk at h ⊢
  cases hs : GET_SIZE s (HEADER ptr) with
  | error e' => rw [hs] at h; exact (bind_error_ne _ _ _ h).elim
  | ok sz =>
    rw [hs] at h
    simp only [ok_bind] at h ⊢
    cases hb : is_in_free_chunk_back fuel ptr (add64 sz 48) s with
    | error e' => rw [hb] at h; exact (bind_error_ne _ _ _ h).elim
    | ok ob =>
      rw [hb] at h
      simp only [ok_bind] at h
      simp only [is_in_free_chunk_back_mono s fuel ptr _ ob k hb, ok_bind]
      cases ob with
      | none => exact h
      | some acc =>
        simp only at h ⊢
        cases hn : NXT_BLK_PTR s ptr with
        | error e' => rw [hn] at h; exact (bind_error_ne _ _ _ h).elim
        | ok nxt =>
          rw [hn] at h
          simp only [ok_bind] at h ⊢
          exact is_in_free_chunk_fwd_mono s fuel nxt acc r k h

theorem mm_malloc_mono (s : State) (fuel n k : Nat) (r : Nat × State)
    (h : mm_malloc fuel n s = .ok r) : mm_malloc (fuel + k) n s = .ok r := by
  cases hf : find_free_block_ff fuel s.free_list_head (ALIGN (add64 n 16)) s with
  | error e' =>
    unfold mm_malloc at h
    simp only [hf, error_bind] at h
    cases h
  | ok p =>
    have hf' := find_free_block_ff_mono _ s fuel _ p k hf
    by_cases hp : p = 0
    · subst hp
      rw [mm_malloc_new fuel n s hf] at h
      rw [mm_malloc_new (fuel + k) n s hf']
      exact h
    · rw [mm_malloc_found fuel n p s hf hp] at h
      rw [mm_malloc_found (fuel + k) n p s hf' hp]
      exact h

theorem mm_free_unfold (fuel p : Nat) (s : State) :
    mm_free fuel p s =
      (GET_ALLOC s (HEADER p) >>= fun a =>
        if a = 0 then pure s
        else GET_SIZE s (HEADER p) >>= fun sz => PUT s (HEADER p) sz >>= fun s1 =>
          add_to_free_list p s1 >>= fun s2 => coalesce p s2 >>= fun r =>
          is_in_free_chunk fuel r.1 r.2 >>= fun cz =>
          if cz ≠ 0 then
            (remove_from_free_list r.1 r.2 >>= fun s4 =>
              get_chunk_header fuel r.1 s4 >>= fun hh => remove_chunk hh cz s4)
          else pure r.2) := rfl

theorem mm_free_mono (s : State) (fuel p k : Nat) (r : State)
    (h : mm_free fuel p s = .ok r) : mm_free (fuel + k) p s = .ok r := by
  rw [mm_free_unfold] at h ⊢
  cases ha : GET_ALLOC s (HEADER p) with
  | error e' => rw [ha] at h; exact (bind_error_ne _ _ _ h).elim
  | ok a =>
    rw [ha] at h
    simp only [ok_bind] at h ⊢
    by_cases h0 : a = 0
    · rw [if_pos h0] at h ⊢; exact h
    · rw [if_neg h0] at h ⊢
      cases hz : GET_SIZE s (HEADER p) with
      | error e' => rw [hz] at h; exact (bind_error_ne _ _ _ h).elim
      | ok z =>
        rw [hz] at h
        simp only [ok_bind] at h ⊢
        cases hp : PUT s (HEADER p) z with
        | error e' => rw [hp] at h; exact (bind_error_ne _ _ _ h).elim
        | ok s1 =>
          rw [hp] at h
          simp only [ok_bind] at h ⊢
          cases hadd : add_to_free_list p s1 with
          | error e' => rw [hadd] at h; exact (bind_error_ne _ _ _ h).elim
          | ok s2 =>
            rw [hadd] at h
            simp only [ok_bind] at h ⊢
            cases hco : coalesce p s2 with
            | error e' => rw [hco] at h; exact (bind_error_ne _ _ _ h).elim
            | ok qs =>
              rw [hco] at h
              simp only [ok_bind] at h ⊢
              cases hi : is_in_free_chunk fuel qs.1 qs.2 with
              | error e' => rw [hi] at h; exact (bind_error_ne _ _ _ h).elim
              | ok cz =>
                rw [hi] at h
                simp only [ok_bind] at h
                simp only [is_in_free_chunk_mono _ fuel _ cz k hi, ok_bind]
                by_cases hcz : cz ≠ 0
                · rw [if_pos hcz] at h ⊢
                  cases hrm : remove_from_free_list qs.1 qs.2 with
                  | error e' => rw [hrm] at h; exact (bind_error_ne _ _ _ h).elim
                  | ok s4 =>
                    rw [hrm] at h
                    simp only [ok_bind] at h ⊢
                    cases hg : get_chunk_header fuel qs.1 s4 with
                    | error e' => rw [hg] at h; exact (bind_error_ne _ _ _ h).elim
                    | ok hh =>
                      rw [hg] at h
                      simp only [ok_bind] at h
                      simp only [get_chunk_header_mono _ fuel _ hh k hg, ok_bind]
                      exact h
                · rw [if_neg hcz] at h ⊢
                  exact h

end Sample

namespace Sample
open Alloc

theorem mm_init_Rep (s : State) (fuel : Nat) (s' : State) (hreg : s.regions = [])
    (henv : FreshOk { s with new_chunk_size := 1, free_list_head := 0, chunk_list_head := 0 } 1)
    (h : mm_init fuel s = .ok (0, s')) :
    Rep s' [(s.oracle s.nmaps, 4096)]
      (Function.update (fun _ => []) (s.oracle s.nmaps) [(s.oracle s.nmaps + 48, 4048, false)])
      [s.oracle s.nmaps + 48] ∧ s'.unmaps = s.unmaps ∧ s'.oracle = s.oracle := by
  have hR0 : Rep { s with new_chunk_size := 1, free_list_head := 0, chunk_list_head := 0 }
      [] (fun _ => []) [] := by
    refine ⟨⟨⟨⟨?_, ?_, List.Pairwise.nil, hreg⟩, ?_, List.nodup_nil, ?_⟩, ?_, ?_⟩, ?_, le_refl _⟩
    · show Chain _ 0 8 0 0 []
      unfold Chain; rfl
    · intro c hc; cases hc
    · show Chain _ 0 8 0 0 []
      unfold Chain; rfl
    · intro p hp; cases hp
    · intro p hp; cases hp
    · intro c hc; cases hc
    · intro c hc; cases hc
  obtain ⟨s1, base, C, i1, i2, iC, i3, i4, i5, i6, i7, i8, i9⟩ :=
    init_chunk_Rep hR0 1 (by decide) henv
  have hC : C = 4096 := by
    rw [iC]
    show 1 * PAGE_ALIGN (add64 (add64 1 48) 32) = 4096
    decide
  subst hC
  have hb : base = s.oracle s.nmaps := i2
  subst hb
  have hck := (i4.1.1.1.2.1 _ (List.mem_cons_self _ _)).1
  simp only [Function.update_same] at hck
  have hclh : s1.chunk_list_head = s.oracle s.nmaps + 8 := by
    have := ((Chain_iff_Seg _ _ _ _ _ _).mp i4.1.1.1.1).1
    rw [this]; rfl
  cases fuel with
  | zero =>
    exfalso
    unfold mm_init at h
    simp only [i1, ok_bind] at h
    unfold get_chunk_header at h
    exact bind_error_ne _ _ _ h
  | succ f =>
    have g1 : get_chunk_header (f + 1) (s.oracle s.nmaps + 48) s1 =
        .ok (s.oracle s.nmaps + 8) :=
      get_chunk_header_walk s1 _ hck.2.2.2.2.1 [] _ (f + 1) (by rw [Tiles_nil])
        (by have := hck.2.2.1; omega) (by simp)
    unfold mm_init at h
    simp only [i1, ok_bind, g1, pure_eq_ok] at h
    have e : s' = { s1 with chunk_list_head := s.oracle s.nmaps + 8 } := by
      injection h with h
      injection h with h1 h2
      exact h2.symm
    have e2 : s' = s1 := by
      rw [e, ← hclh]
    subst e2
    exact ⟨i4, i7, i5⟩

theorem mm_malloc_find (fuel n : Nat) (s : State) (r : Nat × State)
    (h : mm_malloc fuel n s = .ok r) :
    ∃ q, find_free_block_ff fuel s.free_list_head (ALIGN (add64 n 16)) s = .ok q := by
  cases hf : find_free_block_ff fuel s.free_list_head (ALIGN (add64 n 16)) s with
  | error e' =>
    unfold mm_malloc at h
    simp only [hf, error_bind] at h
    cases h
  | ok q => exact ⟨q, rfl⟩

theorem exists_bound (cs : List (Nat × Nat)) (f : Nat × Nat → Nat) :
    ∃ K, ∀ c ∈ cs, f c < K := by
  induction cs with
  | nil => exact ⟨0, fun c hc => by cases hc⟩
  | cons a as ih =>
    obtain ⟨K, hK⟩ := ih
    refine ⟨K + f a + 1, ?_⟩
    intro c hc
    rcases List.mem_cons.mp hc with h | h
    · rw [h]; omega
    · have := hK c h; omega

/-- Every reachable state satisfies the invariant. -/
theorem Reach_inv (oracle : Nat → Nat) (s : State) (lv : List (Nat × Nat))
    (h : Reach oracle s lv) : Inv s lv := by
  induction h with
  | init fuel s henv h =>
    obtain ⟨hR, -, -⟩ := mm_init_Rep (boot oracle) fuel s rfl henv h
    refine ⟨_, _, _, hR, List.nodup_nil, (fun e he => by cases he), ?_⟩
    rintro q z ⟨c, hc, hb⟩
    rw [List.mem_singleton] at hc
    subst hc
    simp only [Function.update_same, List.mem_singleton, Prod.mk.injEq, Bool.true_eq_false,
      and_false] at hb
  | malloc s lv fuel n p s' hr hn1 hn2 henv h ih =>
    obtain ⟨cs, B, fl, hR, hnd, hlv, hcomp⟩ := ih
    have hK := mm_malloc_mono s fuel n (fl.length + 1) _ h
    obtain ⟨q, hq⟩ := mm_malloc_find fuel n s _ h
    have hqK := find_free_block_ff_mono _ s fuel _ q (fl.length + 1) hq
    obtain ⟨p', s'', cs', B', fl', a1, a2, a3, a4, -⟩ :=
      mm_malloc_Rep hR n (fuel + (fl.length + 1)) hn1 hn2 (by omega) (by
        intro h0
        rw [hqK] at h0
        injection h0 with h0
        subst h0
        exact henv hq)
    rw [hK] at a1
    injection a1 with a1
    injection a1 with e1 e2
    subst e1 e2
    refine ⟨cs', B', fl', a2, ?_, ?_, ?_⟩
    · rw [List.map_cons, List.nodup_cons]
      refine ⟨?_, hnd⟩
      intro hp
      obtain ⟨e, he, hep⟩ := List.mem_map.mp hp
      have := (hlv e he).1
      rw [hep] at this
      exact a4 _ this
    · intro e he
      rcases List.mem_cons.mp he with h1 | h1
      · subst h1
        exact ⟨(a3 _ _).mpr (Or.inr ⟨rfl, rfl⟩), hn1, hn2⟩
      · exact ⟨(a3 _ _).mpr (Or.inl (hlv e h1).1), (hlv e h1).2⟩
    · intro x zx hl
      rcases (a3 x zx).mp hl with h1 | h1
      · obtain ⟨e, he, hex⟩ := hcomp x zx h1
        exact ⟨e, List.mem_cons_of_mem _ he, hex⟩
      · exact ⟨(p, n), List.mem_cons_self _ _, h1.1.symm⟩
  | free s lv fuel p n s' hr hp h ih =>
    obtain ⟨cs, B, fl, hR, hnd, hlv, hcomp⟩ := ih
    obtain ⟨K, hKb⟩ := exists_bound cs (fun c => (B c.1).length)
    have hK := mm_free_mono s fuel p K _ h
    obtain ⟨s'', cs', B', fl', a1, a2, a3, -⟩ :=
      mm_free_Rep hR p _ (fuel + K) (hlv _ hp).1 (fun c hc => by have := hKb c hc; omega)
    rw [hK] at a1
    injection a1 with a1
    subst a1
    refine ⟨cs', B', fl', a2, ?_, ?_, ?_⟩
    · exact hnd.sublist ((List.filter_sublist _).map _)
    · intro e he
      rw [List.mem_filter] at he
      have hne : e.1 ≠ p := by simpa using he.2
      exact ⟨(a3 _ _).mpr ⟨(hlv e he.1).1, hne⟩, (hlv e he.1).2⟩
    · intro x zx hl
      obtain ⟨h1, h2⟩ := (a3 x zx).mp hl
      obtain ⟨e, he, hex⟩ := hcomp x zx h1
      refine ⟨e, ?_, hex⟩
      rw [List.mem_filter]
      exact ⟨he, by simpa [hex] using h2⟩

end Sample

namespace Sample
open Alloc

set_option maxRecDepth 100000 in
theorem initState_Rep : Rep initState [(1048576, 4096)]
    (Function.update (fun _ => []) 1048576 [(1048624, 4048, false)]) [1048624] := by
  decide

set_option maxRecDepth 100000 in
theorem liveTwo_Rep : Rep liveTwo [(1048576, 4096)]
    (Function.update (fun _ => []) 1048576
      [(1048624, 128, true), (1048752, 128, true), (1048880, 3792, false)]) [1048880] := by
  decide

theorem liveTwo_Reach : Reach demoOracle liveTwo [(1048752, 100), (1048624, 100)] :=
  Reach.malloc _ _ 8 100 1048752 _
    (Reach.malloc _ _ 8 100 1048624 _ (Reach.init 8 initState (by decide) rfl)
      (by decide) (by decide) (fun h => absurd h (by decide)) rfl)
    (by decide) (by decide) (fun h => absurd h (by decide)) rfl

/-- C1 (amended): in sample.c, for every sequence of `mm_malloc` and `mm_free` calls
issued after `mm_init` in which every requested size `n` satisfies
`1 <= n <= 2^64 - 8192`, every `mm_free` is given a live pointer, and `mem_map` answers
with fresh page-aligned regions inside the address space (the chunk size requested does
not overflow): the payload ranges `[p, p+n)` of any two simultaneously live allocations
are disjoint. -/
theorem C1_live_allocations_disjoint (oracle : Nat → Nat) (s : State)
    (lv : List (Nat × Nat)) (h : Reach oracle s lv) :
    lv.Pairwise (fun a b => a.1 + a.2 ≤ b.1 ∨ b.1 + b.2 ≤ a.1) := by
  obtain ⟨cs, B, fl, hR, hnd, hlv, -⟩ := Reach_inv oracle s lv h
  have hS := hR.1.1.1
  have hp : lv.Pairwise (fun a b => a.1 ≠ b.1) := by
    unfold List.Nodup at hnd
    rw [List.pairwise_map] at hnd
    exact hnd
  refine List.Pairwise.imp_of_mem ?_ hp
  intro a b ha hb hne
  obtain ⟨⟨c, hc, hba⟩, ha1, ha2⟩ := hlv a ha
  obtain ⟨⟨d, hd, hbb⟩, hb1, hb2⟩ := hlv b hb
  have na := needed_size_bounds a.2 (by omega)
  have nb := needed_size_bounds b.2 (by omega)
  rcases Struct_blocks_apart hS hc hd hba hbb with h1 | h1 | h1
  · simp only [Prod.mk.injEq] at h1
    exact absurd h1.1 hne
  · simp only at h1; omega
  · simp only at h1; omega

/-- Witness of C1: after `mm_init(); a = mm_malloc(100); b = mm_malloc(100)` the two
live allocations are `a = 1048624` and `b = 1048752`. -/
theorem C1_witness :
    Reach demoOracle liveTwo [(1048752, 100), (1048624, 100)] ∧
      [((1048752 : Nat), (100 : Nat)), (1048624, 100)].Pairwise
        (fun a b => a.1 + a.2 ≤ b.1 ∨ b.1 + b.2 ≤ a.1) :=
  ⟨liveTwo_Reach, C1_live_allocations_disjoint demoOracle liveTwo _ liveTwo_Reach⟩

/-- C2 (amended): in sample.c, for every well-formed heap state (representation
invariant `Rep`), every `n` with `1 <= n <= 2^64 - 8192`, and `mem_map` answering with
a fresh page-aligned region inside the address space when a chunk is needed:
`mm_malloc(n)` returns (with fuel beyond the length of the free list) a payload pointer
`p` that is a multiple of 16 and whose header at `p-8` holds `ALIGN(n+16) + 1`: the
block is marked allocated and its size is exactly `ALIGN(n+16)`, so that the payload
capacity `ALIGN(n+16) - 16` is `ALIGN(n) >= n`. -/
theorem C2_malloc_returns_block (s : State) (cs : List (Nat × Nat)) (B : Nat → List Blk)
    (fl : List Nat) (hR : Rep s cs B fl) (n fuel : Nat) (hn1 : 1 ≤ n)
    (hn2 : n + 8192 ≤ 18446744073709551616) (hfuel : fl.length < fuel)
    (henv : find_free_block_ff fuel s.free_list_head (ALIGN (add64 n 16)) s = .ok 0 →
      FreshOk s (ALIGN (add64 n 16))) :
    ∃ p s', mm_malloc fuel n s = .ok (p, s') ∧ p % 16 = 0 ∧
      s'.mem (p - 8) = some (ALIGN (add64 n 16) + 1) ∧
      GET_ALLOC s' (HEADER p) = .ok 1 ∧
      GET_SIZE s' (HEADER p) = .ok (ALIGN (add64 n 16)) ∧
      ALIGN (add64 n 16) - 16 = ALIGN n ∧ n ≤ ALIGN n := by
  obtain ⟨p, s', cs', B', fl', a1, a2, a3, -⟩ := mm_malloc_Rep hR n fuel hn1 hn2 hfuel henv
  obtain ⟨c, hc, hb⟩ := (a3 p _).mpr (Or.inr ⟨rfl, rfl⟩)
  have f := Struct_block a2.1.1.1 hc hb
  simp only at f
  have hh : s'.mem (p - 8) = some (ALIGN (add64 n 16) + 1) := f.2.2.2.2.2.2.2.2.2.1
  have eH : HEADER p = p - 8 := sub64_eq (by omega) (by omega)
  have nb := needed_size_bounds n (by omega)
  refine ⟨p, s', a1, f.2.2.2.2.2.2.2.2.1, hh, ?_, ?_, ?_, ?_⟩
  · rw [eH, GET_ALLOC_sv _ _ _ hh]
    have : allocBit (ALIGN (add64 n 16) + 1) = 1 := by unfold allocBit; omega
    rw [this]
  · rw [eH, GET_SIZE_sv _ _ _ hh, sizeBits_succ _ nb.1]
  · unfold ALIGN add64 W; omega
  · unfold ALIGN add64 W; omega

/-- Witness of C2: `mm_malloc(100)` in the state left by `mm_init`. -/
theorem C2_witness :
    ∃ p s', mm_malloc 8 100 initState = .ok (p, s') ∧ p % 16 = 0 ∧
      s'.mem (p - 8) = some (ALIGN (add64 100 16) + 1) ∧
      GET_ALLOC s' (HEADER p) = .ok 1 ∧
      GET_SIZE s' (HEADER p) = .ok (ALIGN (add64 100 16)) ∧
      ALIGN (add64 100 16) - 16 = ALIGN 100 ∧ 100 ≤ ALIGN 100 :=
  C2_malloc_returns_block initState _ _ _ initState_Rep 100 8 (by decide) (by decide)
    (by decide) (fun h => absurd h (by decide))

/-- C3: in sample.c, if the heap is well formed (representation invariant `Rep`: the
blocks `B` tile each mapped chunk between prologue and terminator with sizes of at
least 32, the free list holds exactly the free blocks) and no chunk contains two
adjacent free blocks, then `mm_free(p)` on a live pointer `p` returns (with fuel beyond
the number of blocks of a chunk), and in the resulting state the blocks `B'` tile the
chunks `cs'` that are still mapped and no chunk contains two adjacent blocks both
marked free. -/
theorem C3_free_keeps_coalesced (s : State) (cs : List (Nat × Nat)) (B : Nat → List Blk)
    (fl : List Nat) (hR : Rep s cs B fl) (p z fuel : Nat) (hlive : Live cs B p z)
    (hfuel : ∀ c ∈ cs, (B c.1).length < fuel) :
    ∃ s' cs' B', mm_free fuel p s = .ok s' ∧ s'.regions = cs' ∧ Struct s' cs' B' ∧
      ∀ c ∈ cs', NoAdjFree (B' c.1) := by
  obtain ⟨s', cs', B', fl', a1, a2, -⟩ := mm_free_Rep hR p z fuel hlive hfuel
  exact ⟨s', cs', B', a1, a2.1.1.1.2.2.2, a2.1.1.1, a2.2.1⟩

/-- Witness of C3: `mm_free(a)` after `mm_init(); a = mm_malloc(100);
b = mm_malloc(100)`. -/
theorem C3_witness :
    ∃ s' cs' B', mm_free 8 1048624 liveTwo = .ok s' ∧ s'.regions = cs' ∧
      Struct s' cs' B' ∧ ∀ c ∈ cs', NoAdjFree (B' c.1) :=
  C3_free_keeps_coalesced liveTwo _ _ _ liveTwo_Rep 1048624 128 8 (by decide) (by decide)

/-- C7 (amended): in sample.c, for every well-formed state (representation invariant
`Rep`) and every live pointer `p`, `mm_free(p)` returns, and if it did not release the
chunk of `p` to `mem_unmap`, a second `mm_free(p)` is a no-op: it returns with the state
unchanged. (When the first call releases the chunk, the second one reads the unmapped
header, see the counterexample.) -/
theorem C7_second_free_is_noop (s : State) (cs : List (Nat × Nat)) (B : Nat → List Blk)
    (fl : List Nat) (hR : Rep s cs B fl) (p z fuel : Nat) (hlive : Live cs B p z)
    (hfuel : ∀ c ∈ cs, (B c.1).length < fuel) :
    ∃ s', mm_free fuel p s = .ok s' ∧
      (s'.unmaps = s.unmaps → mm_free fuel p s' = .ok s') := by
  obtain ⟨s', cs', B', fl', a1, a2, a3, a4, a5, a6, -⟩ := mm_free_Rep hR p z fuel hlive hfuel
  refine ⟨s', a1, ?_⟩
  intro hu
  obtain ⟨c, hc, hb⟩ := hlive
  have f := Struct_block hR.1.1.1 hc hb
  simp only at f
  have eH : HEADER p = p - 8 := sub64_eq (by omega) (by omega)
  rcases a6 with ⟨-, -, v, hv, hv0⟩ | ⟨K1, K2, c', -, -, hun, -⟩
  · rw [mm_free_unfold, eH, GET_ALLOC_sv _ _ _ hv, ok_bind, hv0, if_pos rfl]
    rfl
  · exfalso
    rw [hun] at hu
    have := congrArg List.length hu
    simp at this

/-- Witness of C7: `mm_free(a)` twice after `mm_init(); a = mm_malloc(100);
b = mm_malloc(100)`. -/
theorem C7_witness :
    ∃ s', mm_free 8 1048624 liveTwo = .ok s' ∧
      (s'.unmaps = liveTwo.unmaps → mm_free 8 1048624 s' = .ok s') :=
  C7_second_free_is_noop liveTwo _ _ _ liveTwo_Rep 1048624 128 8 (by decide) (by decide)

/-- C11 (amended): in sample.c, in every state reachable from `mm_init` by `mm_malloc` and
`mm_free` of live pointers (sizes between 1 and `2^64 - 8192`, `mem_map` answering with
fresh page-aligned regions inside the address space), a call `mm_free(p)` on a live
pointer either leaves the mapped regions alone, or calls `mem_unmap` exactly once, with
the start address and the byte count of a region `c` that was returned by `mem_map`
and is still mapped (a member of `regions`, which holds the address and the requested
length of every mapping not unmapped since); the region is no longer mapped
afterwards. -/
theorem C11_unmap_is_mapped_chunk (oracle : Nat → Nat) (s : State)
    (lv : List (Nat × Nat)) (h : Reach oracle s lv) (p n fuel : Nat) (s' : State)
    (hp : (p, n) ∈ lv) (hf : mm_free fuel p s = .ok s') :
    (s'.unmaps = s.unmaps ∧ s'.regions = s.regions) ∨
      ∃ c ∈ s.regions, s'.unmaps = s.unmaps ++ [c] ∧ s'.regions = s.regions.erase c ∧
        c ∉ s'.regions := by
  obtain ⟨cs, B, fl, hR, hnd, hlv, -⟩ := Reach_inv oracle s lv h
  obtain ⟨K, hKb⟩ := exists_bound cs (fun c => (B c.1).length)
  have hK := mm_free_mono s fuel p K _ hf
  obtain ⟨s'', cs', B', fl', a1, a2, a3, a4, a5, a6, -⟩ :=
    mm_free_Rep hR p _ (fuel + K) (hlv _ hp).1 (fun c hc => by have := hKb c hc; omega)
  rw [hK] at a1
  injection a1 with a1
  subst a1
  have hreg : s.regions = cs := hR.1.1.1.2.2.2
  have hreg' : s'.regions = cs' := a2.1.1.1.2.2.2
  rcases a6 with ⟨e1, e2, -⟩ | ⟨K1, K2, c, e1, e2, e3, -⟩
  · left
    exact ⟨e2, by rw [hreg, hreg', e1]⟩
  · right
    subst e1 e2
    have hcn := Struct_not_mem K1 K2 c hR.1.1.1
    refine ⟨c, by rw [hreg]; simp, e3, ?_, by rw [hreg']; exact hcn⟩
    rw [hreg, hreg']
    have hc1 : c ∉ K1 := fun hc => hcn (List.mem_append.mpr (Or.inl hc))
    rw [List.erase_append_right _ hc1, List.erase_cons_head]

end Sample

namespace Sample
open Alloc

/-- C22, counterexample: after `mm_init(); a = mm_malloc(100)` the block of `a`
(128 bytes) has the header word 129 and the footer word 128: they agree on the size,
but the header is marked allocated and the footer is not. The prologue likewise has the
header 17 and the footer 16. -/
theorem C22_counterexample :
    mm_malloc 8 100 initState = .ok (1048624, liveOne) ∧
      liveOne.mem (1048624 - 8) = some 129 ∧ liveOne.mem (1048624 + 128 - 16) = some 128 ∧
      allocBit 129 = 1 ∧ allocBit 128 = 0 ∧
      liveOne.mem (1048576 + 24) = some 17 ∧ liveOne.mem (1048576 + 32) = some 16 ∧
      allocBit 17 = 1 ∧ allocBit 16 = 0 :=
  ⟨rfl, by decide, by decide, by decide, by decide, by decide, by decide, by decide,
    by decide⟩

/-- C22 (amended): in sample.c, in every state reachable from `mm_init` by `mm_malloc`
(sizes between 1 and `2^64 - 8192`, `mem_map` answering with fresh page-aligned regions
inside the address space) and `mm_free` of live pointers, the mapped chunks `cs` are
tiled by blocks `B` such that every block has the header word `size + flag` (flag 1
when allocated, 0 when free) and the footer word `size`: header and footer agree on
the size, and the footer never carries the allocated flag. The prologue of every chunk
has the header 17 and the footer 16. -/
theorem C22_header_footer_size (oracle : Nat → Nat) (s : State) (lv : List (Nat × Nat))
    (h : Reach oracle s lv) :
    ∃ cs B, Struct s cs B ∧ ∀ c ∈ cs,
      s.mem (c.1 + 24) = some 17 ∧ s.mem (c.1 + 32) = some 16 ∧
      ∀ b ∈ B c.1, s.mem (b.1 - 8) = some (b.2.1 + (if b.2.2 then 1 else 0)) ∧
        s.mem (b.1 + b.2.1 - 16) = some b.2.1 ∧
        GET_SIZE s (b.1 - 8) = .ok b.2.1 ∧ GET_SIZE s (b.1 + b.2.1 - 16) = .ok b.2.1 ∧
        GET_ALLOC s (b.1 + b.2.1 - 16) = .ok 0 := by
  obtain ⟨cs, B, fl, hR, -⟩ := Reach_inv oracle s lv h
  have hS := hR.1.1.1
  refine ⟨cs, B, hS, ?_⟩
  intro c hc
  have g := Struct_chunk hS hc
  refine ⟨g.2.2.2.2.2.1, g.2.2.2.2.2.2.1, ?_⟩
  intro b hb
  have f := Struct_block hS hc hb
  have hh := f.2.2.2.2.2.2.2.2.2.1
  have hf := f.2.2.2.2.2.2.2.2.2.2
  refine ⟨hh, hf, ?_, ?_, ?_⟩
  · rw [GET_SIZE_sv _ _ _ hh, sizeBits_hdrWord _ f.2.2.2.2.2.2.2.1]
  · rw [GET_SIZE_sv _ _ _ hf, sizeBits_of_dvd _ f.2.2.2.2.2.2.2.1]
  · rw [GET_ALLOC_sv _ _ _ hf]
    have : allocBit b.2.1 = 0 := by
      have := f.2.2.2.2.2.2.2.1
      unfold allocBit; omega
    rw [this]

/-- Witness of C22: the state after `mm_init(); a = mm_malloc(100);
b = mm_malloc(100)`. -/
theorem C22_witness :
    Reach demoOracle liveTwo [(1048752, 100), (1048624, 100)] ∧
    ∃ cs B, Struct liveTwo cs B ∧ ∀ c ∈ cs,
      liveTwo.mem (c.1 + 24) = some 17 ∧ liveTwo.mem (c.1 + 32) = some 16 ∧
      ∀ b ∈ B c.1, liveTwo.mem (b.1 - 8) = some (b.2.1 + (if b.2.2 then 1 else 0)) ∧
        liveTwo.mem (b.1 + b.2.1 - 16) = some b.2.1 ∧
        GET_SIZE liveTwo (b.1 - 8) = .ok b.2.1 ∧
        GET_SIZE liveTwo (b.1 + b.2.1 - 16) = .ok b.2.1 ∧
        GET_ALLOC liveTwo (b.1 + b.2.1 - 16) = .ok 0 :=
  ⟨liveTwo_Reach, C22_header_footer_size demoOracle liveTwo _ liveTwo_Reach⟩

/-- C25, counterexample: after `mm_init(); a = mm_malloc(2^64-32)` (a size allowed by
the claim) the free list has the head `1048608 = base+32`, which is the address of the
footer word of the prologue and not the payload of a block, the header word of the
prologue (`base+24`) has been overwritten with 4064, and the block of the live pointer
`a = 1048624` has the header word 0, marked free, without being in the free list. -/
theorem C25_counterexample :
    run_huge_list = .ok (1048624, some 0, 1048608, some 0, some 4064, some 0) ∧
      1 ≤ W - 32 ∧ W - 32 ≤ 18446744073709551616 - 32 :=
  ⟨rfl, by decide, by decide⟩

/-- C25 (amended): in sample.c, in every state reachable from `mm_init` by `mm_malloc`
(sizes `n` with `1 <= n <= 2^64 - 8192`, `mem_map` answering with fresh page-aligned
regions inside the address space) and `mm_free` of live pointers, the list reached
from `free_list_head` is finite (the nodes `fl`), duplicate-free and consistently
doubly linked (the head's `prev` is `NULL` and every node is the `prev` of its `next`),
and its members are exactly the payload addresses of the blocks marked free among the
blocks `B` that tile the currently mapped chunks `cs`. -/
theorem C25_free_list_exact (oracle : Nat → Nat) (s : State) (lv : List (Nat × Nat))
    (h : Reach oracle s lv) :
    ∃ cs B fl, Struct s cs B ∧ Chain s.mem 0 8 0 s.free_list_head fl ∧ fl.Nodup ∧
      ∀ x, x ∈ fl ↔ ∃ c ∈ cs, ∃ b ∈ B c.1, b.1 = x ∧ b.2.2 = false := by
  obtain ⟨cs, B, fl, hR, -⟩ := Reach_inv oracle s lv h
  refine ⟨cs, B, fl, hR.1.1.1, hR.1.1.2.1, hR.1.1.2.2.1, ?_⟩
  intro x
  constructor
  · exact hR.1.2.1 x
  · rintro ⟨c, hc, b, hb, e, hf⟩
    rw [← e]
    exact hR.1.2.2 c hc b hb hf

/-- Witness of C25: the state after `mm_init(); a = mm_malloc(100);
b = mm_malloc(100)`. -/
theorem C25_witness :
    Reach demoOracle liveTwo [(1048752, 100), (1048624, 100)] ∧
    ∃ cs B fl, Struct liveTwo cs B ∧ Chain liveTwo.mem 0 8 0 liveTwo.free_list_head fl ∧
      fl.Nodup ∧ ∀ x, x ∈ fl ↔ ∃ c ∈ cs, ∃ b ∈ B c.1, b.1 = x ∧ b.2.2 = false :=
  ⟨liveTwo_Reach, C25_free_list_exact demoOracle liveTwo _ liveTwo_Reach⟩

theorem find_head (s : State) (a N f : Nat) (ha8 : 8 ≤ a)
    (haW : a < 18446744073709551616) (hm : Mapped s.mem (a - 8))
    (hN : N + 32 < 18446744073709551616) (hfit : Fits N (sizeAt s.mem a)) :
    find_free_block_ff (f + 1) a N s = .ok a := by
  unfold find_free_block_ff
  rw [if_neg (by omega), GET_SIZE_eq s a ha8 haW hm, ok_bind, add64_eq hN,
    if_pos (by unfold Fits at hfit; omega)]
  rfl

/-- C9 (amended): in sample.c, for the call sequence `mm_init(); a = mm_malloc(100);
b = mm_malloc(100); mm_free(a); c = mm_malloc(50)`, `c` equals `a` and the header,
footer and payload words of `b` are the same at the end as right after `b` was
allocated. More generally, in a well-formed state, when the live block `a` (size `z`)
has no free neighbour and is not the only block of its chunk, `mm_free(a)` returns
without releasing the chunk, and the next `mm_malloc(n)` (`1 <= n <= 2^64 - 8192`) with
`ALIGN(n+16) = z` or `ALIGN(n+16) + 32 <= z` returns `a`. -/
theorem C9_freed_block_reused (s : State) (cs : List (Nat × Nat)) (B : Nat → List Blk)
    (fl : List Nat) (hR : Rep s cs B fl) (a z n fuel fuel2 : Nat) (c : Nat × Nat)
    (hc : c ∈ cs) (bs1 bs2 : List Blk) (hB : B c.1 = bs1 ++ ([(a, z, true)] ++ bs2))
    (h1 : ¬ lastFree bs1) (h2 : ¬ headFree bs2) (hne : bs1 ≠ [] ∨ bs2 ≠ [])
    (hfuel : ∀ c ∈ cs, (B c.1).length < fuel) (hn1 : 1 ≤ n)
    (hn2 : n + 8192 ≤ 18446744073709551616) (hfit : Fits (ALIGN (add64 n 16)) z)
    (hfuel2 : 1 ≤ fuel2) :
    run_reuse.map (fun r => (r.1, r.2.1, r.2.2.1, decide (r.2.2.2.1 = r.2.2.2.2))) =
      .ok (1048624, 1048752, 1048624, true) ∧
    ∃ s1 s2, mm_free fuel a s = .ok s1 ∧ s1.unmaps = s.unmaps ∧
      mm_malloc fuel2 n s1 = .ok (a, s2) := by
  refine ⟨by decide, ?_⟩
  have hpb : (a, z, true) ∈ B c.1 := by rw [hB]; simp
  obtain ⟨s1, cs', B', fl', a1, a2, a3, a4, a5, a6, a7⟩ :=
    mm_free_Rep hR a z fuel ⟨c, hc, hpb⟩ hfuel
  obtain ⟨e1, e2, e3, e4⟩ := a7 c hc bs1 bs2 hB h1 h2 hne
  have nb := needed_size_bounds n (by omega)
  have hhead : s1.free_list_head = fl'.headD 0 :=
    ((Chain_iff_Seg _ _ _ _ _ _).mp a2.1.1.2.1).1
  have f := Struct_block hR.1.1.1 hc hpb
  simp only at f
  have ha0 : a ≠ 0 := by omega
  have hmem : a ∈ fl' := by
    rcases headD_mem_or fl' 0 with ⟨h, -⟩ | h
    · rw [← hhead, e3] at h; exact absurd h ha0
    · rw [← hhead, e3] at h; exact h
  obtain ⟨n1, n2, n3⟩ := Rep1_NodesOk a2.1.1 a hmem
  have hfit' : Fits (ALIGN (add64 n 16)) (sizeAt s1.mem a) := by rw [e4]; exact hfit
  have hfind : ∀ f, find_free_block_ff (f + 1) s1.free_list_head (ALIGN (add64 n 16)) s1 =
      .ok a := by
    intro f
    rw [e3]
    exact find_head s1 a _ f n1 (by omega) n3 (by omega) hfit'
  obtain ⟨p', s2, cs2, B2, fl2, b1, -, -, -, -, -, -, b8⟩ :=
    mm_malloc_Rep a2 n (fl'.length + 1) hn1 hn2 (by omega) (by
      intro h0
      rw [hfind] at h0
      injection h0 with h0
      exact absurd h0 ha0)
  have hp' : p' = a := by
    rw [b8 (by rw [e3]; exact ha0) (by rw [e3]; exact hfit'), e3]
  subst hp'
  obtain ⟨f2, rfl⟩ : ∃ f2, fuel2 = f2 + 1 := ⟨fuel2 - 1, by omega⟩
  refine ⟨s1, s2, a1, e2, ?_⟩
  rw [mm_malloc_found _ n p' s1 (hfind _) ha0] at b1 ⊢
  exact b1

/-- Witness of C9: `a = 1048624` in the state after `mm_init(); a = mm_malloc(100);
b = mm_malloc(100)`, and `n = 50`. -/
theorem C9_witness :
    run_reuse.map (fun r => (r.1, r.2.1, r.2.2.1, decide (r.2.2.2.1 = r.2.2.2.2))) =
      .ok (1048624, 1048752, 1048624, true) ∧
    ∃ s1 s2, mm_free 8 1048624 liveTwo = .ok s1 ∧ s1.unmaps = liveTwo.unmaps ∧
      mm_malloc 8 50 s1 = .ok (1048624, s2) :=
  C9_freed_block_reused liveTwo _ _ _ liveTwo_Rep 1048624 128 50 8 8 (1048576, 4096)
    (by decide) [] [(1048752, 128, true), (1048880, 3792, false)] (by decide)
    lastFree_nil (mt (headFree_cons _ _).mp (by decide)) (Or.inr (by decide)) (by decide)
    (by decide) (by decide) (by decide) (by decide)

end Sample

namespace Sample
open Alloc

theorem mm_init_ok (s : State) (f : Nat) (hreg : s.regions = [])
    (henv : FreshOk { s with new_chunk_size := 1, free_list_head := 0, chunk_list_head := 0 } 1) :
    ∃ s', mm_init (f + 1) s = .ok (0, s') := by
  have hR0 : Rep { s with new_chunk_size := 1, free_list_head := 0, chunk_list_head := 0 }
      [] (fun _ => []) [] := by
    refine ⟨⟨⟨⟨?_, ?_, List.Pairwise.nil, hreg⟩, ?_, List.nodup_nil, ?_⟩, ?_, ?_⟩, ?_, le_refl _⟩
    · show Chain _ 0 8 0 0 []
      unfold Chain; rfl
    · intro c hc; cases hc
    · show Chain _ 0 8 0 0 []
      unfold Chain; rfl
    · intro p hp; cases hp
    · intro p hp; cases hp
    · intro c hc; cases hc
    · intro c hc; cases hc
  obtain ⟨s1, base, C, i1, i2, iC, i3, i4, i5, i6, i7, i8, i9⟩ :=
    init_chunk_Rep hR0 1 (by decide) henv
  have hck := (i4.1.1.1.2.1 _ (List.mem_cons_self _ _)).1
  simp only [Function.update_same] at hck
  have g1 : get_chunk_header (f + 1) (base + 48) s1 = .ok (base + 8) :=
    get_chunk_header_walk s1 _ hck.2.2.2.2.1 [] _ (f + 1) (by rw [Tiles_nil])
      (by have := hck.2.2.1; omega) (by simp)
  refine ⟨{ s1 with chunk_list_head := base + 8 }, ?_⟩
  unfold mm_init
  simp only [i1, ok_bind, g1, pure_eq_ok]

theorem malloc_head_split {s : State} {cs : List (Nat × Nat)} {B : Nat → List Blk}
    (p z n f : Nat) (L2 : List Nat) (hR : Rep s cs B (p :: L2))
    {c : Nat × Nat} (hc : c ∈ cs) (bs1 bs2 : List Blk)
    (hB : B c.1 = bs1 ++ ([(p, z, false)] ++ bs2)) (hn1 : 1 ≤ n)
    (hn2 : n + 8192 ≤ 18446744073709551616) (hfit : ALIGN (add64 n 16) + 32 ≤ z) :
    ∃ s', mm_malloc (f + 1) n s = .ok (p, s') ∧
      Rep s' cs (Function.update B c.1 (bs1 ++ ([(p, ALIGN (add64 n 16), true),
        (p + ALIGN (add64 n 16), z - ALIGN (add64 n 16), false)] ++ bs2)))
        ((p + ALIGN (add64 n 16)) :: L2) ∧ SameG s s' := by
  have nb := needed_size_bounds n (by omega)
  have hpb : (p, z, false) ∈ B c.1 := by rw [hB]; simp
  have hsz := Struct_sizeAt hR.1.1.1 hc hpb
  simp only at hsz
  have hhead : s.free_list_head = p := ((Chain_iff_Seg _ _ _ _ _ _).mp hR.1.1.2.1).1
  obtain ⟨n1, n2, n3⟩ := Rep1_NodesOk hR.1.1 p (List.mem_cons_self _ _)
  have hfind : find_free_block_ff (f + 1) s.free_list_head (ALIGN (add64 n 16)) s = .ok p := by
    rw [hhead]
    exact find_head s p _ f n1 (by omega) n3 (by omega) (by rw [hsz]; right; exact hfit)
  have hp0 : p ≠ 0 := by omega
  obtain ⟨s', h1, h2, h3, -, -⟩ :=
    alloc_split_Rep p z (ALIGN (add64 n 16)) [] L2 hR hc bs1 bs2 hB ⟨by omega, nb.1⟩ hfit
  refine ⟨s', ?_, h2, h3⟩
  rw [mm_malloc_found _ n p s hfind hp0, h1]
  rfl

theorem free_none_step {s : State} {cs : List (Nat × Nat)} {B : Nat → List Blk}
    {fl : List Nat} (p z fuel : Nat) (hR : Rep1 s cs B fl) {c : Nat × Nat} (hc : c ∈ cs)
    (bs1 bs2 : List Blk) (hB : B c.1 = bs1 ++ ([(p, z, true)] ++ bs2)) (hp : p ∉ fl)
    (h1 : ¬ lastFree bs1) (h2 : ¬ headFree bs2) (b : Blk) (hb : b ∈ bs1 ++ bs2)
    (hbt : b.2.2 = true) (hfuel : bs1.length + bs2.length + 1 < fuel) :
    ∃ s', mm_free fuel p s = .ok s' ∧
      Rep1 s' cs (Function.update B c.1 (bs1 ++ ([(p, z, false)] ++ bs2))) (p :: fl) ∧
      SameG s s' := by
  obtain ⟨m1, m2, s1, s2, m3, m4, hR2, hg2, -, -⟩ := mark_free_step p z hR hc bs1 bs2 hB hp
  have hB2 : Function.update B c.1 (bs1 ++ ([(p, z, false)] ++ bs2)) c.1 =
      bs1 ++ ([(p, z, false)] ++ bs2) := Function.update_same _ _ _
  have m5 := coalesce_none hR2.1 hc bs1 bs2 p z hB2 h1 h2
  have hE := mm_free_eq fuel p z p s s1 s2 s2 m1 m2 m3 m4 m5
  have h0 := not_all_free hR2.1 hc bs1 bs2 p z fuel hB2 (by
    rw [hB2]
    simp only [List.length_append, List.length_cons, List.length_nil]
    omega) b (by
    rw [hB2]
    simp only [List.mem_append] at hb ⊢
    rcases hb with h | h
    · exact Or.inl h
    · exact Or.inr (Or.inr h)) hbt
  refine ⟨s2, ?_, hR2, hg2⟩
  rw [hE, h0, ok_bind, if_neg (by simp)]
  rfl

theorem free_next_step {s : State} {cs : List (Nat × Nat)} {B : Nat → List Blk}
    (p z r zr fuel : Nat) (L1 L2 : List Nat) (hR : Rep1 s cs B (L1 ++ r :: L2))
    {c : Nat × Nat} (hc : c ∈ cs) (bs1 bs2 : List Blk)
    (hB : B c.1 = bs1 ++ ([(p, z, true)] ++ ((r, zr, false) :: bs2)))
    (hp : p ∉ L1 ++ r :: L2) (h1 : ¬ lastFree bs1) (b : Blk) (hb : b ∈ bs1 ++ bs2)
    (hbt : b.2.2 = true) (hfuel : bs1.length + bs2.length + 1 < fuel) :
    ∃ s', mm_free fuel p s = .ok s' ∧
      Rep1 s' cs (Function.update B c.1 (bs1 ++ ([(p, z + zr, false)] ++ bs2)))
        (p :: (L1 ++ L2)) ∧
      SameG s s' := by
  obtain ⟨m1, m2, s1, s2, m3, m4, hR2, hg2, -, -⟩ :=
    mark_free_step p z hR hc bs1 ((r, zr, false) :: bs2) hB hp
  have hB2 : Function.update B c.1 (bs1 ++ ([(p, z, false)] ++ ((r, zr, false) :: bs2))) c.1 =
      bs1 ++ ([(p, z, false), (r, zr, false)] ++ bs2) := Function.update_same _ _ _
  obtain ⟨s3, m5, hR3, hg3, -⟩ := coalesce_next p z r zr L1 L2 hR2 hc bs1 bs2 hB2 h1
  rw [Function.update_idem] at hR3
  have hB3 : Function.update B c.1 (bs1 ++ ([(p, z + zr, false)] ++ bs2)) c.1 =
      bs1 ++ ([(p, z + zr, false)] ++ bs2) := Function.update_same _ _ _
  have hE := mm_free_eq fuel p z p s s1 s2 s3 m1 m2 m3 m4 m5
  have h0 := not_all_free hR3.1 hc bs1 bs2 p (z + zr) fuel hB3 (by
    rw [hB3]
    simp only [List.length_append, List.length_cons, List.length_nil]
    omega) b (by
    rw [hB3]
    simp only [List.mem_append] at hb ⊢
    rcases hb with h | h
    · exact Or.inl h
    · exact Or.inr (Or.inr h)) hbt
  refine ⟨s3, ?_, hR3, SameG_trans hg2 hg3⟩
  rw [hE, h0, ok_bind, if_neg (by simp)]
  rfl

theorem free_both_release {s : State} {B : Nat → List Blk} (K1 K2 : List (Nat × Nat))
    (c : Nat × Nat) (p z q zq r zr fuel : Nat) (L1 L2 M1 M2 : List Nat)
    (hR : Rep1 s (K1 ++ c :: K2) B (L1 ++ r :: L2))
    (hB : B c.1 = [(q, zq, false), (p, z, true), (r, zr, false)])
    (hp : p ∉ L1 ++ r :: L2) (hq : L1 ++ L2 = M1 ++ q :: M2) (hfuel : 0 < fuel) :
    ∃ t1 t2 t3 s', PUT s (HEADER p) z = .ok t1 ∧ add_to_free_list p t1 = .ok t2 ∧
      coalesce p t2 = .ok (q, t3) ∧ GET_SIZE t3 (HEADER q) = .ok (zq + z + zr) ∧
      GET_ALLOC t3 (HEADER q) = .ok 0 ∧
      is_in_free_chunk fuel q t3 = .ok c.2 ∧ c.2 ≠ 0 ∧
      mm_free fuel p s = .ok s' ∧
      Rep1 s' (K1 ++ K2) (Function.update B c.1 [(q, zq + z + zr, false)]) (M1 ++ M2) ∧
      s'.unmaps = s.unmaps ++ [c] := by
  have hc : c ∈ K1 ++ c :: K2 := by simp
  obtain ⟨m1, m2, s1, s2, m3, m4, hR2, hg2, -, -⟩ :=
    mark_free_step p z hR hc [(q, zq, false)] [(r, zr, false)] (by rw [hB]; rfl) hp
  have hB2 : Function.update B c.1 ([(q, zq, false)] ++ ([(p, z, false)] ++ [(r, zr, false)]))
      c.1 = [] ++ ([(q, zq, false), (p, z, false), (r, zr, false)] ++ []) :=
    Function.update_same _ _ _
  obtain ⟨s3, m5, hR3, hg3, -, -⟩ := coalesce_both p z q zq r zr L1 L2 hR2 hc [] [] hB2
  rw [Function.update_idem, hq] at hR3
  have hR3' : Rep1 s3 (K1 ++ c :: K2) (Function.update B c.1 [(q, zq + z + zr, false)])
      (M1 ++ q :: M2) := hR3
  have hB3 : Function.update B c.1 [(q, zq + z + zr, false)] c.1 = [(q, zq + z + zr, false)] :=
    Function.update_same _ _ _
  obtain ⟨r1, r0, s4, s5, r2, r3, r4, r5, r6, -⟩ :=
    release_step K1 K2 c q (zq + z + zr) M1 M2 fuel hR3' hB3 hfuel
  have hE := mm_free_eq fuel p z q s s1 s2 s3 m1 m2 m3 m4 m5
  have hqb : (q, zq + z + zr, false) ∈
      Function.update B c.1 [(q, zq + z + zr, false)] c.1 := by rw [hB3]; simp
  have fq := Struct_block hR3'.1 hc hqb
  simp only at fq
  have hh := fq.2.2.2.2.2.2.2.2.2.1
  have e8 : HEADER q = q - 8 := sub64_eq (by omega) (by omega)
  refine ⟨s1, s2, s3, s5, m3, m4, m5, ?_, ?_, r1, r0, ?_, r5, ?_⟩
  · rw [e8, GET_SIZE_sv _ _ _ hh, sizeBits_hdrWord _ fq.2.2.2.2.2.2.2.1]
  · rw [e8, GET_ALLOC_sv _ _ _ hh]
    have : allocBit (hdrWord (q, zq + z + zr, false)) = 0 := by
      have := fq.2.2.2.2.2.2.2.1
      unfold allocBit hdrWord
      simp only [Bool.false_eq_true, if_false]
      omega
    rw [this]
  · rw [hE, r1, ok_bind, if_pos r0, r2, ok_bind, r3, ok_bind, r4]
  · rw [r6, hg3.2.2.2.2.2, hg2.2.2.2.2.2]

end Sample

namespace Sample
open Alloc

/-- C10 (amended): in sample.c, in a fresh process in which `mem_map` answers the
request of `mm_init` with a page-aligned region at `base` inside the address space, for
every size `n` with `1 <= n <= 2^64 - 8192` and `3 * ALIGN(n+16) + 32 <= 4096 - 48`
(three blocks and a remainder of at least the minimum block size fit in the first
chunk): the three `mm_malloc(n)` return `a = base+48`, `b = a + ALIGN(n+16)` and
`c = b + ALIGN(n+16)`; after `mm_free(a)` and `mm_free(c)`, the call `mm_free(b)`
coalesces `b` with both neighbours into the one free block at `a` of size
`4096 - 48`, `is_in_free_chunk` reports the chunk size 4096, the chunk is passed to
`mem_unmap` as `(base, 4096)`, and the free list and the chunk list are empty. -/
theorem C10_three_blocks_merge (oracle : Nat → Nat) (n fuel : Nat) (hn1 : 1 ≤ n)
    (hn2 : n + 8192 ≤ 18446744073709551616)
    (hfit : 3 * ALIGN (add64 n 16) + 32 ≤ 4096 - 48) (henv : FreshOk (boot oracle) 1)
    (hfuel : 5 ≤ fuel) :
    ∃ s0 s1 s2 s3 s4 s5 t1 t2 t3 s6,
      mm_init fuel (boot oracle) = .ok (0, s0) ∧
      mm_malloc fuel n s0 = .ok (oracle 0 + 48, s1) ∧
      mm_malloc fuel n s1 = .ok (oracle 0 + 48 + ALIGN (add64 n 16), s2) ∧
      mm_malloc fuel n s2 =
        .ok (oracle 0 + 48 + ALIGN (add64 n 16) + ALIGN (add64 n 16), s3) ∧
      mm_free fuel (oracle 0 + 48) s3 = .ok s4 ∧
      mm_free fuel (oracle 0 + 48 + ALIGN (add64 n 16) + ALIGN (add64 n 16)) s4 = .ok s5 ∧
      PUT s5 (HEADER (oracle 0 + 48 + ALIGN (add64 n 16))) (ALIGN (add64 n 16)) = .ok t1 ∧
      add_to_free_list (oracle 0 + 48 + ALIGN (add64 n 16)) t1 = .ok t2 ∧
      coalesce (oracle 0 + 48 + ALIGN (add64 n 16)) t2 = .ok (oracle 0 + 48, t3) ∧
      GET_SIZE t3 (HEADER (oracle 0 + 48)) = .ok (4096 - 48) ∧
      GET_ALLOC t3 (HEADER (oracle 0 + 48)) = .ok 0 ∧
      is_in_free_chunk fuel (oracle 0 + 48) t3 = .ok 4096 ∧
      mm_free fuel (oracle 0 + 48 + ALIGN (add64 n 16)) s5 = .ok s6 ∧
      s6.unmaps = [(oracle 0, 4096)] ∧ s6.regions = [] ∧
      s6.free_list_head = 0 ∧ s6.chunk_list_head = 0 := by
  obtain ⟨f, rfl⟩ : ∃ f, fuel = f + 1 := ⟨fuel - 1, by omega⟩
  have nb := needed_size_bounds n (by omega)
  generalize hN : ALIGN (add64 n 16) = N at *
  obtain ⟨s0, h0⟩ := mm_init_ok (boot oracle) f rfl henv
  obtain ⟨hR0, u0, -⟩ := mm_init_Rep (boot oracle) (f + 1) s0 rfl henv h0
  have hR0' : Rep s0 [(oracle 0, 4096)]
      (Function.update (fun _ => []) (oracle 0) [(oracle 0 + 48, 4048, false)])
      [oracle 0 + 48] := hR0
  have hc : ((oracle 0, 4096) : Nat × Nat) ∈ [(oracle 0, 4096)] := List.mem_singleton.mpr rfl
  -- the three allocations
  obtain ⟨s1, h1, hR1, g1⟩ := malloc_head_split (oracle 0 + 48) 4048 n f [] hR0' hc [] []
    (Function.update_same _ _ _) hn1 hn2 (by rw [hN]; omega)
  rw [hN] at hR1
  obtain ⟨s2, h2, hR2, g2⟩ := malloc_head_split (oracle 0 + 48 + N) (4048 - N) n f [] hR1 hc
    [(oracle 0 + 48, N, true)] [] (Function.update_same _ _ _) hn1 hn2 (by rw [hN]; omega)
  rw [hN] at hR2
  obtain ⟨s3, h3, hR3, g3⟩ := malloc_head_split (oracle 0 + 48 + N + N) (4048 - N - N) n f []
    hR2 hc [(oracle 0 + 48, N, true), (oracle 0 + 48 + N, N, true)] []
    (Function.update_same _ _ _) hn1 hn2 (by rw [hN]; omega)
  rw [hN] at hR3
  -- the first two releases
  obtain ⟨s4, h4, hR4, g4⟩ := free_none_step (oracle 0 + 48) N (f + 1) hR3.1.1 hc []
    [(oracle 0 + 48 + N, N, true), (oracle 0 + 48 + N + N, N, true),
      (oracle 0 + 48 + N + N + N, 4048 - N - N - N, false)]
    (Function.update_same _ _ _) (by simp only [List.mem_singleton]; omega) lastFree_nil
    (by rw [headFree_cons]; simp) (oracle 0 + 48 + N, N, true) (by simp) rfl
    (by simp only [List.length_cons, List.length_nil]; omega)
  obtain ⟨s5, h5, hR5, g5⟩ := free_next_step (oracle 0 + 48 + N + N) N
    (oracle 0 + 48 + N + N + N) (4048 - N - N - N) (f + 1) [oracle 0 + 48] [] hR4 hc
    [(oracle 0 + 48, N, false), (oracle 0 + 48 + N, N, true)] []
    (Function.update_same _ _ _)
    (by simp only [List.mem_append, List.mem_cons, List.mem_singleton, List.not_mem_nil, or_false, false_or]; omega)
    (by rw [lastFree_cons _ _ (by simp), lastFree_single]; simp)
    (oracle 0 + 48 + N, N, true) (by simp) rfl
    (by simp only [List.length_cons, List.length_nil]; omega)
  -- the last release
  obtain ⟨t1, t2, t3, s6, k1, k2, k3, k4, k5, k6, -, k7, hR6, k8⟩ :=
    free_both_release [] [] (oracle 0, 4096) (oracle 0 + 48 + N) N (oracle 0 + 48) N
      (oracle 0 + 48 + N + N) (N + (4048 - N - N - N)) (f + 1) [] [oracle 0 + 48] [] []
      hR5 (Function.update_same _ _ _)
      (by simp only [List.mem_append, List.mem_cons, List.mem_singleton, List.not_mem_nil, or_false, false_or];
          omega) rfl (by omega)
  have eT : N + N + (N + (4048 - N - N - N)) = 4096 - 48 := by omega
  rw [eT] at k4
  refine ⟨s0, s1, s2, s3, s4, s5, t1, t2, t3, s6, h0, h1, h2, h3, h4, h5, k1, k2, k3, k4, k5,
    k6, k7, ?_, hR6.1.2.2.2, ?_, ?_⟩
  · rw [k8, g5.2.2.2.2.2, g4.2.2.2.2.2, g3.2.2.2.2.2, g2.2.2.2.2.2, g1.2.2.2.2.2, u0]
    rfl
  · exact ((Chain_iff_Seg _ _ _ _ _ _).mp hR6.2.1).1
  · exact ((Chain_iff_Seg _ _ _ _ _ _).mp hR6.1.1).1

/-- Witness of C10: `n = 100` (blocks of 128 bytes) with the mapping primitive that
answers the first request at 1048576. -/
theorem C10_witness :
    ∃ s0 s1 s2 s3 s4 s5 t1 t2 t3 s6,
      mm_init 8 (boot demoOracle) = .ok (0, s0) ∧
      mm_malloc 8 100 s0 = .ok (demoOracle 0 + 48, s1) ∧
      mm_malloc 8 100 s1 = .ok (demoOracle 0 + 48 + ALIGN (add64 100 16), s2) ∧
      mm_malloc 8 100 s2 =
        .ok (demoOracle 0 + 48 + ALIGN (add64 100 16) + ALIGN (add64 100 16), s3) ∧
      mm_free 8 (demoOracle 0 + 48) s3 = .ok s4 ∧
      mm_free 8 (demoOracle 0 + 48 + ALIGN (add64 100 16) + ALIGN (add64 100 16)) s4 =
        .ok s5 ∧
      PUT s5 (HEADER (demoOracle 0 + 48 + ALIGN (add64 100 16))) (ALIGN (add64 100 16)) =
        .ok t1 ∧
      add_to_free_list (demoOracle 0 + 48 + ALIGN (add64 100 16)) t1 = .ok t2 ∧
      coalesce (demoOracle 0 + 48 + ALIGN (add64 100 16)) t2 = .ok (demoOracle 0 + 48, t3) ∧
      GET_SIZE t3 (HEADER (demoOracle 0 + 48)) = .ok (4096 - 48) ∧
      GET_ALLOC t3 (HEADER (demoOracle 0 + 48)) = .ok 0 ∧
      is_in_free_chunk 8 (demoOracle 0 + 48) t3 = .ok 4096 ∧
      mm_free 8 (demoOracle 0 + 48 + ALIGN (add64 100 16)) s5 = .ok s6 ∧
      s6.unmaps = [(demoOracle 0, 4096)] ∧ s6.regions = [] ∧
      s6.free_list_head = 0 ∧ s6.chunk_list_head = 0 :=
  C10_three_blocks_merge demoOracle 100 8 (by decide) (by decide) (by decide) (by decide)
    (by decide)

end Sample

namespace Sample
open Alloc

/-- C11, counterexample: after `mm_init(); a = mm_malloc(100); q = mm_malloc(2^64-64)`,
with `mem_map` returning for `q` a fresh region (1052672, 8192 bytes) right behind the
first chunk (1048576, 4096 bytes), `mm_free(a)` calls `mem_unmap(1048576, 12288)`:
the length is not the 4096 bytes requested when that chunk was mapped, and the call
covers the second chunk, in which `q` is live (header word `2^64 - 47`). -/
theorem C11_counterexample :
    run_unmap_length =
      .ok (1048624, 1052720, [(1052672, 8192), (1048576, 4096)],
        some (18446744073709551616 - 47), [(1048576, 12288)]) ∧
      1 ≤ W - 64 :=
  ⟨rfl, by decide⟩

end Sample

namespace Sample
open Alloc

/-- C27, counterexample: the pointer `a = 1048624` returned by
`mm_malloc(2^64-32)` after `mm_init` lies in the chunk mapped at 1048576, and
`get_chunk_header(a)` does not terminate: the word at `a-16` (the footer of the
prologue) now holds 0, so the walk steps back by 0 bytes for ever; in the model
every amount of fuel is used up. -/
theorem C27_counterexample :
    mm_malloc 8 (W - 32) initState = .ok (1048624, hugeState) ∧
      hugeState.regions = [(1048576, 4096)] ∧ hugeState.mem (1048624 - 16) = some 0 ∧
      ∀ fuel, get_chunk_header fuel 1048624 hugeState = .error .fuel := by
  refine ⟨rfl, rfl, rfl, ?_⟩
  intro fuel
  induction fuel with
  | zero => rfl
  | succ f ih =>
    have g1 : GET_SIZE hugeState (sub64 1048624 16) = .ok 0 := rfl
    have g2 : PREV_BLK_PTR hugeState 1048624 = .ok 1048624 := rfl
    unfold get_chunk_header
    rw [if_neg (by decide), g1, ok_bind, if_neg (by decide), g2, ok_bind]
    exact ih

/-- C27 (amended): in sample.c, in every state reachable from `mm_init` by `mm_malloc`
(sizes `n` with `1 <= n <= 2^64 - 8192`, `mem_map` answering with fresh page-aligned
regions inside the address space) and `mm_free` of live pointers, the mapped chunks
`cs` are tiled by blocks `B`, every live pointer is the payload pointer of an allocated
block of a mapped chunk, and for the payload pointer `b.1` of every block `b` (free or
allocated) of a chunk mapped at `base = c.1`, `get_chunk_header` terminates (with fuel
beyond the number of blocks of the chunk) and returns `base+8`, the address of that
chunk's node in the chunk list. -/
theorem C27_chunk_header_of_block (oracle : Nat → Nat) (s : State) (lv : List (Nat × Nat))
    (h : Reach oracle s lv) :
    ∃ cs B, Struct s cs B ∧
      (∀ e ∈ lv, ∃ c ∈ cs, (e.1, ALIGN (add64 e.2 16), true) ∈ B c.1) ∧
      ∀ c ∈ cs, ∀ b ∈ B c.1, ∀ fuel, (B c.1).length < fuel →
        get_chunk_header fuel b.1 s = .ok (c.1 + 8) := by
  obtain ⟨cs, B, fl, hR, -, hlv, -⟩ := Reach_inv oracle s lv h
  have hS := hR.1.1.1
  refine ⟨cs, B, hS, fun e he => (hlv e he).1, ?_⟩
  intro c hc b hb fuel hf
  obtain ⟨bs1, bs2, hB⟩ := List.append_of_mem hb
  have hck := (hS.2.1 c hc).1
  rw [hB] at hck hf
  simp only [List.length_append, List.length_cons] at hf
  exact get_chunk_header_block s c.1 c.2 bs1 bs2 b fuel hck (by omega)

/-- Witness of C27: the state after `mm_init(); a = mm_malloc(100);
b = mm_malloc(100)`. -/
theorem C27_block_witness :
    Reach demoOracle liveTwo [(1048752, 100), (1048624, 100)] ∧
    ∃ cs B, Struct liveTwo cs B ∧
      (∀ e ∈ [((1048752 : Nat), (100 : Nat)), (1048624, 100)],
        ∃ c ∈ cs, (e.1, ALIGN (add64 e.2 16), true) ∈ B c.1) ∧
      ∀ c ∈ cs, ∀ b ∈ B c.1, ∀ fuel, (B c.1).length < fuel →
        get_chunk_header fuel b.1 liveTwo = .ok (c.1 + 8) :=
  ⟨liveTwo_Reach, C27_chunk_header_of_block demoOracle liveTwo _ liveTwo_Reach⟩

theorem liveOne_Reach : Reach demoOracle liveOne [(1048624, 100)] :=
  Reach.malloc _ _ 8 100 1048624 _ (Reach.init 8 initState (by decide) rfl)
    (by decide) (by decide) (fun h => absurd h (by decide)) rfl

/-- Witness of C11: `mm_free(a)` after `mm_init(); a = mm_malloc(100)` leaves the
chunk of `a` entirely free and calls `mem_unmap(1048576, 4096)`, the region returned by
`mem_map` for `mm_init`. -/
theorem C11_witness :
    Reach demoOracle liveOne [(1048624, 100)] ∧
    mm_free 8 1048624 liveOne = .ok emptiedState ∧
    liveOne.regions = [(1048576, 4096)] ∧ liveOne.unmaps = [] ∧
    emptiedState.unmaps = [(1048576, 4096)] ∧
    ((emptiedState.unmaps = liveOne.unmaps ∧ emptiedState.regions = liveOne.regions) ∨
      ∃ c ∈ liveOne.regions, emptiedState.unmaps = liveOne.unmaps ++ [c] ∧
        emptiedState.regions = liveOne.regions.erase c ∧ c ∉ emptiedState.regions) :=
  ⟨liveOne_Reach, rfl, rfl, rfl, rfl,
    C11_unmap_is_mapped_chunk demoOracle liveOne _ liveOne_Reach 1048624 100 8 emptiedState
      (by decide) rfl⟩

end Sample

namespace Mm
open Alloc

end Mm

namespace Mm
open Alloc

end Mm
